import Mathlib

/-!
# JBIG2 decoder (`pdfjbig2decoder.cpp`): shallow embedding and verified properties

Machine integers are natural numbers or integers with explicit reduction modulo `2 ^ w`
where the C++ type wraps.  A thrown `PDFException` is an `Except.error`.
-/

namespace Jbig2

/-! ## Machine integer helpers -/

/-- Value of a 32-bit pattern read as `int32_t` (two's complement). -/
def toInt32 (v : Nat) : Int :=
  if v % 2 ^ 32 < 2 ^ 31 then ((v % 2 ^ 32 : Nat) : Int) else ((v % 2 ^ 32 : Nat) : Int) - 2 ^ 32

/-- Reduction of an integer into the `int32_t` range, as a two's complement machine does. -/
def wrapInt32 (z : Int) : Int :=
  toInt32 (z % 2 ^ 32).toNat

/-- Value of `len` consecutive decisions, starting at index `start`, written most significant
bit first. -/
def bitsValue (f : Nat → Bool) (start : Nat) : Nat → Nat
  | 0 => 0
  | n + 1 => 2 * bitsValue f start n + (f (start + n)).toNat

/-! ## Arithmetic decoder: integer decoding procedures -/

/-- The decoder as seen by `getIAID` and `getSignedInteger`: `readBit` is the only operation
they use.  Its result is a binary decision; `decisions i` is the decision returned by the
`i`-th call, `calls` counts the calls made so far, and `contexts` records the context value
passed to each call, in order. -/
structure PDFJBIG2ArithmeticDecoder where
  decisions : Nat → Bool
  calls : Nat
  contexts : List Nat

/-- `PDFJBIG2ArithmeticDecoder::readBit(context, state)`: returns the next decision (0 or 1). -/
def PDFJBIG2ArithmeticDecoder.readBit (context : Nat) (d : PDFJBIG2ArithmeticDecoder) :
    Nat × PDFJBIG2ArithmeticDecoder :=
  ((d.decisions d.calls).toNat,
    { d with calls := d.calls + 1, contexts := d.contexts ++ [context] })

/-- The `for` loop of `getIAID`: `PREV = (PREV << 1) | bit` on `uint32_t`, `n` more times. -/
def getIAIDLoop : Nat → Nat → PDFJBIG2ArithmeticDecoder → Nat × PDFJBIG2ArithmeticDecoder
  | 0, PREV, d => (PREV, d)
  | n + 1, PREV, d =>
    let r := d.readBit PREV
    getIAIDLoop n (((PREV <<< 1) % 2 ^ 32) ||| r.1) r.2

/-- `PDFJBIG2ArithmeticDecoder::getIAID(size, state)`:
`return int32_t(PREV) - int32_t(1 << size)`, the shift taken on 32 bits. -/
def PDFJBIG2ArithmeticDecoder.getIAID (size : Nat) (d : PDFJBIG2ArithmeticDecoder) :
    Int × PDFJBIG2ArithmeticDecoder :=
  let r := getIAIDLoop size 1 d
  (wrapInt32 (toInt32 r.1 - toInt32 ((1 <<< size) % 2 ^ 32)), r.2)

/-- State of the lambdas of `getSignedInteger`: the captured `PREV` and the decoder. -/
structure IntDecodeState where
  PREV : Nat
  decoder : PDFJBIG2ArithmeticDecoder

/-- Lambda `readIntBit` of `getSignedInteger`. -/
def readIntBit (s : IntDecodeState) : Nat × IntDecodeState :=
  let r := s.decoder.readBit s.PREV
  let bit := r.1
  let PREV :=
    if s.PREV < 256 then ((s.PREV <<< 1) % 2 ^ 32) ||| bit
    else ((((s.PREV <<< 1) % 2 ^ 32) ||| bit) &&& 0x01FF) ||| 0x0100
  (bit, { PREV := PREV, decoder := r.2 })

/-- The loop of lambda `readIntBits`, started from the accumulator `result`. -/
def readIntBitsLoop : Nat → Nat → IntDecodeState → Nat × IntDecodeState
  | 0, result, s => (result, s)
  | n + 1, result, s =>
    let r := readIntBit s
    readIntBitsLoop n (((result <<< 1) % 2 ^ 32) ||| r.1) r.2

/-- Lambda `readIntBits(bits)` of `getSignedInteger`. -/
def readIntBits (bits : Nat) (s : IntDecodeState) : Nat × IntDecodeState :=
  readIntBitsLoop bits 0 s

/-- The chain of `if (!readIntBit())` tests of `getSignedInteger`, giving the `uint32_t` V. -/
def readMagnitude (s0 : IntDecodeState) : Nat × IntDecodeState :=
  let c1 := readIntBit s0
  if c1.1 = 0 then readIntBits 2 c1.2
  else
    let c2 := readIntBit c1.2
    if c2.1 = 0 then
      let v := readIntBits 4 c2.2
      ((v.1 + 4) % 2 ^ 32, v.2)
    else
      let c3 := readIntBit c2.2
      if c3.1 = 0 then
        let v := readIntBits 6 c3.2
        ((v.1 + 20) % 2 ^ 32, v.2)
      else
        let c4 := readIntBit c3.2
        if c4.1 = 0 then
          let v := readIntBits 8 c4.2
          ((v.1 + 84) % 2 ^ 32, v.2)
        else
          let c5 := readIntBit c4.2
          if c5.1 = 0 then
            let v := readIntBits 12 c5.2
            ((v.1 + 340) % 2 ^ 32, v.2)
          else
            let v := readIntBits 32 c5.2
            ((v.1 + 4436) % 2 ^ 32, v.2)

/-- `PDFJBIG2ArithmeticDecoder::getSignedInteger(state)`.  The result is the
`std::optional<int32_t>`: `none` is `std::nullopt`.  `return V` converts the `uint32_t` to
`int32_t`; `-static_cast<int32_t>(V)` negates on `int32_t` (two's complement). -/
def PDFJBIG2ArithmeticDecoder.getSignedInteger (d : PDFJBIG2ArithmeticDecoder) :
    Option Int × PDFJBIG2ArithmeticDecoder :=
  let sgn := readIntBit { PREV := 1, decoder := d }
  let S := sgn.1
  let m := readMagnitude sgn.2
  let V := m.1
  if S ≠ 0 then
    if V = 0 then (none, m.2.decoder)
    else (some (wrapInt32 (-(toInt32 V))), m.2.decoder)
  else (some (toInt32 V), m.2.decoder)

/-- A decoder about to make its first decision, with the given decision sequence. -/
def freshDecoder (decisions : Nat → Bool) : PDFJBIG2ArithmeticDecoder :=
  { decisions := decisions, calls := 0, contexts := [] }

/-- A decision sequence given by its first values; every later decision is 0. -/
def decisionsOfList (l : List Bool) : Nat → Bool :=
  fun i => l.getD i false

/-! ### The signed integer code as the specification words it -/

/-- The decisions a decoder is still to return: `pending i` is the decision of the `i`-th
call from now. -/
def PDFJBIG2ArithmeticDecoder.pending (d : PDFJBIG2ArithmeticDecoder) : Nat → Bool :=
  fun i => d.decisions (d.calls + i)

/-- The class `k` of a coded integer: the number of continuation one-bits that follow the
sign decision (decision 0), at most 5. -/
def unaryClass (f : Nat → Bool) : Nat :=
  if f 1 = false then 0
  else if f 2 = false then 1
  else if f 3 = false then 2
  else if f 4 = false then 3
  else if f 5 = false then 4
  else 5

/-- Width `w` of the magnitude field of class `k`. -/
def classWidth : Nat → Nat
  | 0 => 2
  | 1 => 4
  | 2 => 6
  | 3 => 8
  | 4 => 12
  | _ => 32

/-- Bias added to the magnitude field of class `k`. -/
def classBias : Nat → Nat
  | 0 => 0
  | 1 => 4
  | 2 => 20
  | 3 => 84
  | 4 => 340
  | _ => 4436

/-- Index of the first decision of the magnitude field: it follows the sign, the `k`
continuation bits and, when `k < 5`, the zero bit that ends them. -/
def magnitudeStart (k : Nat) : Nat :=
  if k < 5 then k + 2 else 6

/-- The value `V = n + bias`, with 32-bit unsigned wrap-around (it can only wrap for k = 5). -/
def specMagnitude (f : Nat → Bool) : Nat :=
  (bitsValue f (magnitudeStart (unaryClass f)) (classWidth (unaryClass f)) +
    classBias (unaryClass f)) % 2 ^ 32

/-- The result the specification gives: no value when S = 1 and V = 0, -V when S = 1 and V is
non-zero, V when S = 0. -/
def specSignedInteger (f : Nat → Bool) : Option Int :=
  if f 0 = true then
    if specMagnitude f = 0 then none else some (-(specMagnitude f : Int))
  else some (specMagnitude f : Int)

/-- The decisions that code the magnitude `v` in class `k` with sign decision `S`: the sign,
`k` ones, a zero when `k < 5`, then `v - bias` on `w` bits, most significant first. -/
def encodeSignedInteger (S : Bool) (k v : Nat) : List Bool :=
  S :: (List.replicate k true ++ (if k < 5 then [false] else []) ++
    (List.range (classWidth k)).map
      (fun i => (v - classBias k).testBit (classWidth k - 1 - i)))

/-- Sign 0, class 5, magnitude field `2 ^ 31`. -/
def largeMagnitudeDecisions : List Bool :=
  [false, true, true, true, true, true, true] ++ List.replicate 31 false

/-! ## Errors -/

/-- A thrown `PDFException`, by the message it carries. -/
inductive PDFException where
  /-- The bit reader was asked for data past the end of its buffer. -/
  | endOfStream
  /-- "JBIG2 invalid header - bad referred segments." -/
  | badReferredSegments
  /-- "JBIG2 invalid segment type %1." -/
  | invalidSegmentType (type : Nat)
  /-- "JBIG2 bad segment data - handler reads %1 bytes past segment end." -/
  | readsPastSegmentEnd (bytes : Int)
  /-- "JBIG2 - invalid bitmap paint operation." -/
  | invalidPaintOperation
  /-- "JBIG2 overflow of prefix bit values in huffman table." -/
  | prefixOverflow
  /-- A pixel outside the bitmap was read or written. -/
  | pixelOutOfRange
  /-- "JBIG2 region segment information flags are invalid." -/
  | regionFlagsInvalid
  /-- "JBIG2 region segment information - invalid bit operation mode." -/
  | regionInvalidBitOperationMode
  /-- "JBIG2 maximum bitmap size exceeded (%1 > %2)." -/
  | maximumBitmapSizeExceeded (size : Nat)
  /-- "JBIG2 invalid bitmap size (%1 x %2)." -/
  | invalidBitmapSize (width height : Nat)
  /-- "JBIG2 invalid bit operation." -/
  | invalidBitOperation
  /-- "JBIG2 - malformed generic region flags." -/
  | malformedGenericRegionFlags
  /-- "JBIG2 - end of data byte sequence not found for generic region." -/
  | endSequenceNotFound
  /-- "JBIG2 - invalid flags for generic refinement region." -/
  | refinementInvalidFlags
  /-- "JBIG2 - operation must be REPLACE for generic refinement region." -/
  | refinementOperationMustBeReplace
  /-- "JBIG2 - invalid referred segments (%1) for generic refinement region." -/
  | refinementInvalidReferredSegments (count : Nat)
  /-- "JBIG2 - invalid referred bitmap size [%1 x %2] instead of [%3 x %4] for generic
  refinement region." -/
  | refinementInvalidReferredBitmapSize (width height : Int) (declaredWidth declaredHeight : Nat)
  /-- "JBIG2 - invalid bitmap for generic refinement region." -/
  | refinementInvalidBitmap
  /-- "JBIG2 segment %1 is not a bitmap." -/
  | segmentNotBitmap (segmentIndex : Nat)
  /-- "JBIG2 bitmap segment %1 not found." -/
  | bitmapSegmentNotFound (segmentIndex : Nat)
  /-- "JBIG2 can't read integer." -/
  | cantReadInteger
  /-- "JBIG2 unknown extension %1 necessary for decoding the image." -/
  | unknownNecessaryExtension (extensionCode : Nat)
  /-- "JBIG2 segment with unknown extension has not defined length." -/
  | extensionLengthUndefined
  /-- "JBIG2 symbol height class has more symbols, than defined in the symbol dictionary
  header." -/
  | heightClassMoreSymbols
  /-- "JBIG2 invalid flags for symbol dictionary segment." -/
  | invalidSymbolDictionaryFlags
  /-- "JBIG2 invalid user huffman code table." -/
  | invalidUserHuffmanCodeTable
  /-- "JBIG2 invalid number of huffam code table - %1 unused." -/
  | unusedHuffmanCodeTables (count : Nat)
  /-- "JBIG2 trying to use aritmetic decoder context from previous symbol dictionary, but it
  doesn't exist." -/
  | arithmeticContextMissing
  /-- "JBIG2 invalid referred segment %1 referenced by segment %2." -/
  | invalidReferredSegment (referredSegmentId segmentNumber : Nat)
  /-- "JBIG2 underflow of the low value in huffman table." -/
  | lowValueUnderflow
  /-- "Invalid JBIG2 file header." -/
  | invalidFileHeader
  /-- "Invalid JBIG2 file header flags." -/
  | invalidFileHeaderFlags
  /-- "Invalid JBIG2 file - unknown number of pages." -/
  | unknownNumberOfPages
  /-- "Invalid JBIG2 file - invalid number of pages (%1)." -/
  | invalidNumberOfPages (numberOfPages : Nat)
  /-- "Invalid JBIG2 file - segment length is not defined." -/
  | fileSegmentLengthUndefined
  /-- "JBIG2 invalid symbol length code table for text region segment." -/
  | invalidSymbolLengthCodeTable
  /-- "JBIG2 - invalid bitmap copy row operation." -/
  | invalidCopyRow
  /-- Any other exception, thrown by a segment handler. -/
  | other (code : Nat)
  deriving DecidableEq, Repr

/-! ## Bit reader -/

/-- Value of a bit sequence written most significant bit first. -/
def bitsToNat (bs : List Bool) : Nat :=
  bs.foldl (fun acc b => 2 * acc + b.toNat) 0

/-- The `w` low bits of `v`, most significant first. -/
def natToBits : Nat → Nat → List Bool
  | 0, _ => []
  | w + 1, v => v.testBit w :: natToBits w v

/-- A byte buffer written out bit by bit, the most significant bit of each byte first. -/
def bytesToBits (bytes : List Nat) : List Bool :=
  bytes.flatMap (natToBits 8)

/-- Modelled from the spec: `PDFBitReader`, whose code is not among the sources.  The spec
(4.1) gives a sequential cursor over a byte buffer with bit-aligned and byte-aligned
big-endian reads, byte skipping, end detection and `getPosition/seek`, and "No wraparound;
reading past the buffer end is a fatal condition signaled to the caller".  `data` is the
buffer bit by bit (most significant bit of each byte first), `position` the cursor in bits. -/
structure PDFBitReader where
  data : List Bool
  position : Nat
  deriving DecidableEq, Repr

/-- Modelled from the spec: `PDFBitReader::read(n bits)`, a big-endian read of `n` bits,
fatal when fewer than `n` bits are left. -/
def PDFBitReader.read (n : Nat) (r : PDFBitReader) : Except PDFException (Nat × PDFBitReader) :=
  if r.position + n ≤ r.data.length then
    .ok (bitsToNat ((r.data.drop r.position).take n), { r with position := r.position + n })
  else .error .endOfStream

/-- Modelled from the spec: `PDFBitReader::readUnsignedByte`. -/
def PDFBitReader.readUnsignedByte (r : PDFBitReader) : Except PDFException (Nat × PDFBitReader) :=
  r.read 8

/-- Modelled from the spec: `PDFBitReader::readUnsignedInt` (32 bits, big-endian). -/
def PDFBitReader.readUnsignedInt (r : PDFBitReader) : Except PDFException (Nat × PDFBitReader) :=
  r.read 32

/-- Modelled from the spec: `PDFBitReader::skipBytes(count)`: the cursor moves `count` bytes
on, fatal when that is past the end of the buffer. -/
def PDFBitReader.skipBytes (count : Nat) (r : PDFBitReader) : Except PDFException PDFBitReader :=
  if r.position + 8 * count ≤ r.data.length then
    .ok { r with position := r.position + 8 * count }
  else .error .endOfStream

/-- A reader at the start of the given bytes. -/
def PDFBitReader.ofBytes (bytes : List Nat) : PDFBitReader :=
  { data := bytesToBits bytes, position := 0 }

/-! ## Segment header -/

/-- `enum class JBIG2SegmentType`; `Invalid` is the value of a header not yet typed. -/
inductive JBIG2SegmentType where
  | Invalid
  | SymbolDictionary
  | TextRegion
  | PatternDictionary
  | HalftoneRegion
  | GenericRegion
  | GenericRefinementRegion
  | PageInformation
  | EndOfPage
  | EndOfStripe
  | EndOfFile
  | Profiles
  | Tables
  | Extension
  deriving DecidableEq, Repr

/-- `class PDFJBIG2SegmentHeader`: the members `read` fills in. -/
structure PDFJBIG2SegmentHeader where
  m_segmentNumber : Nat
  m_pageAssociation : Nat
  m_segmentDataLength : Nat
  m_referredSegments : List Nat
  m_lossless : Bool
  m_immediate : Bool
  m_segmentType : JBIG2SegmentType
  deriving DecidableEq, Repr

/-- The 32-bit field `(retentionField << 24) | reader->read(24)` of the long form of the
retention flags. -/
def extendedRetentionField (retentionField low : Nat) : Nat :=
  ((retentionField <<< 24) % 2 ^ 32) ||| low

/-- The retention flags part of `PDFJBIG2SegmentHeader::read` (from
`reader->readUnsignedByte()` to the end of the `if (referredSegmentsCount == 7)` block):
gives `referredSegmentsCount` and the reader after the retention flags. -/
def readReferredSegmentsCount (reader : PDFBitReader) :
    Except PDFException (Nat × PDFBitReader) := do
  let (retentionField, r1) ← reader.readUnsignedByte
  let referredSegmentsCount := retentionField >>> 5
  if referredSegmentsCount = 5 ∨ referredSegmentsCount = 6 then
    throw PDFException.badReferredSegments
  if referredSegmentsCount = 7 then
    let (low, r2) ← r1.read 24
    let retentionField := extendedRetentionField retentionField low
    let referredSegmentsCount := retentionField &&& 0x1FFFFFFF
    if retentionField &&& 0xE0000000 ≠ 0xE0000000 then
      throw PDFException.badReferredSegments
    let bytesToSkip := ((referredSegmentsCount + 8) % 2 ^ 32) / 8
    let r3 ← r2.skipBytes bytesToSkip
    pure (referredSegmentsCount, r3)
  else
    pure (referredSegmentsCount, r1)

/-- The loop `header.m_referredSegments.push_back(reader->read(referredSegmentNumberBits))`,
run `count` times. -/
def readReferredSegments (referredSegmentNumberBits : Nat) :
    Nat → PDFBitReader → Except PDFException (List Nat × PDFBitReader)
  | 0, reader => pure ([], reader)
  | count + 1, reader => do
    let (number, r1) ← reader.read referredSegmentNumberBits
    let (numbers, r2) ← readReferredSegments referredSegmentNumberBits count r1
    pure (number :: numbers, r2)

/-- Width of a referred segment number in the header of segment `segmentNumber`. -/
def referredSegmentNumberBits (segmentNumber : Nat) : Nat :=
  if segmentNumber ≤ 256 then 8 else if segmentNumber ≤ 65536 then 16 else 32

/-- Width of the page association field: `isPageAssociationSize4ByteLong ? 32 : 8`, with
`isPageAssociationSize4ByteLong = flags & 0x40`. -/
def pageAssociationBits (flags : Nat) : Nat :=
  if flags &&& 0x40 ≠ 0 then 32 else 8

/-- `PDFJBIG2SegmentHeader::read` up to the `switch (type)`: every member but
`m_segmentType`, together with the type code `flags & 0x3F`. -/
def PDFJBIG2SegmentHeader.readFields (reader : PDFBitReader) :
    Except PDFException (PDFJBIG2SegmentHeader × Nat × PDFBitReader) := do
  let (segmentNumber, r1) ← reader.readUnsignedInt
  let (flags, r2) ← r1.readUnsignedByte
  let type := flags &&& 0x3F
  let (referredSegmentsCount, r3) ← readReferredSegmentsCount r2
  let (referredSegments, r4) ←
    readReferredSegments (referredSegmentNumberBits segmentNumber) referredSegmentsCount r3
  let (pageAssociation, r5) ← r4.read (pageAssociationBits flags)
  let (segmentDataLength, r6) ← r5.readUnsignedInt
  pure ({ m_segmentNumber := segmentNumber
          m_pageAssociation := pageAssociation
          m_segmentDataLength := segmentDataLength
          m_referredSegments := referredSegments
          m_lossless := (type &&& 0x01) ≠ 0
          m_immediate := (type &&& 0x02) ≠ 0
          m_segmentType := JBIG2SegmentType.Invalid }, type, r6)

/-- The `switch (type)` of `PDFJBIG2SegmentHeader::read`. -/
def segmentTypeOfCode (type : Nat) : Except PDFException JBIG2SegmentType :=
  match type with
  | 0 => pure JBIG2SegmentType.SymbolDictionary
  | 4 | 6 | 7 => pure JBIG2SegmentType.TextRegion
  | 16 => pure JBIG2SegmentType.PatternDictionary
  | 20 | 22 | 23 => pure JBIG2SegmentType.HalftoneRegion
  | 36 | 38 | 39 => pure JBIG2SegmentType.GenericRegion
  | 40 | 42 | 43 => pure JBIG2SegmentType.GenericRefinementRegion
  | 48 => pure JBIG2SegmentType.PageInformation
  | 49 => pure JBIG2SegmentType.EndOfPage
  | 50 => pure JBIG2SegmentType.EndOfStripe
  | 51 => pure JBIG2SegmentType.EndOfFile
  | 52 => pure JBIG2SegmentType.Profiles
  | 53 => pure JBIG2SegmentType.Tables
  | 62 => pure JBIG2SegmentType.Extension
  | _ => throw (PDFException.invalidSegmentType type)

/-- `PDFJBIG2SegmentHeader::read(reader)`: the parsed header and the reader after it. -/
def PDFJBIG2SegmentHeader.read (reader : PDFBitReader) :
    Except PDFException (PDFJBIG2SegmentHeader × PDFBitReader) := do
  let (header, type, r) ← PDFJBIG2SegmentHeader.readFields reader
  let segmentType ← segmentTypeOfCode type
  pure ({ header with m_segmentType := segmentType }, r)

deriving instance DecidableEq for Except

/-! ## Segment dispatch (`PDFJBIG2Decoder::processStream`) -/

/-- Modelled from the spec: `PDFBitReader::getPosition`, the cursor in bytes of the buffer
consumed so far (a byte partly consumed counts). -/
def PDFBitReader.getPosition (r : PDFBitReader) : Int :=
  (((r.position + 7) / 8 : Nat) : Int)

/-- Modelled from the spec: `PDFBitReader::seek(position)` (4.1, `getPosition/seek`): the
cursor is put on the byte `position`. -/
def PDFBitReader.seek (position : Int) (r : PDFBitReader) : PDFBitReader :=
  { r with position := 8 * position.toNat }

/-- Modelled from the spec: `PDFBitReader::isAtEnd`. -/
def PDFBitReader.isAtEnd (r : PDFBitReader) : Bool :=
  decide (r.data.length ≤ r.position)

/-- Modelled from the spec: `PDFJBIG2SegmentHeader::isSegmentDataLengthDefined` (declared
outside the sources): the data length is not the sentinel "unknown" (3, 4.4). -/
def PDFJBIG2SegmentHeader.isSegmentDataLengthDefined (h : PDFJBIG2SegmentHeader) : Bool :=
  decide (h.m_segmentDataLength ≠ 0xFFFFFFFF)

/-- A call of `m_errorReporter->reportRenderError`. -/
inductive RenderError where
  /-- `RenderErrorType::Warning`, "JBIG2 bad segment data - handler doesn't process all
  segment data - %1 bytes left." -/
  | segmentDataLeft (bytes : Int)
  /-- Any report made by a segment handler. -/
  | fromHandler (code : Nat)
  deriving DecidableEq, Repr

/-- The members of `PDFJBIG2Decoder` that `processStream` touches: the reader, the reports
sent to `m_errorReporter` so far (oldest first), and the rest of the decoder (segment store,
page bitmap), which only the handlers use. -/
structure PDFJBIG2Decoder (σ : Type) where
  m_reader : PDFBitReader
  m_errorReporter : List RenderError
  m_rest : σ

/-- The segment handlers `processSymbolDictionary`, ..., `processExtension`: each takes the
header and the decoder, and returns the decoder it leaves or throws. -/
structure SegmentHandlers (σ : Type) where
  processSymbolDictionary :
    PDFJBIG2SegmentHeader → PDFJBIG2Decoder σ → Except PDFException (PDFJBIG2Decoder σ)
  processTextRegion :
    PDFJBIG2SegmentHeader → PDFJBIG2Decoder σ → Except PDFException (PDFJBIG2Decoder σ)
  processPatternDictionary :
    PDFJBIG2SegmentHeader → PDFJBIG2Decoder σ → Except PDFException (PDFJBIG2Decoder σ)
  processHalftoneRegion :
    PDFJBIG2SegmentHeader → PDFJBIG2Decoder σ → Except PDFException (PDFJBIG2Decoder σ)
  processGenericRegion :
    PDFJBIG2SegmentHeader → PDFJBIG2Decoder σ → Except PDFException (PDFJBIG2Decoder σ)
  processGenericRefinementRegion :
    PDFJBIG2SegmentHeader → PDFJBIG2Decoder σ → Except PDFException (PDFJBIG2Decoder σ)
  processPageInformation :
    PDFJBIG2SegmentHeader → PDFJBIG2Decoder σ → Except PDFException (PDFJBIG2Decoder σ)
  processEndOfPage :
    PDFJBIG2SegmentHeader → PDFJBIG2Decoder σ → Except PDFException (PDFJBIG2Decoder σ)
  processEndOfStripe :
    PDFJBIG2SegmentHeader → PDFJBIG2Decoder σ → Except PDFException (PDFJBIG2Decoder σ)
  processEndOfFile :
    PDFJBIG2SegmentHeader → PDFJBIG2Decoder σ → Except PDFException (PDFJBIG2Decoder σ)
  processProfiles :
    PDFJBIG2SegmentHeader → PDFJBIG2Decoder σ → Except PDFException (PDFJBIG2Decoder σ)
  processCodeTables :
    PDFJBIG2SegmentHeader → PDFJBIG2Decoder σ → Except PDFException (PDFJBIG2Decoder σ)
  processExtension :
    PDFJBIG2SegmentHeader → PDFJBIG2Decoder σ → Except PDFException (PDFJBIG2Decoder σ)

/-- The `switch (segmentHeader.getSegmentType())` of `processStream`; its `default` branch
throws "JBIG2 invalid segment type %1." with the number of the enumerator. -/
def dispatchSegment {σ : Type} (H : SegmentHandlers σ) (segmentHeader : PDFJBIG2SegmentHeader)
    (d : PDFJBIG2Decoder σ) : Except PDFException (PDFJBIG2Decoder σ) :=
  match segmentHeader.m_segmentType with
  | .SymbolDictionary => H.processSymbolDictionary segmentHeader d
  | .TextRegion => H.processTextRegion segmentHeader d
  | .PatternDictionary => H.processPatternDictionary segmentHeader d
  | .HalftoneRegion => H.processHalftoneRegion segmentHeader d
  | .GenericRegion => H.processGenericRegion segmentHeader d
  | .GenericRefinementRegion => H.processGenericRefinementRegion segmentHeader d
  | .PageInformation => H.processPageInformation segmentHeader d
  | .EndOfPage => H.processEndOfPage segmentHeader d
  | .EndOfStripe => H.processEndOfStripe segmentHeader d
  | .EndOfFile => H.processEndOfFile segmentHeader d
  | .Profiles => H.processProfiles segmentHeader d
  | .Tables => H.processCodeTables segmentHeader d
  | .Extension => H.processExtension segmentHeader d
  | .Invalid => throw (PDFException.other 0)

/-- The check after the `switch` of `processStream`: the handler must have consumed the
declared span; then the reader is put at its end. -/
def checkSegmentDataProcessed {σ : Type} (segmentHeader : PDFJBIG2SegmentHeader)
    (segmentDataStartPosition : Int) (d : PDFJBIG2Decoder σ) :
    Except PDFException (PDFJBIG2Decoder σ) :=
  if segmentHeader.isSegmentDataLengthDefined then
    let offset : Int := segmentDataStartPosition + (segmentHeader.m_segmentDataLength : Int)
      - d.m_reader.getPosition
    if offset > 0 then
      pure { d with
        m_errorReporter := d.m_errorReporter ++ [RenderError.segmentDataLeft offset]
        m_reader := d.m_reader.seek
          (segmentDataStartPosition + (segmentHeader.m_segmentDataLength : Int)) }
    else if offset < 0 then
      throw (PDFException.readsPastSegmentEnd (-offset))
    else
      pure { d with
        m_reader := d.m_reader.seek
          (segmentDataStartPosition + (segmentHeader.m_segmentDataLength : Int)) }
  else pure d

/-- The body of the `while` loop of `PDFJBIG2Decoder::processStream`: one segment. -/
def processStreamStep {σ : Type} (H : SegmentHandlers σ) (d : PDFJBIG2Decoder σ) :
    Except PDFException (PDFJBIG2Decoder σ) := do
  let (segmentHeader, reader) ← PDFJBIG2SegmentHeader.read d.m_reader
  let segmentDataStartPosition := reader.getPosition
  let d1 ← dispatchSegment H segmentHeader { d with m_reader := reader }
  checkSegmentDataProcessed segmentHeader segmentDataStartPosition d1

/-- `PDFJBIG2Decoder::processStream`: `while (!m_reader.isAtEnd())`, at most `fuel` segments
(`none` when the fuel runs out before the end of the data). -/
def processStream {σ : Type} (H : SegmentHandlers σ) :
    Nat → PDFJBIG2Decoder σ → Option (Except PDFException (PDFJBIG2Decoder σ))
  | 0, d => if d.m_reader.isAtEnd then some (pure d) else none
  | fuel + 1, d =>
    if d.m_reader.isAtEnd then some (pure d)
    else
      match processStreamStep H d with
      | .ok d1 => processStream H fuel d1
      | .error e => some (throw e)

/-- Handlers that consume `consumed` bytes of segment data and do nothing else. -/
def skippingHandlers (consumed : Nat) : SegmentHandlers Unit :=
  let skip : PDFJBIG2SegmentHeader → PDFJBIG2Decoder Unit →
      Except PDFException (PDFJBIG2Decoder Unit) :=
    fun _ d => do
      let r ← d.m_reader.skipBytes consumed
      pure { d with m_reader := r }
  { processSymbolDictionary := skip, processTextRegion := skip,
    processPatternDictionary := skip, processHalftoneRegion := skip,
    processGenericRegion := skip, processGenericRefinementRegion := skip,
    processPageInformation := skip, processEndOfPage := skip, processEndOfStripe := skip,
    processEndOfFile := skip, processProfiles := skip, processCodeTables := skip,
    processExtension := skip }

/-! ## Bitmap and page compositing (`PDFJBIG2Bitmap::paint`) -/

/-- `enum class PDFJBIG2BitOperation`. -/
inductive PDFJBIG2BitOperation where
  | Invalid
  | Or
  | And
  | Xor
  | NotXor
  | Replace
  deriving DecidableEq, Repr

/-- `class PDFJBIG2Bitmap`: `int m_width`, `int m_height`, and `m_data`, a row-major buffer of
one byte per pixel (0x00 unset, 0xFF set). -/
structure PDFJBIG2Bitmap where
  m_width : Int
  m_height : Int
  m_data : List Nat
  deriving DecidableEq, Repr

/-- `PDFJBIG2Bitmap::getWidth`. -/
def PDFJBIG2Bitmap.getWidth (b : PDFJBIG2Bitmap) : Int := b.m_width

/-- `PDFJBIG2Bitmap::getHeight`. -/
def PDFJBIG2Bitmap.getHeight (b : PDFJBIG2Bitmap) : Int := b.m_height

/-- `PDFJBIG2Bitmap::getPixelCount`: `m_width * m_height`, a product of two `int` values,
kept on 32 bits as the machine multiplication gives it. -/
def PDFJBIG2Bitmap.getPixelCount (b : PDFJBIG2Bitmap) : Int := wrapInt32 (b.m_width * b.m_height)

/-- Conversion of an `int` to `size_t`, taken as an unsigned integer of 64 bits. -/
def toSizeT (z : Int) : Nat :=
  (z % 2 ^ 64).toNat

/-- Modelled from the spec: `PDFJBIG2Bitmap::isValid` (declared outside the sources): a
realized bitmap, "both must be nonzero once realized" (3). -/
def PDFJBIG2Bitmap.isValid (b : PDFJBIG2Bitmap) : Bool :=
  decide (0 < b.m_width ∧ 0 < b.m_height)

/-- Index of the pixel `(x, y)` in the row-major buffer. -/
def PDFJBIG2Bitmap.pixelIndex (b : PDFJBIG2Bitmap) (x y : Int) : Nat :=
  (y * b.m_width + x).toNat

/-- The byte stored for the pixel `(x, y)`. -/
def PDFJBIG2Bitmap.pixelAt (b : PDFJBIG2Bitmap) (x y : Int) : Nat :=
  b.m_data.getD (b.pixelIndex x y) 0

/-- Modelled from the spec: `PDFJBIG2Bitmap::getPixel` (declared outside the sources), the
"bounds-checked get" of the bitmap (3): reading outside the bitmap is an error. -/
def PDFJBIG2Bitmap.getPixel (b : PDFJBIG2Bitmap) (x y : Int) : Except PDFException Nat :=
  if 0 ≤ x ∧ x < b.m_width ∧ 0 ≤ y ∧ y < b.m_height then pure (b.pixelAt x y)
  else throw PDFException.pixelOutOfRange

/-- Modelled from the spec: `PDFJBIG2Bitmap::setPixel` (declared outside the sources), the
"bounds-checked set" of the bitmap (3); the value is a `uint8_t`. -/
def PDFJBIG2Bitmap.setPixel (b : PDFJBIG2Bitmap) (x y : Int) (value : Nat) :
    Except PDFException PDFJBIG2Bitmap :=
  if 0 ≤ x ∧ x < b.m_width ∧ 0 ≤ y ∧ y < b.m_height then
    pure { b with m_data := b.m_data.set (b.pixelIndex x y) (value % 256) }
  else throw PDFException.pixelOutOfRange

/-- `std::vector::resize(count, value)`. -/
def vectorResize (l : List Nat) (count value : Nat) : List Nat :=
  l.take count ++ List.replicate (count - l.length) value

/-- The `switch (operation)` in the inner loop of `paint`, for one target pixel.  The
operands of `|`, `&`, `^` are the `uint8_t` pixels promoted to `int`; `~` is taken on the
32-bit pattern, and `setPixel` keeps the low 8 bits. -/
def paintPixel (target bitmap : PDFJBIG2Bitmap) (targetX targetY sourceX sourceY : Int)
    (operation : PDFJBIG2BitOperation) : Except PDFException PDFJBIG2Bitmap :=
  match operation with
  | .Or => do
    let t ← target.getPixel targetX targetY
    let s ← bitmap.getPixel sourceX sourceY
    target.setPixel targetX targetY (t ||| s)
  | .And => do
    let t ← target.getPixel targetX targetY
    let s ← bitmap.getPixel sourceX sourceY
    target.setPixel targetX targetY (t &&& s)
  | .Xor => do
    let t ← target.getPixel targetX targetY
    let s ← bitmap.getPixel sourceX sourceY
    target.setPixel targetX targetY (t ^^^ s)
  | .NotXor => do
    let t ← target.getPixel targetX targetY
    let s ← bitmap.getPixel sourceX sourceY
    target.setPixel targetX targetY (t ^^^ (0xFFFFFFFF - s))
  | .Replace => do
    let s ← bitmap.getPixel sourceX sourceY
    target.setPixel targetX targetY s
  | .Invalid => throw PDFException.invalidPaintOperation

/-- The inner loop of `paint`: `count` pixels of row `targetY`, from column `targetX` on. -/
def paintRow (bitmap : PDFJBIG2Bitmap) (targetStartX targetStartY : Int)
    (operation : PDFJBIG2BitOperation) (targetY : Int) :
    Nat → Int → PDFJBIG2Bitmap → Except PDFException PDFJBIG2Bitmap
  | 0, _, target => pure target
  | count + 1, targetX, target => do
    let t1 ← paintPixel target bitmap targetX targetY (targetX - targetStartX)
      (targetY - targetStartY) operation
    paintRow bitmap targetStartX targetStartY operation targetY count (targetX + 1) t1

/-- The outer loop of `paint`: `count` rows from row `targetY` on, each over the columns
`targetStartX .. targetEndX - 1`. -/
def paintRows (bitmap : PDFJBIG2Bitmap) (targetStartX targetEndX targetStartY : Int)
    (operation : PDFJBIG2BitOperation) :
    Nat → Int → PDFJBIG2Bitmap → Except PDFException PDFJBIG2Bitmap
  | 0, _, target => pure target
  | count + 1, targetY, target => do
    let t1 ← paintRow bitmap targetStartX targetStartY operation targetY
      (targetEndX - targetStartX).toNat targetStartX target
    paintRows bitmap targetStartX targetEndX targetStartY operation count (targetY + 1) t1

/-- `PDFJBIG2Bitmap::paint(bitmap, offsetX, offsetY, operation, expandY, expandPixel)` on the
bitmap `target`; the result is the bitmap after the call.  Sums of `int` values are taken
in the integers (the decoder bounds sizes and offsets by `MAX_BITMAP_SIZE`); the argument of
`m_data.resize` is `getPixelCount()`, the `int` product on 32 bits, converted to `size_t`. -/
def PDFJBIG2Bitmap.paint (target bitmap : PDFJBIG2Bitmap) (offsetX offsetY : Int)
    (operation : PDFJBIG2BitOperation) (expandY : Bool) (expandPixel : Nat) :
    Except PDFException PDFJBIG2Bitmap :=
  if !bitmap.isValid then pure target
  else
    let target :=
      if expandY = true ∧ offsetY + bitmap.getHeight > target.m_height then
        { target with
          m_height := offsetY + bitmap.getHeight
          m_data := vectorResize target.m_data
            (toSizeT (PDFJBIG2Bitmap.getPixelCount
              { target with m_height := offsetY + bitmap.getHeight })) expandPixel }
      else target
    if offsetX ≥ target.m_width ∨ offsetY ≥ target.m_height then pure target
    else
      let targetStartX := offsetX
      let targetEndX := min (offsetX + bitmap.getWidth) target.m_width
      let targetStartY := offsetY
      let targetEndY := min (offsetY + bitmap.getHeight) target.m_height
      paintRows bitmap targetStartX targetEndX targetStartY operation
        (targetEndY - targetStartY).toNat targetStartY target

/-- A bitmap whose buffer has one byte (`uint8_t`) for each pixel of its `m_width` by
`m_height`. -/
def PDFJBIG2Bitmap.WellFormed (b : PDFJBIG2Bitmap) : Prop :=
  0 ≤ b.m_width ∧ 0 ≤ b.m_height ∧ (b.m_data.length : Int) = b.m_width * b.m_height ∧
    ∀ v ∈ b.m_data, v < 256

/-- The operators `paint` supports. -/
def PDFJBIG2BitOperation.isSupported (operation : PDFJBIG2BitOperation) : Bool :=
  operation != PDFJBIG2BitOperation.Invalid

/-- The pixel the specification gives for combining target pixel `t` with source pixel
`s`: OR, AND, XOR, the 8-bit complement of the XOR, or the source pixel. -/
def combinePixels (operation : PDFJBIG2BitOperation) (t s : Nat) : Nat :=
  match operation with
  | .Or => t ||| s
  | .And => t &&& s
  | .Xor => t ^^^ s
  | .NotXor => 255 - (t ^^^ s)
  | .Replace => s
  | .Invalid => t

instance (b : PDFJBIG2Bitmap) : Decidable b.WellFormed := by
  unfold PDFJBIG2Bitmap.WellFormed
  infer_instance

/-- The bitmap `t'` is the bitmap `t` in which the pixels of columns `x0 .. x1 - 1` of rows
`y0 .. y1 - 1` have been combined with the pixels of `bitmap` placed at `(sx, sy)`; the
dimensions and all other pixels are those of `t`. -/
def PaintedRegion (t t' bitmap : PDFJBIG2Bitmap) (operation : PDFJBIG2BitOperation)
    (sx sy x0 x1 y0 y1 : Int) : Prop :=
  t'.m_width = t.m_width ∧ t'.m_height = t.m_height ∧ t'.WellFormed ∧
    ∀ x y : Int, 0 ≤ x → x < t.m_width → 0 ≤ y → y < t.m_height →
      t'.pixelAt x y =
        if x0 ≤ x ∧ x < x1 ∧ y0 ≤ y ∧ y < y1 then
          combinePixels operation (t.pixelAt x y) (bitmap.pixelAt (x - sx) (y - sy))
        else t.pixelAt x y

/-! ## Huffman code tables -/

/-- `enum class PDFJBIG2HuffmanTableEntry::Type`. -/
inductive HuffmanEntryType where
  | Standard
  | OutOfBand
  | Negative
  deriving DecidableEq, Repr

/-- `struct PDFJBIG2HuffmanTableEntry`, with the members in the order of the initializers of
the standard tables: base value (`int32_t`), prefix bit length, range bit length, prefix
(named `prefixCode` here) and type.  The prefix member holds at least 16 bits (the standard
tables store 9-bit prefixes in it). -/
structure PDFJBIG2HuffmanTableEntry where
  value : Int
  prefixBitLength : Nat
  rangeBitLength : Nat
  prefixCode : Nat
  type : HuffmanEntryType
  deriving DecidableEq, Repr

/-- Modelled from the spec: `PDFJBIG2HuffmanTableEntry::isOutOfBand` (declared outside the
sources): the entry of kind OutOfBand (3). -/
def PDFJBIG2HuffmanTableEntry.isOutOfBand (e : PDFJBIG2HuffmanTableEntry) : Bool :=
  e.type == HuffmanEntryType.OutOfBand

/-- Modelled from the spec: `PDFJBIG2HuffmanTableEntry::isLowValue` (declared outside the
sources): the entry of kind NegativeOverflow, "value is base minus a 32-bit extra field"
(3). -/
def PDFJBIG2HuffmanTableEntry.isLowValue (e : PDFJBIG2HuffmanTableEntry) : Bool :=
  e.type == HuffmanEntryType.Negative

/-- The value of `1 << n` on `int`: `2 ^ n` for `n` below 31, and `2 ^ 31` converted to
`int` for `n = 31`, which is `-2 ^ 31`.  A shift by 32 bits or more has no defined value in
C++; the shift instruction of the machine takes the count modulo 32, and so does this
definition. -/
def shiftLeftOne (n : Nat) : Int :=
  toInt32 (2 ^ (n % 32))

/-- The test `count > (1 << result[i].prefixBitLength)` of `buildPrefixes`: the `uint16_t`
count is promoted to `int` and compared with the `int` value of the shift. -/
def prefixCountOverflow (count prefixBitLength : Nat) : Bool :=
  decide ((count : Int) > shiftLeftOne prefixBitLength)

/-- The `for` loop of `buildPrefixes` from index `i` on: `previous` is
`result[i - 1].prefixBitLength`, `codeValue` the `uint16_t prefix`, `count` the
`uint16_t count`; the entries come back with their prefixes assigned.  The shifted prefix is
cut to 16 bits by the assignment to `uint16_t`, and so are the incremented prefix and count;
`1 << prefixBitLength` is an `int`. -/
def assignPrefixes : List PDFJBIG2HuffmanTableEntry → Nat → Nat → Nat →
    Except PDFException (List PDFJBIG2HuffmanTableEntry)
  | [], _, _, _ => pure []
  | entry :: rest, previous, codeValue, count => do
    let bitShift := (entry.prefixBitLength - previous) % 2 ^ 16
    let codeValue := if bitShift > 0 then (codeValue <<< bitShift) % 2 ^ 16 else codeValue
    let count := if bitShift > 0 then 0 else count
    let assigned := { entry with prefixCode := codeValue }
    let codeValue := (codeValue + 1) % 2 ^ 16
    let count := (count + 1) % 2 ^ 16
    if prefixCountOverflow count entry.prefixBitLength then
      throw PDFException.prefixOverflow
    else do
      let tail ← assignPrefixes rest entry.prefixBitLength codeValue count
      pure (assigned :: tail)

/-- `PDFJBIG2HuffmanCodeTable::buildPrefixes(entries)`: the entries of length zero are
erased, the rest is sorted by prefix bit length with a stable sort, and the prefixes are
assigned in that order. -/
def PDFJBIG2HuffmanCodeTable.buildPrefixes (entries : List PDFJBIG2HuffmanTableEntry) :
    Except PDFException (List PDFJBIG2HuffmanTableEntry) :=
  let result := entries.filter (fun entry => !(entry.prefixBitLength == 0))
  let result := result.insertionSort (fun l r => l.prefixBitLength ≤ r.prefixBitLength)
  match result with
  | [] => pure []
  | first :: rest => do
    let tail ← assignPrefixes rest first.prefixBitLength 1 1
    pure ({ first with prefixCode := 0 } :: tail)

/-- The `while (prefixBitCount < it->prefixBitLength)` loop of `readSignedInteger`, as
`count` iterations: `prefix = (prefix << 1) | m_reader->read(1)` on `uint32_t`. -/
def alignPrefix : Nat → Nat → PDFBitReader → Except PDFException (Nat × PDFBitReader)
  | 0, codeValue, reader => pure (codeValue, reader)
  | count + 1, codeValue, reader => do
    let (bit, r1) ← reader.read 1
    alignPrefix count (((codeValue <<< 1) % 2 ^ 32) ||| bit) r1

/-- The `for` loop of `readSignedInteger` over the entries from `it` on; `prefixBitCount` and
`codeValue` are the local `prefixBitCount` and `prefix`.  The sums of the `int32_t` base
and the `uint32_t` field are taken on 32 bits and returned as `int32_t`. -/
def readSignedIntegerLoop : List PDFJBIG2HuffmanTableEntry → Nat → Nat → PDFBitReader →
    Except PDFException (Option Int × PDFBitReader)
  | [], _, _, reader => pure (none, reader)
  | it :: rest, prefixBitCount, codeValue, reader => do
    let (codeValue, r1) ← alignPrefix (it.prefixBitLength - prefixBitCount) codeValue reader
    let prefixBitCount := max prefixBitCount it.prefixBitLength
    if codeValue = it.prefixCode then
      if it.isOutOfBand then pure (none, r1)
      else if it.isLowValue then do
        let (extra, r2) ← r1.read 32
        pure (some (wrapInt32 (it.value - extra)), r2)
      else if it.rangeBitLength = 0 then pure (some it.value, r1)
      else do
        let (extra, r2) ← r1.read it.rangeBitLength
        pure (some (wrapInt32 (it.value + extra)), r2)
    else readSignedIntegerLoop rest prefixBitCount codeValue r1

/-- `class PDFJBIG2HuffmanDecoder`: the reader and the table entries (`m_begin .. m_end`). -/
structure PDFJBIG2HuffmanDecoder where
  m_reader : PDFBitReader
  m_entries : List PDFJBIG2HuffmanTableEntry

/-- `PDFJBIG2HuffmanDecoder::readSignedInteger()`: the decoded value (`none` is
`std::nullopt`) and the reader after the call. -/
def PDFJBIG2HuffmanDecoder.readSignedInteger (d : PDFJBIG2HuffmanDecoder) :
    Except PDFException (Option Int × PDFBitReader) :=
  readSignedIntegerLoop d.m_entries 0 0 d.m_reader

/-- The codeword of a table entry: its prefix written in `prefixBitLength` bits, most
significant bit first. -/
def PDFJBIG2HuffmanTableEntry.codeword (e : PDFJBIG2HuffmanTableEntry) : List Bool :=
  natToBits e.prefixBitLength e.prefixCode

/-- A table entry of the Standard kind with the given base value and prefix bit length, a
zero range length and no prefix assigned yet. -/
def standardEntry (value : Int) (prefixBitLength : Nat) : PDFJBIG2HuffmanTableEntry :=
  { value := value, prefixBitLength := prefixBitLength, rangeBitLength := 0, prefixCode := 0,
    type := HuffmanEntryType.Standard }

/-- Kraft sum of the non-zero prefix bit lengths of a list of entries: the sum of
`2 ^ -length`. -/
def kraftSum (entries : List PDFJBIG2HuffmanTableEntry) : ℚ :=
  ((entries.filter (fun entry => !(entry.prefixBitLength == 0))).map
    (fun entry => (2⁻¹ : ℚ) ^ entry.prefixBitLength)).sum

/-- The Kraft sum of a list of entries scaled by `2 ^ 16`, for lengths of at most 16. -/
def scaledKraft (entries : List PDFJBIG2HuffmanTableEntry) : Nat :=
  (entries.map (fun entry => 2 ^ (16 - entry.prefixBitLength))).sum

/-- The prefixes of the entries are those of the canonical code that starts at the scaled
Kraft sum `K`: each prefix, scaled to 16 bits, is the sum of the scaled weights of the
entries before it. -/
def CanonicalFrom : Nat → List PDFJBIG2HuffmanTableEntry → Prop
  | _, [] => True
  | K, entry :: rest =>
    entry.prefixCode * 2 ^ (16 - entry.prefixBitLength) = K ∧
      CanonicalFrom (K + 2 ^ (16 - entry.prefixBitLength)) rest

/-- The entry `a` is assigned its code before `b`: it is not longer, and the 16-bit interval
of its codeword ends before that of `b` starts. -/
def CodedBefore (a b : PDFJBIG2HuffmanTableEntry) : Prop :=
  a.prefixBitLength ≤ b.prefixBitLength ∧
    a.prefixCode * 2 ^ (16 - a.prefixBitLength) + 2 ^ (16 - a.prefixBitLength) ≤
      b.prefixCode * 2 ^ (16 - b.prefixBitLength)

/-- An entry with its prefix cleared: what `buildPrefixes` leaves unchanged. -/
def PDFJBIG2HuffmanTableEntry.withoutPrefix (e : PDFJBIG2HuffmanTableEntry) :
    PDFJBIG2HuffmanTableEntry :=
  { e with prefixCode := 0 }

/-! ## Vertical expansion of the target of `paint` -/

/-- Conversion of an `int` to `uint32_t`. -/
def toUInt32 (z : Int) : Nat :=
  (z % 2 ^ 32).toNat

/-- Modelled from the spec: `PDFBitReader::readSignedInt` (4.1, "signed reads"): 32 bits,
big-endian, as an `int32_t`. -/
def PDFBitReader.readSignedInt (r : PDFBitReader) : Except PDFException (Int × PDFBitReader) := do
  let (value, r1) ← r.read 32
  pure (toInt32 value, r1)

/-- Modelled from the spec: `PDFBitReader::readSignedByte` (4.1, "signed reads"): 8 bits as
an `int8_t`. -/
def PDFBitReader.readSignedByte (r : PDFBitReader) : Except PDFException (Int × PDFBitReader) := do
  let (value, r1) ← r.read 8
  pure (if value < 128 then (value : Int) else (value : Int) - 256, r1)

/-- Modelled from the spec: `PDFBitReader::readUnsignedWord` (16 bits, big-endian). -/
def PDFBitReader.readUnsignedWord (r : PDFBitReader) :
    Except PDFException (Nat × PDFBitReader) :=
  r.read 16

/-- `struct PDFJBIG2RegionSegmentInformationField` (declared outside the sources): `width`
and `height` are the `uint32_t` values of `readUnsignedInt`, `offsetX` and `offsetY` the
`int32_t` values of `readSignedInt`. -/
structure PDFJBIG2RegionSegmentInformationField where
  width : Nat
  height : Nat
  offsetX : Int
  offsetY : Int
  operation : PDFJBIG2BitOperation
  deriving DecidableEq, Repr

/-- `PDFJBIG2Decoder::checkBitmapSize(const uint32_t size)`.  The constant
`MAX_BITMAP_SIZE` is declared outside the sources and is a parameter here. -/
def checkBitmapSize (MAX_BITMAP_SIZE : Nat) (size : Nat) : Except PDFException Unit :=
  if size > MAX_BITMAP_SIZE then throw (PDFException.maximumBitmapSizeExceeded size)
  else pure ()

/-- `PDFJBIG2Decoder::checkRegionSegmentInformationField(field)`; the `int32_t` offsets are
converted to the `uint32_t` parameter of `checkBitmapSize`. -/
def checkRegionSegmentInformationField (MAX_BITMAP_SIZE : Nat)
    (field : PDFJBIG2RegionSegmentInformationField) : Except PDFException Unit := do
  checkBitmapSize MAX_BITMAP_SIZE field.width
  checkBitmapSize MAX_BITMAP_SIZE field.height
  checkBitmapSize MAX_BITMAP_SIZE (toUInt32 field.offsetX)
  checkBitmapSize MAX_BITMAP_SIZE (toUInt32 field.offsetY)
  if field.width = 0 ∨ field.height = 0 then
    throw (PDFException.invalidBitmapSize field.width field.height)
  else if field.operation = PDFJBIG2BitOperation.Invalid then
    throw PDFException.invalidBitOperation
  else pure ()

/-- The `switch (flags)` of `readRegionSegmentInformationField`. -/
def regionOperationOfFlags (flags : Nat) : Except PDFException PDFJBIG2BitOperation :=
  match flags with
  | 0 => pure PDFJBIG2BitOperation.Or
  | 1 => pure PDFJBIG2BitOperation.And
  | 2 => pure PDFJBIG2BitOperation.Xor
  | 3 => pure PDFJBIG2BitOperation.NotXor
  | 4 => pure PDFJBIG2BitOperation.Replace
  | _ => throw PDFException.regionInvalidBitOperationMode

/-- The test `(flags & 0b11111000) != 0` of `readRegionSegmentInformationField`. -/
def regionFlagsReserved (flags : Nat) : Bool :=
  flags &&& 0b11111000 != 0

/-- `PDFJBIG2Decoder::readRegionSegmentInformationField()` on the reader `r`: the field and
the reader after the call. -/
def readRegionSegmentInformationField (MAX_BITMAP_SIZE : Nat) (r : PDFBitReader) :
    Except PDFException (PDFJBIG2RegionSegmentInformationField × PDFBitReader) := do
  let (width, r1) ← r.readUnsignedInt
  let (height, r2) ← r1.readUnsignedInt
  let (offsetX, r3) ← r2.readSignedInt
  let (offsetY, r4) ← r3.readSignedInt
  let (flags, r5) ← r4.readUnsignedByte
  if regionFlagsReserved flags then throw PDFException.regionFlagsInvalid
  else do
    let operation ← regionOperationOfFlags flags
    let result : PDFJBIG2RegionSegmentInformationField :=
      { width := width, height := height, offsetX := offsetX, offsetY := offsetY,
        operation := operation }
    checkRegionSegmentInformationField MAX_BITMAP_SIZE result
    pure (result, r5)

/-! ## Segment store and page -/

/-- The stored segments (`class PDFJBIG2Segment` and its subclasses, declared outside the
sources): a bitmap, a symbol dictionary with its symbols, or a Huffman code table. -/
inductive PDFJBIG2Segment where
  | bitmap (b : PDFJBIG2Bitmap)
  | symbolDictionary (symbols : List PDFJBIG2Bitmap)
  | huffmanCodeTable (entries : List PDFJBIG2HuffmanTableEntry)
  deriving DecidableEq, Repr

/-- Modelled from the spec: `PDFJBIG2Segment::asBitmap` (declared outside the sources): the
bitmap if the segment is one, a null pointer otherwise. -/
def PDFJBIG2Segment.asBitmap : PDFJBIG2Segment → Option PDFJBIG2Bitmap
  | .bitmap b => some b
  | _ => none

/-- `std::map::find` on `m_segments`, the map kept as a list of (segment number, segment)
pairs: the segment stored under `key`. -/
def segmentsFind (m_segments : List (Nat × PDFJBIG2Segment)) (key : Nat) :
    Option PDFJBIG2Segment :=
  (m_segments.find? (fun entry => entry.1 == key)).map (fun entry => entry.2)

/-- `std::map::erase` of the entry stored under `key`. -/
def segmentsErase (m_segments : List (Nat × PDFJBIG2Segment)) (key : Nat) :
    List (Nat × PDFJBIG2Segment) :=
  m_segments.filter (fun entry => entry.1 != key)

/-- The assignment `m_segments[key] = segment`. -/
def segmentsAssign (m_segments : List (Nat × PDFJBIG2Segment)) (key : Nat)
    (segment : PDFJBIG2Segment) : List (Nat × PDFJBIG2Segment) :=
  (key, segment) :: segmentsErase m_segments key

/-- The members of `PDFJBIG2Decoder` beside the reader and the error reporter that the
page information and region handlers use.  The arithmetic decoder statistics are not kept
here (see `processGenericRefinementRegion`). -/
structure PDFJBIG2DecoderMembers where
  m_segments : List (Nat × PDFJBIG2Segment)
  m_pageBitmap : PDFJBIG2Bitmap
  m_pageDefaultPixelValue : Nat
  m_pageDefaultCompositionOperator : PDFJBIG2BitOperation
  m_pageDefaultCompositionOperatorOverriden : Bool
  m_pageSizeUndefined : Bool
  deriving DecidableEq, Repr

/-- `PDFJBIG2Decoder::getBitmap(segmentIndex, remove)` on the store `m_segments`: the
returned bitmap or the thrown exception, and the store after the call. -/
def getBitmap (segmentIndex : Nat) (remove : Bool) (m_segments : List (Nat × PDFJBIG2Segment)) :
    Except PDFException PDFJBIG2Bitmap × List (Nat × PDFJBIG2Segment) :=
  match segmentsFind m_segments segmentIndex with
  | some segment =>
    match segment.asBitmap with
    | none => (throw (PDFException.segmentNotBitmap segmentIndex), m_segments)
    | some bitmap =>
      if remove then (pure bitmap, segmentsErase m_segments segmentIndex)
      else (pure bitmap, m_segments)
  | none => (throw (PDFException.bitmapSegmentNotFound segmentIndex), m_segments)

/-- The constructor `PDFJBIG2Bitmap(int width, int height, uint8_t fill)`:
`m_data.resize(width * height, fill)` on the empty vector, the product of the two `int`
values kept on 32 bits as the machine multiplication gives it, then converted to `size_t`. -/
def PDFJBIG2Bitmap.filled (width height : Int) (fill : Nat) : PDFJBIG2Bitmap :=
  { m_width := width, m_height := height,
    m_data := vectorResize [] (toSizeT (wrapInt32 (width * height))) fill }

/-- The `switch (defaultOperator)` of `processPageInformation`; `previous` is the value the
member has before the call. -/
def pageDefaultOperator (defaultOperator : Nat) (previous : PDFJBIG2BitOperation) :
    PDFJBIG2BitOperation :=
  match defaultOperator with
  | 0 => PDFJBIG2BitOperation.Or
  | 1 => PDFJBIG2BitOperation.And
  | 2 => PDFJBIG2BitOperation.Xor
  | 3 => PDFJBIG2BitOperation.NotXor
  | _ => previous

/-- `PDFJBIG2Decoder::processPageInformation(header)`: the decoder after the call.  The
`uint32_t` sizes are converted to the `int` parameters of the bitmap constructor. -/
def processPageInformation (MAX_BITMAP_SIZE : Nat) (_header : PDFJBIG2SegmentHeader)
    (d : PDFJBIG2Decoder PDFJBIG2DecoderMembers) :
    Except PDFException (PDFJBIG2Decoder PDFJBIG2DecoderMembers) := do
  let (width, r1) ← d.m_reader.readUnsignedInt
  let (height, r2) ← r1.readUnsignedInt
  let r3 ← r2.skipBytes 8
  let (flags, r4) ← r3.readUnsignedByte
  let (_striping, r5) ← r4.readUnsignedWord
  let pageDefaultPixelValue := if flags &&& 0x04 != 0 then 0xFF else 0x00
  let overriden := flags &&& 0x40 != 0
  let defaultOperator := (flags >>> 3) &&& 0b11
  let operator := pageDefaultOperator defaultOperator d.m_rest.m_pageDefaultCompositionOperator
  let correctedWidth := width
  let correctedHeight := if height != 0xFFFFFFFF then height else 0
  let pageSizeUndefined := height == 0xFFFFFFFF
  checkBitmapSize MAX_BITMAP_SIZE correctedWidth
  checkBitmapSize MAX_BITMAP_SIZE correctedHeight
  pure { d with
    m_reader := r5
    m_rest :=
      { d.m_rest with
        m_pageBitmap := (PDFJBIG2Bitmap.filled (toInt32 correctedWidth)
          (toInt32 correctedHeight) pageDefaultPixelValue)
        m_pageDefaultPixelValue := pageDefaultPixelValue
        m_pageDefaultCompositionOperator := operator
        m_pageDefaultCompositionOperatorOverriden := overriden
        m_pageSizeUndefined := pageSizeUndefined } }

/-! ## Generic refinement region -/

/-- Modelled from the spec: `PDFJBIG2Bitmap::getPixelSafe` (declared outside the sources),
the "bounds-safe get (returns 0 outside range)" of the bitmap (3). -/
def PDFJBIG2Bitmap.getPixelSafe (b : PDFJBIG2Bitmap) (x y : Int) : Nat :=
  if 0 ≤ x ∧ x < b.m_width ∧ 0 ≤ y ∧ y < b.m_height then b.pixelAt x y else 0

/-- `PDFJBIG2Bitmap::getSubbitmap(offsetX, offsetY, width, height)`: the bitmap of the given
size whose pixel `(x, y)` is `getPixelSafe(x + offsetX, y + offsetY)`, row by row. -/
def PDFJBIG2Bitmap.getSubbitmap (b : PDFJBIG2Bitmap) (offsetX offsetY width height : Int) :
    PDFJBIG2Bitmap :=
  { m_width := width, m_height := height,
    m_data := (List.range height.toNat).flatMap (fun y =>
      (List.range width.toNat).map (fun x =>
        b.getPixelSafe ((x : Int) + offsetX) ((y : Int) + offsetY))) }

/-- The loop of `readATTemplatePixelPositions`: `remaining` iterations from index `i` on,
each reading `result[i].x` and `result[i].y` as signed bytes. -/
def readATTemplatePixelPositionsLoop :
    Nat → Nat → List (Int × Int) → PDFBitReader →
      Except PDFException (List (Int × Int) × PDFBitReader)
  | 0, _, result, r => pure (result, r)
  | remaining + 1, i, result, r => do
    let (x, r1) ← r.readSignedByte
    let (y, r2) ← r1.readSignedByte
    readATTemplatePixelPositionsLoop remaining (i + 1) (result.set i (x, y)) r2

/-- `PDFJBIG2Decoder::readATTemplatePixelPositions(count)`; `PDFJBIG2ATPositions` is an array
of four positions, zero-initialised. -/
def readATTemplatePixelPositions (count : Nat) (r : PDFBitReader) :
    Except PDFException (List (Int × Int) × PDFBitReader) :=
  readATTemplatePixelPositionsLoop count 0 (List.replicate 4 (0, 0)) r

/-- `struct PDFJBIG2BitmapRefinementDecodingParameters`, the members set by
`processGenericRefinementRegion` (the arithmetic decoder statistics apart). -/
structure PDFJBIG2BitmapRefinementDecodingParameters where
  GRTEMPLATE : Nat
  TPGRON : Bool
  GRW : Nat
  GRH : Nat
  GRAT : List (Int × Int)
  GRREFERENCE : PDFJBIG2Bitmap
  GRREFERENCEX : Int
  GRREFERENCEY : Int

/-- The `switch (referredSegments.size())` of `processGenericRefinementRegion`: the
reference bitmap `GRREFERENCE` and the segment store after the lookup. -/
def refinementReference (header : PDFJBIG2SegmentHeader)
    (field : PDFJBIG2RegionSegmentInformationField) (members : PDFJBIG2DecoderMembers) :
    Except PDFException (PDFJBIG2Bitmap × List (Nat × PDFJBIG2Segment)) :=
  match header.m_referredSegments with
  | [] =>
    if field.operation ≠ PDFJBIG2BitOperation.Replace then
      throw PDFException.refinementOperationMustBeReplace
    else
      pure (members.m_pageBitmap.getSubbitmap field.offsetX field.offsetY
        (toInt32 field.width) (toInt32 field.height), members.m_segments)
  | [front] =>
    match getBitmap front true members.m_segments with
    | (.ok bitmap, segments) => pure (bitmap, segments)
    | (.error e, _) => throw e
  | _ => throw (PDFException.refinementInvalidReferredSegments header.m_referredSegments.length)

/-- The test `(flags & 0b11111100) != 0` of `processGenericRefinementRegion`. -/
def refinementFlagsReserved (flags : Nat) : Bool :=
  flags &&& 0b11111100 != 0

/-- The size test of `processGenericRefinementRegion`: the `int` sizes of the reference
are compared with the `uint32_t` sizes of the field, on 32 unsigned bits. -/
def refinementSizeMismatch (GRREFERENCE : PDFJBIG2Bitmap)
    (field : PDFJBIG2RegionSegmentInformationField) : Bool :=
  toUInt32 GRREFERENCE.getWidth != field.width || toUInt32 GRREFERENCE.getHeight != field.height

/-- The adaptive template positions of `processGenericRefinementRegion`: `GRAT = { }`,
replaced by `readATTemplatePixelPositions(2)` if `GRTEMPLATE == 0`. -/
def refinementATPositions (GRTEMPLATE : Nat) (r : PDFBitReader) :
    Except PDFException (List (Int × Int) × PDFBitReader) :=
  if GRTEMPLATE = 0 then readATTemplatePixelPositions 2 r
  else pure (List.replicate 4 (0, 0), r)

/-- `PDFJBIG2Decoder::processGenericRefinementRegion(header)`: the decoder after the call.
`readRefinementBitmap` stands for the reset of the refinement statistics followed by
`readRefinementBitmap(parameters)`, given the parameters and the reader; it returns the
decoded bitmap and the reader it leaves. -/
def processGenericRefinementRegion (MAX_BITMAP_SIZE : Nat)
    (readRefinementBitmap : PDFJBIG2BitmapRefinementDecodingParameters → PDFBitReader →
      Except PDFException (PDFJBIG2Bitmap × PDFBitReader))
    (header : PDFJBIG2SegmentHeader) (d : PDFJBIG2Decoder PDFJBIG2DecoderMembers) :
    Except PDFException (PDFJBIG2Decoder PDFJBIG2DecoderMembers) := do
  let (field, r1) ← readRegionSegmentInformationField MAX_BITMAP_SIZE d.m_reader
  let (flags, r2) ← r1.readUnsignedByte
  if refinementFlagsReserved flags then throw PDFException.refinementInvalidFlags
  else do
    let GRTEMPLATE := flags &&& 0x01
    let TPGRON := flags &&& 0x02 != 0
    let (GRAT, r3) ← refinementATPositions GRTEMPLATE r2
    let (GRREFERENCE, segments) ← refinementReference header field d.m_rest
    if refinementSizeMismatch GRREFERENCE field then
      throw (PDFException.refinementInvalidReferredBitmapSize GRREFERENCE.getWidth
        GRREFERENCE.getHeight field.width field.height)
    else do
      let parameters : PDFJBIG2BitmapRefinementDecodingParameters :=
        { GRTEMPLATE := GRTEMPLATE, TPGRON := TPGRON, GRW := field.width, GRH := field.height,
          GRAT := GRAT, GRREFERENCE := GRREFERENCE, GRREFERENCEX := 0, GRREFERENCEY := 0 }
      let (refinementBitmap, r4) ← readRefinementBitmap parameters r3
      if refinementBitmap.isValid then
        if header.m_immediate then do
          let page ← d.m_rest.m_pageBitmap.paint refinementBitmap field.offsetX field.offsetY
            field.operation d.m_rest.m_pageSizeUndefined d.m_rest.m_pageDefaultPixelValue
          pure { d with
            m_reader := r4
            m_rest := { d.m_rest with m_segments := segments, m_pageBitmap := page } }
        else
          pure { d with
            m_reader := r4
            m_rest := { d.m_rest with
              m_segments := (segmentsAssign segments header.m_segmentNumber
                (PDFJBIG2Segment.bitmap refinementBitmap)) } }
      else throw PDFException.refinementInvalidBitmap

/-! ## Generic region: the span of the coded data -/

/-- Modelled from the spec: `PDFBitReader::getStream` (declared outside the sources), the
byte buffer under the reader (4.1, "cursor over a byte buffer"). -/
def PDFBitReader.getStream (r : PDFBitReader) : List Nat :=
  (List.range (r.data.length / 8)).map (fun i => bitsToNat ((r.data.drop (8 * i)).take 8))

/-- The search of `QByteArray::indexOf(ba)` in the bytes from index `i` on, `stream` being
those bytes: the index of the first occurrence of `ba`, or -1. -/
def indexOfLoop (ba : List Nat) : List Nat → Nat → Int
  | [], _ => -1
  | b :: stream, i =>
    if ba.isPrefixOf (b :: stream) then (i : Int) else indexOfLoop ba stream (i + 1)

/-- `QByteArray::indexOf(ba)` of Qt, called without a start index: the index of the first
occurrence of the byte sequence `ba` in the whole array, searching forward from index 0, or
-1 if there is none. -/
def indexOf (stream ba : List Nat) : Int :=
  indexOfLoop ba stream 0

/-- The block "Determine segment data length" of `processGenericRegion`: the value of
`segmentDataBytes` for the header, the stream under the reader, the positions of the
segment start and of the data start, and the MMR flag.  The difference of the `uint32_t`
length and the `int` header size is taken on 32 bits and converted to `int`. -/
def segmentDataBytes (header : PDFJBIG2SegmentHeader) (stream : List Nat)
    (segmentStartPosition segmentDataStartPosition : Int) (MMR : Bool) :
    Except PDFException Int :=
  let segmentHeaderBytes := segmentDataStartPosition - segmentStartPosition
  if header.isSegmentDataLengthDefined then
    pure (wrapInt32 ((header.m_segmentDataLength : Int) - segmentHeaderBytes))
  else
    let endSequence := if !MMR then [0xFF, 0xAC] else [0x00, 0x00]
    let endPosition := indexOf stream endSequence
    if endPosition = -1 then throw PDFException.endSequenceNotFound
    else
      let endPosition := endPosition + 2
      pure (endPosition - segmentDataStartPosition)

/-- The test `(flags & 0b11110000) != 0` of `processGenericRegion`. -/
def genericFlagsReserved (flags : Nat) : Bool :=
  flags &&& 0b11110000 != 0

/-- `PDFJBIG2Decoder::processGenericRegion(header)` up to the computation of the coded data
span: the region information field, the data start position `segmentDataStartPosition` and
the byte count `segmentDataBytes` handed to `mid` and `skipBytes`. -/
def genericRegionDataSpan (MAX_BITMAP_SIZE : Nat) (header : PDFJBIG2SegmentHeader)
    (m_reader : PDFBitReader) :
    Except PDFException (PDFJBIG2RegionSegmentInformationField × Int × Int) := do
  let segmentStartPosition := m_reader.getPosition
  let (field, r1) ← readRegionSegmentInformationField MAX_BITMAP_SIZE m_reader
  let (flags, r2) ← r1.readUnsignedByte
  let MMR := flags &&& 0b0001 != 0
  let GBTEMPLATE := (flags >>> 1) &&& 0b0011
  if genericFlagsReserved flags then throw PDFException.malformedGenericRegionFlags
  else do
    let (_ATXY, r3) ←
      if !MMR then readATTemplatePixelPositions (if GBTEMPLATE = 0 then 4 else 1) r2
      else pure (List.replicate 4 (0, 0), r2)
    let segmentDataStartPosition := r3.getPosition
    let bytes ← segmentDataBytes header r3.getStream segmentStartPosition
      segmentDataStartPosition MMR
    pure (field, segmentDataStartPosition, bytes)

/-- The index of the first occurrence of `ba` in `stream` at or after the index `start`, or
-1: the end marker as the specification places it. -/
def indexOfFrom (stream ba : List Nat) (start : Nat) : Int :=
  indexOfLoop ba (stream.drop start) start

/-! ## Symbol dictionary: export flags -/

/-- `PDFJBIG2StandardHuffmanTable_A`, the table of the `EXRUNLENGTH_Decoder`. -/
def PDFJBIG2StandardHuffmanTable_A : List PDFJBIG2HuffmanTableEntry :=
  [ { value := 0, prefixBitLength := 1, rangeBitLength := 4, prefixCode := 0b0,
      type := HuffmanEntryType.Standard },
    { value := 16, prefixBitLength := 2, rangeBitLength := 8, prefixCode := 0b10,
      type := HuffmanEntryType.Standard },
    { value := 272, prefixBitLength := 3, rangeBitLength := 16, prefixCode := 0b110,
      type := HuffmanEntryType.Standard },
    { value := 65808, prefixBitLength := 3, rangeBitLength := 32, prefixCode := 0b111,
      type := HuffmanEntryType.Standard } ]

/-- `PDFJBIG2Decoder::checkInteger(value)`. -/
def checkInteger (value : Option Int) : Except PDFException Int :=
  match value with
  | some v => pure v
  | none => throw PDFException.cantReadInteger

/-- The integer source of the export run lengths when `SDHUFF` is set:
`EXRUNLENGTH_Decoder.readSignedInteger()` on the reader. -/
def huffmanExportRun (m_reader : PDFBitReader) :
    Except PDFException (Option Int × PDFBitReader) :=
  PDFJBIG2HuffmanDecoder.readSignedInteger
    { m_reader := m_reader, m_entries := PDFJBIG2StandardHuffmanTable_A }

/-- The integer source of the export run lengths when `SDHUFF` is not set:
`decoder.getSignedInteger(&IAEX)`, which does not throw. -/
def arithmeticExportRun (decoder : PDFJBIG2ArithmeticDecoder) :
    Except PDFException (Option Int × PDFJBIG2ArithmeticDecoder) :=
  pure decoder.getSignedInteger

/-- The loop `while (EXFLAGS.size() < symbolsSize)` of `processSymbolDictionary`, run for at
most `fuel` iterations (`none`: the iterations did not suffice).  `readInteger` is the
integer source on its state (the reader or the arithmetic decoder); the decoded integer
goes through `checkInteger` and is converted to `uint32_t`. -/
def exportFlagsLoop {σ : Type} (readInteger : σ → Except PDFException (Option Int × σ))
    (symbolsSize : Nat) : Nat → σ → List Bool → Bool →
      Option (Except PDFException (List Bool × σ))
  | fuel, s, EXFLAGS, CUREXFLAG =>
    if EXFLAGS.length < symbolsSize then
      match fuel with
      | 0 => none
      | fuel + 1 =>
        match readInteger s with
        | .error e => some (.error e)
        | .ok (value, s1) =>
          match checkInteger value with
          | .error e => some (.error e)
          | .ok v =>
            let EXRUNLENGTH := toUInt32 v
            exportFlagsLoop readInteger symbolsSize fuel s1
              (EXFLAGS ++ List.replicate EXRUNLENGTH CUREXFLAG) (!CUREXFLAG)
    else some (.ok (EXFLAGS, s))

/-- One of the loops "Insert input bitmaps" / "Insert output bitmaps" of
`processSymbolDictionary`: for `i` from 0 to `count - 1`, `symbols[i]` is pushed to
`bitmaps` if `EXFLAGS[i + offset]` is set. -/
def insertExported (EXFLAGS : List Bool) (symbols : List PDFJBIG2Bitmap) (offset count : Nat)
    (bitmaps : List PDFJBIG2Bitmap) : List PDFJBIG2Bitmap :=
  (List.range count).foldl (fun bitmaps i =>
    if EXFLAGS.getD (i + offset) false then bitmaps ++ [symbols.getD i ⟨0, 0, []⟩]
    else bitmaps) bitmaps

/-- The export step (6.5.5 step 5) of `processSymbolDictionary`: the export flags are
decoded, then the imported symbols `SDINSYMS` and the new symbols `SDNEWSYMS` whose flag is
set are collected; `SDNUMINSYMS` is the size of `SDINSYMS`, and both `NSYMSDECODED` and the
size of `SDNEWSYMS` are `SDNUMNEWSYMS` when the step is reached.  The result is the
`bitmaps` stored in the symbol dictionary and the state of the integer source. -/
def exportSymbols {σ : Type} (readInteger : σ → Except PDFException (Option Int × σ))
    (SDINSYMS SDNEWSYMS : List PDFJBIG2Bitmap) (fuel : Nat) (s : σ) :
    Option (Except PDFException (List PDFJBIG2Bitmap × σ)) :=
  let SDNUMINSYMS := SDINSYMS.length
  let NSYMSDECODED := SDNEWSYMS.length
  let symbolsSize := SDNUMINSYMS + SDNEWSYMS.length
  match exportFlagsLoop readInteger symbolsSize fuel s [] false with
  | none => none
  | some (.error e) => some (.error e)
  | some (.ok (EXFLAGS, s1)) =>
    let bitmaps := insertExported EXFLAGS SDINSYMS 0 SDNUMINSYMS []
    let bitmaps := insertExported EXFLAGS SDNEWSYMS SDNUMINSYMS NSYMSDECODED bitmaps
    some (.ok (bitmaps, s1))

/-- The export flags the run lengths `runs` describe: `runs[0]` flags of value `first`,
then `runs[1]` flags of the opposite value, and so on. -/
def flagsOfRuns : List Nat → Bool → List Bool
  | [], _ => []
  | r :: runs, first => List.replicate r first ++ flagsOfRuns runs (!first)

/-- The state of the integer source after it has produced the run lengths `runs` one after
the other from the state `s`, if it does produce them. -/
def runsDecoded {σ : Type} (readInteger : σ → Except PDFException (Option Int × σ)) :
    List Nat → σ → Option σ
  | [], s => some s
  | r :: runs, s =>
    match readInteger s with
    | .ok (some v, s1) => if toUInt32 v = r then runsDecoded readInteger runs s1 else none
    | _ => none

/-- The position `i` falls inside an odd-numbered run of `runs` (runs numbered from 0): the
runs before run `j` cover fewer than `i + 1` positions and those up to run `j` more than
`i`, for an odd `j`. -/
def inIncludeRun (runs : List Nat) (i : Nat) : Bool :=
  decide (∃ j, j < runs.length ∧
    (j % 2 = 1 ∧ (runs.take j).sum ≤ i ∧ i < (runs.take (j + 1)).sum))

/-- The sub-list of `symbols`, in order, of the elements whose position, counted from
`offset`, satisfies `p`. -/
def selectPositions {α : Type} (p : Nat → Bool) : Nat → List α → List α
  | _, [] => []
  | offset, a :: symbols =>
    if p offset then a :: selectPositions p (offset + 1) symbols
    else selectPositions p (offset + 1) symbols

/-- A JBIG2 stream of one segment: the header of segment 0 (four zero bytes), type 38
(immediate generic region), no referred segment, page 1, data length 0xFFFFFFFF
("unknown"); then the region information field of a 1 x 1 region at (0, 0) with operator
Or, the generic region flags byte 0x01 (MMR), and the coded data 0x12 0x34 followed by the
end marker 0x00 0x00.  The coded data starts at byte 29 and the marker at byte 31. -/
def unknownLengthStream : List Nat :=
  [0, 0, 0, 0, 0x26, 0, 1, 0xFF, 0xFF, 0xFF, 0xFF,
   0, 0, 0, 1, 0, 0, 0, 1, 0, 0, 0, 0, 0, 0, 0, 0, 0,
   0x01,
   0x12, 0x34, 0x00, 0x00]

/-! ## Contexts of the integer decoding procedure -/

/-- The contexts `PREV` passed to `readBit` while one integer is decoded, as the
specification describes them: the first is 1, every value is in 1..511, and a value of at
least 256 is followed only by values of at least 256. -/
def IntegerContexts (l : List Nat) : Prop :=
  l.head? = some 1 ∧ (∀ c ∈ l, 1 ≤ c ∧ c < 512) ∧
    l.Pairwise (fun a b => 256 ≤ a → 256 ≤ b)

/-- The contexts recorded since `c0` and the current `PREV` form the start of the contexts
of one integer, at least one call having been made. -/
def IntTrace (c0 : List Nat) (s : IntDecodeState) : Prop :=
  ∃ l, l ≠ [] ∧ s.decoder.contexts = c0 ++ l ∧ IntegerContexts (l ++ [s.PREV])

/-! ## Extension segment -/

/-- The test `extensionHeader & 0x8000000` of `processExtension`. -/
def extensionNecessary (extensionHeader : Nat) : Bool :=
  extensionHeader &&& 0x8000000 != 0

/-- The byte count `header.getSegmentDataLength() - 4` of `processExtension`, taken on 32
unsigned bits. -/
def extensionSkipCount (header : PDFJBIG2SegmentHeader) : Nat :=
  (header.m_segmentDataLength + 2 ^ 32 - 4) % 2 ^ 32

/-- The value `extensionCode = extensionHeader & 0x3FFFFFFF` of `processExtension`. -/
def extensionCode (extensionHeader : Nat) : Nat :=
  extensionHeader &&& 0x3FFFFFFF

/-- `PDFJBIG2Decoder::processExtension(header)`: the decoder after the call. -/
def processExtension {σ : Type} (header : PDFJBIG2SegmentHeader) (d : PDFJBIG2Decoder σ) :
    Except PDFException (PDFJBIG2Decoder σ) := do
  let (extensionHeader, r1) ← d.m_reader.readUnsignedInt
  if extensionNecessary extensionHeader then
    throw (PDFException.unknownNecessaryExtension (extensionCode extensionHeader))
  else if header.isSegmentDataLengthDefined then do
    let r2 ← r1.skipBytes (extensionSkipCount header)
    pure { d with m_reader := r2 }
  else throw PDFException.extensionLengthUndefined

/-! ## Generic region decoding: contexts -/

/-- The typical prediction context `LTPContext` of `readBitmap`: 0, replaced by the binary
literal of the `switch (parameters.GBTEMPLATE)` when `TPGDON` is set. -/
def genericLTPContext ( TPGDON : Bool) (GBTEMPLATE : Nat) : Nat :=
  if TPGDON then
    match GBTEMPLATE with
    | 0 => 0b1010010011011001
    | 1 => 0b0011110010101
    | 2 => 0b0011100101
    | 3 => 0b0110010101
    | _ => 0
  else 0

/-- The hexadecimal value written in the comment beside each literal of the
`switch (parameters.GBTEMPLATE)` of `readBitmap`. -/
def documentedLTPContext (GBTEMPLATE : Nat) : Nat :=
  match GBTEMPLATE with
  | 0 => 0x9B25
  | 1 => 0x0795
  | 2 => 0x00E5
  | 3 => 0x0195
  | _ => 0

/-- The typical prediction context `LTPContext` of `readRefinementBitmap`. -/
def refinementLTPContext (GRTEMPLATE : Nat) : Nat :=
  if GRTEMPLATE = 0 then 0b0000100000000 else 0b0010000000

/-- Lambda `createContextBit` of `readBitmap` and `readRefinementBitmap`, given the pixel
`getPixelSafe(offsetX, offsetY)` it reads: the state is the pair (`pixelContext`,
`pixelContextShift`), both `uint16_t`. -/
def createContextBit (pixel : Nat) (ctx : Nat × Nat) : Nat × Nat :=
  let bit := if pixel ≠ 0 then 1 else 0
  let bit := (bit <<< ctx.2) % 2 ^ 16
  (ctx.1 ||| bit, (ctx.2 + 1) % 2 ^ 16)

/-- The context after `createContextBit` has been called on the given pixels, in order,
from `pixelContext = 0`, `pixelContextShift = 0`. -/
def pixelContextOf (pixels : List Nat) : Nat × Nat :=
  pixels.foldl (fun ctx pixel => createContextBit pixel ctx) (0, 0)

/-- The `i`-th adaptive template position, an array element of `PDFJBIG2ATPositions`. -/
def atPosition (positions : List (Int × Int)) (i : Nat) : Int × Int :=
  positions.getD i (0, 0)

/-- The pixels `createContextBit` is called on by the `switch (parameters.GBTEMPLATE)` of
`readBitmap` for the pixel `(x, y)`, in the order of the calls. -/
def genericContextPixels (GBTEMPLATE : Nat) ( ATXY : List (Int × Int)) (bitmap : PDFJBIG2Bitmap)
    (x y : Int) : List Nat :=
  match GBTEMPLATE with
  | 0 =>
    [ bitmap.getPixelSafe (x - 1) y, bitmap.getPixelSafe (x - 2) y,
      bitmap.getPixelSafe (x - 3) y, bitmap.getPixelSafe (x - 4) y,
      bitmap.getPixelSafe (x + (atPosition ATXY 0).1) (y + (atPosition ATXY 0).2),
      bitmap.getPixelSafe (x + 2) (y - 1), bitmap.getPixelSafe (x + 1) (y - 1),
      bitmap.getPixelSafe (x + 0) (y - 1), bitmap.getPixelSafe (x - 1) (y - 1),
      bitmap.getPixelSafe (x - 2) (y - 1),
      bitmap.getPixelSafe (x + (atPosition ATXY 1).1) (y + (atPosition ATXY 1).2),
      bitmap.getPixelSafe (x + (atPosition ATXY 2).1) (y + (atPosition ATXY 2).2),
      bitmap.getPixelSafe (x + 1) (y - 2), bitmap.getPixelSafe (x + 0) (y - 2),
      bitmap.getPixelSafe (x - 1) (y - 2),
      bitmap.getPixelSafe (x + (atPosition ATXY 3).1) (y + (atPosition ATXY 3).2) ]
  | 1 =>
    [ bitmap.getPixelSafe (x - 1) y, bitmap.getPixelSafe (x - 2) y,
      bitmap.getPixelSafe (x - 3) y,
      bitmap.getPixelSafe (x + (atPosition ATXY 0).1) (y + (atPosition ATXY 0).2),
      bitmap.getPixelSafe (x + 2) (y - 1), bitmap.getPixelSafe (x + 1) (y - 1),
      bitmap.getPixelSafe (x + 0) (y - 1), bitmap.getPixelSafe (x - 1) (y - 1),
      bitmap.getPixelSafe (x - 2) (y - 1),
      bitmap.getPixelSafe (x + 2) (y - 2), bitmap.getPixelSafe (x + 1) (y - 2),
      bitmap.getPixelSafe (x + 0) (y - 2), bitmap.getPixelSafe (x - 1) (y - 2) ]
  | 2 =>
    [ bitmap.getPixelSafe (x - 1) y, bitmap.getPixelSafe (x - 2) y,
      bitmap.getPixelSafe (x + (atPosition ATXY 0).1) (y + (atPosition ATXY 0).2),
      bitmap.getPixelSafe (x + 1) (y - 1), bitmap.getPixelSafe (x + 0) (y - 1),
      bitmap.getPixelSafe (x - 1) (y - 1), bitmap.getPixelSafe (x - 2) (y - 1),
      bitmap.getPixelSafe (x + 1) (y - 2), bitmap.getPixelSafe (x + 0) (y - 2),
      bitmap.getPixelSafe (x - 1) (y - 2) ]
  | 3 =>
    [ bitmap.getPixelSafe (x - 1) y, bitmap.getPixelSafe (x - 2) y,
      bitmap.getPixelSafe (x - 3) y, bitmap.getPixelSafe (x - 4) y,
      bitmap.getPixelSafe (x + (atPosition ATXY 0).1) (y + (atPosition ATXY 0).2),
      bitmap.getPixelSafe (x + 1) (y - 1), bitmap.getPixelSafe (x + 0) (y - 1),
      bitmap.getPixelSafe (x - 1) (y - 1), bitmap.getPixelSafe (x - 2) (y - 1),
      bitmap.getPixelSafe (x - 3) (y - 1) ]
  | _ => []

/-- The `pixelContext` that `readBitmap` passes to `readBit` for the pixel `(x, y)`. -/
def genericPixelContext (GBTEMPLATE : Nat) ( ATXY : List (Int × Int)) (bitmap : PDFJBIG2Bitmap)
    (x y : Int) : Nat :=
  (pixelContextOf (genericContextPixels GBTEMPLATE ATXY bitmap x y)).1

/-- The pixels `createContextBit` is called on by lambda `createContext(x, y)` of
`readRefinementBitmap`, in the order of the calls; `GRREG` is the bitmap being decoded. -/
def refinementContextPixels (GRTEMPLATE : Nat) ( GRAT : List (Int × Int))
    ( GRREG GRREFERENCE : PDFJBIG2Bitmap) ( GRREFERENCEX GRREFERENCEY : Int) (x y : Int) :
    List Nat :=
  let refX := x - GRREFERENCEX
  let refY := y - GRREFERENCEY
  if GRTEMPLATE = 0 then
    [ GRREG.getPixelSafe (x - 1) y, GRREG.getPixelSafe (x + 1) (y - 1),
      GRREG.getPixelSafe (x + 0) (y - 1),
      GRREG.getPixelSafe (x + (atPosition GRAT 0).1) (y + (atPosition GRAT 0).2),
      GRREFERENCE.getPixelSafe (refX + 1) (refY + 1),
      GRREFERENCE.getPixelSafe (refX + 0) (refY + 1),
      GRREFERENCE.getPixelSafe (refX - 1) (refY + 1),
      GRREFERENCE.getPixelSafe (refX + 1) (refY + 0),
      GRREFERENCE.getPixelSafe (refX + 0) (refY + 0),
      GRREFERENCE.getPixelSafe (refX - 1) (refY + 0),
      GRREFERENCE.getPixelSafe (refX + 1) (refY - 1),
      GRREFERENCE.getPixelSafe (refX + 0) (refY - 1),
      GRREFERENCE.getPixelSafe (refX + (atPosition GRAT 1).1) (refY + (atPosition GRAT 1).2) ]
  else
    [ GRREG.getPixelSafe (x - 1) y, GRREG.getPixelSafe (x + 1) (y - 1),
      GRREG.getPixelSafe (x + 0) (y - 1), GRREG.getPixelSafe (x - 1) (y - 1),
      GRREFERENCE.getPixelSafe (refX + 1) (refY + 1),
      GRREFERENCE.getPixelSafe (refX + 0) (refY + 1),
      GRREFERENCE.getPixelSafe (refX + 1) (refY + 0),
      GRREFERENCE.getPixelSafe (refX + 0) (refY + 0),
      GRREFERENCE.getPixelSafe (refX - 1) (refY + 0),
      GRREFERENCE.getPixelSafe (refX + 0) (refY - 1) ]

/-- Lambda `createContext(x, y)` of `readRefinementBitmap`. -/
def refinementPixelContext (GRTEMPLATE : Nat) ( GRAT : List (Int × Int))
    ( GRREG GRREFERENCE : PDFJBIG2Bitmap) ( GRREFERENCEX GRREFERENCEY : Int) (x y : Int) : Nat :=
  (pixelContextOf (refinementContextPixels GRTEMPLATE GRAT GRREG GRREFERENCE GRREFERENCEX
    GRREFERENCEY x y)).1

/-- The `switch (templateMode)` of `resetArithmeticStatesGeneric`: the number of context
bits the generic statistics are reset to. -/
def genericStateBits (templateMode : Nat) : Nat :=
  match templateMode with
  | 0 => 16
  | 1 => 13
  | 2 => 10
  | 3 => 10
  | _ => 0

/-- The `switch (templateMode)` of `resetArithmeticStatesGenericRefinement`. -/
def refinementStateBits (templateMode : Nat) : Nat :=
  match templateMode with
  | 0 => 13
  | 1 => 10
  | _ => 0

/-- Modelled from the spec: `PDFJBIG2ArithmeticDecoderState` (declared outside the
sources), the adaptive state of the arithmetic decoder (4.2): for each context the row of
the probability table and the more probable symbol. -/
structure PDFJBIG2ArithmeticDecoderState where
  m_state : List (Nat × Nat)
  deriving DecidableEq, Repr

/-- Modelled from the spec: `PDFJBIG2ArithmeticDecoderState::reset(bits)`: `2 ^ bits`
contexts, each at row 0 with more probable symbol 0. -/
def PDFJBIG2ArithmeticDecoderState.reset (bits : Nat) : PDFJBIG2ArithmeticDecoderState :=
  { m_state := List.replicate (2 ^ bits) (0, 0) }

/-- Modelled from the spec: `PDFJBIG2ArithmeticDecoderState::getQeRowIndex(context)`. -/
def PDFJBIG2ArithmeticDecoderState.getQeRowIndex (state : PDFJBIG2ArithmeticDecoderState)
    (context : Nat) : Nat :=
  (state.m_state.getD context (0, 0)).1

/-- Modelled from the spec: `PDFJBIG2ArithmeticDecoderState::getMPS(context)`. -/
def PDFJBIG2ArithmeticDecoderState.getMPS (state : PDFJBIG2ArithmeticDecoderState)
    (context : Nat) : Nat :=
  (state.m_state.getD context (0, 0)).2

/-- Modelled from the spec:
`PDFJBIG2ArithmeticDecoderState::setQeRowIndexAndMPS(context, QeRowIndex, MPS)`. -/
def PDFJBIG2ArithmeticDecoderState.setQeRowIndexAndMPS
    (state : PDFJBIG2ArithmeticDecoderState) (context QeRowIndex MPS : Nat) :
    PDFJBIG2ArithmeticDecoderState :=
  { m_state := state.m_state.set context (QeRowIndex, MPS) }


/-! ## Huffman code tables: counting and the canonical recurrence -/

/-- The number of entries of prefix bit length `L` that are left once the entries of length
zero are dropped. -/
def lengthCount (entries : List PDFJBIG2HuffmanTableEntry) (L : Nat) : Nat :=
  (entries.filter (fun entry => !(entry.prefixBitLength == 0))).countP
    (fun entry => entry.prefixBitLength == L)

/-- The canonical recurrence as the specification states it, after an entry of length
`previousLength` and prefix `previousPrefix`: each entry gets the prefix of the entry
before it plus 1, shifted left by the difference of the two lengths; no width is imposed
on the prefixes. -/
def canonicalPrefixes : List PDFJBIG2HuffmanTableEntry → Nat → Nat → List Nat
  | [], _, _ => []
  | entry :: rest, previousLength, previousPrefix =>
    let assigned := (previousPrefix + 1) <<< (entry.prefixBitLength - previousLength)
    assigned :: canonicalPrefixes rest entry.prefixBitLength assigned

/-- The prefixes that the canonical recurrence of the specification gives to a sorted list
of entries: 0 for the first entry, then `canonicalPrefixes`. -/
def specPrefixes (sorted : List PDFJBIG2HuffmanTableEntry) : List Nat :=
  match sorted with
  | [] => []
  | first :: rest => 0 :: canonicalPrefixes rest first.prefixBitLength 0

/-! ## Standard Huffman tables -/

/-- `PDFJBIG2StandardHuffmanTable_B`: base value, prefix bit length, range bit length,
prefix and type of each entry, in the order of the array. -/
def PDFJBIG2StandardHuffmanTable_B : List PDFJBIG2HuffmanTableEntry :=
  [ ⟨0, 1, 0, 0b0, HuffmanEntryType.Standard⟩,
    ⟨1, 2, 0, 0b10, HuffmanEntryType.Standard⟩,
    ⟨2, 3, 0, 0b110, HuffmanEntryType.Standard⟩,
    ⟨3, 4, 3, 0b1110, HuffmanEntryType.Standard⟩,
    ⟨11, 5, 6, 0b11110, HuffmanEntryType.Standard⟩,
    ⟨0, 6, 0, 0b111111, HuffmanEntryType.OutOfBand⟩,
    ⟨75, 6, 32, 0b111110, HuffmanEntryType.Standard⟩ ]

/-- `PDFJBIG2StandardHuffmanTable_C`: base value, prefix bit length, range bit length,
prefix and type of each entry, in the order of the array. -/
def PDFJBIG2StandardHuffmanTable_C : List PDFJBIG2HuffmanTableEntry :=
  [ ⟨0, 1, 0, 0b0, HuffmanEntryType.Standard⟩,
    ⟨1, 2, 0, 0b10, HuffmanEntryType.Standard⟩,
    ⟨2, 3, 0, 0b110, HuffmanEntryType.Standard⟩,
    ⟨3, 4, 3, 0b1110, HuffmanEntryType.Standard⟩,
    ⟨11, 5, 6, 0b11110, HuffmanEntryType.Standard⟩,
    ⟨0, 6, 0, 0b111110, HuffmanEntryType.OutOfBand⟩,
    ⟨75, 7, 32, 0b1111110, HuffmanEntryType.Standard⟩,
    ⟨-257, 8, 32, 0b11111111, HuffmanEntryType.Negative⟩,
    ⟨-256, 8, 8, 0b11111110, HuffmanEntryType.Standard⟩ ]

/-- `PDFJBIG2StandardHuffmanTable_D`: base value, prefix bit length, range bit length,
prefix and type of each entry, in the order of the array. -/
def PDFJBIG2StandardHuffmanTable_D : List PDFJBIG2HuffmanTableEntry :=
  [ ⟨1, 1, 0, 0b0, HuffmanEntryType.Standard⟩,
    ⟨2, 2, 0, 0b10, HuffmanEntryType.Standard⟩,
    ⟨3, 3, 0, 0b110, HuffmanEntryType.Standard⟩,
    ⟨4, 4, 3, 0b1110, HuffmanEntryType.Standard⟩,
    ⟨12, 5, 6, 0b11110, HuffmanEntryType.Standard⟩,
    ⟨76, 5, 32, 0b11111, HuffmanEntryType.Standard⟩ ]

/-- `PDFJBIG2StandardHuffmanTable_E`: base value, prefix bit length, range bit length,
prefix and type of each entry, in the order of the array. -/
def PDFJBIG2StandardHuffmanTable_E : List PDFJBIG2HuffmanTableEntry :=
  [ ⟨1, 1, 0, 0b0, HuffmanEntryType.Standard⟩,
    ⟨2, 2, 0, 0b10, HuffmanEntryType.Standard⟩,
    ⟨3, 3, 0, 0b110, HuffmanEntryType.Standard⟩,
    ⟨4, 4, 3, 0b1110, HuffmanEntryType.Standard⟩,
    ⟨12, 5, 6, 0b11110, HuffmanEntryType.Standard⟩,
    ⟨76, 6, 32, 0b111110, HuffmanEntryType.Standard⟩,
    ⟨-256, 7, 32, 0b1111111, HuffmanEntryType.Negative⟩,
    ⟨-255, 7, 8, 0b1111110, HuffmanEntryType.Standard⟩ ]

/-- `PDFJBIG2StandardHuffmanTable_F`: base value, prefix bit length, range bit length,
prefix and type of each entry, in the order of the array. -/
def PDFJBIG2StandardHuffmanTable_F : List PDFJBIG2HuffmanTableEntry :=
  [ ⟨0, 2, 7, 0b00, HuffmanEntryType.Standard⟩,
    ⟨128, 3, 7, 0b010, HuffmanEntryType.Standard⟩,
    ⟨256, 3, 8, 0b011, HuffmanEntryType.Standard⟩,
    ⟨-1024, 4, 9, 0b1000, HuffmanEntryType.Standard⟩,
    ⟨-512, 4, 8, 0b1001, HuffmanEntryType.Standard⟩,
    ⟨-256, 4, 7, 0b1010, HuffmanEntryType.Standard⟩,
    ⟨-32, 4, 5, 0b1011, HuffmanEntryType.Standard⟩,
    ⟨512, 4, 9, 0b1100, HuffmanEntryType.Standard⟩,
    ⟨1024, 4, 10, 0b1101, HuffmanEntryType.Standard⟩,
    ⟨-2048, 5, 10, 0b11100, HuffmanEntryType.Standard⟩,
    ⟨-128, 5, 6, 0b11101, HuffmanEntryType.Standard⟩,
    ⟨-64, 5, 5, 0b11110, HuffmanEntryType.Standard⟩,
    ⟨-2049, 6, 32, 0b111110, HuffmanEntryType.Negative⟩,
    ⟨2048, 6, 32, 0b111111, HuffmanEntryType.Standard⟩ ]

/-- `PDFJBIG2StandardHuffmanTable_G`: base value, prefix bit length, range bit length,
prefix and type of each entry, in the order of the array. -/
def PDFJBIG2StandardHuffmanTable_G : List PDFJBIG2HuffmanTableEntry :=
  [ ⟨-512, 3, 8, 0b000, HuffmanEntryType.Standard⟩,
    ⟨256, 3, 8, 0b001, HuffmanEntryType.Standard⟩,
    ⟨512, 3, 9, 0b010, HuffmanEntryType.Standard⟩,
    ⟨1024, 3, 10, 0b011, HuffmanEntryType.Standard⟩,
    ⟨-1024, 4, 9, 0b1000, HuffmanEntryType.Standard⟩,
    ⟨-256, 4, 7, 0b1001, HuffmanEntryType.Standard⟩,
    ⟨-32, 4, 5, 0b1010, HuffmanEntryType.Standard⟩,
    ⟨0, 4, 5, 0b1011, HuffmanEntryType.Standard⟩,
    ⟨128, 4, 7, 0b1100, HuffmanEntryType.Standard⟩,
    ⟨-1025, 5, 32, 0b11110, HuffmanEntryType.Negative⟩,
    ⟨-128, 5, 6, 0b11010, HuffmanEntryType.Standard⟩,
    ⟨-64, 5, 5, 0b11011, HuffmanEntryType.Standard⟩,
    ⟨32, 5, 5, 0b11100, HuffmanEntryType.Standard⟩,
    ⟨64, 5, 6, 0b11101, HuffmanEntryType.Standard⟩,
    ⟨2048, 5, 32, 0b11111, HuffmanEntryType.Standard⟩ ]

/-- `PDFJBIG2StandardHuffmanTable_H`: base value, prefix bit length, range bit length,
prefix and type of each entry, in the order of the array. -/
def PDFJBIG2StandardHuffmanTable_H : List PDFJBIG2HuffmanTableEntry :=
  [ ⟨0, 2, 1, 0b00, HuffmanEntryType.Standard⟩,
    ⟨0, 2, 0, 0b01, HuffmanEntryType.OutOfBand⟩,
    ⟨4, 3, 4, 0b100, HuffmanEntryType.Standard⟩,
    ⟨-1, 4, 0, 0b1010, HuffmanEntryType.Standard⟩,
    ⟨22, 4, 4, 0b1011, HuffmanEntryType.Standard⟩,
    ⟨38, 4, 5, 0b1100, HuffmanEntryType.Standard⟩,
    ⟨2, 5, 0, 0b11010, HuffmanEntryType.Standard⟩,
    ⟨70, 5, 6, 0b11011, HuffmanEntryType.Standard⟩,
    ⟨134, 5, 7, 0b11100, HuffmanEntryType.Standard⟩,
    ⟨3, 6, 0, 0b111010, HuffmanEntryType.Standard⟩,
    ⟨20, 6, 1, 0b111011, HuffmanEntryType.Standard⟩,
    ⟨262, 6, 7, 0b111100, HuffmanEntryType.Standard⟩,
    ⟨646, 6, 10, 0b111101, HuffmanEntryType.Standard⟩,
    ⟨-2, 7, 0, 0b1111100, HuffmanEntryType.Standard⟩,
    ⟨390, 7, 8, 0b1111101, HuffmanEntryType.Standard⟩,
    ⟨-15, 8, 3, 0b11111100, HuffmanEntryType.Standard⟩,
    ⟨-5, 8, 1, 0b11111101, HuffmanEntryType.Standard⟩,
    ⟨-16, 9, 32, 0b111111110, HuffmanEntryType.Negative⟩,
    ⟨-7, 9, 1, 0b111111100, HuffmanEntryType.Standard⟩,
    ⟨-3, 9, 0, 0b111111101, HuffmanEntryType.Standard⟩,
    ⟨1670, 9, 32, 0b111111111, HuffmanEntryType.Standard⟩ ]

/-- `PDFJBIG2StandardHuffmanTable_I`: base value, prefix bit length, range bit length,
prefix and type of each entry, in the order of the array. -/
def PDFJBIG2StandardHuffmanTable_I : List PDFJBIG2HuffmanTableEntry :=
  [ ⟨0, 2, 0, 0b00, HuffmanEntryType.OutOfBand⟩,
    ⟨-1, 3, 1, 0b010, HuffmanEntryType.Standard⟩,
    ⟨1, 3, 1, 0b011, HuffmanEntryType.Standard⟩,
    ⟨7, 3, 5, 0b100, HuffmanEntryType.Standard⟩,
    ⟨-3, 4, 1, 0b1010, HuffmanEntryType.Standard⟩,
    ⟨43, 4, 5, 0b1011, HuffmanEntryType.Standard⟩,
    ⟨75, 4, 6, 0b1100, HuffmanEntryType.Standard⟩,
    ⟨3, 5, 1, 0b11010, HuffmanEntryType.Standard⟩,
    ⟨139, 5, 7, 0b11011, HuffmanEntryType.Standard⟩,
    ⟨267, 5, 8, 0b11100, HuffmanEntryType.Standard⟩,
    ⟨5, 6, 1, 0b111010, HuffmanEntryType.Standard⟩,
    ⟨39, 6, 2, 0b111011, HuffmanEntryType.Standard⟩,
    ⟨523, 6, 8, 0b111100, HuffmanEntryType.Standard⟩,
    ⟨1291, 6, 11, 0b111101, HuffmanEntryType.Standard⟩,
    ⟨-5, 7, 1, 0b1111100, HuffmanEntryType.Standard⟩,
    ⟨779, 7, 9, 0b1111101, HuffmanEntryType.Standard⟩,
    ⟨-31, 8, 4, 0b11111100, HuffmanEntryType.Standard⟩,
    ⟨-11, 8, 2, 0b11111101, HuffmanEntryType.Standard⟩,
    ⟨-32, 9, 32, 0b111111110, HuffmanEntryType.Negative⟩,
    ⟨-15, 9, 2, 0b111111100, HuffmanEntryType.Standard⟩,
    ⟨-7, 9, 1, 0b111111101, HuffmanEntryType.Standard⟩,
    ⟨3339, 9, 32, 0b111111111, HuffmanEntryType.Standard⟩ ]

/-- `PDFJBIG2StandardHuffmanTable_J`: base value, prefix bit length, range bit length,
prefix and type of each entry, in the order of the array. -/
def PDFJBIG2StandardHuffmanTable_J : List PDFJBIG2HuffmanTableEntry :=
  [ ⟨-2, 2, 2, 0b00, HuffmanEntryType.Standard⟩,
    ⟨0, 2, 0, 0b10, HuffmanEntryType.OutOfBand⟩,
    ⟨6, 2, 6, 0b01, HuffmanEntryType.Standard⟩,
    ⟨-3, 5, 0, 0b11000, HuffmanEntryType.Standard⟩,
    ⟨2, 5, 0, 0b11001, HuffmanEntryType.Standard⟩,
    ⟨70, 5, 5, 0b11010, HuffmanEntryType.Standard⟩,
    ⟨3, 6, 0, 0b110110, HuffmanEntryType.Standard⟩,
    ⟨102, 6, 5, 0b110111, HuffmanEntryType.Standard⟩,
    ⟨134, 6, 6, 0b111000, HuffmanEntryType.Standard⟩,
    ⟨198, 6, 7, 0b111001, HuffmanEntryType.Standard⟩,
    ⟨326, 6, 8, 0b111010, HuffmanEntryType.Standard⟩,
    ⟨582, 6, 9, 0b111011, HuffmanEntryType.Standard⟩,
    ⟨1094, 6, 10, 0b111100, HuffmanEntryType.Standard⟩,
    ⟨-21, 7, 4, 0b1111010, HuffmanEntryType.Standard⟩,
    ⟨-4, 7, 0, 0b1111011, HuffmanEntryType.Standard⟩,
    ⟨4, 7, 0, 0b1111100, HuffmanEntryType.Standard⟩,
    ⟨2118, 7, 11, 0b1111101, HuffmanEntryType.Standard⟩,
    ⟨-22, 8, 32, 0b11111110, HuffmanEntryType.Negative⟩,
    ⟨-5, 8, 0, 0b11111100, HuffmanEntryType.Standard⟩,
    ⟨5, 8, 0, 0b11111101, HuffmanEntryType.Standard⟩,
    ⟨4166, 8, 32, 0b11111111, HuffmanEntryType.Standard⟩ ]

/-- `PDFJBIG2StandardHuffmanTable_K`: base value, prefix bit length, range bit length,
prefix and type of each entry, in the order of the array. -/
def PDFJBIG2StandardHuffmanTable_K : List PDFJBIG2HuffmanTableEntry :=
  [ ⟨1, 1, 0, 0b0, HuffmanEntryType.Standard⟩,
    ⟨2, 2, 1, 0b10, HuffmanEntryType.Standard⟩,
    ⟨4, 4, 0, 0b1100, HuffmanEntryType.Standard⟩,
    ⟨5, 4, 1, 0b1101, HuffmanEntryType.Standard⟩,
    ⟨7, 5, 1, 0b11100, HuffmanEntryType.Standard⟩,
    ⟨9, 5, 2, 0b11101, HuffmanEntryType.Standard⟩,
    ⟨13, 6, 2, 0b111100, HuffmanEntryType.Standard⟩,
    ⟨17, 7, 2, 0b1111010, HuffmanEntryType.Standard⟩,
    ⟨21, 7, 3, 0b1111011, HuffmanEntryType.Standard⟩,
    ⟨29, 7, 4, 0b1111100, HuffmanEntryType.Standard⟩,
    ⟨45, 7, 5, 0b1111101, HuffmanEntryType.Standard⟩,
    ⟨77, 7, 6, 0b1111110, HuffmanEntryType.Standard⟩,
    ⟨141, 7, 32, 0b1111111, HuffmanEntryType.Standard⟩ ]

/-- `PDFJBIG2StandardHuffmanTable_L`: base value, prefix bit length, range bit length,
prefix and type of each entry, in the order of the array. -/
def PDFJBIG2StandardHuffmanTable_L : List PDFJBIG2HuffmanTableEntry :=
  [ ⟨1, 1, 0, 0b0, HuffmanEntryType.Standard⟩,
    ⟨2, 2, 0, 0b10, HuffmanEntryType.Standard⟩,
    ⟨3, 3, 1, 0b110, HuffmanEntryType.Standard⟩,
    ⟨5, 5, 0, 0b11100, HuffmanEntryType.Standard⟩,
    ⟨6, 5, 1, 0b11101, HuffmanEntryType.Standard⟩,
    ⟨8, 6, 1, 0b111100, HuffmanEntryType.Standard⟩,
    ⟨10, 7, 0, 0b1111010, HuffmanEntryType.Standard⟩,
    ⟨11, 7, 1, 0b1111011, HuffmanEntryType.Standard⟩,
    ⟨13, 7, 2, 0b1111100, HuffmanEntryType.Standard⟩,
    ⟨17, 7, 3, 0b1111101, HuffmanEntryType.Standard⟩,
    ⟨25, 7, 4, 0b1111110, HuffmanEntryType.Standard⟩,
    ⟨41, 8, 5, 0b11111110, HuffmanEntryType.Standard⟩,
    ⟨73, 8, 32, 0b11111111, HuffmanEntryType.Standard⟩ ]

/-- `PDFJBIG2StandardHuffmanTable_M`: base value, prefix bit length, range bit length,
prefix and type of each entry, in the order of the array. -/
def PDFJBIG2StandardHuffmanTable_M : List PDFJBIG2HuffmanTableEntry :=
  [ ⟨1, 1, 0, 0b0, HuffmanEntryType.Standard⟩,
    ⟨2, 3, 0, 0b100, HuffmanEntryType.Standard⟩,
    ⟨7, 3, 3, 0b101, HuffmanEntryType.Standard⟩,
    ⟨3, 4, 0, 0b1100, HuffmanEntryType.Standard⟩,
    ⟨5, 4, 1, 0b1101, HuffmanEntryType.Standard⟩,
    ⟨4, 5, 0, 0b11100, HuffmanEntryType.Standard⟩,
    ⟨15, 6, 1, 0b111010, HuffmanEntryType.Standard⟩,
    ⟨17, 6, 2, 0b111011, HuffmanEntryType.Standard⟩,
    ⟨21, 6, 3, 0b111100, HuffmanEntryType.Standard⟩,
    ⟨29, 6, 4, 0b111101, HuffmanEntryType.Standard⟩,
    ⟨45, 6, 5, 0b111110, HuffmanEntryType.Standard⟩,
    ⟨77, 7, 6, 0b1111110, HuffmanEntryType.Standard⟩,
    ⟨141, 7, 32, 0b1111111, HuffmanEntryType.Standard⟩ ]

/-- `PDFJBIG2StandardHuffmanTable_N`: base value, prefix bit length, range bit length,
prefix and type of each entry, in the order of the array. -/
def PDFJBIG2StandardHuffmanTable_N : List PDFJBIG2HuffmanTableEntry :=
  [ ⟨0, 1, 0, 0b0, HuffmanEntryType.Standard⟩,
    ⟨-2, 3, 0, 0b100, HuffmanEntryType.Standard⟩,
    ⟨-1, 3, 0, 0b101, HuffmanEntryType.Standard⟩,
    ⟨1, 3, 0, 0b110, HuffmanEntryType.Standard⟩,
    ⟨2, 3, 0, 0b111, HuffmanEntryType.Standard⟩ ]

/-- `PDFJBIG2StandardHuffmanTable_O`: base value, prefix bit length, range bit length,
prefix and type of each entry, in the order of the array. -/
def PDFJBIG2StandardHuffmanTable_O : List PDFJBIG2HuffmanTableEntry :=
  [ ⟨0, 1, 0, 0b0, HuffmanEntryType.Standard⟩,
    ⟨-1, 3, 0, 0b100, HuffmanEntryType.Standard⟩,
    ⟨1, 3, 0, 0b101, HuffmanEntryType.Standard⟩,
    ⟨-2, 4, 0, 0b1100, HuffmanEntryType.Standard⟩,
    ⟨2, 4, 0, 0b1101, HuffmanEntryType.Standard⟩,
    ⟨-4, 5, 1, 0b11100, HuffmanEntryType.Standard⟩,
    ⟨3, 5, 1, 0b11101, HuffmanEntryType.Standard⟩,
    ⟨-8, 6, 2, 0b111100, HuffmanEntryType.Standard⟩,
    ⟨5, 6, 2, 0b111101, HuffmanEntryType.Standard⟩,
    ⟨-25, 7, 32, 0b1111110, HuffmanEntryType.Negative⟩,
    ⟨-24, 7, 4, 0b1111100, HuffmanEntryType.Standard⟩,
    ⟨9, 7, 4, 0b1111101, HuffmanEntryType.Standard⟩,
    ⟨25, 7, 32, 0b1111111, HuffmanEntryType.Standard⟩ ]

/-- The fifteen standard tables, A to O. -/
def standardHuffmanTables : List (List PDFJBIG2HuffmanTableEntry) :=
  [ PDFJBIG2StandardHuffmanTable_A, PDFJBIG2StandardHuffmanTable_B,
    PDFJBIG2StandardHuffmanTable_C, PDFJBIG2StandardHuffmanTable_D,
    PDFJBIG2StandardHuffmanTable_E, PDFJBIG2StandardHuffmanTable_F,
    PDFJBIG2StandardHuffmanTable_G, PDFJBIG2StandardHuffmanTable_H,
    PDFJBIG2StandardHuffmanTable_I, PDFJBIG2StandardHuffmanTable_J,
    PDFJBIG2StandardHuffmanTable_K, PDFJBIG2StandardHuffmanTable_L,
    PDFJBIG2StandardHuffmanTable_M, PDFJBIG2StandardHuffmanTable_N,
    PDFJBIG2StandardHuffmanTable_O ]

/-! ## readSignedInteger as the specification describes it -/

/-- The entry that the walk of the specification selects on the input `bits`: the first
entry, in table order, whose prefix is the value of the first `prefixBitLength` bits. -/
def specMatchingEntry (entries : List PDFJBIG2HuffmanTableEntry) (bits : List Bool) :
    Option PDFJBIG2HuffmanTableEntry :=
  entries.find? (fun e => bitsToNat (bits.take e.prefixBitLength) == e.prefixCode)

/-- The number of bits the specification reads after the prefix of a matched entry: none
for an OutOfBand entry, 32 for a Negative entry, the range length otherwise. -/
def specExtraBits (e : PDFJBIG2HuffmanTableEntry) : Nat :=
  if e.isOutOfBand then 0 else if e.isLowValue then 32 else e.rangeBitLength

/-- The value the specification gives for a matched entry, `extra` being the value of the
bits read after the prefix: no value, the base minus the extra bits, the bare base, or the
base plus the extra bits, all taken in the integers. -/
def specEntryValue (e : PDFJBIG2HuffmanTableEntry) (extra : Nat) : Option Int :=
  if e.isOutOfBand then none
  else if e.isLowValue then some (e.value - extra)
  else if e.rangeBitLength = 0 then some e.value
  else some (e.value + extra)

/-- The number of prefix bits `readSignedInteger` has read once it has walked through all
the entries from a count of `prefixBitCount`. -/
def finalBitCount (entries : List PDFJBIG2HuffmanTableEntry) (prefixBitCount : Nat) : Nat :=
  entries.foldl (fun count e => max count e.prefixBitLength) prefixBitCount

/-- Every value of `width` bits starts with the prefix of some entry of the table: the
first `prefixBitLength` bits of the value are the prefix of the entry. -/
def coversAllInputs (entries : List PDFJBIG2HuffmanTableEntry) (width : Nat) : Bool :=
  (List.range (2 ^ width)).all (fun v =>
    entries.any (fun e => v / 2 ^ (width - e.prefixBitLength) == e.prefixCode))

/-! ## Code table segment -/

/-- The start of `processCodeTables`: the flags byte and the bounds `htLow` and `htHigh`,
and the check `htLow == std::numeric_limits<int32_t>::min()`. -/
def readCodeTableHeader (reader : PDFBitReader) :
    Except PDFException (Nat × Int × Int × PDFBitReader) := do
  let (flags, r1) ← reader.readUnsignedByte
  let (htLow, r2) ← r1.readSignedInt
  let (htHigh, r3) ← r2.readSignedInt
  if htLow = -2 ^ 31 then throw PDFException.lowValueUnderflow
  else pure (flags, htLow, htHigh, r3)

/-- `hasOOB = flags & 0x01` of `processCodeTables`. -/
def codeTableHasOOB (flags : Nat) : Bool :=
  flags &&& 0x01 != 0

/-- `htps = ((flags >> 1) & 0b111) + 1` of `processCodeTables`. -/
def codeTablePrefixSize (flags : Nat) : Nat :=
  ((flags >>> 1) &&& 0b111) + 1

/-- `htrs = ((flags >> 4) & 0b111) + 1` of `processCodeTables`. -/
def codeTableRangeSize (flags : Nat) : Nat :=
  ((flags >>> 4) &&& 0b111) + 1

/-- The body of the loop `while (currentRangeLow < htHigh)` of `processCodeTables`: the entry
pushed to the table, the new `currentRangeLow` and the reader.  The members of the entry
that the body does not assign keep the defaults of the struct (declared outside the sources),
taken as prefix 0 and type Standard.  `currentRangeLow += 1 << entry.rangeBitLength` is an
`int32_t` sum, kept on 32 bits. -/
def readStandardEntry (htps htrs : Nat) (currentRangeLow : Int) (reader : PDFBitReader) :
    Except PDFException (PDFJBIG2HuffmanTableEntry × Int × PDFBitReader) := do
  let (prefixBitLength, r1) ← reader.read htps
  let (rangeBitLength, r2) ← r1.read htrs
  pure ({ value := currentRangeLow, prefixBitLength := prefixBitLength,
          rangeBitLength := rangeBitLength, prefixCode := 0,
          type := HuffmanEntryType.Standard },
    wrapInt32 (currentRangeLow + shiftLeftOne rangeBitLength), r2)

/-- The loop `while (currentRangeLow < htHigh)` of `processCodeTables`, run for at most
`fuel` iterations (`none` when they do not suffice): the table and the reader when the loop
is left, or the exception of a read. -/
def readStandardEntries : Nat → Nat → Nat → Int → Int → PDFBitReader →
    List PDFJBIG2HuffmanTableEntry →
    Option (Except PDFException (List PDFJBIG2HuffmanTableEntry × PDFBitReader))
  | 0, _, _, _, _, _, _ => none
  | fuel + 1, htps, htrs, htHigh, currentRangeLow, reader, table =>
    if currentRangeLow < htHigh then
      match readStandardEntry htps htrs currentRangeLow reader with
      | .error e => some (.error e)
      | .ok (entry, next, r) =>
        readStandardEntries fuel htps htrs htHigh next r (table ++ [entry])
    else some (.ok (table, reader))

/-- The end of `processCodeTables` before the prefixes are built: the lower range entry, the
upper range entry and, when `hasOOB` is set, the out-of-band entry are pushed to the
table. -/
def readCodeTableTail ( hasOOB : Bool) (htps : Nat) (htLow htHigh : Int)
    (table : List PDFJBIG2HuffmanTableEntry) (reader : PDFBitReader) :
    Except PDFException (List PDFJBIG2HuffmanTableEntry × PDFBitReader) := do
  let (lowLength, r1) ← reader.read htps
  let lowEntry : PDFJBIG2HuffmanTableEntry :=
    { value := htLow - 1, prefixBitLength := lowLength, rangeBitLength := 32, prefixCode := 0,
      type := HuffmanEntryType.Negative }
  let (highLength, r2) ← r1.read htps
  let highEntry : PDFJBIG2HuffmanTableEntry :=
    { value := htHigh, prefixBitLength := highLength, rangeBitLength := 32, prefixCode := 0,
      type := HuffmanEntryType.Standard }
  if hasOOB then do
    let (oobLength, r3) ← r2.read htps
    let oobEntry : PDFJBIG2HuffmanTableEntry :=
      { value := 0, prefixBitLength := oobLength, rangeBitLength := 0, prefixCode := 0,
        type := HuffmanEntryType.OutOfBand }
    pure (table ++ [lowEntry, highEntry, oobEntry], r3)
  else pure (table ++ [lowEntry, highEntry], r2)

/-- The table `processCodeTables` hands to `buildPrefixes`, and the reader at that point;
the standard entry loop runs on `fuel`. -/
def readCodeTable (fuel : Nat) (reader : PDFBitReader) :
    Option (Except PDFException (List PDFJBIG2HuffmanTableEntry × PDFBitReader)) :=
  match readCodeTableHeader reader with
  | .error e => some (.error e)
  | .ok (flags, htLow, htHigh, r) =>
    match readStandardEntries fuel (codeTablePrefixSize flags) (codeTableRangeSize flags)
        htHigh htLow r [] with
    | none => none
    | some (.error e) => some (.error e)
    | some (.ok (table, r4)) =>
      some (readCodeTableTail (codeTableHasOOB flags) (codeTablePrefixSize flags) htLow htHigh
        table r4)

/-- `PDFJBIG2Decoder::processCodeTables(header)`: the table is read, its prefixes are built
and it is stored under the segment number. -/
def processCodeTables (fuel : Nat) (header : PDFJBIG2SegmentHeader)
    (d : PDFJBIG2Decoder PDFJBIG2DecoderMembers) :
    Option (Except PDFException (PDFJBIG2Decoder PDFJBIG2DecoderMembers)) :=
  match readCodeTable fuel d.m_reader with
  | none => none
  | some (.error e) => some (.error e)
  | some (.ok (table, r)) =>
    match PDFJBIG2HuffmanCodeTable.buildPrefixes table with
    | .error e => some (.error e)
    | .ok built =>
      some (.ok { d with
        m_reader := r
        m_rest := { d.m_rest with
          m_segments := segmentsAssign d.m_rest.m_segments header.m_segmentNumber
            (PDFJBIG2Segment.huffmanCodeTable built) } })

/-- The standard entries as the specification lists them, from the pairs (prefix length,
range length) in the order they are read and the running value `running`: each entry has the
running value as its base, and the running value grows by `2 ^ rangeBitLength`, in the
integers. -/
def specStandardEntries (running : Int) : List (Nat × Nat) → List PDFJBIG2HuffmanTableEntry
  | [] => []
  | (prefixBitLength, rangeBitLength) :: rest =>
    { value := running, prefixBitLength := prefixBitLength, rangeBitLength := rangeBitLength,
      prefixCode := 0, type := HuffmanEntryType.Standard } ::
      specStandardEntries (running + 2 ^ rangeBitLength) rest

/-- The running value of the specification after the entries of the given range lengths:
`htLow` plus the sum of `2 ^ rangeBitLength`. -/
def specRunningValue (htLow : Int) (ranges : List Nat) : Int :=
  htLow + (ranges.map (fun r => (2 : Int) ^ r)).sum

/-- The standard entries with the running value kept on 32 signed bits: it grows by the
`int` value of `1 << rangeBitLength` and is reduced to the `int32_t` range. -/
def wrappedStandardEntries (running : Int) :
    List (Nat × Nat) → List PDFJBIG2HuffmanTableEntry
  | [] => []
  | (prefixBitLength, rangeBitLength) :: rest =>
    { value := running, prefixBitLength := prefixBitLength, rangeBitLength := rangeBitLength,
      prefixCode := 0, type := HuffmanEntryType.Standard } ::
      wrappedStandardEntries (wrapInt32 (running + shiftLeftOne rangeBitLength)) rest

/-- The running value kept on 32 signed bits, after the entries of the given range
lengths. -/
def wrappedRunningValue (htLow : Int) (ranges : List Nat) : Int :=
  ranges.foldl (fun running r => wrapInt32 (running + shiftLeftOne r)) htLow

/-- The pairs (prefix length, range length) that `count` iterations read from the bit
position `position` on: `htps` bits then `htrs` bits for each. -/
def codeTablePairs (data : List Bool) (htps htrs : Nat) (position count : Nat) :
    List (Nat × Nat) :=
  (List.range count).map (fun k =>
    (bitsToNat ((data.drop (position + k * (htps + htrs))).take htps),
     bitsToNat ((data.drop (position + k * (htps + htrs) + htps)).take htrs)))

/-- A code table segment with `htLow = 0`, `htHigh = 1`, prefix lengths on 3 bits and range
lengths on 5 bits (flags 0x44), whose standard entries have the (prefix length, range
length) pairs (1, 31), (2, 30), (3, 30), (4, 0), followed by the lengths 5 and 5 of the lower
and upper range entries. -/
def wrappingCodeTableStream : List Nat :=
  [0x44, 0, 0, 0, 0, 0, 0, 0, 1, 0x3F, 0x5E, 0x7E, 0x80, 0xB4]

/-- A code table segment with `htLow = 0`, `htHigh = 3`, prefix and range lengths on 1 bit
and an out-of-band entry (flags 0x01): the standard entries have the pairs (1, 1) and
(1, 0), and the three other entries the length 1. -/
def smallCodeTableStream : List Nat :=
  [0x01, 0, 0, 0, 0, 0, 0, 0, 3, 0xEE]

/-- The table of a code table segment read at bit `position` of `data` with field widths
`htps` and `htrs`: some number `n` of standard entries, whose lengths are the pairs read and
whose bases are the running value kept on 32 signed bits, each base below `htHigh` and the
running value after them at least `htHigh`; then the lower range entry, the upper range
entry and, when `hasOOB` is set, the out-of-band entry, with the lengths read after the
pairs.  When no range length exceeds 30 and the running value of the specification stays
below `2 ^ 31`, the standard entries and the running value are those of the
specification. -/
def CodeTableLayout (data : List Bool) (position htps htrs : Nat) ( hasOOB : Bool)
    (htLow htHigh : Int) (table : List PDFJBIG2HuffmanTableEntry) : Prop :=
  ∃ n : Nat,
    table = wrappedStandardEntries htLow (codeTablePairs data htps htrs position n) ++
      [ { value := htLow - 1,
          prefixBitLength :=
            bitsToNat ((data.drop (position + n * (htps + htrs))).take htps),
          rangeBitLength := 32, prefixCode := 0, type := HuffmanEntryType.Negative },
        { value := htHigh,
          prefixBitLength :=
            bitsToNat ((data.drop (position + n * (htps + htrs) + htps)).take htps),
          rangeBitLength := 32, prefixCode := 0, type := HuffmanEntryType.Standard } ] ++
      (if hasOOB then
        [ { value := 0,
            prefixBitLength :=
              bitsToNat ((data.drop (position + n * (htps + htrs) + htps + htps)).take htps),
            rangeBitLength := 0, prefixCode := 0, type := HuffmanEntryType.OutOfBand } ]
       else []) ∧
    (∀ e ∈ wrappedStandardEntries htLow (codeTablePairs data htps htrs position n),
      e.value < htHigh) ∧
    htHigh ≤ wrappedRunningValue htLow
      ((codeTablePairs data htps htrs position n).map Prod.snd) ∧
    ((∀ r ∈ (codeTablePairs data htps htrs position n).map Prod.snd, r ≤ 30) →
      specRunningValue htLow ((codeTablePairs data htps htrs position n).map Prod.snd)
        < 2 ^ 31 →
      wrappedStandardEntries htLow (codeTablePairs data htps htrs position n) =
        specStandardEntries htLow (codeTablePairs data htps htrs position n) ∧
      wrappedRunningValue htLow ((codeTablePairs data htps htrs position n).map Prod.snd) =
        specRunningValue htLow ((codeTablePairs data htps htrs position n).map Prod.snd))

/-! ## Arithmetic decoder: the registers -/

/-- `struct PDFJBIG2ArithmeticDecoderQeValue`: the value of Qe, the new row if MPS, the new
row if LPS and the switch flag. -/
structure PDFJBIG2ArithmeticDecoderQeValue where
  Qe : Nat
  newMPS : Nat
  newLPS : Nat
  switchFlag : Nat
  deriving DecidableEq, Repr

/-- `JBIG2_ARITHMETIC_DECODER_QE_VALUES`, in the order of the array. -/
def JBIG2_ARITHMETIC_DECODER_QE_VALUES : List PDFJBIG2ArithmeticDecoderQeValue :=
  [ ⟨0x56010000, 1, 1, 1⟩,
    ⟨0x34010000, 2, 6, 0⟩,
    ⟨0x18010000, 3, 9, 0⟩,
    ⟨0x0AC10000, 4, 12, 0⟩,
    ⟨0x05210000, 5, 29, 0⟩,
    ⟨0x02210000, 38, 33, 0⟩,
    ⟨0x56010000, 7, 6, 1⟩,
    ⟨0x54010000, 8, 14, 0⟩,
    ⟨0x48010000, 9, 14, 0⟩,
    ⟨0x38010000, 10, 14, 0⟩,
    ⟨0x30010000, 11, 17, 0⟩,
    ⟨0x24010000, 12, 18, 0⟩,
    ⟨0x1C010000, 13, 20, 0⟩,
    ⟨0x16010000, 29, 21, 0⟩,
    ⟨0x56010000, 15, 14, 1⟩,
    ⟨0x54010000, 16, 14, 0⟩,
    ⟨0x51010000, 17, 15, 0⟩,
    ⟨0x48010000, 18, 16, 0⟩,
    ⟨0x38010000, 19, 17, 0⟩,
    ⟨0x34010000, 20, 18, 0⟩,
    ⟨0x30010000, 21, 19, 0⟩,
    ⟨0x28010000, 22, 19, 0⟩,
    ⟨0x24010000, 23, 20, 0⟩,
    ⟨0x22010000, 24, 21, 0⟩,
    ⟨0x1C010000, 25, 22, 0⟩,
    ⟨0x18010000, 26, 23, 0⟩,
    ⟨0x16010000, 27, 24, 0⟩,
    ⟨0x14010000, 28, 25, 0⟩,
    ⟨0x12010000, 29, 26, 0⟩,
    ⟨0x11010000, 30, 27, 0⟩,
    ⟨0x0AC10000, 31, 28, 0⟩,
    ⟨0x09C10000, 32, 29, 0⟩,
    ⟨0x08A10000, 33, 30, 0⟩,
    ⟨0x05210000, 34, 31, 0⟩,
    ⟨0x04410000, 35, 32, 0⟩,
    ⟨0x02A10000, 36, 33, 0⟩,
    ⟨0x02210000, 37, 34, 0⟩,
    ⟨0x01410000, 38, 35, 0⟩,
    ⟨0x01110000, 39, 36, 0⟩,
    ⟨0x00850000, 40, 37, 0⟩,
    ⟨0x00490000, 41, 38, 0⟩,
    ⟨0x00250000, 42, 39, 0⟩,
    ⟨0x00150000, 43, 40, 0⟩,
    ⟨0x00090000, 44, 41, 0⟩,
    ⟨0x00050000, 45, 42, 0⟩,
    ⟨0x00010000, 45, 43, 0⟩,
    ⟨0x56010000, 46, 46, 0⟩ ]

/-- Modelled from the spec: `PDFBitReader::look(n bits)` (declared outside the sources), the
value `read` would return, the cursor staying where it is. -/
def PDFBitReader.look (n : Nat) (r : PDFBitReader) : Except PDFException Nat := do
  let (value, _) ← r.read n
  pure value

/-- The data members of `class PDFJBIG2ArithmeticDecoder` (declared outside the sources):
the code register C, the interval register A, the count of unprocessed bits and the last
byte read, all taken as 32-bit unsigned (4.2, "32-bit interval and code registers"), and
the reader.  The structure `PDFJBIG2ArithmeticDecoder` above abstracts them into the
sequence of the decisions they yield. -/
structure PDFJBIG2ArithmeticDecoderRegisters where
  m_c : Nat
  m_a : Nat
  m_ct : Nat
  m_lastByte : Nat
  m_reader : PDFBitReader
  deriving DecidableEq, Repr

/-- `PDFJBIG2ArithmeticDecoder::perform_BYTEIN()`. -/
def perform_BYTEIN (d : PDFJBIG2ArithmeticDecoderRegisters) :
    Except PDFException PDFJBIG2ArithmeticDecoderRegisters :=
  if d.m_lastByte = 0xFF then do
    let B1 ← d.m_reader.look 8
    if B1 > 0x8F then
      pure { d with m_c := (d.m_c + 0xFF00) % 2 ^ 32, m_ct := 8 }
    else do
      let (lastByte, r) ← d.m_reader.readUnsignedByte
      pure { d with
        m_c := (d.m_c + (B1 <<< 9) % 2 ^ 32) % 2 ^ 32, m_ct := 7, m_lastByte := lastByte,
        m_reader := r }
  else do
    let (B, r) ← d.m_reader.readUnsignedByte
    pure { d with
      m_lastByte := B, m_c := (d.m_c + (B <<< 8) % 2 ^ 32) % 2 ^ 32, m_ct := 8, m_reader := r }

/-- `PDFJBIG2ArithmeticDecoder::perform_INITDEC()`, on a decoder built over `reader`. -/
def perform_INITDEC (reader : PDFBitReader) :
    Except PDFException PDFJBIG2ArithmeticDecoderRegisters := do
  let (B, r) ← reader.readUnsignedByte
  let d ← perform_BYTEIN
    { m_c := (B <<< 16) % 2 ^ 32, m_a := 0, m_ct := 0, m_lastByte := B, m_reader := r }
  pure { d with
    m_c := (d.m_c <<< 7) % 2 ^ 32, m_ct := (d.m_ct + 2 ^ 32 - 7) % 2 ^ 32, m_a := 0x80000000 }

/-- The test `(m_a & 0x80000000) == 0` of `perform_DECODE`. -/
def topBitClear (m_a : Nat) : Bool :=
  m_a &&& 0x80000000 == 0

/-- The RENORMD `do ... while ((m_a & 0x80000000) == 0)` loop of `perform_DECODE`, run for
at most `fuel` iterations (`none` when they do not suffice). -/
def renormD : Nat → PDFJBIG2ArithmeticDecoderRegisters →
    Option (Except PDFException PDFJBIG2ArithmeticDecoderRegisters)
  | 0, _ => none
  | fuel + 1, d =>
    match (if d.m_ct = 0 then perform_BYTEIN d else pure d) with
    | .error e => some (.error e)
    | .ok d1 =>
      let d2 := { d1 with
        m_a := (d1.m_a <<< 1) % 2 ^ 32, m_c := (d1.m_c <<< 1) % 2 ^ 32,
        m_ct := (d1.m_ct + 2 ^ 32 - 1) % 2 ^ 32 }
      if topBitClear d2.m_a then renormD fuel d2 else some (.ok d2)

/-- `1 - MPS` on `uint8_t`. -/
def flipMPS (MPS : Nat) : Nat :=
  (1 + 256 - MPS % 256) % 256

/-- The part of `perform_DECODE` before the renormalisation: the decision `D`, the state and
the registers, and whether the function returns at once (`return D` in the branch "Do
nothing, we are finished"). -/
def decodeExchange (context : Nat) (state : PDFJBIG2ArithmeticDecoderState)
    (d : PDFJBIG2ArithmeticDecoderRegisters) :
    Nat × PDFJBIG2ArithmeticDecoderState × PDFJBIG2ArithmeticDecoderRegisters × Bool :=
  let QeRowIndex := state.getQeRowIndex context
  let MPS := state.getMPS context
  let QeInfo := JBIG2_ARITHMETIC_DECODER_QE_VALUES.getD QeRowIndex ⟨0, 0, 0, 0⟩
  let Qe := QeInfo.Qe
  let m_a := (d.m_a + 2 ^ 32 - Qe) % 2 ^ 32
  if d.m_c ≥ Qe then
    let m_c := d.m_c - Qe
    if topBitClear m_a then
      if m_a < Qe then
        let newMPS := if QeInfo.switchFlag ≠ 0 then flipMPS MPS else MPS
        (flipMPS MPS, state.setQeRowIndexAndMPS context QeInfo.newLPS newMPS,
          { d with m_a := m_a, m_c := m_c }, false)
      else
        (MPS, state.setQeRowIndexAndMPS context QeInfo.newMPS MPS,
          { d with m_a := m_a, m_c := m_c }, false)
    else (MPS, state, { d with m_a := m_a, m_c := m_c }, true)
  else
    if m_a < Qe then
      (MPS, state.setQeRowIndexAndMPS context QeInfo.newMPS MPS, { d with m_a := Qe }, false)
    else
      let newMPS := if QeInfo.switchFlag ≠ 0 then flipMPS MPS else MPS
      (flipMPS MPS, state.setQeRowIndexAndMPS context QeInfo.newLPS newMPS,
        { d with m_a := Qe }, false)

/-- `PDFJBIG2ArithmeticDecoder::perform_DECODE(context, state)`: the decision, the state and
the registers after the call, or the exception of `perform_BYTEIN`; the renormalisation runs
on `fuel`. -/
def perform_DECODE (fuel : Nat) (context : Nat) (state : PDFJBIG2ArithmeticDecoderState)
    (d : PDFJBIG2ArithmeticDecoderRegisters) :
    Option (Except PDFException
      (Nat × PDFJBIG2ArithmeticDecoderState × PDFJBIG2ArithmeticDecoderRegisters)) :=
  match decodeExchange context state d with
  | (D, state1, d1, true) => some (.ok (D, state1, d1))
  | (D, state1, d1, false) =>
    match renormD fuel d1 with
    | none => none
    | some (.error e) => some (.error e)
    | some (.ok d2) => some (.ok (D, state1, d2))

/-- Every context of the state holds a row of the probability table and a bit. -/
def PDFJBIG2ArithmeticDecoderState.Valid (state : PDFJBIG2ArithmeticDecoderState) : Prop :=
  ∀ context, state.getQeRowIndex context ≤ 46 ∧ state.getMPS context ≤ 1

/-! ## Generic refinement region decoding -/

/-- An `Except` result as a result of a computation that may also run out of fuel. -/
def liftExcept {α : Type} (e : Except PDFException α) : ExceptT PDFException Option α :=
  ExceptT.mk (some e)

/-- Lambda `evaluateTPGRPIX(x, y, value)` of `readRefinementBitmap`: the returned flag and
the `value` it stores. -/
def evaluateTPGRPIX (parameters : PDFJBIG2BitmapRefinementDecodingParameters) (x y : Int) :
    Bool × Nat :=
  let refX := x - parameters.GRREFERENCEX
  let refY := y - parameters.GRREFERENCEY
  let value := parameters.GRREFERENCE.getPixelSafe refX refY
  (parameters.GRREFERENCE.getPixelSafe (refX - 1) (refY - 1) == value &&
   parameters.GRREFERENCE.getPixelSafe (refX + 0) (refY - 1) == value &&
   parameters.GRREFERENCE.getPixelSafe (refX + 1) (refY - 1) == value &&
   parameters.GRREFERENCE.getPixelSafe (refX - 1) (refY + 0) == value &&
   parameters.GRREFERENCE.getPixelSafe (refX + 1) (refY + 0) == value &&
   parameters.GRREFERENCE.getPixelSafe (refX - 1) (refY + 1) == value &&
   parameters.GRREFERENCE.getPixelSafe (refX + 0) (refY + 1) == value &&
   parameters.GRREFERENCE.getPixelSafe (refX + 1) (refY + 1) == value, value)

/-- The statement `GRREG.setPixel(x, y, decoder.readBit(createContext(x, y), state) ? 0xFF :
0x00)` of `readRefinementBitmap`, on the bitmap, the statistics and the registers. -/
def refinementDecodePixel (fuel : Nat) (parameters : PDFJBIG2BitmapRefinementDecodingParameters)
    (x y : Int)
    (s : PDFJBIG2Bitmap × PDFJBIG2ArithmeticDecoderState × PDFJBIG2ArithmeticDecoderRegisters) :
    ExceptT PDFException Option
      (PDFJBIG2Bitmap × PDFJBIG2ArithmeticDecoderState × PDFJBIG2ArithmeticDecoderRegisters) := do
  let (bit, state, d) ← ExceptT.mk (perform_DECODE fuel
    (refinementPixelContext parameters.GRTEMPLATE parameters.GRAT s.1 parameters.GRREFERENCE
      parameters.GRREFERENCEX parameters.GRREFERENCEY x y) s.2.1 s.2.2)
  let bitmap ← liftExcept (s.1.setPixel x y (if bit ≠ 0 then 0xFF else 0x00))
  pure (bitmap, state, d)

/-- The loops `for (int32_t x = 0; x < static_cast<int32_t>(parameters.GRW); ++x)` of
`readRefinementBitmap`, for `count` more pixels from `x` on. -/
def refinementRowLoop (fuel : Nat) (parameters : PDFJBIG2BitmapRefinementDecodingParameters)
    ( LTP : Nat) (y : Int) : Nat → Int →
    PDFJBIG2Bitmap × PDFJBIG2ArithmeticDecoderState × PDFJBIG2ArithmeticDecoderRegisters →
    ExceptT PDFException Option
      (PDFJBIG2Bitmap × PDFJBIG2ArithmeticDecoderState × PDFJBIG2ArithmeticDecoderRegisters)
  | 0, _, s => pure s
  | count + 1, x, s => do
    let s1 ←
      if LTP = 0 then refinementDecodePixel fuel parameters x y s
      else
        match evaluateTPGRPIX parameters x y with
        | (true, TPGRVAL) => do
          let bitmap ← liftExcept (s.1.setPixel x y TPGRVAL)
          pure (bitmap, s.2.1, s.2.2)
        | (false, _) => refinementDecodePixel fuel parameters x y s
    refinementRowLoop fuel parameters LTP y count (x + 1) s1

/-- The loop `for (int32_t y = 0; y < static_cast<int32_t>(parameters.GRH); ++y)` of
`readRefinementBitmap`, for `count` more rows from `y` on. -/
def refinementRows (fuel : Nat) (parameters : PDFJBIG2BitmapRefinementDecodingParameters) :
    Nat → Int → Nat →
    PDFJBIG2Bitmap × PDFJBIG2ArithmeticDecoderState × PDFJBIG2ArithmeticDecoderRegisters →
    ExceptT PDFException Option
      (PDFJBIG2Bitmap × PDFJBIG2ArithmeticDecoderState × PDFJBIG2ArithmeticDecoderRegisters)
  | 0, _, _, s => pure s
  | count + 1, y, LTP, s => do
    let (LTP1, s1) ←
      if parameters.TPGRON then do
        let (bit, state, d) ← ExceptT.mk (perform_DECODE fuel
          (refinementLTPContext parameters.GRTEMPLATE) s.2.1 s.2.2)
        pure (LTP ^^^ bit, (s.1, state, d))
      else pure (LTP, s)
    let s2 ← refinementRowLoop fuel parameters LTP1 y (toInt32 parameters.GRW).toNat 0 s1
    refinementRows fuel parameters count (y + 1) LTP1 s2

/-- `PDFJBIG2Decoder::readRefinementBitmap(parameters)`: the bitmap `GRREG` and the
statistics `parameters.arithmeticDecoderState` after the call; `m_reader` is the reader of
the decoder, and each renormalisation runs on `fuel`.  The arithmetic decoder is built on
`PDFBitReader reader(m_reader.getStream(), 1)`, a reader at the start of the stream. -/
def readRefinementBitmap (fuel : Nat) (parameters : PDFJBIG2BitmapRefinementDecodingParameters)
    (arithmeticDecoderState : PDFJBIG2ArithmeticDecoderState) (m_reader : PDFBitReader) :
    ExceptT PDFException Option (PDFJBIG2Bitmap × PDFJBIG2ArithmeticDecoderState) := do
  let GRREG := PDFJBIG2Bitmap.filled (toInt32 parameters.GRW) (toInt32 parameters.GRH) 0x00
  let decoder ← liftExcept (perform_INITDEC (PDFBitReader.ofBytes m_reader.getStream))
  let (bitmap, state, _) ← refinementRows fuel parameters (toInt32 parameters.GRH).toNat 0 0
    (GRREG, arithmeticDecoderState, decoder)
  pure (bitmap, state)

/-- Refinement parameters of a region of one pixel: template 1, no typical prediction, and a
reference bitmap of one pixel of value 0. -/
def onePixelRefinement : PDFJBIG2BitmapRefinementDecodingParameters :=
  { GRTEMPLATE := 1, TPGRON := false, GRW := 1, GRH := 1, GRAT := List.replicate 4 (0, 0),
    GRREFERENCE := { m_width := 1, m_height := 1, m_data := [0] },
    GRREFERENCEX := 0, GRREFERENCEY := 0 }

/-- An immediate generic refinement region segment (type 42) numbered 0 on page 1, with a
data length of 21 bytes: a region of 1 x 1 pixel at (0, 0) with the operator REPLACE,
refinement flags 0x01 (template 1, no typical prediction) and the coded data 12 34 56, which
start at byte 29. -/
def refinementStreamA : List Nat :=
  [0x00, 0, 0, 0, 0x2A, 0x00, 0x01, 0, 0, 0, 0x15,
   0, 0, 0, 1, 0, 0, 0, 1, 0, 0, 0, 0, 0, 0, 0, 0, 0x04, 0x01, 0x12, 0x34, 0x56]

/-- The stream `refinementStreamA` with the first byte of the segment number replaced by
0xAD: the same segment, numbered 0xAD000000. -/
def refinementStreamB : List Nat :=
  [0xAD, 0, 0, 0, 0x2A, 0x00, 0x01, 0, 0, 0, 0x15,
   0, 0, 0, 1, 0, 0, 0, 1, 0, 0, 0, 0, 0, 0, 0, 0, 0x04, 0x01, 0x12, 0x34, 0x56]

/-! ## Generic region decoding: the bitmap -/

/-- `PDFJBIG2Bitmap::copyRow(target, source)`: `std::copy` of the `m_width` bytes of the
row `source` onto the row `target`. -/
def PDFJBIG2Bitmap.copyRow (b : PDFJBIG2Bitmap) (target source : Int) :
    Except PDFException PDFJBIG2Bitmap :=
  if target < 0 ∨ target ≥ b.m_height ∨ source < 0 ∨ source ≥ b.m_height then
    throw PDFException.invalidCopyRow
  else
    pure { b with
      m_data := b.m_data.take (target * b.m_width).toNat ++
        (b.m_data.drop (source * b.m_width).toNat).take b.m_width.toNat ++
        b.m_data.drop ((target * b.m_width).toNat + b.m_width.toNat) }

/-- `struct PDFJBIG2BitmapDecodingParameters`, the members the arithmetic branch of
`readBitmap` reads; the decoder and its statistics are passed beside it. -/
structure PDFJBIG2BitmapDecodingParameters where
  MMR : Bool
  TPGDON : Bool
  GBW : Int
  GBH : Int
  GBTEMPLATE : Nat
  ATXY : List (Int × Int)
  SKIP : Option PDFJBIG2Bitmap

/-- The test `parameters.SKIP && parameters.SKIP->getPixelSafe(x, y)` of `readBitmap`. -/
def skipPixel ( SKIP : Option PDFJBIG2Bitmap) (x y : Int) : Bool :=
  match SKIP with
  | some bitmap => bitmap.getPixelSafe x y != 0
  | none => false

/-- The loop `for (int x = 0; x < parameters.GBW; ++x)` of `readBitmap` on the row `y`, for
`count` more pixels from `x` on. -/
def readBitmapPixels (parameters : PDFJBIG2BitmapDecodingParameters) (y : Int) :
    Nat → Int → PDFJBIG2Bitmap × PDFJBIG2ArithmeticDecoder →
    Except PDFException (PDFJBIG2Bitmap × PDFJBIG2ArithmeticDecoder)
  | 0, _, s => pure s
  | count + 1, x, (bitmap, decoder) =>
    if skipPixel parameters.SKIP x y then
      readBitmapPixels parameters y count (x + 1) (bitmap, decoder)
    else
      match bitmap.setPixel x y
          (if (decoder.readBit (genericPixelContext parameters.GBTEMPLATE parameters.ATXY
            bitmap x y)).1 ≠ 0 then 0xFF else 0x00) with
      | .error e => throw e
      | .ok bitmap1 =>
        readBitmapPixels parameters y count (x + 1)
          (bitmap1, (decoder.readBit (genericPixelContext parameters.GBTEMPLATE
            parameters.ATXY bitmap x y)).2)

/-- The loop `for (int y = 0; y < parameters.GBH; ++y)` of `readBitmap`, for `count` more
rows from `y` on; `LTP` is the `uint8_t LTP`. -/
def readBitmapRows (parameters : PDFJBIG2BitmapDecodingParameters) :
    Nat → Int → Nat → PDFJBIG2Bitmap × PDFJBIG2ArithmeticDecoder →
    Except PDFException (PDFJBIG2Bitmap × PDFJBIG2ArithmeticDecoder)
  | 0, _, _, s => pure s
  | count + 1, y, LTP, (bitmap, decoder) =>
    if parameters.TPGDON then
      if (LTP ^^^ (decoder.readBit
          (genericLTPContext parameters.TPGDON parameters.GBTEMPLATE)).1) % 256 ≠ 0 then
        match (if y > 0 then bitmap.copyRow y (y - 1) else pure bitmap) with
        | .error e => throw e
        | .ok bitmap1 =>
          readBitmapRows parameters count (y + 1)
            ((LTP ^^^ (decoder.readBit
              (genericLTPContext parameters.TPGDON parameters.GBTEMPLATE)).1) % 256)
            (bitmap1, (decoder.readBit
              (genericLTPContext parameters.TPGDON parameters.GBTEMPLATE)).2)
      else
        match readBitmapPixels parameters y parameters.GBW.toNat 0
            (bitmap, (decoder.readBit
              (genericLTPContext parameters.TPGDON parameters.GBTEMPLATE)).2) with
        | .error e => throw e
        | .ok s =>
          readBitmapRows parameters count (y + 1)
            ((LTP ^^^ (decoder.readBit
              (genericLTPContext parameters.TPGDON parameters.GBTEMPLATE)).1) % 256) s
    else
      match readBitmapPixels parameters y parameters.GBW.toNat 0 (bitmap, decoder) with
      | .error e => throw e
      | .ok s => readBitmapRows parameters count (y + 1) LTP s

/-- The arithmetic branch of `PDFJBIG2Decoder::readBitmap(parameters)` (the `else` of `if
(parameters.MMR)`): the bitmap returned and the arithmetic decoder after the call. -/
def readBitmap (parameters : PDFJBIG2BitmapDecodingParameters)
    (decoder : PDFJBIG2ArithmeticDecoder) :
    Except PDFException (PDFJBIG2Bitmap × PDFJBIG2ArithmeticDecoder) :=
  readBitmapRows parameters parameters.GBH.toNat 0 0
    (PDFJBIG2Bitmap.filled parameters.GBW parameters.GBH 0x00, decoder)

/-- Modelled from the spec: `struct PDFJBIG2SymbolDictionaryDecodingParameters` (declared
outside the sources), the members `processSymbolDictionary` cuts out of the flags word (4.7):
SDHUFF and SDREFAGG are the one-bit mode flags, compared with 0 and 1 in the source, the
table selectors and template ids are small unsigned fields. -/
structure PDFJBIG2SymbolDictionaryDecodingParameters where
  SDHUFF : Bool
  SDREFAGG : Bool
  SDHUFFDH : Nat
  SDHUFFDW : Nat
  SDHUFFBMSIZE : Nat
  SDHUFFAGGINST : Nat
  isArithmeticCodingStateUsed : Bool
  isArithmeticCodingStateRetained : Bool
  SDTEMPLATE : Nat
  SDRTEMPLATE : Nat
  deriving DecidableEq, Repr

/-- Modelled from the spec: the default-constructed parameters (the structure is declared
outside the sources), every member zero. -/
def defaultSymbolDictionaryParameters : PDFJBIG2SymbolDictionaryDecodingParameters :=
  { SDHUFF := false, SDREFAGG := false, SDHUFFDH := 0, SDHUFFDW := 0, SDHUFFBMSIZE := 0,
    SDHUFFAGGINST := 0, isArithmeticCodingStateUsed := false,
    isArithmeticCodingStateRetained := false, SDTEMPLATE := 0, SDRTEMPLATE := 0 }

/-- The assignments of `processSymbolDictionary` from `symbolDictionaryFlags` to the members
of `parameters`, in the order of the source; `parameters` is the structure before them. -/
def symbolDictionaryFlagsParameters (parameters : PDFJBIG2SymbolDictionaryDecodingParameters)
    (symbolDictionaryFlags : Nat) : PDFJBIG2SymbolDictionaryDecodingParameters :=
  let parameters := { parameters with SDHUFF := symbolDictionaryFlags &&& 0x0001 != 0 }
  let parameters := { parameters with SDREFAGG := symbolDictionaryFlags &&& 0x0002 != 0 }
  let parameters := { parameters with SDHUFFDH := (symbolDictionaryFlags >>> 2) &&& 0x0003 }
  let parameters := { parameters with SDHUFFDH := (symbolDictionaryFlags >>> 4) &&& 0x0003 }
  let parameters := { parameters with SDHUFFBMSIZE := (symbolDictionaryFlags >>> 6) &&& 0x0001 }
  let parameters := { parameters with SDHUFFAGGINST := (symbolDictionaryFlags >>> 7) &&& 0x0001 }
  let parameters := { parameters with
    isArithmeticCodingStateUsed := (symbolDictionaryFlags >>> 8) &&& 0x0001 != 0 }
  let parameters := { parameters with
    isArithmeticCodingStateRetained := (symbolDictionaryFlags >>> 9) &&& 0x0001 != 0 }
  let parameters := { parameters with SDTEMPLATE := (symbolDictionaryFlags >>> 10) &&& 0x0003 }
  { parameters with SDRTEMPLATE := (symbolDictionaryFlags >>> 12) &&& 0x0001 }

/-- The block "sanity checks" of `processSymbolDictionary`. -/
def checkSymbolDictionaryFlags (symbolDictionaryFlags : Nat)
    (parameters : PDFJBIG2SymbolDictionaryDecodingParameters) : Except PDFException Unit :=
  if symbolDictionaryFlags >>> 13 ≠ 0 then throw PDFException.invalidSymbolDictionaryFlags
  else if (!parameters.SDHUFF || !parameters.SDREFAGG) ∧ parameters.SDHUFFAGGINST ≠ 0 then
    throw PDFException.invalidSymbolDictionaryFlags
  else if !parameters.SDHUFF then
    if parameters.SDHUFFDH ≠ 0 ∨ parameters.SDHUFFDH ≠ 0 ∨ parameters.SDHUFFBMSIZE ≠ 0 ∨
        parameters.SDHUFFAGGINST ≠ 0 then
      throw PDFException.invalidSymbolDictionaryFlags
    else pure ()
  else if !parameters.SDREFAGG ∧ (parameters.isArithmeticCodingStateUsed ∨
      parameters.isArithmeticCodingStateRetained ∨ parameters.SDRTEMPLATE ≠ 0) then
    throw PDFException.invalidSymbolDictionaryFlags
  else if parameters.SDTEMPLATE ≠ 0 then throw PDFException.invalidSymbolDictionaryFlags
  else pure ()

/-- `struct PDFJBIG2ReferencedSegments`: the referred segments sorted by kind (a symbol
dictionary by its bitmaps, a code table by its entries) and the index of the next user code
table. -/
structure PDFJBIG2ReferencedSegments where
  bitmaps : List PDFJBIG2Bitmap
  codeTables : List (List PDFJBIG2HuffmanTableEntry)
  symbolDictionaries : List (List PDFJBIG2Bitmap)
  currentUserCodeTableIndex : Nat
  deriving DecidableEq, Repr

/-- The loop of `PDFJBIG2Decoder::getReferencedSegments(header)` over the referred segment
numbers left, `segmentNumber` being the number of the referring segment. -/
def getReferencedSegmentsLoop (m_segments : List (Nat × PDFJBIG2Segment)) (segmentNumber : Nat) :
    List Nat → PDFJBIG2ReferencedSegments → Except PDFException PDFJBIG2ReferencedSegments
  | [], segments => pure segments
  | referredSegmentId :: rest, segments =>
    match segmentsFind m_segments referredSegmentId with
    | some (.bitmap bitmap) =>
      getReferencedSegmentsLoop m_segments segmentNumber rest
        { segments with bitmaps := segments.bitmaps ++ [bitmap] }
    | some (.huffmanCodeTable huffmanCodeTable) =>
      getReferencedSegmentsLoop m_segments segmentNumber rest
        { segments with codeTables := segments.codeTables ++ [huffmanCodeTable] }
    | some (.symbolDictionary symbolDictionary) =>
      getReferencedSegmentsLoop m_segments segmentNumber rest
        { segments with symbolDictionaries := segments.symbolDictionaries ++ [symbolDictionary] }
    | none => throw (PDFException.invalidReferredSegment referredSegmentId segmentNumber)

/-- `PDFJBIG2Decoder::getReferencedSegments(header)`; the structure it fills is declared
outside the sources, and its index of the next user code table is taken to start at 0. -/
def getReferencedSegments (m_segments : List (Nat × PDFJBIG2Segment))
    (header : PDFJBIG2SegmentHeader) : Except PDFException PDFJBIG2ReferencedSegments :=
  getReferencedSegmentsLoop m_segments header.m_segmentNumber header.m_referredSegments
    { bitmaps := [], codeTables := [], symbolDictionaries := [], currentUserCodeTableIndex := 0 }

/-- `PDFJBIG2ReferencedSegments::getSymbolBitmaps()`. -/
def PDFJBIG2ReferencedSegments.getSymbolBitmaps (references : PDFJBIG2ReferencedSegments) :
    List PDFJBIG2Bitmap :=
  references.symbolDictionaries.flatten

/-- `PDFJBIG2ReferencedSegments::getUserTable(reader)`: the entries of the next user code
table, and the references with the index moved on. -/
def PDFJBIG2ReferencedSegments.getUserTable (references : PDFJBIG2ReferencedSegments) :
    Except PDFException (List PDFJBIG2HuffmanTableEntry × PDFJBIG2ReferencedSegments) :=
  if references.currentUserCodeTableIndex < references.codeTables.length then
    pure (references.codeTables.getD references.currentUserCodeTableIndex [],
      { references with currentUserCodeTableIndex := references.currentUserCodeTableIndex + 1 })
  else throw PDFException.invalidUserHuffmanCodeTable

/-- The Huffman decoders of the parameters of `processSymbolDictionary`, each by the entries
of its table (the reader is the member `m_reader` for all of them). -/
structure SymbolDictionaryDecoders where
  SDHUFFDH_Decoder : List PDFJBIG2HuffmanTableEntry
  SDHUFFDW_Decoder : List PDFJBIG2HuffmanTableEntry
  SDHUFFBMSIZE_Decoder : List PDFJBIG2HuffmanTableEntry
  SDHUFFAGGINST_Decoder : List PDFJBIG2HuffmanTableEntry
  EXRUNLENGTH_Decoder : List PDFJBIG2HuffmanTableEntry
  deriving DecidableEq, Repr

/-- The `switch (parameters.SDHUFFDH)` of `processSymbolDictionary`. -/
def selectSDHUFFDH (parameters : PDFJBIG2SymbolDictionaryDecodingParameters)
    (references : PDFJBIG2ReferencedSegments) :
    Except PDFException (List PDFJBIG2HuffmanTableEntry × PDFJBIG2ReferencedSegments) :=
  match parameters.SDHUFFDH with
  | 0 => pure (PDFJBIG2StandardHuffmanTable_D, references)
  | 1 => pure (PDFJBIG2StandardHuffmanTable_E, references)
  | 3 => references.getUserTable
  | _ => throw PDFException.invalidUserHuffmanCodeTable

/-- The `switch (parameters.SDHUFFDW)` of `processSymbolDictionary`. -/
def selectSDHUFFDW (parameters : PDFJBIG2SymbolDictionaryDecodingParameters)
    (references : PDFJBIG2ReferencedSegments) :
    Except PDFException (List PDFJBIG2HuffmanTableEntry × PDFJBIG2ReferencedSegments) :=
  match parameters.SDHUFFDW with
  | 0 => pure (PDFJBIG2StandardHuffmanTable_B, references)
  | 1 => pure (PDFJBIG2StandardHuffmanTable_C, references)
  | 3 => references.getUserTable
  | _ => throw PDFException.invalidUserHuffmanCodeTable

/-- The `switch (parameters.SDHUFFBMSIZE)` and the `switch (parameters.SDHUFFAGGINST)` of
`processSymbolDictionary`, which have the same cases. -/
def selectTableAOrUser (selector : Nat) (references : PDFJBIG2ReferencedSegments) :
    Except PDFException (List PDFJBIG2HuffmanTableEntry × PDFJBIG2ReferencedSegments) :=
  match selector with
  | 0 => pure (PDFJBIG2StandardHuffmanTable_A, references)
  | 1 => references.getUserTable
  | _ => throw PDFException.invalidUserHuffmanCodeTable

/-- The block "huffman table selection" of `processSymbolDictionary` (the branch
`if (parameters.SDHUFF)`). -/
def selectSymbolDictionaryTables (parameters : PDFJBIG2SymbolDictionaryDecodingParameters)
    (references : PDFJBIG2ReferencedSegments) : Except PDFException SymbolDictionaryDecoders := do
  let (dh, references) ← selectSDHUFFDH parameters references
  let (dw, references) ← selectSDHUFFDW parameters references
  let (bmsize, references) ← selectTableAOrUser parameters.SDHUFFBMSIZE references
  let (agginst, references) ← selectTableAOrUser parameters.SDHUFFAGGINST references
  if references.currentUserCodeTableIndex ≠ references.codeTables.length then
    throw (PDFException.unusedHuffmanCodeTables
      (references.codeTables.length - references.currentUserCodeTableIndex))
  else
    pure { SDHUFFDH_Decoder := dh, SDHUFFDW_Decoder := dw, SDHUFFBMSIZE_Decoder := bmsize,
           SDHUFFAGGINST_Decoder := agginst,
           EXRUNLENGTH_Decoder := PDFJBIG2StandardHuffmanTable_A }

/-- The branch `else` of `if (parameters.SDHUFF)` in `processSymbolDictionary`: the
arithmetic decoder statistics are reset, from the last referred symbol dictionary when the
flags ask for it; the statistics themselves are not kept in this model, the throws are. -/
def initializeSymbolArithmetic (parameters : PDFJBIG2SymbolDictionaryDecodingParameters)
    (references : PDFJBIG2ReferencedSegments) : Except PDFException Unit :=
  if parameters.isArithmeticCodingStateUsed ∧ references.symbolDictionaries.isEmpty then
    throw PDFException.arithmeticContextMissing
  else pure ()

/-- The decoders no table has been assigned to (the arithmetic mode). -/
def noSymbolDictionaryDecoders : SymbolDictionaryDecoders :=
  { SDHUFFDH_Decoder := [], SDHUFFDW_Decoder := [], SDHUFFBMSIZE_Decoder := [],
    SDHUFFAGGINST_Decoder := [], EXRUNLENGTH_Decoder := [] }

/-- The two sources of coded data of `processSymbolDictionary`: the reader `m_reader`, which
the Huffman decoders read, and the arithmetic decoder `decoder`, given by its decisions. -/
structure SymbolDecodingSource where
  m_reader : PDFBitReader
  decoder : PDFJBIG2ArithmeticDecoder

/-- The expression `parameters.SDHUFF ? X_Decoder.readSignedInteger() :
decoder.getSignedInteger(&IAX)` of `processSymbolDictionary`, for the Huffman decoder of the
entries `table`. -/
def readSymbolInteger ( SDHUFF : Bool) (table : List PDFJBIG2HuffmanTableEntry)
    (source : SymbolDecodingSource) : Except PDFException (Option Int × SymbolDecodingSource) :=
  if SDHUFF then
    match PDFJBIG2HuffmanDecoder.readSignedInteger
        { m_reader := source.m_reader, m_entries := table } with
    | .error e => .error e
    | .ok (value, reader) => .ok (value, { source with m_reader := reader })
  else
    .ok ((source.decoder.getSignedInteger).1,
      { source with decoder := (source.decoder.getSignedInteger).2 })

/-- The variables of the decoding loops of `processSymbolDictionary` (6.5.5 step 4). -/
structure SymbolLoopState where
  HCHEIGHT : Nat
  NSYMSDECODED : Nat
  SDNEWSYMS : List PDFJBIG2Bitmap
  SDNEWSYMWIDTHS : List Nat
  source : SymbolDecodingSource

/-- The inner loop `while (NSYMSDECODED < parameters.SDNUMNEWSYMS)` of
`processSymbolDictionary` ("read height class"), run for at most `fuel` iterations (`none`
when they do not suffice); `SYMWIDTH` and `TOTWIDTH` are the `uint32_t` variables of the
height class. -/
def heightClassLoop (parameters : PDFJBIG2SymbolDictionaryDecodingParameters)
    (decoders : SymbolDictionaryDecoders) ( SDAT : List (Int × Int)) (SDNUMNEWSYMS : Nat) :
    Nat → Nat → Nat → SymbolLoopState → Option (Except PDFException SymbolLoopState)
  | fuel, SYMWIDTH, TOTWIDTH, st =>
    if st.NSYMSDECODED < SDNUMNEWSYMS then
      match fuel with
      | 0 => none
      | fuel + 1 =>
        match readSymbolInteger parameters.SDHUFF decoders.SDHUFFDW_Decoder st.source with
        | .error e => some (.error e)
        | .ok (none, source) => some (.ok { st with source := source })
        | .ok (some DW, source) =>
          if st.NSYMSDECODED ≥ SDNUMNEWSYMS then
            some (.error PDFException.heightClassMoreSymbols)
          else
            let SYMWIDTH := toUInt32 ((SYMWIDTH : Int) + DW)
            let TOTWIDTH := (TOTWIDTH + SYMWIDTH) % 2 ^ 32
            if !parameters.SDHUFF || parameters.SDREFAGG then
              if !parameters.SDREFAGG then
                match readBitmap
                    { MMR := false, TPGDON := false, GBW := toInt32 SYMWIDTH,
                      GBH := toInt32 st.HCHEIGHT, GBTEMPLATE := parameters.SDTEMPLATE,
                      ATXY := SDAT, SKIP := none } source.decoder with
                | .error e => some (.error e)
                | .ok (bitmap, decoder) =>
                  heightClassLoop parameters decoders SDAT SDNUMNEWSYMS fuel SYMWIDTH TOTWIDTH
                    { st with
                      SDNEWSYMS := st.SDNEWSYMS.set st.NSYMSDECODED bitmap
                      NSYMSDECODED := st.NSYMSDECODED + 1
                      source := { source with decoder := decoder } }
              else
                heightClassLoop parameters decoders SDAT SDNUMNEWSYMS fuel SYMWIDTH TOTWIDTH
                  { st with NSYMSDECODED := st.NSYMSDECODED + 1, source := source }
            else
              heightClassLoop parameters decoders SDAT SDNUMNEWSYMS fuel SYMWIDTH TOTWIDTH
                { st with
                  SDNEWSYMWIDTHS := st.SDNEWSYMWIDTHS.set st.NSYMSDECODED SYMWIDTH
                  NSYMSDECODED := st.NSYMSDECODED + 1
                  source := source }
    else some (.ok st)

/-- The outer loop `while (NSYMSDECODED < parameters.SDNUMNEWSYMS)` of
`processSymbolDictionary` ("read all bitmaps"), run for at most `fuel` iterations, each of
which gives the inner loop the same number of iterations. -/
def symbolDecodingLoop (parameters : PDFJBIG2SymbolDictionaryDecodingParameters)
    (decoders : SymbolDictionaryDecoders) ( SDAT : List (Int × Int)) (SDNUMNEWSYMS : Nat) :
    Nat → SymbolLoopState → Option (Except PDFException SymbolLoopState)
  | fuel, st =>
    if st.NSYMSDECODED < SDNUMNEWSYMS then
      match fuel with
      | 0 => none
      | fuel + 1 =>
        match readSymbolInteger parameters.SDHUFF decoders.SDHUFFDH_Decoder st.source with
        | .error e => some (.error e)
        | .ok (value, source) =>
          match checkInteger value with
          | .error e => some (.error e)
          | .ok HCDH =>
            match heightClassLoop parameters decoders SDAT SDNUMNEWSYMS (fuel + 1) 0 0
                { st with HCHEIGHT := toUInt32 ((st.HCHEIGHT : Int) + HCDH),
                          source := source } with
            | none => none
            | some (.error e) => some (.error e)
            | some (.ok st1) => symbolDecodingLoop parameters decoders SDAT SDNUMNEWSYMS fuel st1
    else some (.ok st)

/-- Modelled from the spec: `PDFBitReader::alignToBytes` (4.1): the cursor moves on to the
next byte boundary. -/
def PDFBitReader.alignToBytes (r : PDFBitReader) : PDFBitReader :=
  { r with position := (r.position + 7) / 8 * 8 }

/-- The values `processSymbolDictionary` has when the decoding loops start: the parameters
read from the segment data, the decoders and the reader. -/
structure SymbolDictionarySetup where
  parameters : PDFJBIG2SymbolDictionaryDecodingParameters
  SDAT : List (Int × Int)
  SDRAT : List (Int × Int)
  SDNUMEXSYMS : Nat
  SDNUMNEWSYMS : Nat
  SDINSYMS : List PDFJBIG2Bitmap
  decoders : SymbolDictionaryDecoders
  m_reader : PDFBitReader
  deriving DecidableEq

/-- `processSymbolDictionary` from its start to the construction of the arithmetic decoder
(7.4.2.2 steps 1 to 4); `initial` is the default-constructed `parameters`. -/
def readSymbolDictionarySetup (initial : PDFJBIG2SymbolDictionaryDecodingParameters)
    (header : PDFJBIG2SegmentHeader) (m_segments : List (Nat × PDFJBIG2Segment))
    (m_reader : PDFBitReader) : Except PDFException SymbolDictionarySetup := do
  let (symbolDictionaryFlags, r1) ← m_reader.readUnsignedWord
  let parameters := symbolDictionaryFlagsParameters initial symbolDictionaryFlags
  let (SDAT, r2) ← readATTemplatePixelPositions
    (if parameters.SDHUFF = false then (if parameters.SDTEMPLATE = 0 then 4 else 1) else 0) r1
  let (SDRAT, r3) ← readATTemplatePixelPositions
    (if parameters.SDREFAGG = true ∧ parameters.SDRTEMPLATE = 0 then 2 else 0) r2
  let (SDNUMEXSYMS, r4) ← r3.readUnsignedInt
  let (SDNUMNEWSYMS, r5) ← r4.readUnsignedInt
  checkSymbolDictionaryFlags symbolDictionaryFlags parameters
  let references ← getReferencedSegments m_segments header
  let decoders ←
    if parameters.SDHUFF then selectSymbolDictionaryTables parameters references
    else do
      initializeSymbolArithmetic parameters references
      pure noSymbolDictionaryDecoders
  pure { parameters := parameters, SDAT := SDAT, SDRAT := SDRAT, SDNUMEXSYMS := SDNUMEXSYMS,
         SDNUMNEWSYMS := SDNUMNEWSYMS, SDINSYMS := references.getSymbolBitmaps,
         decoders := decoders, m_reader := r5 }

/-- `PDFJBIG2Decoder::processSymbolDictionary(header)`: the reader and the stored segments
after the call.  The arithmetic decoder is given by its decisions (`decoder.initialize()`
and the decoder statistics are not part of the model); the loops run on `fuel`. -/
def processSymbolDictionary (fuel : Nat) (initial : PDFJBIG2SymbolDictionaryDecodingParameters)
    (header : PDFJBIG2SegmentHeader) (decoder : PDFJBIG2ArithmeticDecoder)
    (m_reader : PDFBitReader) (m_segments : List (Nat × PDFJBIG2Segment)) :
    Option (Except PDFException (PDFBitReader × List (Nat × PDFJBIG2Segment))) :=
  match readSymbolDictionarySetup initial header m_segments m_reader with
  | .error e => some (.error e)
  | .ok setup =>
    match symbolDecodingLoop setup.parameters setup.decoders setup.SDAT setup.SDNUMNEWSYMS fuel
        { HCHEIGHT := 0, NSYMSDECODED := 0,
          SDNEWSYMS := List.replicate setup.SDNUMNEWSYMS ⟨0, 0, []⟩,
          SDNEWSYMWIDTHS :=
            if setup.parameters.SDHUFF = true ∧ setup.parameters.SDREFAGG = false then
              List.replicate setup.SDNUMNEWSYMS 0
            else [],
          source := { m_reader := setup.m_reader, decoder := decoder } } with
    | none => none
    | some (.error e) => some (.error e)
    | some (.ok st) =>
      match exportSymbols
          (readSymbolInteger setup.parameters.SDHUFF setup.decoders.EXRUNLENGTH_Decoder)
          setup.SDINSYMS st.SDNEWSYMS fuel st.source with
      | none => none
      | some (.error e) => some (.error e)
      | some (.ok (bitmaps, source)) =>
        let reader := source.m_reader.alignToBytes
        match (if setup.parameters.SDHUFF then .ok reader else reader.skipBytes 1) with
        | .error e => some (.error e)
        | .ok reader =>
          some (.ok (reader,
            segmentsAssign m_segments header.m_segmentNumber (.symbolDictionary bitmaps)))

/-- The data of a symbol dictionary segment: the flags 0x0001 (Huffman coding, no
refinement), one exported and one new symbol, then the bits 0 (height delta 1 in table D),
10 (width delta 1 in table B), 0 0000 (export run of length 0 in table A) and 0 0001 (export
run of length 1). -/
def oneSymbolDictionaryData : List Nat :=
  [0x00, 0x01, 0, 0, 0, 1, 0, 0, 0, 1, 0x40, 0x08]

/-- The data of a symbol dictionary segment: the flags 0x0003 (Huffman coding with
refinement/aggregate coding), the two refinement adaptive pixels (-1, -1) and (-1, -1), one
exported and one new symbol, then the same coded bits as in `oneSymbolDictionaryData`. -/
def refinementSymbolDictionaryData : List Nat :=
  [0x00, 0x03, 0xFF, 0xFF, 0xFF, 0xFF, 0, 0, 0, 1, 0, 0, 0, 1, 0x40, 0x08]

/-- The header of the symbol dictionary segment 5 of page 1 that refers to no segment. -/
def symbolDictionaryHeader (dataLength : Nat) : PDFJBIG2SegmentHeader :=
  { m_segmentNumber := 5, m_pageAssociation := 1, m_segmentDataLength := dataLength,
    m_referredSegments := [], m_lossless := false, m_immediate := false,
    m_segmentType := JBIG2SegmentType.SymbolDictionary }

/-! ## Text region: symbol ID code lengths (`PDFJBIG2Decoder::processTextRegion`) -/

/-- Modelled from the spec: the default-constructed `PDFJBIG2HuffmanTableEntry` (the
structure is declared outside the sources): a Standard entry with every number zero. -/
def defaultHuffmanTableEntry : PDFJBIG2HuffmanTableEntry :=
  { value := 0, prefixBitLength := 0, rangeBitLength := 0, prefixCode := 0,
    type := HuffmanEntryType.Standard }

/-- The loop "Read run code lengths" of `processTextRegion`, for `remaining` more entries of
`rangeLengthTable` from the index `i` on. -/
def readRangeLengthTable : Nat → Nat → List PDFJBIG2HuffmanTableEntry → PDFBitReader →
    Except PDFException (List PDFJBIG2HuffmanTableEntry × PDFBitReader)
  | 0, _, rangeLengthTable, reader => pure (rangeLengthTable, reader)
  | remaining + 1, i, rangeLengthTable, reader => do
    let (prefixBitLength, r1) ← reader.read 4
    readRangeLengthTable remaining (i + 1)
      (rangeLengthTable.set i
        { rangeLengthTable.getD i defaultHuffmanTableEntry with
          value := (i : Int), prefixBitLength := prefixBitLength }) r1

/-- The vector `symCodeTable` of `processTextRegion` together with the indices its elements
have been written at, in the order of the writes.  A write at an index that is not below
the size of the vector is outside the vector in the source; here it is recorded in `writes`
and leaves `entries` as it is. -/
structure SymCodeTable where
  entries : List PDFJBIG2HuffmanTableEntry
  writes : List Nat
  deriving DecidableEq, Repr

/-- The assignment `symCodeTable[i].value = i`. -/
def SymCodeTable.setValue (t : SymCodeTable) (i : Nat) : SymCodeTable :=
  { entries := t.entries.set i { t.entries.getD i defaultHuffmanTableEntry with value := (i : Int) },
    writes := t.writes ++ [i] }

/-- The assignment `symCodeTable[i].prefixBitLength = length`. -/
def SymCodeTable.setPrefixBitLength (t : SymCodeTable) (i length : Nat) : SymCodeTable :=
  { entries := t.entries.set i
      { t.entries.getD i defaultHuffmanTableEntry with prefixBitLength := length },
    writes := t.writes ++ [i] }

/-- The loop `for (uint32_t j = 0; j < range; ++j)` of `processTextRegion`, for `range` more
iterations: the table and `i` after it. -/
def repeatCodeLength (length : Nat) : Nat → SymCodeTable → Nat → SymCodeTable × Nat
  | 0, symCodeTable, i => (symCodeTable, i)
  | range + 1, symCodeTable, i =>
    repeatCodeLength length range ((symCodeTable.setValue i).setPrefixBitLength i length)
      ((i + 1) % 2 ^ 32)

/-- The loop `for (uint32_t i = 0; i < parameters.SBNUMSYMS;)` of `processTextRegion`, run
for at most `fuel` iterations (`none` when they do not suffice), with the run length decoder
of the entries `runLengthTable`. -/
def symbolCodeLengthsLoop (runLengthTable : List PDFJBIG2HuffmanTableEntry) (SBNUMSYMS : Nat) :
    Nat → Nat → SymCodeTable → PDFBitReader →
      Option (Except PDFException (SymCodeTable × PDFBitReader))
  | fuel, i, symCodeTable, reader =>
    if i < SBNUMSYMS then
      match fuel with
      | 0 => none
      | fuel + 1 =>
        let symCodeTable := symCodeTable.setValue i
        match PDFJBIG2HuffmanDecoder.readSignedInteger
            { m_reader := reader, m_entries := runLengthTable } with
        | .error e => some (.error e)
        | .ok (value, r1) =>
          match checkInteger value with
          | .error e => some (.error e)
          | .ok v =>
            let code := toUInt32 v
            if code = 32 ∨ code = 33 ∨ code = 34 then
              if code = 32 ∧ i = 0 then some (.error PDFException.invalidSymbolLengthCodeTable)
              else
                let length :=
                  if code = 32 then
                    (symCodeTable.entries.getD (i - 1) defaultHuffmanTableEntry).prefixBitLength
                  else 0
                match r1.read (if code = 32 then 2 else if code = 33 then 3 else 7) with
                | .error e => some (.error e)
                | .ok (bits, r2) =>
                  let range := bits + (if code = 34 then 11 else 3)
                  let result := repeatCodeLength length range symCodeTable i
                  symbolCodeLengthsLoop runLengthTable SBNUMSYMS fuel result.2 result.1 r2
            else
              symbolCodeLengthsLoop runLengthTable SBNUMSYMS fuel ((i + 1) % 2 ^ 32)
                (symCodeTable.setPrefixBitLength i code) r1
    else some (.ok (symCodeTable, reader))

/-- The branch `if (SBHUFF)` of `processTextRegion` from "Read run code lengths" to the end of
the loop that fills `symCodeTable`: the table with the indices written, and the reader. -/
def readSymbolCodeLengths (fuel : Nat) (SBNUMSYMS : Nat) (m_reader : PDFBitReader) :
    Option (Except PDFException (SymCodeTable × PDFBitReader)) :=
  match readRangeLengthTable 35 0 (List.replicate 35 defaultHuffmanTableEntry) m_reader with
  | .error e => some (.error e)
  | .ok (rangeLengthTable, r1) =>
    match PDFJBIG2HuffmanCodeTable.buildPrefixes rangeLengthTable with
    | .error e => some (.error e)
    | .ok rangeLengthTable =>
      symbolCodeLengthsLoop rangeLengthTable SBNUMSYMS fuel 0
        { entries := List.replicate SBNUMSYMS defaultHuffmanTableEntry, writes := [] } r1

/-- The coded symbol ID code lengths of a text region: the 35 four-bit lengths of the run
codes, 1 for the run code 33 and 0 for the others, then the bit 0 (the run code 33) and the
three bits 000 (a run of 3 zero lengths). -/
def runCodeStream : List Nat :=
  [0, 0, 0, 0, 0, 0, 0, 0, 0, 0, 0, 0, 0, 0, 0, 0, 0x01, 0x00]
/-! ## Machine integer lemmas -/

theorem shl_lor_bit (a : Nat) (b : Bool) : (a <<< 1) ||| b.toNat = 2 * a + b.toNat := by
  rw [Nat.shiftLeft_eq, pow_one, mul_comm]
  cases b
  · simp
  · have := Nat.lor_bit false a true 0
    simpa [Nat.bit] using this

theorem bitsValue_lt (f : Nat → Bool) (start n : Nat) : bitsValue f start n < 2 ^ n := by
  induction n with
  | zero => simp [bitsValue]
  | succ n ih =>
    have hb : (f (start + n)).toNat ≤ 1 := Bool.toNat_le _
    rw [bitsValue, pow_succ]
    omega

theorem toInt32_of_lt (v : Nat) (h : v < 2 ^ 31) : toInt32 v = (v : Int) := by
  have h1 : v % 2 ^ 32 = v := Nat.mod_eq_of_lt (by omega)
  simp only [toInt32, h1]
  rw [if_pos h]

theorem wrapInt32_of_range (z : Int) (h0 : 0 ≤ z) (h1 : z < 2 ^ 31) : wrapInt32 z = z := by
  have hz : z % 2 ^ 32 = z := Int.emod_eq_of_lt h0 (by omega)
  have hn : z.toNat < 2 ^ 31 := by omega
  rw [wrapInt32, hz, toInt32_of_lt _ hn]
  omega

/-! ## getIAID -/

theorem getIAIDLoop_spec (n : Nat) :
    ∀ (i : Nat) (d : PDFJBIG2ArithmeticDecoder) (c : Nat), d.calls = c + i → i + n ≤ 31 →
      getIAIDLoop n (2 ^ i + bitsValue d.decisions c i) d =
        (2 ^ (i + n) + bitsValue d.decisions c (i + n),
          { decisions := d.decisions, calls := c + (i + n),
            contexts := d.contexts ++
              (List.range' i n).map (fun j => 2 ^ j + bitsValue d.decisions c j) }) := by
  induction n with
  | zero =>
    intro i d c hc _
    cases d
    simp_all [getIAIDLoop]
  | succ n ih =>
    intro i d c hc hin
    have hlt : bitsValue d.decisions c i < 2 ^ i := bitsValue_lt _ _ _
    have hpow : 2 ^ i ≤ 2 ^ 30 := Nat.pow_le_pow_right (by norm_num) (by omega)
    have hmod : ((2 ^ i + bitsValue d.decisions c i) <<< 1) % 2 ^ 32 =
        (2 ^ i + bitsValue d.decisions c i) <<< 1 := by
      apply Nat.mod_eq_of_lt
      rw [Nat.shiftLeft_eq]
      omega
    have hstep : ((2 ^ i + bitsValue d.decisions c i) <<< 1) % 2 ^ 32 |||
        (d.decisions d.calls).toNat = 2 ^ (i + 1) + bitsValue d.decisions c (i + 1) := by
      rw [hmod, shl_lor_bit, bitsValue, hc, pow_succ]
      ring
    have key := ih (i + 1)
      { decisions := d.decisions, calls := d.calls + 1,
        contexts := d.contexts ++ [2 ^ i + bitsValue d.decisions c i] } c
      (by simp only [hc]; omega) (by omega)
    simp only [getIAIDLoop, PDFJBIG2ArithmeticDecoder.readBit, hstep]
    rw [key]
    simp [List.range'_succ, Nat.add_assoc, Nat.add_comm 1 n]


/-- C3: for every size at most 30, getIAID returns the integer whose binary digits are the
next size decisions of readBit, most significant first, hence a value in [0, 2^size); it
makes exactly size calls of readBit, and the context of the i-th call (i from 0) is 2^i plus
the value of the first i decided bits. -/
theorem getIAID_value_and_contexts (size : Nat) (hsize : size ≤ 30)
    (d : PDFJBIG2ArithmeticDecoder) :
    (d.getIAID size).1 = (bitsValue d.decisions d.calls size : Int) ∧
    0 ≤ (d.getIAID size).1 ∧ (d.getIAID size).1 < 2 ^ size ∧
    (d.getIAID size).2.decisions = d.decisions ∧
    (d.getIAID size).2.calls = d.calls + size ∧
    (d.getIAID size).2.contexts = d.contexts ++
      (List.range size).map (fun i => 2 ^ i + bitsValue d.decisions d.calls i) := by
  have hloop := getIAIDLoop_spec size 0 d d.calls (by simp) (by omega)
  simp only [bitsValue, pow_zero, Nat.add_zero, Nat.zero_add] at hloop
  have hlt : bitsValue d.decisions d.calls size < 2 ^ size := bitsValue_lt _ _ _
  have hpow : 2 ^ size ≤ 2 ^ 30 := Nat.pow_le_pow_right (by norm_num) hsize
  have hval : (d.getIAID size).1 = (bitsValue d.decisions d.calls size : Int) := by
    simp only [PDFJBIG2ArithmeticDecoder.getIAID, hloop]
    rw [toInt32_of_lt _ (by omega), Nat.shiftLeft_eq, one_mul,
      Nat.mod_eq_of_lt (by omega), toInt32_of_lt _ (by omega)]
    rw [wrapInt32_of_range]
    · push_cast; ring
    · push_cast; omega
    · push_cast; omega
  refine ⟨hval, ?_, ?_, ?_, ?_, ?_⟩
  · rw [hval]; exact Int.natCast_nonneg _
  · rw [hval]; exact_mod_cast hlt
  · simp only [PDFJBIG2ArithmeticDecoder.getIAID, hloop]
  · simp only [PDFJBIG2ArithmeticDecoder.getIAID, hloop]
  · simp only [PDFJBIG2ArithmeticDecoder.getIAID, hloop, List.range_eq_range']

theorem getIAID_value_and_contexts_witness :
    (3 : Nat) ≤ 30 ∧
    ((freshDecoder (decisionsOfList [true, false, true])).getIAID 3).1 = 5 ∧
    ((freshDecoder (decisionsOfList [true, false, true])).getIAID 3).2.contexts = [1, 3, 6] := by
  have h := getIAID_value_and_contexts 3 (by decide)
    (freshDecoder (decisionsOfList [true, false, true]))
  refine ⟨by decide, ?_, ?_⟩
  · rw [h.1]; decide
  · rw [h.2.2.2.2.2]; decide


/-! ## getSignedInteger -/

theorem bitsValue_succ_left (f : Nat → Bool) (c n : Nat) :
    bitsValue f c (n + 1) = (f c).toNat * 2 ^ n + bitsValue f (c + 1) n := by
  induction n with
  | zero => simp [bitsValue]
  | succ n ih =>
    rw [bitsValue, ih, bitsValue, pow_succ]
    have : c + 1 + n = c + (n + 1) := by omega
    rw [this]
    ring

theorem readIntBit_fst (s : IntDecodeState) :
    (readIntBit s).1 = (s.decoder.decisions s.decoder.calls).toNat := rfl

theorem readIntBit_decisions (s : IntDecodeState) :
    (readIntBit s).2.decoder.decisions = s.decoder.decisions := rfl

theorem readIntBit_calls (s : IntDecodeState) :
    (readIntBit s).2.decoder.calls = s.decoder.calls + 1 := rfl

theorem readIntBitsLoop_spec (n : Nat) :
    ∀ (j result : Nat) (s : IntDecodeState), result < 2 ^ j → j + n ≤ 32 →
      (readIntBitsLoop n result s).1 =
          result * 2 ^ n + bitsValue s.decoder.decisions s.decoder.calls n ∧
        (readIntBitsLoop n result s).2.decoder.decisions = s.decoder.decisions ∧
        (readIntBitsLoop n result s).2.decoder.calls = s.decoder.calls + n := by
  induction n with
  | zero =>
    intro j result s _ _
    simp [readIntBitsLoop, bitsValue]
  | succ n ih =>
    intro j result s hres hjn
    have hpow : 2 ^ j ≤ 2 ^ 31 := Nat.pow_le_pow_right (by norm_num) (by omega)
    have hmod : (result <<< 1) % 2 ^ 32 = result <<< 1 := by
      apply Nat.mod_eq_of_lt
      rw [Nat.shiftLeft_eq]
      omega
    have hb : (s.decoder.decisions s.decoder.calls).toNat ≤ 1 := Bool.toNat_le _
    have hstep : ((result <<< 1) % 2 ^ 32) ||| (readIntBit s).1 =
        2 * result + (s.decoder.decisions s.decoder.calls).toNat := by
      rw [hmod, readIntBit_fst, shl_lor_bit]
    have key := ih (j + 1) (2 * result + (s.decoder.decisions s.decoder.calls).toNat)
      (readIntBit s).2 (by rw [pow_succ]; omega) (by omega)
    rw [readIntBit_decisions, readIntBit_calls] at key
    simp only [readIntBitsLoop, hstep]
    refine ⟨?_, key.2.1, ?_⟩
    · rw [key.1, bitsValue_succ_left, pow_succ]
      ring
    · rw [key.2.2]; omega

theorem readIntBits_spec (n : Nat) (hn : n ≤ 32) (s : IntDecodeState) :
    (readIntBits n s).1 = bitsValue s.decoder.decisions s.decoder.calls n ∧
      (readIntBits n s).2.decoder.decisions = s.decoder.decisions ∧
      (readIntBits n s).2.decoder.calls = s.decoder.calls + n := by
  have h := readIntBitsLoop_spec n 0 0 s (by norm_num) (by omega)
  simpa [readIntBits] using h

theorem bitsValue_shift (g : Nat → Bool) (c a n : Nat) :
    bitsValue g (c + a) n = bitsValue (fun i => g (c + i)) a n := by
  induction n with
  | zero => rfl
  | succ n ih => simp only [bitsValue, ih, Nat.add_assoc]

theorem readIntBits_at (n : Nat) (hn : n ≤ 32) (s : IntDecodeState) (g : Nat → Bool)
    (c a : Nat) (hg : s.decoder.decisions = g) (hc : s.decoder.calls = c + a) :
    (readIntBits n s).1 = bitsValue (fun i => g (c + i)) a n ∧
      (readIntBits n s).2.decoder.decisions = g ∧
      (readIntBits n s).2.decoder.calls = c + a + n := by
  have h := readIntBits_spec n hn s
  rw [hg, hc, bitsValue_shift] at h
  exact h

theorem readMagnitude_spec (s : IntDecodeState) (c : Nat) (hc : s.decoder.calls = c + 1) :
    (readMagnitude s).1 = specMagnitude (fun i => s.decoder.decisions (c + i)) ∧
      (readMagnitude s).2.decoder.decisions = s.decoder.decisions ∧
      (readMagnitude s).2.decoder.calls =
        c + magnitudeStart (unaryClass (fun i => s.decoder.decisions (c + i))) +
          classWidth (unaryClass (fun i => s.decoder.decisions (c + i))) := by
  have hlt := fun (a n : Nat) => bitsValue_lt (fun i => s.decoder.decisions (c + i)) a n
  have h2 := hlt 2 2
  have h3 := hlt 3 4
  have h4 := hlt 4 6
  have h5 := hlt 5 8
  have h6 := hlt 6 12
  unfold readMagnitude
  simp only [readIntBit_fst, readIntBit_decisions, readIntBit_calls, hc]
  cases h1 : s.decoder.decisions (c + 1)
  · have hk : unaryClass (fun i => s.decoder.decisions (c + i)) = 0 := by simp [unaryClass, h1]
    have hr := readIntBits_at 2 (by norm_num) (readIntBit s).2 s.decoder.decisions c 2 rfl
      (by simp only [readIntBit_calls, hc])
    simp only [Bool.toNat_false, if_true, hr, specMagnitude, hk, magnitudeStart, classWidth,
      classBias]
    refine ⟨?_, trivial, by norm_num⟩
    norm_num
    omega
  cases h2' : s.decoder.decisions (c + 1 + 1)
  · have hk : unaryClass (fun i => s.decoder.decisions (c + i)) = 1 := by
      simp [unaryClass, h1, h2']
    have hr := readIntBits_at 4 (by norm_num) (readIntBit (readIntBit s).2).2
      s.decoder.decisions c 3 rfl (by simp only [readIntBit_calls, hc])
    simp only [Bool.toNat_false, Bool.toNat_true, if_true, hr, specMagnitude, hk,
      magnitudeStart, classWidth, classBias]
    norm_num
    exact hr.2
  cases h3' : s.decoder.decisions (c + 1 + 1 + 1)
  · have hk : unaryClass (fun i => s.decoder.decisions (c + i)) = 2 := by
      simp [unaryClass, h1, h2', h3']
    have hr := readIntBits_at 6 (by norm_num) (readIntBit (readIntBit (readIntBit s).2).2).2
      s.decoder.decisions c 4 rfl (by simp only [readIntBit_calls, hc])
    simp only [Bool.toNat_false, Bool.toNat_true, if_true, hr, specMagnitude, hk,
      magnitudeStart, classWidth, classBias]
    norm_num
    exact hr.2
  cases h4' : s.decoder.decisions (c + 1 + 1 + 1 + 1)
  · have hk : unaryClass (fun i => s.decoder.decisions (c + i)) = 3 := by
      simp [unaryClass, h1, h2', h3', h4']
    have hr := readIntBits_at 8 (by norm_num)
      (readIntBit (readIntBit (readIntBit (readIntBit s).2).2).2).2
      s.decoder.decisions c 5 rfl (by simp only [readIntBit_calls, hc])
    simp only [Bool.toNat_false, Bool.toNat_true, if_true, hr, specMagnitude, hk,
      magnitudeStart, classWidth, classBias]
    norm_num
    exact hr.2
  cases h5' : s.decoder.decisions (c + 1 + 1 + 1 + 1 + 1)
  · have hk : unaryClass (fun i => s.decoder.decisions (c + i)) = 4 := by
      simp [unaryClass, h1, h2', h3', h4', h5']
    have hr := readIntBits_at 12 (by norm_num)
      (readIntBit (readIntBit (readIntBit (readIntBit (readIntBit s).2).2).2).2).2
      s.decoder.decisions c 6 rfl (by simp only [readIntBit_calls, hc])
    simp only [Bool.toNat_false, Bool.toNat_true, if_true, hr, specMagnitude, hk,
      magnitudeStart, classWidth, classBias]
    norm_num
    exact hr.2
  · have hk : unaryClass (fun i => s.decoder.decisions (c + i)) = 5 := by
      simp [unaryClass, h1, h2', h3', h4', h5']
    have hr := readIntBits_at 32 (by norm_num)
      (readIntBit (readIntBit (readIntBit (readIntBit (readIntBit s).2).2).2).2).2
      s.decoder.decisions c 6 rfl (by simp only [readIntBit_calls, hc])
    simp only [Bool.toNat_false, Bool.toNat_true, if_true, hr, specMagnitude, hk,
      magnitudeStart, classWidth, classBias]
    norm_num
    exact hr.2
theorem specMagnitude_lt (f : Nat → Bool) : specMagnitude f < 2 ^ 32 :=
  Nat.mod_lt _ (by norm_num)

theorem unaryClass_le (f : Nat → Bool) : unaryClass f ≤ 5 := by
  unfold unaryClass
  split_ifs <;> omega

theorem specMagnitude_class_bounds (f : Nat → Bool) (hk : unaryClass f ≤ 4) :
    specMagnitude f = bitsValue f (magnitudeStart (unaryClass f)) (classWidth (unaryClass f)) +
        classBias (unaryClass f) ∧
      classBias (unaryClass f) ≤ specMagnitude f ∧
      specMagnitude f < classBias (unaryClass f) + 2 ^ classWidth (unaryClass f) ∧
      specMagnitude f ≤ 4435 := by
  have hlt := bitsValue_lt f (magnitudeStart (unaryClass f)) (classWidth (unaryClass f))
  unfold specMagnitude
  generalize unaryClass f = k at hk hlt ⊢
  interval_cases k <;> simp only [classWidth, classBias] at hlt ⊢ <;> omega

theorem getSignedInteger_eq (d : PDFJBIG2ArithmeticDecoder) :
    d.getSignedInteger.1 =
        (if d.pending 0 = true then
          (if specMagnitude d.pending = 0 then none
            else some (wrapInt32 (-(toInt32 (specMagnitude d.pending)))))
          else some (toInt32 (specMagnitude d.pending))) ∧
      d.getSignedInteger.2.decisions = d.decisions ∧
      d.getSignedInteger.2.calls =
        d.calls + magnitudeStart (unaryClass d.pending) + classWidth (unaryClass d.pending) := by
  have hm := readMagnitude_spec (readIntBit { PREV := 1, decoder := d }).2 d.calls rfl
  simp only [readIntBit_decisions] at hm
  unfold PDFJBIG2ArithmeticDecoder.getSignedInteger
  simp only [readIntBit_fst]
  have hp : d.pending = fun i => d.decisions (d.calls + i) := rfl
  have h0 : d.pending 0 = d.decisions d.calls := rfl
  rw [hp] at *
  rw [h0, hm.1]
  rcases Bool.eq_false_or_eq_true (d.decisions d.calls) with hS | hS
  · simp only [hS, Bool.toNat_true, ne_eq, one_ne_zero, not_false_eq_true, if_true]
    split_ifs
    · exact ⟨rfl, hm.2.1, hm.2.2⟩
    · exact ⟨rfl, hm.2.1, hm.2.2⟩
  · simp only [hS, Bool.toNat_false, ne_eq, not_true_eq_false, if_false]
    exact ⟨by simp, hm.2.1, hm.2.2⟩

theorem bitsValue_testBit (w : Nat) : ∀ (f : Nat → Bool) (a n : Nat), n < 2 ^ w →
    (∀ i, i < w → f (a + i) = n.testBit (w - 1 - i)) → bitsValue f a w = n := by
  induction w with
  | zero =>
    intro f a n hn _
    simp only [pow_zero, Nat.lt_one_iff] at hn
    simp [bitsValue, hn]
  | succ w ih =>
    intro f a n hn hf
    have h1 : bitsValue f a w = n / 2 := by
      apply ih f a (n / 2)
      · rw [pow_succ] at hn; omega
      · intro i hi
        rw [hf i (by omega), Nat.testBit_div_two]
        congr 1
        omega
    have h2 : f (a + w) = n.testBit 0 := by
      rw [hf w (by omega)]
      congr 1
      omega
    rw [bitsValue, h1, h2, Nat.testBit_zero]
    rcases Nat.mod_two_eq_zero_or_one n with h | h <;> simp [h] <;> omega
theorem decisionsOfList_append_map (pre : List Bool) (g : Nat → Bool) (w i : Nat) (hi : i < w) :
    decisionsOfList (pre ++ (List.range w).map g) (pre.length + i) = g i := by
  unfold decisionsOfList
  rw [List.getD_append_right _ _ _ _ (by omega)]
  simp [List.getD_eq_getElem?_getD, hi]

theorem encodeSignedInteger_decodes (S : Bool) (k v : Nat) (hk : k ≤ 4)
    (hlo : classBias k ≤ v) (hhi : v < classBias k + 2 ^ classWidth k) :
    decisionsOfList (encodeSignedInteger S k v) 0 = S ∧
      unaryClass (decisionsOfList (encodeSignedInteger S k v)) = k ∧
      specMagnitude (decisionsOfList (encodeSignedInteger S k v)) = v := by
  have hbits : ∀ (pre : List Bool),
      bitsValue (decisionsOfList (pre ++ (List.range (classWidth k)).map
        (fun i => (v - classBias k).testBit (classWidth k - 1 - i)))) pre.length (classWidth k) =
        v - classBias k := by
    intro pre
    apply bitsValue_testBit
    · omega
    · intro i hi
      exact decisionsOfList_append_map pre _ _ i hi
  have hclass : unaryClass (decisionsOfList (encodeSignedInteger S k v)) = k := by
    interval_cases k <;> simp [unaryClass, decisionsOfList, encodeSignedInteger, List.replicate]
  refine ⟨rfl, hclass, ?_⟩
  unfold specMagnitude
  rw [hclass]
  have hv : v < 2 ^ 32 := by
    interval_cases k <;> simp only [classWidth, classBias] at hhi <;> omega
  have hk5 : k < 5 := by omega
  have henc : encodeSignedInteger S k v = (S :: (List.replicate k true ++ [false])) ++
      (List.range (classWidth k)).map
        (fun i => (v - classBias k).testBit (classWidth k - 1 - i)) := by
    simp [encodeSignedInteger, hk5]
  have hlen : magnitudeStart k = (S :: (List.replicate k true ++ [false])).length := by
    simp [magnitudeStart, hk5]
  rw [henc, hlen, hbits, Nat.sub_add_cancel hlo, Nat.mod_eq_of_lt hv]
theorem wrapInt32_of_int32 (z : Int) (h0 : -2 ^ 31 ≤ z) (h1 : z < 2 ^ 31) : wrapInt32 z = z := by
  unfold wrapInt32 toInt32
  have hlt : (z % 2 ^ 32).toNat < 2 ^ 32 := by omega
  rw [Nat.mod_eq_of_lt hlt]
  split_ifs with h <;> omega

theorem toInt32_range (v : Nat) : -2 ^ 31 ≤ toInt32 v ∧ toInt32 v < 2 ^ 31 := by
  unfold toInt32
  have hlt : v % 2 ^ 32 < 2 ^ 32 := Nat.mod_lt _ (by norm_num)
  split_ifs with h <;> omega

theorem toInt32_eq_min (v : Nat) (hv : v < 2 ^ 32) (h : toInt32 v = -2 ^ 31) : v = 2 ^ 31 := by
  unfold toInt32 at h
  rw [Nat.mod_eq_of_lt hv] at h
  split_ifs at h <;> omega

/-- C2 (counterexample): with sign decision 0, five continuation ones and the 32-bit field
`2 ^ 31`, the value is V = 2147488084, which the claim says is returned; the code returns
-2147479212, the same 32 bits read as `int32_t`. -/
theorem getSignedInteger_large_magnitude_differs :
    (freshDecoder (decisionsOfList largeMagnitudeDecisions)).pending 0 = false ∧
    unaryClass (freshDecoder (decisionsOfList largeMagnitudeDecisions)).pending = 5 ∧
    specMagnitude (freshDecoder (decisionsOfList largeMagnitudeDecisions)).pending
      = 2147488084 ∧
    specSignedInteger (freshDecoder (decisionsOfList largeMagnitudeDecisions)).pending
      = some 2147488084 ∧
    (freshDecoder (decisionsOfList largeMagnitudeDecisions)).getSignedInteger.1
      = some (-2147479212) ∧
    (freshDecoder (decisionsOfList largeMagnitudeDecisions)).getSignedInteger.1 ≠
      specSignedInteger (freshDecoder (decisionsOfList largeMagnitudeDecisions)).pending := by
  decide

/-- C2 (amended): getSignedInteger reads the sign decision S, the class k (continuation
one-bits, at most 5) and the w-bit field of that class, with (w, bias) as tabulated by
classWidth and classBias, and V = (field + bias) mod 2^32.  It returns no value exactly
when S = 1 and V = 0; for S = 0 it returns V read as a signed 32-bit integer; for S = 1 and
V non-zero (V other than 2^31) it returns the negation of that signed integer.  For k at
most 4 this is the claimed result (V itself, or -V), V lies in the range of its class, the
five ranges are 0..3, 4..19, 20..83, 84..339, 340..4435, and every value of a range is the
magnitude of some decision sequence of that class.  The decoder makes exactly
magnitudeStart k + w calls of readBit. -/
theorem getSignedInteger_decodes :
    (∀ d : PDFJBIG2ArithmeticDecoder,
      (d.getSignedInteger.1 = none ↔ (d.pending 0 = true ∧ specMagnitude d.pending = 0)) ∧
      (d.pending 0 = false →
        d.getSignedInteger.1 = some (toInt32 (specMagnitude d.pending))) ∧
      (d.pending 0 = true → specMagnitude d.pending ≠ 0 → specMagnitude d.pending ≠ 2 ^ 31 →
        d.getSignedInteger.1 = some (-(toInt32 (specMagnitude d.pending)))) ∧
      (unaryClass d.pending ≤ 4 →
        d.getSignedInteger.1 = specSignedInteger d.pending ∧
        classBias (unaryClass d.pending) ≤ specMagnitude d.pending ∧
        specMagnitude d.pending <
          classBias (unaryClass d.pending) + 2 ^ classWidth (unaryClass d.pending)) ∧
      d.getSignedInteger.2.calls =
        d.calls + magnitudeStart (unaryClass d.pending) + classWidth (unaryClass d.pending)) ∧
    (∀ (S : Bool) (k v : Nat), k ≤ 4 → classBias k ≤ v → v < classBias k + 2 ^ classWidth k →
      ∃ d : PDFJBIG2ArithmeticDecoder,
        d.pending 0 = S ∧ unaryClass d.pending = k ∧ specMagnitude d.pending = v) ∧
    (List.range 6).map (fun k => (classWidth k, classBias k)) =
      [(2, 0), (4, 4), (6, 20), (8, 84), (12, 340), (32, 4436)] ∧
    (List.range 5).map (fun k => (classBias k, classBias k + 2 ^ classWidth k - 1)) =
      [(0, 3), (4, 19), (20, 83), (84, 339), (340, 4435)] := by
  refine ⟨fun d => ?_, ?_, by decide, by decide⟩
  · have h := getSignedInteger_eq d
    have hV := specMagnitude_lt d.pending
    have hr := toInt32_range (specMagnitude d.pending)
    refine ⟨?_, ?_, ?_, ?_, h.2.2⟩
    · rw [h.1]
      constructor
      · intro hn
        split_ifs at hn with h1 h2
        · exact ⟨h1, h2⟩
      · rintro ⟨h1, h2⟩
        rw [if_pos h1, if_pos h2]
    · intro hS
      rw [h.1, hS]
      simp
    · intro hS h0 hmin
      rw [h.1, if_pos hS, if_neg h0, wrapInt32_of_int32]
      · omega
      · have hne : toInt32 (specMagnitude d.pending) ≠ -2 ^ 31 :=
          fun he => hmin (toInt32_eq_min _ hV he)
        omega
    · intro hk
      have hb := specMagnitude_class_bounds d.pending hk
      have hsmall : specMagnitude d.pending < 2 ^ 31 := by omega
      have ht := toInt32_of_lt _ hsmall
      refine ⟨?_, hb.2.1, hb.2.2.1⟩
      rw [h.1, specSignedInteger, ht]
      by_cases hS : d.pending 0 = true
      · rw [if_pos hS, if_pos hS]
        by_cases h0 : specMagnitude d.pending = 0
        · rw [if_pos h0, if_pos h0]
        · rw [if_neg h0, if_neg h0, wrapInt32_of_int32] <;> omega
      · rw [if_neg hS, if_neg hS]
  · intro S k v hk hlo hhi
    refine ⟨freshDecoder (decisionsOfList (encodeSignedInteger S k v)), ?_⟩
    have hp : (freshDecoder (decisionsOfList (encodeSignedInteger S k v))).pending =
        decisionsOfList (encodeSignedInteger S k v) := by
      funext i
      simp [PDFJBIG2ArithmeticDecoder.pending, freshDecoder]
    rw [hp]
    exact encodeSignedInteger_decodes S k v hk hlo hhi

/-- C2 (instance): sign 1, class 1, field 0111: the value is -(7 + 4). -/
theorem getSignedInteger_decodes_witness :
    (freshDecoder (decisionsOfList [true, true, false, false, true, true, true])).getSignedInteger.1
      = some (-11) := by
  have h := (getSignedInteger_decodes.1
    (freshDecoder (decisionsOfList [true, true, false, false, true, true, true]))).2.2.2.1
    (by decide)
  rw [h.1]
  decide

/-! ## Segment header -/

theorem readFields_inv (reader : PDFBitReader) (h : PDFJBIG2SegmentHeader) (type : Nat)
    (r' : PDFBitReader) (hf : PDFJBIG2SegmentHeader.readFields reader = .ok (h, type, r')) :
    ∃ (sn : Nat) (r1 : PDFBitReader) (flags : Nat) (r2 : PDFBitReader) (cnt : Nat)
      (r3 : PDFBitReader) (refs : List Nat) (r4 : PDFBitReader) (pa : Nat) (r5 : PDFBitReader)
      (len : Nat),
      reader.readUnsignedInt = .ok (sn, r1) ∧ r1.readUnsignedByte = .ok (flags, r2) ∧
      readReferredSegmentsCount r2 = .ok (cnt, r3) ∧
      readReferredSegments (referredSegmentNumberBits sn) cnt r3 = .ok (refs, r4) ∧
      r4.read (pageAssociationBits flags) = .ok (pa, r5) ∧
      r5.readUnsignedInt = .ok (len, r') ∧
      type = flags &&& 0x3F ∧
      h = { m_segmentNumber := sn
            m_pageAssociation := pa
            m_segmentDataLength := len
            m_referredSegments := refs
            m_lossless := (type &&& 0x01) ≠ 0
            m_immediate := (type &&& 0x02) ≠ 0
            m_segmentType := JBIG2SegmentType.Invalid } := by
  unfold PDFJBIG2SegmentHeader.readFields at hf
  cases h1 : reader.readUnsignedInt with
  | error e => simp only [h1, bind, Except.bind, reduceCtorEq] at hf
  | ok v1 =>
    obtain ⟨sn, r1⟩ := v1
    cases h2 : r1.readUnsignedByte with
    | error e => simp only [h1, h2, bind, Except.bind, reduceCtorEq] at hf
    | ok v2 =>
      obtain ⟨flags, r2⟩ := v2
      cases h3 : readReferredSegmentsCount r2 with
      | error e => simp only [h1, h2, h3, bind, Except.bind, reduceCtorEq] at hf
      | ok v3 =>
        obtain ⟨cnt, r3⟩ := v3
        cases h4 : readReferredSegments (referredSegmentNumberBits sn) cnt r3 with
        | error e => simp only [h1, h2, h3, h4, bind, Except.bind, reduceCtorEq] at hf
        | ok v4 =>
          obtain ⟨refs, r4⟩ := v4
          cases h5 : r4.read (pageAssociationBits flags) with
          | error e => simp only [h1, h2, h3, h4, h5, bind, Except.bind, reduceCtorEq] at hf
          | ok v5 =>
            obtain ⟨pa, r5⟩ := v5
            cases h6 : r5.readUnsignedInt with
            | error e => simp only [h1, h2, h3, h4, h5, h6, bind, Except.bind, reduceCtorEq] at hf
            | ok v6 =>
              obtain ⟨len, r6⟩ := v6
              simp only [h1, h2, h3, h4, h5, h6, bind, Except.bind, pure, Except.pure,
                Except.ok.injEq, Prod.mk.injEq] at hf
              obtain ⟨hh, ht, hr⟩ := hf
              subst ht hr
              exact ⟨sn, r1, flags, r2, cnt, r3, refs, r4, pa, r5, len, rfl, h2, h3, h4,
                h5, h6, rfl, hh.symm⟩
theorem read_eq_of_readFields (reader : PDFBitReader) (h : PDFJBIG2SegmentHeader) (type : Nat)
    (r' : PDFBitReader) (hf : PDFJBIG2SegmentHeader.readFields reader = .ok (h, type, r')) :
    PDFJBIG2SegmentHeader.read reader =
      (match segmentTypeOfCode type with
        | .ok t => .ok ({ h with m_segmentType := t }, r')
        | .error e => .error e) := by
  unfold PDFJBIG2SegmentHeader.read
  rw [hf]
  simp only [bind, Except.bind, pure, Except.pure]
  cases segmentTypeOfCode type <;> rfl

/-- C4: when the fields of a segment header other than the type are readable, read maps the
type code (the low 6 bits of the flags byte) to the segment type as tabulated, and throws
"invalid segment type" for every other code of 0..63. -/
theorem read_segment_type_of_code (reader : PDFBitReader) (h : PDFJBIG2SegmentHeader)
    (type : Nat) (r' : PDFBitReader)
    (hf : PDFJBIG2SegmentHeader.readFields reader = .ok (h, type, r')) :
    (∃ (sn : Nat) (r1 : PDFBitReader) (flags : Nat) (r2 : PDFBitReader),
      reader.readUnsignedInt = .ok (sn, r1) ∧ r1.readUnsignedByte = .ok (flags, r2) ∧
      type = flags % 64) ∧
    type < 64 ∧
    (type = 0 → PDFJBIG2SegmentHeader.read reader =
      .ok ({ h with m_segmentType := JBIG2SegmentType.SymbolDictionary }, r')) ∧
    (type = 4 ∨ type = 6 ∨ type = 7 → PDFJBIG2SegmentHeader.read reader =
      .ok ({ h with m_segmentType := JBIG2SegmentType.TextRegion }, r')) ∧
    (type = 16 → PDFJBIG2SegmentHeader.read reader =
      .ok ({ h with m_segmentType := JBIG2SegmentType.PatternDictionary }, r')) ∧
    (type = 20 ∨ type = 22 ∨ type = 23 → PDFJBIG2SegmentHeader.read reader =
      .ok ({ h with m_segmentType := JBIG2SegmentType.HalftoneRegion }, r')) ∧
    (type = 36 ∨ type = 38 ∨ type = 39 → PDFJBIG2SegmentHeader.read reader =
      .ok ({ h with m_segmentType := JBIG2SegmentType.GenericRegion }, r')) ∧
    (type = 40 ∨ type = 42 ∨ type = 43 → PDFJBIG2SegmentHeader.read reader =
      .ok ({ h with m_segmentType := JBIG2SegmentType.GenericRefinementRegion }, r')) ∧
    (type = 48 → PDFJBIG2SegmentHeader.read reader =
      .ok ({ h with m_segmentType := JBIG2SegmentType.PageInformation }, r')) ∧
    (type = 49 → PDFJBIG2SegmentHeader.read reader =
      .ok ({ h with m_segmentType := JBIG2SegmentType.EndOfPage }, r')) ∧
    (type = 50 → PDFJBIG2SegmentHeader.read reader =
      .ok ({ h with m_segmentType := JBIG2SegmentType.EndOfStripe }, r')) ∧
    (type = 51 → PDFJBIG2SegmentHeader.read reader =
      .ok ({ h with m_segmentType := JBIG2SegmentType.EndOfFile }, r')) ∧
    (type = 52 → PDFJBIG2SegmentHeader.read reader =
      .ok ({ h with m_segmentType := JBIG2SegmentType.Profiles }, r')) ∧
    (type = 53 → PDFJBIG2SegmentHeader.read reader =
      .ok ({ h with m_segmentType := JBIG2SegmentType.Tables }, r')) ∧
    (type = 62 → PDFJBIG2SegmentHeader.read reader =
      .ok ({ h with m_segmentType := JBIG2SegmentType.Extension }, r')) ∧
    (type ∉ [0, 4, 6, 7, 16, 20, 22, 23, 36, 38, 39, 40, 42, 43, 48, 49, 50, 51, 52, 53, 62] →
      PDFJBIG2SegmentHeader.read reader = .error (PDFException.invalidSegmentType type)) := by
  have key := read_eq_of_readFields reader h type r' hf
  obtain ⟨sn, r1, flags, r2, cnt, r3, refs, r4, pa, r5, len, h1, h2, -, -, -, -, ht, -⟩ :=
    readFields_inv reader h type r' hf
  have hmod : type = flags % 64 := by
    rw [ht]
    exact Nat.and_pow_two_sub_one_eq_mod flags 6
  have hlt : type < 64 := by omega
  refine ⟨⟨sn, r1, flags, r2, h1, h2, hmod⟩, hlt, ?_, ?_, ?_, ?_, ?_, ?_, ?_, ?_, ?_, ?_, ?_,
    ?_, ?_, ?_⟩
  all_goals intro hx
  any_goals (rcases hx with rfl | rfl | rfl <;> exact key)
  clear hmod ht hf
  interval_cases type <;> first | exact key | (exfalso; revert hx; decide)

set_option maxRecDepth 100000 in
theorem read_segment_type_of_code_witness :
    PDFJBIG2SegmentHeader.read (PDFBitReader.ofBytes [0, 0, 0, 9, 0x46, 0x41, 7, 8, 0, 0, 0, 1,
      0, 0, 0, 5]) =
    .ok ({ m_segmentNumber := 9, m_pageAssociation := 1, m_segmentDataLength := 5,
           m_referredSegments := [7, 8], m_lossless := false, m_immediate := true,
           m_segmentType := JBIG2SegmentType.TextRegion },
         { data := bytesToBits [0, 0, 0, 9, 0x46, 0x41, 7, 8, 0, 0, 0, 1, 0, 0, 0, 5],
           position := 128 }) :=
  (read_segment_type_of_code
    (PDFBitReader.ofBytes [0, 0, 0, 9, 0x46, 0x41, 7, 8, 0, 0, 0, 1, 0, 0, 0, 5])
    { m_segmentNumber := 9, m_pageAssociation := 1, m_segmentDataLength := 5,
      m_referredSegments := [7, 8], m_lossless := false, m_immediate := true,
      m_segmentType := JBIG2SegmentType.Invalid } 6
    { data := bytesToBits [0, 0, 0, 9, 0x46, 0x41, 7, 8, 0, 0, 0, 1, 0, 0, 0, 5],
      position := 128 } (by rfl)).2.2.2.1 (Or.inr (Or.inl rfl))
theorem bitsToNat_foldl (bs : List Bool) (acc : Nat) :
    bs.foldl (fun a b => 2 * a + b.toNat) acc = acc * 2 ^ bs.length + bitsToNat bs := by
  induction bs generalizing acc with
  | nil => simp [bitsToNat]
  | cons b bs ih =>
    simp only [bitsToNat, List.foldl_cons, List.length_cons] at ih ⊢
    rw [ih (2 * acc + b.toNat), ih (2 * 0 + b.toNat), pow_succ]
    ring

theorem bitsToNat_cons (b : Bool) (bs : List Bool) :
    bitsToNat (b :: bs) = b.toNat * 2 ^ bs.length + bitsToNat bs := by
  have h := bitsToNat_foldl bs (2 * 0 + b.toNat)
  simp only [bitsToNat, List.foldl_cons] at h ⊢
  rw [h]
  ring

theorem bitsToNat_lt (bs : List Bool) : bitsToNat bs < 2 ^ bs.length := by
  induction bs with
  | nil => simp [bitsToNat]
  | cons b bs ih =>
    have hb : b.toNat ≤ 1 := Bool.toNat_le _
    rw [bitsToNat_cons, List.length_cons, pow_succ]
    nlinarith

theorem read_inv (n : Nat) (r r' : PDFBitReader) (v : Nat) (h : r.read n = .ok (v, r')) :
    r.position + n ≤ r.data.length ∧ v = bitsToNat ((r.data.drop r.position).take n) ∧
      r'.data = r.data ∧ r'.position = r.position + n ∧ v < 2 ^ n := by
  unfold PDFBitReader.read at h
  split_ifs at h with hle
  simp only [Except.ok.injEq, Prod.mk.injEq] at h
  obtain ⟨hv, hr⟩ := h
  subst hv hr
  refine ⟨hle, rfl, rfl, rfl, ?_⟩
  have hlen : ((r.data.drop r.position).take n).length = n := by
    rw [List.length_take, List.length_drop]
    omega
  have := bitsToNat_lt ((r.data.drop r.position).take n)
  rwa [hlen] at this

theorem skipBytes_inv (count : Nat) (r r' : PDFBitReader) (h : r.skipBytes count = .ok r') :
    r.position + 8 * count ≤ r.data.length ∧ r'.data = r.data ∧
      r'.position = r.position + 8 * count := by
  unfold PDFBitReader.skipBytes at h
  split_ifs at h with hle
  simp only [Except.ok.injEq] at h
  subst h
  exact ⟨hle, rfl, rfl⟩

theorem readReferredSegments_inv (w : Nat) : ∀ (count : Nat) (r r' : PDFBitReader)
    (refs : List Nat), readReferredSegments w count r = .ok (refs, r') →
      refs.length = count ∧ r'.data = r.data ∧ r'.position = r.position + count * w := by
  intro count
  induction count with
  | zero =>
    intro r r' refs h
    simp only [readReferredSegments, pure, Except.pure, Except.ok.injEq, Prod.mk.injEq] at h
    obtain ⟨h1, h2⟩ := h
    subst h1 h2
    simp
  | succ n ih =>
    intro r r' refs h
    unfold readReferredSegments at h
    cases h1 : r.read w with
    | error e => simp only [h1, bind, Except.bind, reduceCtorEq] at h
    | ok v1 =>
      obtain ⟨number, r1⟩ := v1
      cases h2 : readReferredSegments w n r1 with
      | error e => simp only [h1, h2, bind, Except.bind, reduceCtorEq] at h
      | ok v2 =>
        obtain ⟨numbers, r2⟩ := v2
        simp only [h1, h2, bind, Except.bind, pure, Except.pure, Except.ok.injEq,
          Prod.mk.injEq] at h
        obtain ⟨hrefs, hr⟩ := h
        subst hrefs hr
        obtain ⟨-, -, hd, hp, -⟩ := read_inv w r r1 number h1
        obtain ⟨hl, hd2, hp2⟩ := ih r1 r2 numbers h2
        refine ⟨by simp [hl], by rw [hd2, hd], ?_⟩
        rw [hp2, hp]
        ring

theorem lor_land_self (a b : Nat) : (a ||| b) &&& a = a := by
  apply Nat.eq_of_testBit_eq
  intro i
  simp only [Nat.testBit_and, Nat.testBit_or]
  cases a.testBit i <;> cases b.testBit i <;> rfl

theorem extendedRetentionField_spec (b low : Nat) (hb : b < 256) (hb7 : b >>> 5 = 7)
    (hlow : low < 2 ^ 24) :
    extendedRetentionField b low = b * 2 ^ 24 + low ∧
      extendedRetentionField b low < 2 ^ 32 ∧
      extendedRetentionField b low &&& 0xE0000000 = 0xE0000000 ∧
      extendedRetentionField b low &&& 0x1FFFFFFF = (b * 2 ^ 24 + low) % 2 ^ 29 := by
  rw [Nat.shiftRight_eq_div_pow] at hb7
  have hb' : 224 ≤ b := by omega
  have h1 : extendedRetentionField b low = b * 2 ^ 24 + low := by
    unfold extendedRetentionField
    rw [Nat.shiftLeft_eq, Nat.mod_eq_of_lt (by omega), Nat.mul_comm b,
      ← Nat.mul_add_lt_is_or hlow]
  have h2 : b * 2 ^ 24 + low < 2 ^ 32 := by omega
  refine ⟨h1, h1 ▸ h2, ?_, ?_⟩
  · have hsplit : b * 2 ^ 24 + low = 2 ^ 29 * 7 + (b * 2 ^ 24 + low - 7 * 2 ^ 29) := by
      omega
    have hr : b * 2 ^ 24 + low - 7 * 2 ^ 29 < 2 ^ 29 := by omega
    rw [h1, hsplit, Nat.mul_add_lt_is_or hr]
    exact lor_land_self _ _
  · rw [h1]
    exact Nat.and_pow_two_sub_one_eq_mod _ 29
theorem readUnsignedByte_lt (r r' : PDFBitReader) (b : Nat)
    (h : r.readUnsignedByte = .ok (b, r')) : b < 256 ∧ r'.position = r.position + 8 := by
  obtain ⟨-, -, -, hp, hlt⟩ := read_inv 8 r r' b h
  exact ⟨hlt, hp⟩

theorem readReferredSegmentsCount_short (r2 r3 : PDFBitReader) (b : Nat)
    (h3 : r2.readUnsignedByte = .ok (b, r3)) (hk : b >>> 5 ≤ 4) :
    readReferredSegmentsCount r2 = .ok (b >>> 5, r3) := by
  unfold readReferredSegmentsCount
  have h5 : ¬ (b >>> 5 = 5 ∨ b >>> 5 = 6) := by omega
  have h7 : ¬ (b >>> 5 = 7) := by omega
  simp only [h3, bind, Except.bind, h5, h7, if_false, pure, Except.pure]

theorem readReferredSegmentsCount_bad (r2 r3 : PDFBitReader) (b : Nat)
    (h3 : r2.readUnsignedByte = .ok (b, r3)) (hk : b >>> 5 = 5 ∨ b >>> 5 = 6) :
    readReferredSegmentsCount r2 = .error PDFException.badReferredSegments := by
  unfold readReferredSegmentsCount
  simp only [h3, bind, Except.bind, hk, if_true, throw, throwThe, MonadExceptOf.throw]

theorem readReferredSegmentsCount_long (r2 r3 r4 : PDFBitReader) (b low : Nat)
    (h3 : r2.readUnsignedByte = .ok (b, r3)) (hk : b >>> 5 = 7)
    (h4 : r3.read 24 = .ok (low, r4)) :
    readReferredSegmentsCount r2 =
      (match r4.skipBytes (((b * 2 ^ 24 + low) % 2 ^ 29 + 8) / 8) with
        | .ok r5 => .ok ((b * 2 ^ 24 + low) % 2 ^ 29, r5)
        | .error e => .error e) := by
  have hb := (readUnsignedByte_lt r2 r3 b h3).1
  have hlow := (read_inv 24 r3 r4 low h4).2.2.2.2
  obtain ⟨-, hlt, htop, hcnt⟩ := extendedRetentionField_spec b low hb hk hlow
  have hR : (b * 2 ^ 24 + low) % 2 ^ 29 < 2 ^ 29 := Nat.mod_lt _ (by norm_num)
  have hmod : ((b * 2 ^ 24 + low) % 2 ^ 29 + 8) % 2 ^ 32 = (b * 2 ^ 24 + low) % 2 ^ 29 + 8 :=
    Nat.mod_eq_of_lt (by omega)
  unfold readReferredSegmentsCount
  have h5 : ¬ (b >>> 5 = 5 ∨ b >>> 5 = 6) := by omega
  simp only [h3, bind, Except.bind, h5, hk, if_false, if_true, h4, htop, hcnt, hmod, ne_eq,
    not_true_eq_false, pure, Except.pure]
  cases r4.skipBytes (((b * 2 ^ 24 + low) % 2 ^ 29 + 8) / 8) <;> rfl

theorem read_header_inv (reader r' : PDFBitReader) (h : PDFJBIG2SegmentHeader)
    (hr : PDFJBIG2SegmentHeader.read reader = .ok (h, r')) :
    ∃ (h0 : PDFJBIG2SegmentHeader) (type : Nat) (t : JBIG2SegmentType),
      PDFJBIG2SegmentHeader.readFields reader = .ok (h0, type, r') ∧
      segmentTypeOfCode type = .ok t ∧ h = { h0 with m_segmentType := t } := by
  unfold PDFJBIG2SegmentHeader.read at hr
  cases hf : PDFJBIG2SegmentHeader.readFields reader with
  | error e => simp only [hf, bind, Except.bind, reduceCtorEq] at hr
  | ok v =>
    obtain ⟨h0, type, r⟩ := v
    cases ht : segmentTypeOfCode type with
    | error e => simp only [hf, ht, bind, Except.bind, reduceCtorEq] at hr
    | ok t =>
      simp only [hf, ht, bind, Except.bind, pure, Except.pure, Except.ok.injEq,
        Prod.mk.injEq] at hr
      obtain ⟨hh, hr'⟩ := hr
      subst hr'
      exact ⟨h0, type, t, rfl, ht, hh.symm⟩

theorem read_header_parts (reader r' : PDFBitReader) (h : PDFJBIG2SegmentHeader)
    (hr : PDFJBIG2SegmentHeader.read reader = .ok (h, r')) :
    ∃ (sn : Nat) (r1 : PDFBitReader) (flags : Nat) (r2 : PDFBitReader) (cnt : Nat)
      (r3 r4 : PDFBitReader),
      reader.readUnsignedInt = .ok (sn, r1) ∧ r1.readUnsignedByte = .ok (flags, r2) ∧
      readReferredSegmentsCount r2 = .ok (cnt, r3) ∧
      readReferredSegments (referredSegmentNumberBits sn) cnt r3 =
        .ok (h.m_referredSegments, r4) ∧
      h.m_referredSegments.length = cnt ∧
      r'.position = r3.position + cnt * referredSegmentNumberBits sn +
        pageAssociationBits flags + 32 := by
  obtain ⟨h0, type, t, hf, -, hh⟩ := read_header_inv reader r' h hr
  obtain ⟨sn, r1, flags, r2, cnt, r3, refs, r4, pa, r5, len, h1, h2, h3, h4, h5, h6, -, hh0⟩ :=
    readFields_inv reader h0 type r' hf
  have hrefs : h.m_referredSegments = refs := by rw [hh, hh0]
  obtain ⟨hl, -, hp4⟩ := readReferredSegments_inv _ cnt r3 r4 refs h4
  obtain ⟨-, -, -, hp5, -⟩ := read_inv _ r4 r5 pa h5
  obtain ⟨-, -, -, hp6, -⟩ := read_inv _ r5 r' len h6
  refine ⟨sn, r1, flags, r2, cnt, r3, r4, h1, h2, h3, hrefs ▸ h4, hrefs ▸ hl, ?_⟩
  rw [hp6, hp5, hp4]
theorem read_ok_of_le (n : Nat) (r : PDFBitReader) (hle : r.position + n ≤ r.data.length) :
    ∃ v, r.read n = .ok (v, { r with position := r.position + n }) := by
  unfold PDFBitReader.read
  rw [if_pos hle]
  exact ⟨_, rfl⟩

theorem readReferredSegments_ok_of_le (w : Nat) : ∀ (count : Nat) (r : PDFBitReader),
    r.position + count * w ≤ r.data.length →
      ∃ refs, readReferredSegments w count r =
        .ok (refs, { r with position := r.position + count * w }) := by
  intro count
  induction count with
  | zero =>
    intro r _
    exact ⟨[], by simp [readReferredSegments, pure, Except.pure]⟩
  | succ n ih =>
    intro r hle
    have hle1 : r.position + w ≤ r.data.length := by
      have : (n + 1) * w = n * w + w := by ring
      omega
    obtain ⟨v, hv⟩ := read_ok_of_le w r hle1
    obtain ⟨refs, hrefs⟩ := ih { r with position := r.position + w } (by
      have : (n + 1) * w = n * w + w := by ring
      simp only
      omega)
    refine ⟨v :: refs, ?_⟩
    unfold readReferredSegments
    simp only [hv, hrefs, bind, Except.bind, pure, Except.pure, Except.ok.injEq, Prod.mk.injEq,
      true_and, PDFBitReader.mk.injEq]
    ring

theorem read_header_short_ok (reader r1 r2 r3 : PDFBitReader) (sn flags b : Nat)
    (t : JBIG2SegmentType)
    (h1 : reader.readUnsignedInt = .ok (sn, r1)) (h2 : r1.readUnsignedByte = .ok (flags, r2))
    (h3 : r2.readUnsignedByte = .ok (b, r3)) (hk : b >>> 5 ≤ 4)
    (ht : segmentTypeOfCode (flags &&& 0x3F) = .ok t)
    (hlen : r3.position + (b >>> 5) * referredSegmentNumberBits sn + pageAssociationBits flags
      + 32 ≤ reader.data.length) :
    ∃ h r', PDFJBIG2SegmentHeader.read reader = .ok (h, r') ∧ h.m_segmentType = t := by
  have hd1 := (read_inv 32 reader r1 sn h1).2.2.1
  have hd2 := (read_inv 8 r1 r2 flags h2).2.2.1
  have hd3 := (read_inv 8 r2 r3 b h3).2.2.1
  have hd : r3.data.length = reader.data.length := by rw [hd3, hd2, hd1]
  obtain ⟨refs, hrefs⟩ := readReferredSegments_ok_of_le (referredSegmentNumberBits sn) (b >>> 5)
    r3 (by omega)
  obtain ⟨pa, hpa⟩ := read_ok_of_le (pageAssociationBits flags)
    { r3 with position := r3.position + (b >>> 5) * referredSegmentNumberBits sn }
    (by simp only; omega)
  obtain ⟨len, hlen'⟩ := read_ok_of_le 32
    { r3 with position := r3.position + (b >>> 5) * referredSegmentNumberBits sn +
        pageAssociationBits flags }
    (by simp only; omega)
  have hc := readReferredSegmentsCount_short r2 r3 b h3 hk
  have hread : PDFJBIG2SegmentHeader.read reader =
      .ok ({ m_segmentNumber := sn
             m_pageAssociation := pa
             m_segmentDataLength := len
             m_referredSegments := refs
             m_lossless := ((flags &&& 0x3F) &&& 0x01) ≠ 0
             m_immediate := ((flags &&& 0x3F) &&& 0x02) ≠ 0
             m_segmentType := t },
           { r3 with position := r3.position + (b >>> 5) * referredSegmentNumberBits sn +
               pageAssociationBits flags + 32 }) := by
    unfold PDFJBIG2SegmentHeader.read PDFJBIG2SegmentHeader.readFields
    unfold PDFBitReader.readUnsignedInt at h1 ⊢
    simp only [h1, h2, hc, hrefs, hpa, hlen', ht, bind, Except.bind, pure, Except.pure]
  exact ⟨_, _, hread, rfl⟩
theorem read_header_short_count (reader r1 r2 r3 : PDFBitReader) (sn flags b : Nat)
    (h1 : reader.readUnsignedInt = .ok (sn, r1)) (h2 : r1.readUnsignedByte = .ok (flags, r2))
    (h3 : r2.readUnsignedByte = .ok (b, r3)) (hk : b >>> 5 ≤ 4)
    (h : PDFJBIG2SegmentHeader) (r' : PDFBitReader)
    (hr : PDFJBIG2SegmentHeader.read reader = .ok (h, r')) :
    h.m_referredSegments.length = b >>> 5 ∧
      (∃ r4, readReferredSegments (referredSegmentNumberBits sn) (b >>> 5) r3 =
        .ok (h.m_referredSegments, r4)) ∧
      r'.position = r3.position + (b >>> 5) * referredSegmentNumberBits sn +
        pageAssociationBits flags + 32 := by
  obtain ⟨sn', r1', flags', r2', cnt, r3', r4, g1, g2, g3, g4, g5, g6⟩ :=
    read_header_parts reader r' h hr
  rw [h1] at g1
  simp only [Except.ok.injEq, Prod.mk.injEq] at g1
  obtain ⟨rfl, rfl⟩ := g1
  rw [h2] at g2
  simp only [Except.ok.injEq, Prod.mk.injEq] at g2
  obtain ⟨rfl, rfl⟩ := g2
  rw [readReferredSegmentsCount_short r2 r3 b h3 hk] at g3
  simp only [Except.ok.injEq, Prod.mk.injEq] at g3
  obtain ⟨rfl, rfl⟩ := g3
  exact ⟨g5, ⟨r4, g4⟩, g6⟩

/-- C5: when the 3-bit count field of the retention flags byte (its top three bits, b >> 5)
is k in 0..4, every parsed header has exactly k referred segment numbers, they are read
starting right after that one byte (bit 48 of the header), and the header ends
48 + k * width + page association width + 32 bits after its start; when the field is 5 or 6
the parse throws "bad referred segments". -/
theorem read_referred_count_short_form (reader r1 r2 r3 : PDFBitReader) (sn flags b : Nat)
    (h1 : reader.readUnsignedInt = .ok (sn, r1)) (h2 : r1.readUnsignedByte = .ok (flags, r2))
    (h3 : r2.readUnsignedByte = .ok (b, r3)) :
    r3.position = reader.position + 48 ∧
    (b >>> 5 ≤ 4 →
      readReferredSegmentsCount r2 = .ok (b >>> 5, r3) ∧
      ∀ (h : PDFJBIG2SegmentHeader) (r' : PDFBitReader),
        PDFJBIG2SegmentHeader.read reader = .ok (h, r') →
          h.m_referredSegments.length = b >>> 5 ∧
          (∃ r4, readReferredSegments (referredSegmentNumberBits sn) (b >>> 5) r3 =
            .ok (h.m_referredSegments, r4)) ∧
          r'.position = reader.position + 48 + (b >>> 5) * referredSegmentNumberBits sn +
            pageAssociationBits flags + 32) ∧
    (b >>> 5 = 5 ∨ b >>> 5 = 6 →
      PDFJBIG2SegmentHeader.read reader = .error PDFException.badReferredSegments) := by
  have hp1 := (read_inv 32 reader r1 sn h1).2.2.2.1
  have hp2 := (readUnsignedByte_lt r1 r2 flags h2).2
  have hp3 := (readUnsignedByte_lt r2 r3 b h3).2
  have hpos : r3.position = reader.position + 48 := by omega
  refine ⟨hpos, ?_, ?_⟩
  · intro hk
    refine ⟨readReferredSegmentsCount_short r2 r3 b h3 hk, ?_⟩
    intro h r' hr
    have := read_header_short_count reader r1 r2 r3 sn flags b h1 h2 h3 hk h r' hr
    rw [hpos] at this
    exact this
  · intro hk
    have hc := readReferredSegmentsCount_bad r2 r3 b h3 hk
    unfold PDFJBIG2SegmentHeader.read PDFJBIG2SegmentHeader.readFields
    simp only [h1, h2, hc, bind, Except.bind]

set_option maxRecDepth 100000 in
theorem read_referred_count_short_form_witness :
    PDFJBIG2SegmentHeader.read (PDFBitReader.ofBytes [0, 0, 0, 9, 0x46, 0xA0, 0, 0, 3, 0xFF, 1,
      2, 3, 0, 0, 0, 1, 0, 0, 0, 5]) = .error PDFException.badReferredSegments :=
  (read_referred_count_short_form
    (PDFBitReader.ofBytes [0, 0, 0, 9, 0x46, 0xA0, 0, 0, 3, 0xFF, 1, 2, 3, 0, 0, 0, 1, 0, 0, 0, 5])
    { data := bytesToBits [0, 0, 0, 9, 0x46, 0xA0, 0, 0, 3, 0xFF, 1, 2, 3, 0, 0, 0, 1, 0, 0, 0, 5],
      position := 32 }
    { data := bytesToBits [0, 0, 0, 9, 0x46, 0xA0, 0, 0, 3, 0xFF, 1, 2, 3, 0, 0, 0, 1, 0, 0, 0, 5],
      position := 40 }
    { data := bytesToBits [0, 0, 0, 9, 0x46, 0xA0, 0, 0, 3, 0xFF, 1, 2, 3, 0, 0, 0, 1, 0, 0, 0, 5],
      position := 48 }
    9 0x46 0xA0 (by rfl) (by rfl) (by rfl)).2.2 (Or.inl (by decide))

/-- C7 (counterexample): the retention flags byte 0x01 has low three bits 1, and
the header read from it has no referred segment number; the byte 0x20 has low three bits 0,
and the header read from it has one. -/
theorem read_count_not_from_low_bits :
    (0x01 &&& 7 = 1 ∧
      (PDFJBIG2SegmentHeader.read (PDFBitReader.ofBytes [0, 0, 0, 0, 0, 0x01, 1, 0, 0, 0, 5])).map
        (fun p => p.1.m_referredSegments) = .ok []) ∧
    (0x20 &&& 7 = 0 ∧
      (PDFJBIG2SegmentHeader.read (PDFBitReader.ofBytes [0, 0, 0, 9, 0, 0x20, 7, 1, 0, 0, 0,
        5])).map (fun p => p.1.m_referredSegments) = .ok [7]) := by
  decide

/-- C7 (amended): the referred-segment count is taken from the high 3 bits of the retention
flags byte: for every retention flags byte b with (b >> 5) in 0..4, a header with a valid
type code and enough data is parsed, and every header parsed has exactly (b >> 5)
referred segment numbers, whatever the low five bits of b. -/
theorem read_count_from_high_bits (reader r1 r2 r3 : PDFBitReader) (sn flags b : Nat)
    (h1 : reader.readUnsignedInt = .ok (sn, r1)) (h2 : r1.readUnsignedByte = .ok (flags, r2))
    (h3 : r2.readUnsignedByte = .ok (b, r3)) (hk : b >>> 5 ≤ 4) :
    b >>> 5 = b / 32 ∧
    (∀ (h : PDFJBIG2SegmentHeader) (r' : PDFBitReader),
      PDFJBIG2SegmentHeader.read reader = .ok (h, r') →
        h.m_referredSegments.length = b >>> 5) ∧
    (∀ t : JBIG2SegmentType, segmentTypeOfCode (flags &&& 0x3F) = .ok t →
      reader.position + 48 + (b >>> 5) * referredSegmentNumberBits sn +
        pageAssociationBits flags + 32 ≤ reader.data.length →
      ∃ (h : PDFJBIG2SegmentHeader) (r' : PDFBitReader),
        PDFJBIG2SegmentHeader.read reader = .ok (h, r') ∧
        h.m_referredSegments.length = b >>> 5) := by
  have hp1 := (read_inv 32 reader r1 sn h1).2.2.2.1
  have hp2 := (readUnsignedByte_lt r1 r2 flags h2).2
  have hp3 := (readUnsignedByte_lt r2 r3 b h3).2
  refine ⟨Nat.shiftRight_eq_div_pow b 5, ?_, ?_⟩
  · intro h r' hr
    exact (read_header_short_count reader r1 r2 r3 sn flags b h1 h2 h3 hk h r' hr).1
  · intro t ht hlen
    obtain ⟨h, r', hr, -⟩ := read_header_short_ok reader r1 r2 r3 sn flags b t h1 h2 h3 hk ht
      (by omega)
    exact ⟨h, r', hr,
      (read_header_short_count reader r1 r2 r3 sn flags b h1 h2 h3 hk h r' hr).1⟩

set_option maxRecDepth 100000 in
theorem read_count_from_high_bits_witness :
    ∃ (h : PDFJBIG2SegmentHeader) (r' : PDFBitReader),
      PDFJBIG2SegmentHeader.read (PDFBitReader.ofBytes [0, 0, 0, 9, 0x46, 0x41, 7, 8, 0, 0, 0,
        1, 0, 0, 0, 5]) = .ok (h, r') ∧ h.m_referredSegments.length = 2 :=
  (read_count_from_high_bits
    (PDFBitReader.ofBytes [0, 0, 0, 9, 0x46, 0x41, 7, 8, 0, 0, 0, 1, 0, 0, 0, 5])
    { data := bytesToBits [0, 0, 0, 9, 0x46, 0x41, 7, 8, 0, 0, 0, 1, 0, 0, 0, 5], position := 32 }
    { data := bytesToBits [0, 0, 0, 9, 0x46, 0x41, 7, 8, 0, 0, 0, 1, 0, 0, 0, 5], position := 40 }
    { data := bytesToBits [0, 0, 0, 9, 0x46, 0x41, 7, 8, 0, 0, 0, 1, 0, 0, 0, 5], position := 48 }
    9 0x46 0x41 (by rfl) (by rfl) (by rfl) (by decide)).2.2 JBIG2SegmentType.TextRegion
    (by rfl) (by decide)
theorem skip_count_eq_ceil (R : Nat) : (R + 8) / 8 = ⌈((R : ℚ) + 1) / 8⌉₊ := by
  symm
  rw [Nat.ceil_eq_iff (by omega)]
  have hq : (R + 8) / 8 - 1 = R / 8 := by omega
  have h1 : (((R + 8) / 8 : Nat) : ℚ) = ((R / 8 : Nat) : ℚ) + 1 := by
    have : (R + 8) / 8 = R / 8 + 1 := by omega
    rw [this]; push_cast; ring
  rw [hq, h1]
  have hlo : 8 * (R / 8) ≤ R := Nat.mul_div_le R 8
  have hhi : R < 8 * (R / 8) + 8 := by omega
  have hlo' : (8 : ℚ) * ((R / 8 : Nat) : ℚ) ≤ (R : ℚ) := by exact_mod_cast hlo
  have hhi' : (R : ℚ) + 1 ≤ 8 * ((R / 8 : Nat) : ℚ) + 8 := by exact_mod_cast hhi
  constructor
  · rw [lt_div_iff₀ (by norm_num)]; linarith
  · rw [div_le_iff₀ (by norm_num)]; linarith

/-- C6: when the 3-bit count field is 7, the 32-bit field is the retention byte followed by
the next 24 bits; its top three bits are then all set (the parse throws otherwise); the
count R is its low 29 bits; the code's (R + 8) / 8 on 32-bit unsigned integers is
ceil((R + 1) / 8), and exactly that many bytes are skipped before the R referred segment
numbers of a parsed header are read. -/
theorem read_referred_count_long_form (reader r1 r2 r3 r4 : PDFBitReader)
    (sn flags b low : Nat)
    (h1 : reader.readUnsignedInt = .ok (sn, r1)) (h2 : r1.readUnsignedByte = .ok (flags, r2))
    (h3 : r2.readUnsignedByte = .ok (b, r3)) (hk : b >>> 5 = 7)
    (h4 : r3.read 24 = .ok (low, r4)) :
    extendedRetentionField b low = b * 2 ^ 24 + low ∧ b < 2 ^ 8 ∧ low < 2 ^ 24 ∧
    extendedRetentionField b low &&& 0xE0000000 = 0xE0000000 ∧
    (extendedRetentionField b low &&& 0xE0000000 ≠ 0xE0000000 →
      PDFJBIG2SegmentHeader.read reader = .error PDFException.badReferredSegments) ∧
    extendedRetentionField b low &&& 0x1FFFFFFF = extendedRetentionField b low % 2 ^ 29 ∧
    ((extendedRetentionField b low % 2 ^ 29 + 8) % 2 ^ 32) / 8 =
      ⌈(((extendedRetentionField b low % 2 ^ 29 : Nat) : ℚ) + 1) / 8⌉₊ ∧
    r4.position = reader.position + 72 ∧
    ∀ (h : PDFJBIG2SegmentHeader) (r' : PDFBitReader),
      PDFJBIG2SegmentHeader.read reader = .ok (h, r') →
        h.m_referredSegments.length = extendedRetentionField b low % 2 ^ 29 ∧
        ∃ r5 r6 : PDFBitReader,
          r4.skipBytes ⌈(((extendedRetentionField b low % 2 ^ 29 : Nat) : ℚ) + 1) / 8⌉₊ =
            .ok r5 ∧
          r5.position = r4.position +
            8 * ⌈(((extendedRetentionField b low % 2 ^ 29 : Nat) : ℚ) + 1) / 8⌉₊ ∧
          readReferredSegments (referredSegmentNumberBits sn)
            (extendedRetentionField b low % 2 ^ 29) r5 = .ok (h.m_referredSegments, r6) := by
  have hp1 := (read_inv 32 reader r1 sn h1).2.2.2.1
  have hp2 := (readUnsignedByte_lt r1 r2 flags h2).2
  obtain ⟨hb, hp3⟩ := readUnsignedByte_lt r2 r3 b h3
  obtain ⟨-, -, -, hp4, hlow⟩ := read_inv 24 r3 r4 low h4
  obtain ⟨hext, hlt, htop, hcnt⟩ := extendedRetentionField_spec b low hb hk hlow
  have hR : extendedRetentionField b low % 2 ^ 29 < 2 ^ 29 := Nat.mod_lt _ (by norm_num)
  have hceil := skip_count_eq_ceil (extendedRetentionField b low % 2 ^ 29)
  refine ⟨hext, hb, hlow, htop, fun hne => absurd htop hne, by rw [hcnt, hext], ?_, by omega,
    ?_⟩
  · rw [Nat.mod_eq_of_lt (by omega), hceil]
  · intro h r' hr
    obtain ⟨sn', r1', flags', r2', cnt, r3', r6, g1, g2, g3, g4, g5, -⟩ :=
      read_header_parts reader r' h hr
    rw [h1] at g1
    simp only [Except.ok.injEq, Prod.mk.injEq] at g1
    obtain ⟨rfl, rfl⟩ := g1
    rw [h2] at g2
    simp only [Except.ok.injEq, Prod.mk.injEq] at g2
    obtain ⟨rfl, rfl⟩ := g2
    rw [readReferredSegmentsCount_long r2 r3 r4 b low h3 hk h4, ← hext, hceil] at g3
    cases hs : r4.skipBytes
        ⌈(((extendedRetentionField b low % 2 ^ 29 : Nat) : ℚ) + 1) / 8⌉₊ with
    | error e => simp only [hs, reduceCtorEq] at g3
    | ok r5 =>
      simp only [hs, Except.ok.injEq, Prod.mk.injEq] at g3
      obtain ⟨rfl, rfl⟩ := g3
      exact ⟨g5, r5, r6, rfl, (skipBytes_inv _ r4 r5 hs).2.2, g4⟩

set_option maxRecDepth 100000 in
theorem read_referred_count_long_form_witness :
    extendedRetentionField 0xE0 3 = 0xE0000003 ∧
    ((extendedRetentionField 0xE0 3 % 2 ^ 29 + 8) % 2 ^ 32) / 8 =
      ⌈(((extendedRetentionField 0xE0 3 % 2 ^ 29 : Nat) : ℚ) + 1) / 8⌉₊ ∧
    (PDFJBIG2SegmentHeader.read (PDFBitReader.ofBytes [0, 0, 0, 9, 0x46, 0xE0, 0, 0, 3, 0xFF, 1,
      2, 3, 0, 0, 0, 1, 0, 0, 0, 5])).map (fun p => p.1.m_referredSegments) = .ok [1, 2, 3] := by
  have h := read_referred_count_long_form
    (PDFBitReader.ofBytes [0, 0, 0, 9, 0x46, 0xE0, 0, 0, 3, 0xFF, 1, 2, 3, 0, 0, 0, 1, 0, 0, 0, 5])
    { data := bytesToBits [0, 0, 0, 9, 0x46, 0xE0, 0, 0, 3, 0xFF, 1, 2, 3, 0, 0, 0, 1, 0, 0, 0, 5],
      position := 32 }
    { data := bytesToBits [0, 0, 0, 9, 0x46, 0xE0, 0, 0, 3, 0xFF, 1, 2, 3, 0, 0, 0, 1, 0, 0, 0, 5],
      position := 40 }
    { data := bytesToBits [0, 0, 0, 9, 0x46, 0xE0, 0, 0, 3, 0xFF, 1, 2, 3, 0, 0, 0, 1, 0, 0, 0, 5],
      position := 48 }
    { data := bytesToBits [0, 0, 0, 9, 0x46, 0xE0, 0, 0, 3, 0xFF, 1, 2, 3, 0, 0, 0, 1, 0, 0, 0, 5],
      position := 72 }
    9 0x46 0xE0 3 (by rfl) (by rfl) (by rfl) (by decide) (by rfl)
  exact ⟨h.1, h.2.2.2.2.2.2.1, by decide⟩
/-! ## processStream -/

theorem getPosition_seek (p : Int) (hp : 0 ≤ p) (r : PDFBitReader) :
    (r.seek p).getPosition = p := by
  simp only [PDFBitReader.seek, PDFBitReader.getPosition]
  omega

theorem getPosition_nonneg (r : PDFBitReader) : 0 ≤ r.getPosition := by
  simp only [PDFBitReader.getPosition]
  omega

/-- C8: for a segment with a defined data length L whose handler returns normally with the
reader c bytes past the start of the segment data: if c > L the step throws "handler reads
c - L bytes past segment end"; if c < L exactly one warning (L - c bytes left) is added to
the reports and the step succeeds; if c = L no report is added; and whenever the step
succeeds the reader is at (segment data start + L), from where the next header is read. -/
theorem processStreamStep_checks_span {σ : Type} (H : SegmentHandlers σ)
    (d d1 : PDFJBIG2Decoder σ) (segmentHeader : PDFJBIG2SegmentHeader) (reader : PDFBitReader)
    (hread : PDFJBIG2SegmentHeader.read d.m_reader = .ok (segmentHeader, reader))
    (hdef : segmentHeader.isSegmentDataLengthDefined = true)
    (hhandler : dispatchSegment H segmentHeader { d with m_reader := reader } = .ok d1) :
    ((segmentHeader.m_segmentDataLength : Int) < d1.m_reader.getPosition - reader.getPosition →
      processStreamStep H d = .error (PDFException.readsPastSegmentEnd
        (d1.m_reader.getPosition - reader.getPosition - segmentHeader.m_segmentDataLength))) ∧
    (d1.m_reader.getPosition - reader.getPosition < (segmentHeader.m_segmentDataLength : Int) →
      processStreamStep H d = .ok { d1 with
        m_errorReporter := d1.m_errorReporter ++ [RenderError.segmentDataLeft
          (segmentHeader.m_segmentDataLength -
            (d1.m_reader.getPosition - reader.getPosition))]
        m_reader := d1.m_reader.seek
          (reader.getPosition + segmentHeader.m_segmentDataLength) }) ∧
    (d1.m_reader.getPosition - reader.getPosition = (segmentHeader.m_segmentDataLength : Int) →
      processStreamStep H d = .ok { d1 with
        m_reader := d1.m_reader.seek
          (reader.getPosition + segmentHeader.m_segmentDataLength) }) ∧
    (∀ d2 : PDFJBIG2Decoder σ, processStreamStep H d = .ok d2 →
      d2.m_reader.getPosition = reader.getPosition + segmentHeader.m_segmentDataLength ∧
      d1.m_reader.getPosition - reader.getPosition ≤ (segmentHeader.m_segmentDataLength : Int) ∧
      (d.m_reader.isAtEnd = false →
        ∀ fuel : Nat, processStream H (fuel + 1) d = processStream H fuel d2)) := by
  have hstep : processStreamStep H d =
      checkSegmentDataProcessed segmentHeader reader.getPosition d1 := by
    unfold processStreamStep
    simp only [hread, hhandler, bind, Except.bind]
  have hstart := getPosition_nonneg reader
  have hseek := getPosition_seek (reader.getPosition + segmentHeader.m_segmentDataLength)
    (by omega) d1.m_reader
  rw [hstep]
  unfold checkSegmentDataProcessed
  simp only [hdef, if_true]
  refine ⟨?_, ?_, ?_, ?_⟩
  · intro hc
    rw [if_neg (by omega), if_pos (by omega)]
    simp only [throw, throwThe, MonadExceptOf.throw]
    congr 2
    omega
  · intro hc
    rw [if_pos (by omega)]
    simp only [pure, Except.pure]
    congr 5
    omega
  · intro hc
    rw [if_neg (by omega), if_neg (by omega)]
    rfl
  · intro d2 hd2
    have hfuel : d.m_reader.isAtEnd = false →
        ∀ fuel : Nat, processStream H (fuel + 1) d = processStream H fuel d2 := by
      intro hend fuel
      rw [processStream, hend, hstep]
      unfold checkSegmentDataProcessed
      simp only [hdef, if_true, Bool.false_eq_true, if_false]
      rw [hd2]
    split_ifs at hd2 with h1 h2
    · simp only [pure, Except.pure, Except.ok.injEq] at hd2
      subst hd2
      exact ⟨hseek, by omega, hfuel⟩
    · simp only [pure, Except.pure, Except.ok.injEq] at hd2
      subst hd2
      exact ⟨hseek, by omega, hfuel⟩

set_option maxRecDepth 100000 in
theorem processStreamStep_checks_span_witness :
    processStreamStep (skippingHandlers 2)
      { m_reader := PDFBitReader.ofBytes [0, 0, 0, 0, 0, 0, 1, 0, 0, 0, 5, 1, 2, 3, 4, 5],
        m_errorReporter := [], m_rest := () } =
    .ok { m_reader := { data := bytesToBits [0, 0, 0, 0, 0, 0, 1, 0, 0, 0, 5, 1, 2, 3, 4, 5],
                        position := 128 },
          m_errorReporter := [RenderError.segmentDataLeft 3], m_rest := () } :=
  (processStreamStep_checks_span (skippingHandlers 2)
    { m_reader := PDFBitReader.ofBytes [0, 0, 0, 0, 0, 0, 1, 0, 0, 0, 5, 1, 2, 3, 4, 5],
      m_errorReporter := [], m_rest := () }
    { m_reader := { data := bytesToBits [0, 0, 0, 0, 0, 0, 1, 0, 0, 0, 5, 1, 2, 3, 4, 5],
                    position := 104 },
      m_errorReporter := [], m_rest := () }
    { m_segmentNumber := 0, m_pageAssociation := 1, m_segmentDataLength := 5,
      m_referredSegments := [], m_lossless := false, m_immediate := false,
      m_segmentType := JBIG2SegmentType.SymbolDictionary }
    { data := bytesToBits [0, 0, 0, 0, 0, 0, 1, 0, 0, 0, 5, 1, 2, 3, 4, 5], position := 88 }
    (by rfl) (by rfl) (by rfl)).2.1 (by decide)
/-! ## Bitmap painting -/

theorem pixelIndex_lt (b : PDFJBIG2Bitmap) (hw : b.WellFormed) (x y : Int) (hx0 : 0 ≤ x)
    (hx1 : x < b.m_width) (hy0 : 0 ≤ y) (hy1 : y < b.m_height) :
    b.pixelIndex x y < b.m_data.length := by
  obtain ⟨-, -, hlen, -⟩ := hw
  have h1 : y * b.m_width + x < b.m_width * b.m_height := by nlinarith
  have h0 : 0 ≤ y * b.m_width + x := by nlinarith
  unfold PDFJBIG2Bitmap.pixelIndex
  omega

theorem pixelIndex_inj (b : PDFJBIG2Bitmap) (x y x' y' : Int) (hx0 : 0 ≤ x)
    (hx1 : x < b.m_width) (hy0 : 0 ≤ y) (hx0' : 0 ≤ x') (hx1' : x' < b.m_width)
    (hy0' : 0 ≤ y') (h : b.pixelIndex x y = b.pixelIndex x' y') : x = x' ∧ y = y' := by
  unfold PDFJBIG2Bitmap.pixelIndex at h
  have h0 : 0 ≤ y * b.m_width + x := by nlinarith
  have h0' : 0 ≤ y' * b.m_width + x' := by nlinarith
  have he : y * b.m_width + x = y' * b.m_width + x' := by omega
  have hy : y = y' := by
    rcases lt_trichotomy y y' with hlt | heq | hgt
    · exfalso
      have : (y + 1) * b.m_width ≤ y' * b.m_width :=
        mul_le_mul_of_nonneg_right (by omega) (by omega)
      nlinarith
    · exact heq
    · exfalso
      have : (y' + 1) * b.m_width ≤ y * b.m_width :=
        mul_le_mul_of_nonneg_right (by omega) (by omega)
      nlinarith
  subst hy
  exact ⟨by omega, rfl⟩

theorem pixelAt_lt (b : PDFJBIG2Bitmap) (hw : b.WellFormed) (x y : Int) :
    b.pixelAt x y < 256 := by
  unfold PDFJBIG2Bitmap.pixelAt
  rw [List.getD_eq_getElem?_getD]
  cases hg : b.m_data[b.pixelIndex x y]? with
  | none => simp
  | some v =>
    simp only [Option.getD_some]
    exact hw.2.2.2 v (List.getElem?_mem hg)

theorem notXor_byte (t s : Nat) (ht : t < 256) (hs : s < 256) :
    (t ^^^ (0xFFFFFFFF - s)) % 256 = 255 - (t ^^^ s) := by
  have hx : t ^^^ s < 2 ^ 8 := Nat.xor_lt_two_pow (n := 8) ht hs
  have e1 : (0xFFFFFFFF : Nat) - s = 2 ^ 32 - (s + 1) := by omega
  have e2 : 255 - (t ^^^ s) = 2 ^ 8 - ((t ^^^ s) + 1) := by omega
  have e3 : (256 : Nat) = 2 ^ 8 := by norm_num
  rw [e1, e2, e3]
  apply Nat.eq_of_testBit_eq
  intro i
  rw [Nat.testBit_mod_two_pow, Nat.testBit_xor,
    Nat.testBit_two_pow_sub_succ (by omega : s < 2 ^ 32),
    Nat.testBit_two_pow_sub_succ hx, Nat.testBit_xor]
  by_cases hi : i < 8
  · have hi' : i < 32 := by omega
    simp only [hi, hi', decide_True, Bool.true_and]
    cases t.testBit i <;> cases s.testBit i <;> rfl
  · simp only [hi, decide_False, Bool.false_and]

theorem paintedValue_eq (operation : PDFJBIG2BitOperation) (t s : Nat) (ht : t < 256)
    (hs : s < 256) :
    combinePixels operation t s < 256 ∧
    (t ||| s) % 256 = combinePixels .Or t s ∧ (t &&& s) % 256 = combinePixels .And t s ∧
    (t ^^^ s) % 256 = combinePixels .Xor t s ∧
    (t ^^^ (0xFFFFFFFF - s)) % 256 = combinePixels .NotXor t s ∧
    s % 256 = combinePixels .Replace t s := by
  have h1 : t ||| s < 2 ^ 8 := Nat.or_lt_two_pow (n := 8) ht hs
  have h2 : t &&& s < 2 ^ 8 := Nat.and_lt_two_pow (n := 8) t hs
  have h3 : t ^^^ s < 2 ^ 8 := Nat.xor_lt_two_pow (n := 8) ht hs
  refine ⟨?_, Nat.mod_eq_of_lt h1, Nat.mod_eq_of_lt h2, Nat.mod_eq_of_lt h3,
    notXor_byte t s ht hs, Nat.mod_eq_of_lt hs⟩
  cases operation <;> simp only [combinePixels] <;> omega
theorem paintPixel_spec (target bitmap : PDFJBIG2Bitmap) (operation : PDFJBIG2BitOperation)
    (x y sx sy : Int) (hw : target.WellFormed) (hb : bitmap.WellFormed)
    (hop : operation.isSupported = true)
    (hx0 : 0 ≤ x) (hx1 : x < target.m_width) (hy0 : 0 ≤ y) (hy1 : y < target.m_height)
    (hsx0 : 0 ≤ sx) (hsx1 : sx < bitmap.m_width) (hsy0 : 0 ≤ sy) (hsy1 : sy < bitmap.m_height) :
    paintPixel target bitmap x y sx sy operation =
      .ok { target with m_data := (target.m_data.set (target.pixelIndex x y)
        (combinePixels operation (target.pixelAt x y) (bitmap.pixelAt sx sy))) } := by
  have ht := pixelAt_lt target hw x y
  have hs := pixelAt_lt bitmap hb sx sy
  obtain ⟨-, h1, h2, h3, h4, h5⟩ :=
    paintedValue_eq operation (target.pixelAt x y) (bitmap.pixelAt sx sy) ht hs
  have hin : 0 ≤ x ∧ x < target.m_width ∧ 0 ≤ y ∧ y < target.m_height :=
    ⟨hx0, hx1, hy0, hy1⟩
  have hsin : 0 ≤ sx ∧ sx < bitmap.m_width ∧ 0 ≤ sy ∧ sy < bitmap.m_height :=
    ⟨hsx0, hsx1, hsy0, hsy1⟩
  cases operation
  · simp [PDFJBIG2BitOperation.isSupported] at hop
  all_goals
    simp only [paintPixel, PDFJBIG2Bitmap.getPixel, PDFJBIG2Bitmap.setPixel, hin, hsin,
      and_self, if_true, bind, Except.bind, pure, Except.pure, h1, h2, h3, h4, h5]

theorem pixelAt_set (b : PDFJBIG2Bitmap) (hw : b.WellFormed) (x y x' y' : Int) (v : Nat)
    (hx0 : 0 ≤ x) (hx1 : x < b.m_width) (hy0 : 0 ≤ y) (hy1 : y < b.m_height)
    (hx0' : 0 ≤ x') (hx1' : x' < b.m_width) (hy0' : 0 ≤ y') :
    PDFJBIG2Bitmap.pixelAt { b with m_data := b.m_data.set (b.pixelIndex x y) v } x' y' =
      if x' = x ∧ y' = y then v else b.pixelAt x' y' := by
  have hlt := pixelIndex_lt b hw x y hx0 hx1 hy0 hy1
  simp only [PDFJBIG2Bitmap.pixelAt, PDFJBIG2Bitmap.pixelIndex, List.getD_eq_getElem?_getD]
  by_cases hxy : x' = x ∧ y' = y
  · obtain ⟨rfl, rfl⟩ := hxy
    simp only [and_self, if_true]
    rw [List.getElem?_set_self (by simpa [PDFJBIG2Bitmap.pixelIndex] using hlt)]
    rfl
  · rw [if_neg hxy, List.getElem?_set_ne]
    intro he
    exact hxy (pixelIndex_inj b x' y' x y hx0' hx1' hy0' hx0 hx1 hy0 he.symm)

theorem wellFormed_set (b : PDFJBIG2Bitmap) (hw : b.WellFormed) (i v : Nat) (hv : v < 256) :
    PDFJBIG2Bitmap.WellFormed { b with m_data := b.m_data.set i v } := by
  obtain ⟨h1, h2, h3, h4⟩ := hw
  refine ⟨h1, h2, by simpa using h3, ?_⟩
  intro u hu
  rcases List.mem_or_eq_of_mem_set hu with h | h
  · exact h4 u h
  · omega
theorem paintedRegion_empty (t bitmap : PDFJBIG2Bitmap) (operation : PDFJBIG2BitOperation)
    (sx sy x0 x1 y0 y1 : Int) (hw : t.WellFormed) (he : x1 ≤ x0 ∨ y1 ≤ y0) :
    PaintedRegion t t bitmap operation sx sy x0 x1 y0 y1 := by
  refine ⟨rfl, rfl, hw, ?_⟩
  intro x y _ _ _ _
  rw [if_neg (by omega)]

theorem paintedRegion_pixel (t bitmap : PDFJBIG2Bitmap) (operation : PDFJBIG2BitOperation)
    (sx sy x y : Int) (hw : t.WellFormed) (hb : bitmap.WellFormed)
    (hx0 : 0 ≤ x) (hx1 : x < t.m_width) (hy0 : 0 ≤ y) (hy1 : y < t.m_height) :
    PaintedRegion t
      { t with m_data := (t.m_data.set (t.pixelIndex x y)
        (combinePixels operation (t.pixelAt x y) (bitmap.pixelAt (x - sx) (y - sy)))) }
      bitmap operation sx sy x (x + 1) y (y + 1) := by
  have hv := (paintedValue_eq operation (t.pixelAt x y) (bitmap.pixelAt (x - sx) (y - sy))
    (pixelAt_lt t hw x y) (pixelAt_lt bitmap hb _ _)).1
  refine ⟨rfl, rfl, wellFormed_set t hw _ _ hv, ?_⟩
  intro x' y' hx0' hx1' hy0' _
  rw [pixelAt_set t hw x y x' y' _ hx0 hx1 hy0 hy1 hx0' hx1' hy0']
  by_cases hxy : x' = x ∧ y' = y
  · obtain ⟨rfl, rfl⟩ := hxy
    rw [if_pos ⟨rfl, rfl⟩, if_pos (by omega)]
  · rw [if_neg hxy, if_neg (by omega)]

theorem paintedRegion_hcomp (t t1 t2 bitmap : PDFJBIG2Bitmap) (operation : PDFJBIG2BitOperation)
    (sx sy x0 xm x1 y0 y1 : Int) (h0m : x0 ≤ xm) (hm1 : xm ≤ x1)
    (h1 : PaintedRegion t t1 bitmap operation sx sy x0 xm y0 y1)
    (h2 : PaintedRegion t1 t2 bitmap operation sx sy xm x1 y0 y1) :
    PaintedRegion t t2 bitmap operation sx sy x0 x1 y0 y1 := by
  obtain ⟨hw1, hh1, -, hp1⟩ := h1
  obtain ⟨hw2, hh2, hwf2, hp2⟩ := h2
  refine ⟨hw2.trans hw1, hh2.trans hh1, hwf2, ?_⟩
  intro x y hx0 hx1 hy0 hy1
  rw [hp2 x y hx0 (by omega) hy0 (by omega), hp1 x y hx0 hx1 hy0 hy1]
  split_ifs <;> first | rfl | (exfalso; omega)

theorem paintedRegion_vcomp (t t1 t2 bitmap : PDFJBIG2Bitmap) (operation : PDFJBIG2BitOperation)
    (sx sy x0 x1 y0 ym y1 : Int) (h0m : y0 ≤ ym) (hm1 : ym ≤ y1)
    (h1 : PaintedRegion t t1 bitmap operation sx sy x0 x1 y0 ym)
    (h2 : PaintedRegion t1 t2 bitmap operation sx sy x0 x1 ym y1) :
    PaintedRegion t t2 bitmap operation sx sy x0 x1 y0 y1 := by
  obtain ⟨hw1, hh1, -, hp1⟩ := h1
  obtain ⟨hw2, hh2, hwf2, hp2⟩ := h2
  refine ⟨hw2.trans hw1, hh2.trans hh1, hwf2, ?_⟩
  intro x y hx0 hx1 hy0 hy1
  rw [hp2 x y hx0 (by omega) hy0 (by omega), hp1 x y hx0 hx1 hy0 hy1]
  split_ifs <;> first | rfl | (exfalso; omega)

theorem paintRow_spec (bitmap : PDFJBIG2Bitmap) (operation : PDFJBIG2BitOperation)
    (sx sy y : Int) (hb : bitmap.WellFormed) (hop : operation.isSupported = true)
    (hsy0 : 0 ≤ y - sy) (hsy1 : y - sy < bitmap.m_height) (hy0 : 0 ≤ y) :
    ∀ (count : Nat) (x : Int) (t : PDFJBIG2Bitmap), t.WellFormed → y < t.m_height →
      0 ≤ x → x + count ≤ t.m_width → 0 ≤ x - sx → x + count - sx ≤ bitmap.m_width →
      ∃ t', paintRow bitmap sx sy operation y count x t = .ok t' ∧
        PaintedRegion t t' bitmap operation sx sy x (x + count) y (y + 1) := by
  intro count
  induction count with
  | zero =>
    intro x t hw _ _ _ _ _
    exact ⟨t, rfl, paintedRegion_empty t bitmap operation sx sy _ _ _ _ hw
      (Or.inl (by simp))⟩
  | succ n ih =>
    intro x t hw hy1 hx0 hx1 hsx0 hsx1
    have hpix := paintPixel_spec t bitmap operation x y (x - sx) (y - sy) hw hb hop hx0
      (by omega) hy0 hy1 hsx0 (by omega) hsy0 hsy1
    have hreg := paintedRegion_pixel t bitmap operation sx sy x y hw hb hx0 (by omega) hy0 hy1
    obtain ⟨t', ht', hreg'⟩ := ih (x + 1) _ hreg.2.2.1 (by rw [hreg.2.1]; exact hy1)
      (by omega) (by rw [hreg.1]; push_cast at hx1; omega) (by omega)
      (by push_cast at hsx1; omega)
    refine ⟨t', ?_, ?_⟩
    · rw [paintRow]
      simp only [hpix, bind, Except.bind]
      exact ht'
    · have hcast : x + ((n + 1 : Nat) : Int) = x + 1 + (n : Int) := by push_cast; ring
      rw [hcast]
      exact paintedRegion_hcomp t _ t' bitmap operation sx sy x (x + 1) (x + 1 + n) y (y + 1)
        (by omega) (by omega) hreg hreg'
theorem paintRows_spec (bitmap : PDFJBIG2Bitmap) (operation : PDFJBIG2BitOperation)
    (sx sy x1 : Int) (hb : bitmap.WellFormed) (hop : operation.isSupported = true)
    (hx0 : 0 ≤ sx) (hx01 : sx ≤ x1) (hsx1 : x1 - sx ≤ bitmap.m_width) :
    ∀ (count : Nat) (y : Int) (t : PDFJBIG2Bitmap), t.WellFormed → x1 ≤ t.m_width →
      0 ≤ y → y + count ≤ t.m_height → 0 ≤ y - sy → y + count - sy ≤ bitmap.m_height →
      ∃ t', paintRows bitmap sx x1 sy operation count y t = .ok t' ∧
        PaintedRegion t t' bitmap operation sx sy sx x1 y (y + count) := by
  intro count
  induction count with
  | zero =>
    intro y t hw _ _ _ _ _
    exact ⟨t, rfl, paintedRegion_empty t bitmap operation sx sy _ _ _ _ hw
      (Or.inr (by simp))⟩
  | succ n ih =>
    intro y t hw hx1 hy0 hy1 hsy0 hsy1
    push_cast at hy1 hsy1
    have hcols : sx + (((x1 - sx).toNat : Nat) : Int) = x1 := by omega
    obtain ⟨t1, ht1, hreg1⟩ := paintRow_spec bitmap operation sx sy y hb hop hsy0 (by omega) hy0
      (x1 - sx).toNat sx t hw (by omega) hx0 (by omega) (by omega) (by omega)
    rw [hcols] at hreg1
    obtain ⟨t', ht', hreg'⟩ := ih (y + 1) t1 hreg1.2.2.1 (by rw [hreg1.1]; exact hx1)
      (by omega) (by rw [hreg1.2.1]; omega) (by omega) (by omega)
    refine ⟨t', ?_, ?_⟩
    · rw [paintRows]
      simp only [ht1, bind, Except.bind]
      exact ht'
    · have hcast : y + ((n + 1 : Nat) : Int) = y + 1 + (n : Int) := by push_cast; ring
      rw [hcast]
      exact paintedRegion_vcomp t t1 t' bitmap operation sx sy sx x1 y (y + 1) (y + 1 + n)
        (by omega) (by omega) hreg1 hreg'

theorem paint_spec (target bitmap : PDFJBIG2Bitmap) (offsetX offsetY : Int)
    (operation : PDFJBIG2BitOperation) (expandY : Bool) (expandPixel : Nat)
    (hw : target.WellFormed) (hb : bitmap.WellFormed) (hvalid : bitmap.isValid = true)
    (hop : operation.isSupported = true) (hx : 0 ≤ offsetX) (hy : 0 ≤ offsetY)
    (hno : expandY = false ∨ offsetY + bitmap.m_height ≤ target.m_height) :
    ∃ result, target.paint bitmap offsetX offsetY operation expandY expandPixel = .ok result ∧
      PaintedRegion target result bitmap operation offsetX offsetY
        offsetX (min (offsetX + bitmap.m_width) target.m_width)
        offsetY (min (offsetY + bitmap.m_height) target.m_height) := by
  have hv : 0 < bitmap.m_width ∧ 0 < bitmap.m_height := by
    simpa [PDFJBIG2Bitmap.isValid] using hvalid
  have hexp : ¬ (expandY = true ∧ offsetY + bitmap.m_height > target.m_height) := by
    rintro ⟨h1, h2⟩
    rcases hno with h | h
    · rw [h] at h1; exact Bool.false_ne_true h1
    · omega
  unfold PDFJBIG2Bitmap.paint
  simp only [hvalid, Bool.not_true, Bool.false_eq_true, if_false, hexp,
    PDFJBIG2Bitmap.getWidth, PDFJBIG2Bitmap.getHeight]
  by_cases hout : offsetX ≥ target.m_width ∨ offsetY ≥ target.m_height
  · rw [if_pos hout]
    exact ⟨target, rfl, paintedRegion_empty target bitmap operation _ _ _ _ _ _ hw (by omega)⟩
  · rw [if_neg hout]
    have hrows : offsetY + (((min (offsetY + bitmap.m_height) target.m_height - offsetY).toNat
        : Nat) : Int) = min (offsetY + bitmap.m_height) target.m_height := by omega
    obtain ⟨t', ht', hreg⟩ := paintRows_spec bitmap operation offsetX offsetY
      (min (offsetX + bitmap.m_width) target.m_width) hb hop hx (by omega) (by omega)
      (min (offsetY + bitmap.m_height) target.m_height - offsetY).toNat offsetY target hw
      (by omega) hy (by omega) (by omega) (by omega)
    rw [hrows] at hreg
    exact ⟨t', ht', hreg⟩

/-- C9: at a covered position paint writes t OR s, t AND s, t XOR s, the 8-bit complement of
t XOR s, or s, for the operators Or, And, Xor, NotXor, Replace (combinePixels); for pixels
in {0x00, 0xFF} this is the truth table Or: 00,FF,FF,FF; And: 00,00,00,FF; Xor: 00,FF,FF,00;
NotXor: FF,00,00,FF; Replace: 00,FF,00,FF on the pairs (00,00), (00,FF), (FF,00), (FF,FF),
and the result is always 0x00 or 0xFF. -/
theorem paint_truth_table :
    (∀ (target bitmap : PDFJBIG2Bitmap) (operation : PDFJBIG2BitOperation) (x y sx sy : Int),
      target.WellFormed → bitmap.WellFormed → operation.isSupported = true →
      0 ≤ x → x < target.m_width → 0 ≤ y → y < target.m_height →
      0 ≤ sx → sx < bitmap.m_width → 0 ≤ sy → sy < bitmap.m_height →
      paintPixel target bitmap x y sx sy operation =
        .ok { target with m_data := (target.m_data.set (target.pixelIndex x y)
          (combinePixels operation (target.pixelAt x y) (bitmap.pixelAt sx sy))) }) ∧
    (∀ operation ∈ [PDFJBIG2BitOperation.Or, PDFJBIG2BitOperation.And,
        PDFJBIG2BitOperation.Xor, PDFJBIG2BitOperation.NotXor, PDFJBIG2BitOperation.Replace],
      ∀ t ∈ [0x00, 0xFF], ∀ s ∈ [0x00, 0xFF],
        PDFJBIG2Bitmap.paint ⟨1, 1, [t]⟩ ⟨1, 1, [s]⟩ 0 0 operation false 0 =
          .ok ⟨1, 1, [combinePixels operation t s]⟩ ∧
        (combinePixels operation t s = 0x00 ∨ combinePixels operation t s = 0xFF)) ∧
    [combinePixels .Or 0x00 0x00, combinePixels .Or 0x00 0xFF, combinePixels .Or 0xFF 0x00,
      combinePixels .Or 0xFF 0xFF] = [0x00, 0xFF, 0xFF, 0xFF] ∧
    [combinePixels .And 0x00 0x00, combinePixels .And 0x00 0xFF, combinePixels .And 0xFF 0x00,
      combinePixels .And 0xFF 0xFF] = [0x00, 0x00, 0x00, 0xFF] ∧
    [combinePixels .Xor 0x00 0x00, combinePixels .Xor 0x00 0xFF, combinePixels .Xor 0xFF 0x00,
      combinePixels .Xor 0xFF 0xFF] = [0x00, 0xFF, 0xFF, 0x00] ∧
    [combinePixels .NotXor 0x00 0x00, combinePixels .NotXor 0x00 0xFF,
      combinePixels .NotXor 0xFF 0x00, combinePixels .NotXor 0xFF 0xFF]
      = [0xFF, 0x00, 0x00, 0xFF] ∧
    [combinePixels .Replace 0x00 0x00, combinePixels .Replace 0x00 0xFF,
      combinePixels .Replace 0xFF 0x00, combinePixels .Replace 0xFF 0xFF]
      = [0x00, 0xFF, 0x00, 0xFF] := by
  refine ⟨?_, by decide, by decide, by decide, by decide, by decide, by decide⟩
  intro target bitmap operation x y sx sy hw hb hop hx0 hx1 hy0 hy1 hsx0 hsx1 hsy0 hsy1
  exact paintPixel_spec target bitmap operation x y sx sy hw hb hop hx0 hx1 hy0 hy1 hsx0 hsx1
    hsy0 hsy1

/-- C10: painting a valid source at a non-negative offset without expansion succeeds (no
pixel outside either bitmap is read or written), keeps the target's dimensions, combines
every target pixel (x, y) of offsetX <= x < min(offsetX + w, W), offsetY <= y <
min(offsetY + h, H) with the source pixel (x - offsetX, y - offsetY), which lies inside the
source, and leaves every other target pixel unchanged. -/
theorem paint_clipped_region (target bitmap : PDFJBIG2Bitmap) (offsetX offsetY : Int)
    (operation : PDFJBIG2BitOperation) (expandY : Bool) (expandPixel : Nat)
    (hw : target.WellFormed) (hb : bitmap.WellFormed) (hvalid : bitmap.isValid = true)
    (hop : operation.isSupported = true) (hx : 0 ≤ offsetX) (hy : 0 ≤ offsetY)
    (hno : expandY = false ∨ offsetY + bitmap.m_height ≤ target.m_height) :
    ∃ result, target.paint bitmap offsetX offsetY operation expandY expandPixel = .ok result ∧
      result.m_width = target.m_width ∧ result.m_height = target.m_height ∧
      result.WellFormed ∧
      ∀ x y : Int, 0 ≤ x → x < target.m_width → 0 ≤ y → y < target.m_height →
        (offsetX ≤ x ∧ x < min (offsetX + bitmap.m_width) target.m_width ∧
          offsetY ≤ y ∧ y < min (offsetY + bitmap.m_height) target.m_height →
          0 ≤ x - offsetX ∧ x - offsetX < bitmap.m_width ∧
          0 ≤ y - offsetY ∧ y - offsetY < bitmap.m_height ∧
          result.pixelAt x y = combinePixels operation (target.pixelAt x y)
            (bitmap.pixelAt (x - offsetX) (y - offsetY))) ∧
        (¬ (offsetX ≤ x ∧ x < min (offsetX + bitmap.m_width) target.m_width ∧
          offsetY ≤ y ∧ y < min (offsetY + bitmap.m_height) target.m_height) →
          result.pixelAt x y = target.pixelAt x y) := by
  obtain ⟨result, hres, h1, h2, h3, h4⟩ := paint_spec target bitmap offsetX offsetY operation
    expandY expandPixel hw hb hvalid hop hx hy hno
  refine ⟨result, hres, h1, h2, h3, ?_⟩
  intro x y hx0 hx1 hy0 hy1
  have hp := h4 x y hx0 hx1 hy0 hy1
  constructor
  · intro hc
    rw [if_pos hc] at hp
    exact ⟨by omega, by omega, by omega, by omega, hp⟩
  · intro hc
    rw [if_neg hc] at hp
    exact hp

theorem paint_clipped_region_witness :
    ∃ result, PDFJBIG2Bitmap.paint ⟨3, 2, [0, 255, 0, 255, 0, 255]⟩ ⟨2, 2, [255, 255, 0, 0]⟩ 2 1
        PDFJBIG2BitOperation.Xor false 0 = .ok result ∧
      result.m_width = 3 ∧ result.m_height = 2 ∧ result.pixelAt 2 1 = 0 ∧
      result.pixelAt 1 1 = 0 := by
  obtain ⟨result, hres, h1, h2, -, h4⟩ := paint_clipped_region
    ⟨3, 2, [0, 255, 0, 255, 0, 255]⟩ ⟨2, 2, [255, 255, 0, 0]⟩ 2 1 PDFJBIG2BitOperation.Xor false 0
    (by decide) (by decide) (by decide) (by decide) (by decide) (by decide) (Or.inl rfl)
  refine ⟨result, hres, h1, h2, ?_, ?_⟩
  · rw [((h4 2 1 (by decide) (by decide) (by decide) (by decide)).1 (by decide)).2.2.2.2]
    decide
  · rw [(h4 1 1 (by decide) (by decide) (by decide) (by decide)).2 (by decide)]
    decide
/-! ## Huffman code tables -/

/-- C1 (failing input): for the entries (value 0, length 1) and (value 1, length 17),
whose lengths satisfy the Kraft inequality, the 16-bit prefix of buildPrefixes overflows:
both entries get the prefix 0, the codeword of the first is a prefix of the codeword of the
second, and readSignedInteger on the 17 bits of the second codeword returns 0 after one
bit instead of 1. -/
theorem buildPrefixes_long_code_overflows :
    (2⁻¹ : ℚ) ^ 1 + (2⁻¹ : ℚ) ^ 17 ≤ 1 ∧
    PDFJBIG2HuffmanCodeTable.buildPrefixes [standardEntry 0 1, standardEntry 1 17] =
      .ok [{ standardEntry 0 1 with prefixCode := 0 },
           { standardEntry 1 17 with prefixCode := 0 }] ∧
    PDFJBIG2HuffmanTableEntry.codeword { standardEntry 0 1 with prefixCode := 0 } <+:
      PDFJBIG2HuffmanTableEntry.codeword { standardEntry 1 17 with prefixCode := 0 } ∧
    PDFJBIG2HuffmanDecoder.readSignedInteger
      { m_reader := { data := PDFJBIG2HuffmanTableEntry.codeword
                        { standardEntry 1 17 with prefixCode := 0 },
                      position := 0 },
        m_entries := [{ standardEntry 0 1 with prefixCode := 0 },
                      { standardEntry 1 17 with prefixCode := 0 }] } =
      .ok (some 0,
        { data := PDFJBIG2HuffmanTableEntry.codeword { standardEntry 1 17 with prefixCode := 0 },
          position := 1 }) := by
  refine ⟨by norm_num, by decide, by decide, by decide⟩
theorem natToBits_length (w v : Nat) : (natToBits w v).length = w := by
  induction w with
  | zero => rfl
  | succ w ih => simp [natToBits, ih]

theorem bitsToNat_natToBits (w v : Nat) : bitsToNat (natToBits w v) = v % 2 ^ w := by
  induction w with
  | zero => simp [natToBits, bitsToNat, Nat.mod_one]
  | succ w ih =>
    rw [natToBits, bitsToNat_cons, ih, natToBits_length, Nat.mod_pow_succ, Nat.toNat_testBit]
    ring

theorem natToBits_take (w : Nat) : ∀ (n v : Nat), n ≤ w →
    (natToBits w v).take n = natToBits n (v / 2 ^ (w - n)) := by
  induction w with
  | zero =>
    intro n v hn
    have : n = 0 := by omega
    subst this
    rfl
  | succ w ih =>
    intro n v hn
    cases n with
    | zero => rfl
    | succ n =>
      have hn' : n ≤ w := by omega
      have e1 : w + 1 - (n + 1) = w - n := by omega
      have e2 : w - n + n = w := by omega
      rw [natToBits, List.take_succ_cons, ih n v hn', natToBits, e1,
        ← Nat.shiftRight_eq_div_pow, Nat.testBit_shiftRight, e2]

theorem bitsToNat_take_natToBits (w n v : Nat) (hn : n ≤ w) (hv : v < 2 ^ w) :
    bitsToNat ((natToBits w v).take n) = v / 2 ^ (w - n) := by
  rw [natToBits_take w n v hn, bitsToNat_natToBits]
  apply Nat.mod_eq_of_lt
  rw [Nat.div_lt_iff_lt_mul (by positivity), ← pow_add]
  have : n + (w - n) = w := by omega
  rw [this]
  exact hv

theorem bitsToNat_take_succ (l : List Bool) (n : Nat) (hn : n < l.length) :
    bitsToNat (l.take (n + 1)) = 2 * bitsToNat (l.take n) + bitsToNat ((l.drop n).take 1) := by
  induction l generalizing n with
  | nil => simp at hn
  | cons b bs ih =>
    cases n with
    | zero =>
      simp [bitsToNat]
    | succ n =>
      have hn' : n < bs.length := by simpa using hn
      have h := ih n hn'
      rw [List.take_succ_cons, bitsToNat_cons, h, List.take_succ_cons, bitsToNat_cons,
        List.drop_succ_cons]
      simp only [List.length_take]
      have h1 : min (n + 1) bs.length = n + 1 := by omega
      have h2 : min n bs.length = n := by omega
      rw [h1, h2, pow_succ]
      ring

theorem alignPrefix_spec (w : List Bool) (hw : w.length ≤ 32) : ∀ (count cnt : Nat),
    cnt + count ≤ w.length →
      alignPrefix count (bitsToNat (w.take cnt)) { data := w, position := cnt } =
        .ok (bitsToNat (w.take (cnt + count)), { data := w, position := cnt + count }) := by
  intro count
  induction count with
  | zero =>
    intro cnt _
    rfl
  | succ k ih =>
    intro cnt hle
    have hread : PDFBitReader.read 1 { data := w, position := cnt } =
        .ok (bitsToNat ((w.drop cnt).take 1), { data := w, position := cnt + 1 }) := by
      unfold PDFBitReader.read
      rw [if_pos (by simp only; omega)]
    have hlt : bitsToNat (w.take cnt) < 2 ^ 31 := by
      have h1 := bitsToNat_lt (w.take cnt)
      have h2 : (w.take cnt).length ≤ 31 := by
        rw [List.length_take]; omega
      exact lt_of_lt_of_le h1 (Nat.pow_le_pow_right (by norm_num) h2)
    have hbit : bitsToNat ((w.drop cnt).take 1) < 2 := by
      have h1 := bitsToNat_lt ((w.drop cnt).take 1)
      have h2 : ((w.drop cnt).take 1).length ≤ 1 := by
        rw [List.length_take]; omega
      exact lt_of_lt_of_le h1 (by
        calc 2 ^ ((w.drop cnt).take 1).length ≤ 2 ^ 1 :=
              Nat.pow_le_pow_right (by norm_num) h2
          _ = 2 := by norm_num)
    have hstep : ((bitsToNat (w.take cnt) <<< 1) % 2 ^ 32) ||| bitsToNat ((w.drop cnt).take 1)
        = bitsToNat (w.take (cnt + 1)) := by
      rw [Nat.shiftLeft_eq, Nat.mod_eq_of_lt (by omega), pow_one, Nat.mul_comm,
        bitsToNat_take_succ w cnt (by omega)]
      have := Nat.mul_add_lt_is_or (i := 1) (b := bitsToNat ((w.drop cnt).take 1))
        (by simpa using hbit) (bitsToNat (w.take cnt))
      rw [pow_one] at this
      exact this.symm
    rw [alignPrefix]
    simp only [hread, bind, Except.bind, hstep]
    have := ih (cnt + 1) (by omega)
    rw [this, Nat.add_assoc, Nat.add_comm 1 k]
theorem scaledKraft_cons (e : PDFJBIG2HuffmanTableEntry) (es : List PDFJBIG2HuffmanTableEntry) :
    scaledKraft (e :: es) = 2 ^ (16 - e.prefixBitLength) + scaledKraft es := by
  simp [scaledKraft]

theorem two_pow_split (l : Nat) (hl : l ≤ 16) : 2 ^ (16 - l) * 2 ^ l = 2 ^ 16 := by
  rw [← pow_add]
  congr 1
  omega

theorem shiftLeftOne_of_le (n : Nat) (h : n ≤ 30) : shiftLeftOne n = 2 ^ n := by
  unfold shiftLeftOne
  rw [Nat.mod_eq_of_lt (by omega : n < 32)]
  have h1 : 2 ^ n ≤ 2 ^ 30 := Nat.pow_le_pow_right (by norm_num) h
  rw [toInt32_of_lt _ (by omega)]
  push_cast
  rfl

/-- For lengths below 31 the overflow test of `buildPrefixes` compares the count with
`2 ^ prefixBitLength`. -/
theorem prefixCountOverflow_eq (count len : Nat) (h : len ≤ 30) :
    prefixCountOverflow count len = decide (count > 2 ^ len) := by
  unfold prefixCountOverflow
  rw [shiftLeftOne_of_le len h]
  congr 1
  apply propext
  constructor
  · intro hgt
    exact_mod_cast hgt
  · intro hgt
    exact_mod_cast hgt

theorem assignPrefixes_spec : ∀ (rest : List PDFJBIG2HuffmanTableEntry)
    (previous codeValue count K : Nat),
    List.Sorted (fun l r => l.prefixBitLength ≤ r.prefixBitLength) rest →
    (∀ e ∈ rest, previous ≤ e.prefixBitLength ∧ e.prefixBitLength ≤ 16) →
    (rest ≠ [] → codeValue * 2 ^ (16 - previous) = K) →
    (rest ≠ [] → count * 2 ^ (16 - previous) ≤ K) →
    K + scaledKraft rest ≤ 2 ^ 16 →
    ∃ out, assignPrefixes rest previous codeValue count = .ok out ∧
      out.map PDFJBIG2HuffmanTableEntry.withoutPrefix =
        rest.map PDFJBIG2HuffmanTableEntry.withoutPrefix ∧
      CanonicalFrom K out := by
  intro rest
  induction rest with
  | nil =>
    intro previous codeValue count K _ _ _ _ _
    exact ⟨[], rfl, rfl, trivial⟩
  | cons entry rest ih =>
    intro previous codeValue count K hsorted hlen hcode hcount hkraft
    obtain ⟨hprev, hl16⟩ := hlen entry (List.mem_cons_self _ _)
    have hcode' := hcode (List.cons_ne_nil _ _)
    have hcount' := hcount (List.cons_ne_nil _ _)
    rw [scaledKraft_cons] at hkraft
    have hsplit := two_pow_split entry.prefixBitLength hl16
    have hpos : 0 < 2 ^ (16 - entry.prefixBitLength) := by positivity
    have hposl : 0 < 2 ^ entry.prefixBitLength := by positivity
    -- the shifted prefix, before it is cut to 16 bits
    have hshift : (entry.prefixBitLength - previous) % 2 ^ 16 =
        entry.prefixBitLength - previous := Nat.mod_eq_of_lt (by omega)
    have hscale : codeValue * 2 ^ (entry.prefixBitLength - previous) *
        2 ^ (16 - entry.prefixBitLength) = K := by
      rw [Nat.mul_assoc, ← pow_add]
      have : entry.prefixBitLength - previous + (16 - entry.prefixBitLength) = 16 - previous := by
        omega
      rw [this, hcode']
    have hfit : codeValue * 2 ^ (entry.prefixBitLength - previous) < 2 ^ 16 := by
      have h1 : codeValue * 2 ^ (entry.prefixBitLength - previous) ≤ K := by
        rw [← hscale]
        exact Nat.le_mul_of_pos_right _ hpos
      omega
    -- the prefix assigned to the entry and the count after it
    obtain ⟨c, hc, hcK⟩ : ∃ c, (if (entry.prefixBitLength - previous) % 2 ^ 16 > 0 then
        (codeValue <<< ((entry.prefixBitLength - previous) % 2 ^ 16)) % 2 ^ 16 else codeValue)
        = c ∧ c * 2 ^ (16 - entry.prefixBitLength) = K := by
      refine ⟨_, rfl, ?_⟩
      rw [hshift]
      split_ifs with h0
      · rw [Nat.shiftLeft_eq, Nat.mod_eq_of_lt hfit]
        exact hscale
      · have : entry.prefixBitLength - previous = 0 := by omega
        rw [this, pow_zero, Nat.mul_one] at hscale
        exact hscale
    obtain ⟨n, hn, hnK⟩ : ∃ n, (if (entry.prefixBitLength - previous) % 2 ^ 16 > 0 then 0
        else count) = n ∧ n * 2 ^ (16 - entry.prefixBitLength) ≤ K := by
      refine ⟨_, rfl, ?_⟩
      rw [hshift]
      split_ifs with h0
      · simp
      · have : entry.prefixBitLength = previous := by omega
        rw [this]
        exact hcount'
    have hn1 : n + 1 ≤ 2 ^ entry.prefixBitLength := by
      have h1 : (n + 1) * 2 ^ (16 - entry.prefixBitLength) ≤
          2 ^ entry.prefixBitLength * 2 ^ (16 - entry.prefixBitLength) := by
        rw [Nat.mul_comm (2 ^ entry.prefixBitLength), hsplit, Nat.add_mul, Nat.one_mul]
        omega
      exact Nat.le_of_mul_le_mul_right h1 hpos
    have hmodn : (n + 1) % 2 ^ 16 ≤ n + 1 := Nat.mod_le _ _
    have hnothrow : prefixCountOverflow ((n + 1) % 2 ^ 16) entry.prefixBitLength = false := by
      rw [prefixCountOverflow_eq _ _ (by omega)]
      exact decide_eq_false (by omega)
    have hsorted' := List.sorted_cons.mp hsorted
    have hK' : (c + 1) * 2 ^ (16 - entry.prefixBitLength) =
        K + 2 ^ (16 - entry.prefixBitLength) := by
      rw [Nat.add_mul, Nat.one_mul, hcK]
    obtain ⟨tail, htail, hmap, hcanon⟩ := ih entry.prefixBitLength ((c + 1) % 2 ^ 16)
      ((n + 1) % 2 ^ 16) (K + 2 ^ (16 - entry.prefixBitLength)) hsorted'.2
      (fun e he => ⟨hsorted'.1 e he, (hlen e (List.mem_cons_of_mem _ he)).2⟩)
      (by
        intro hne
        obtain ⟨e, es, rfl⟩ := List.exists_cons_of_ne_nil hne
        rw [scaledKraft_cons] at hkraft
        have hpe : 0 < 2 ^ (16 - e.prefixBitLength) := by positivity
        have hlt : (c + 1) * 2 ^ (16 - entry.prefixBitLength) < 2 ^ 16 := by omega
        have hc1 : c + 1 < 2 ^ 16 :=
          lt_of_le_of_lt (Nat.le_mul_of_pos_right _ hpos) hlt
        rw [Nat.mod_eq_of_lt hc1, hK'])
      (by
        intro _
        calc (n + 1) % 2 ^ 16 * 2 ^ (16 - entry.prefixBitLength)
            ≤ (n + 1) * 2 ^ (16 - entry.prefixBitLength) := Nat.mul_le_mul_right _ hmodn
          _ = n * 2 ^ (16 - entry.prefixBitLength) + 2 ^ (16 - entry.prefixBitLength) := by ring
          _ ≤ K + 2 ^ (16 - entry.prefixBitLength) := by omega)
      (by omega)
    refine ⟨{ entry with prefixCode := c } :: tail, ?_, ?_, ?_⟩
    · rw [assignPrefixes]
      simp only [hc, hn, hnothrow, Bool.false_eq_true, if_false, htail, bind, Except.bind, pure,
        Except.pure]
    · simp only [List.map_cons, hmap]
      rfl
    · exact ⟨hcK, hcanon⟩
theorem canonicalFrom_bounds : ∀ (out : List PDFJBIG2HuffmanTableEntry) (K : Nat),
    CanonicalFrom K out → ∀ e ∈ out,
      K ≤ e.prefixCode * 2 ^ (16 - e.prefixBitLength) ∧
      e.prefixCode * 2 ^ (16 - e.prefixBitLength) + 2 ^ (16 - e.prefixBitLength) ≤
        K + scaledKraft out := by
  intro out
  induction out with
  | nil => intro K _ e he; simp at he
  | cons a rest ih =>
    intro K hcanon e he
    obtain ⟨ha, hrest⟩ := hcanon
    rw [scaledKraft_cons]
    rcases List.mem_cons.mp he with rfl | hmem
    · omega
    · have := ih _ hrest e hmem
      generalize e.prefixCode * 2 ^ (16 - e.prefixBitLength) = ce at this ⊢
      generalize 2 ^ (16 - e.prefixBitLength) = pe at this ⊢
      generalize 2 ^ (16 - a.prefixBitLength) = pa at this ⊢
      omega

theorem canonicalFrom_pairwise : ∀ (out : List PDFJBIG2HuffmanTableEntry) (K : Nat),
    CanonicalFrom K out →
    List.Sorted (fun l r => l.prefixBitLength ≤ r.prefixBitLength) out →
    out.Pairwise CodedBefore := by
  intro out
  induction out with
  | nil => intro K _ _; exact List.Pairwise.nil
  | cons a rest ih =>
    intro K hcanon hsorted
    obtain ⟨ha, hrest⟩ := hcanon
    obtain ⟨hle, hsorted'⟩ := List.sorted_cons.mp hsorted
    refine List.Pairwise.cons ?_ (ih _ hrest hsorted')
    intro b hb
    have := (canonicalFrom_bounds rest _ hrest b hb).1
    refine ⟨hle b hb, ?_⟩
    rw [ha]
    exact this

theorem codedBefore_no_match (a b : PDFJBIG2HuffmanTableEntry) (h : CodedBefore a b)
    (hb : b.prefixBitLength ≤ 16) :
    b.prefixCode / 2 ^ (b.prefixBitLength - a.prefixBitLength) ≠ a.prefixCode := by
  obtain ⟨hlen, hcode⟩ := h
  intro heq
  have hlt : b.prefixCode <
      (a.prefixCode + 1) * 2 ^ (b.prefixBitLength - a.prefixBitLength) := by
    rw [← Nat.div_lt_iff_lt_mul (by positivity)]
    omega
  have hpos : 0 < 2 ^ (16 - b.prefixBitLength) := by positivity
  have h1 : b.prefixCode * 2 ^ (16 - b.prefixBitLength) <
      (a.prefixCode + 1) * 2 ^ (b.prefixBitLength - a.prefixBitLength) *
        2 ^ (16 - b.prefixBitLength) := Nat.mul_lt_mul_of_pos_right hlt hpos
  have h2 : (a.prefixCode + 1) * 2 ^ (b.prefixBitLength - a.prefixBitLength) *
      2 ^ (16 - b.prefixBitLength) = (a.prefixCode + 1) * 2 ^ (16 - a.prefixBitLength) := by
    rw [Nat.mul_assoc, ← pow_add]
    congr 2
    omega
  rw [h2, Nat.add_mul, Nat.one_mul] at h1
  exact absurd (lt_of_le_of_lt hcode h1) (lt_irrefl _)

theorem codeword_of_isPrefix (a b : PDFJBIG2HuffmanTableEntry)
    (ha : a.prefixCode < 2 ^ a.prefixBitLength) (hb : b.prefixCode < 2 ^ b.prefixBitLength)
    (h : a.codeword <+: b.codeword) :
    a.prefixBitLength ≤ b.prefixBitLength ∧
      b.prefixCode / 2 ^ (b.prefixBitLength - a.prefixBitLength) = a.prefixCode := by
  have hlen : a.prefixBitLength ≤ b.prefixBitLength := by
    have := h.length_le
    simpa [PDFJBIG2HuffmanTableEntry.codeword, natToBits_length] using this
  refine ⟨hlen, ?_⟩
  have heq := List.prefix_iff_eq_take.mp h
  simp only [PDFJBIG2HuffmanTableEntry.codeword, natToBits_length] at heq
  have h1 := congrArg bitsToNat heq
  rw [bitsToNat_natToBits, Nat.mod_eq_of_lt ha, bitsToNat_take_natToBits _ _ _ hlen hb] at h1
  exact h1.symm

theorem codedBefore_prefix_free (a b : PDFJBIG2HuffmanTableEntry) (h : CodedBefore a b)
    (ha : a.prefixCode < 2 ^ a.prefixBitLength) (hb : b.prefixCode < 2 ^ b.prefixBitLength)
    (hb16 : b.prefixBitLength ≤ 16) :
    ¬ a.codeword <+: b.codeword ∧ ¬ b.codeword <+: a.codeword := by
  constructor
  · intro hp
    exact codedBefore_no_match a b h hb16 (codeword_of_isPrefix a b ha hb hp).2
  · intro hp
    obtain ⟨hlen, hcode⟩ := codeword_of_isPrefix b a hb ha hp
    have hl : a.prefixBitLength = b.prefixBitLength := le_antisymm h.1 hlen
    refine codedBefore_no_match a b h hb16 ?_
    rw [hl, Nat.sub_self, pow_zero, Nat.div_one] at hcode ⊢
    exact hcode.symm
theorem readSignedIntegerLoop_spec (e : PDFJBIG2HuffmanTableEntry)
    (hcode : e.prefixCode < 2 ^ e.prefixBitLength) (hlen : e.prefixBitLength ≤ 16)
    (htype : e.type = HuffmanEntryType.Standard) (hrange : e.rangeBitLength = 0) :
    ∀ (es : List PDFJBIG2HuffmanTableEntry) (cnt : Nat), es.Pairwise CodedBefore → e ∈ es →
      (∀ a ∈ es, cnt ≤ a.prefixBitLength) →
      readSignedIntegerLoop es cnt (bitsToNat (e.codeword.take cnt))
          { data := e.codeword, position := cnt } =
        .ok (some e.value, { data := e.codeword, position := e.prefixBitLength }) := by
  have hwlen : e.codeword.length = e.prefixBitLength := natToBits_length _ _
  intro es
  induction es with
  | nil => intro cnt _ he _; simp at he
  | cons it rest ih =>
    intro cnt hpair he hcnt
    obtain ⟨hbefore, hpair'⟩ := List.pairwise_cons.mp hpair
    have hcnt_it := hcnt it (List.mem_cons_self _ _)
    have hle : it.prefixBitLength ≤ e.prefixBitLength := by
      rcases List.mem_cons.mp he with rfl | hmem
      · exact le_refl _
      · exact (hbefore e hmem).1
    have halign := alignPrefix_spec e.codeword (by omega) (it.prefixBitLength - cnt) cnt
      (by omega)
    have hsum : cnt + (it.prefixBitLength - cnt) = it.prefixBitLength := by omega
    rw [hsum] at halign
    have hval : bitsToNat (e.codeword.take it.prefixBitLength) =
        e.prefixCode / 2 ^ (e.prefixBitLength - it.prefixBitLength) :=
      bitsToNat_take_natToBits _ _ _ hle hcode
    have hmax : max cnt it.prefixBitLength = it.prefixBitLength := by omega
    rw [readSignedIntegerLoop]
    simp only [halign, bind, Except.bind, hmax]
    by_cases hmatch : bitsToNat (e.codeword.take it.prefixBitLength) = it.prefixCode
    · have heq : e = it := by
        rcases List.mem_cons.mp he with h | hmem
        · exact h
        · exfalso
          rw [hval] at hmatch
          exact codedBefore_no_match it e (hbefore e hmem) hlen hmatch
      subst heq
      simp only [hmatch, if_true, PDFJBIG2HuffmanTableEntry.isOutOfBand,
        PDFJBIG2HuffmanTableEntry.isLowValue, htype, hrange, pure, Except.pure]
      rfl
    · have hmem : e ∈ rest := by
        rcases List.mem_cons.mp he with h | hmem
        · exfalso
          subst h
          rw [hval, Nat.sub_self, pow_zero, Nat.div_one] at hmatch
          exact hmatch rfl
        · exact hmem
      rw [if_neg hmatch]
      exact ih it.prefixBitLength hpair' hmem (fun a ha => (hbefore a ha).1)

theorem canonical_table_correct (out : List PDFJBIG2HuffmanTableEntry)
    (hcanon : CanonicalFrom 0 out)
    (hsorted : List.Sorted (fun l r => l.prefixBitLength ≤ r.prefixBitLength) out)
    (hlen : ∀ e ∈ out, e.prefixBitLength ≤ 16) (hkraft : scaledKraft out ≤ 2 ^ 16)
    (hstd : ∀ e ∈ out, e.type = HuffmanEntryType.Standard ∧ e.rangeBitLength = 0) :
    (∀ e ∈ out, e.prefixCode < 2 ^ e.prefixBitLength) ∧
    out.Pairwise (fun a b => ¬ a.codeword <+: b.codeword ∧ ¬ b.codeword <+: a.codeword) ∧
    ∀ e ∈ out,
      PDFJBIG2HuffmanDecoder.readSignedInteger
        { m_reader := { data := e.codeword, position := 0 }, m_entries := out } =
      .ok (some e.value, { data := e.codeword, position := e.prefixBitLength }) := by
  have hcode : ∀ e ∈ out, e.prefixCode < 2 ^ e.prefixBitLength := by
    intro e he
    have hb := (canonicalFrom_bounds out 0 hcanon e he).2
    have hl := hlen e he
    have hsplit := two_pow_split e.prefixBitLength hl
    have hpos : 0 < 2 ^ (16 - e.prefixBitLength) := by positivity
    have h1 : (e.prefixCode + 1) * 2 ^ (16 - e.prefixBitLength) ≤
        2 ^ e.prefixBitLength * 2 ^ (16 - e.prefixBitLength) := by
      rw [Nat.mul_comm (2 ^ e.prefixBitLength), hsplit, Nat.add_mul, Nat.one_mul]
      omega
    have := Nat.le_of_mul_le_mul_right h1 hpos
    omega
  have hpair := canonicalFrom_pairwise out 0 hcanon hsorted
  refine ⟨hcode, ?_, ?_⟩
  · rw [List.pairwise_iff_forall_sublist] at hpair ⊢
    intro a b hab
    have ha : a ∈ out := hab.subset (List.mem_cons_self _ _)
    have hb : b ∈ out := hab.subset (List.mem_cons_of_mem _ (List.mem_cons_self _ _))
    exact codedBefore_prefix_free a b (hpair hab) (hcode a ha) (hcode b hb) (hlen b hb)
  · intro e he
    have h := readSignedIntegerLoop_spec e (hcode e he) (hlen e he) (hstd e he).1 (hstd e he).2
      out 0 hpair he (fun a _ => Nat.zero_le _)
    simpa [PDFJBIG2HuffmanDecoder.readSignedInteger, bitsToNat] using h
theorem scaledKraft_eq_of_map (out es : List PDFJBIG2HuffmanTableEntry)
    (h : out.map PDFJBIG2HuffmanTableEntry.withoutPrefix =
      es.map PDFJBIG2HuffmanTableEntry.withoutPrefix) :
    scaledKraft out = scaledKraft es := by
  have key : ∀ l : List PDFJBIG2HuffmanTableEntry, scaledKraft l =
      ((l.map PDFJBIG2HuffmanTableEntry.withoutPrefix).map
        (fun entry => 2 ^ (16 - entry.prefixBitLength))).sum := by
    intro l
    rw [List.map_map]
    rfl
  rw [key out, key es, h]

theorem mem_of_map_withoutPrefix (out es : List PDFJBIG2HuffmanTableEntry)
    (h : out.map PDFJBIG2HuffmanTableEntry.withoutPrefix =
      es.map PDFJBIG2HuffmanTableEntry.withoutPrefix)
    (e : PDFJBIG2HuffmanTableEntry) (he : e ∈ out) :
    ∃ e' ∈ es, e'.value = e.value ∧ e'.prefixBitLength = e.prefixBitLength ∧
      e'.rangeBitLength = e.rangeBitLength ∧ e'.type = e.type := by
  have h1 : e.withoutPrefix ∈ es.map PDFJBIG2HuffmanTableEntry.withoutPrefix := by
    rw [← h]
    exact List.mem_map_of_mem _ he
  obtain ⟨e', he', heq⟩ := List.mem_map.mp h1
  refine ⟨e', he', ?_, ?_, ?_, ?_⟩
  · show e'.withoutPrefix.value = e.withoutPrefix.value
    rw [heq]
  · show e'.withoutPrefix.prefixBitLength = e.withoutPrefix.prefixBitLength
    rw [heq]
  · show e'.withoutPrefix.rangeBitLength = e.withoutPrefix.rangeBitLength
    rw [heq]
  · show e'.withoutPrefix.type = e.withoutPrefix.type
    rw [heq]

theorem sorted_of_map_withoutPrefix (out es : List PDFJBIG2HuffmanTableEntry)
    (h : out.map PDFJBIG2HuffmanTableEntry.withoutPrefix =
      es.map PDFJBIG2HuffmanTableEntry.withoutPrefix)
    (hs : List.Sorted (fun l r => l.prefixBitLength ≤ r.prefixBitLength) es) :
    List.Sorted (fun l r => l.prefixBitLength ≤ r.prefixBitLength) out := by
  have key : ∀ l : List PDFJBIG2HuffmanTableEntry,
      List.Sorted (fun l r => l.prefixBitLength ≤ r.prefixBitLength) l ↔
      List.Sorted (fun l r => l.prefixBitLength ≤ r.prefixBitLength)
        (l.map PDFJBIG2HuffmanTableEntry.withoutPrefix) := by
    intro l
    unfold List.Sorted
    rw [List.pairwise_map]
    rfl
  rw [key out, h, ← key es]
  exact hs

theorem scaledKraft_cast (es : List PDFJBIG2HuffmanTableEntry)
    (hlen : ∀ e ∈ es, e.prefixBitLength ≤ 16) :
    (scaledKraft es : ℚ) =
      2 ^ 16 * (es.map (fun entry => (2⁻¹ : ℚ) ^ entry.prefixBitLength)).sum := by
  induction es with
  | nil => simp [scaledKraft]
  | cons e es ih =>
    have hl := hlen e (List.mem_cons_self _ _)
    have ih' := ih (fun a ha => hlen a (List.mem_cons_of_mem _ ha))
    rw [scaledKraft_cons, List.map_cons, List.sum_cons, mul_add, ← ih']
    push_cast
    congr 1
    have h2 : (2 : ℚ) ^ 16 = 2 ^ (16 - e.prefixBitLength) * 2 ^ e.prefixBitLength := by
      rw [← pow_add]
      congr 1
      omega
    rw [h2, inv_pow, mul_assoc, mul_inv_cancel₀ (by positivity), mul_one]

theorem scaledKraft_of_kraftSum (entries : List PDFJBIG2HuffmanTableEntry)
    (hlen : ∀ e ∈ entries, e.prefixBitLength ≤ 16) (hkraft : kraftSum entries ≤ 1) :
    scaledKraft ((entries.filter (fun entry => !(entry.prefixBitLength == 0))).insertionSort
      (fun l r => l.prefixBitLength ≤ r.prefixBitLength)) ≤ 2 ^ 16 := by
  have hperm := List.perm_insertionSort (fun (l r : PDFJBIG2HuffmanTableEntry) =>
    l.prefixBitLength ≤ r.prefixBitLength)
    (entries.filter (fun entry => !(entry.prefixBitLength == 0)))
  have hsum : scaledKraft ((entries.filter (fun entry => !(entry.prefixBitLength == 0))).insertionSort
      (fun l r => l.prefixBitLength ≤ r.prefixBitLength)) =
      scaledKraft (entries.filter (fun entry => !(entry.prefixBitLength == 0))) := by
    unfold scaledKraft
    exact (hperm.map _).sum_eq
  rw [hsum]
  have hcast := scaledKraft_cast (entries.filter (fun entry => !(entry.prefixBitLength == 0)))
    (fun e he => hlen e (List.mem_of_mem_filter he))
  unfold kraftSum at hkraft
  have hq : (scaledKraft (entries.filter (fun entry => !(entry.prefixBitLength == 0))) : ℚ) ≤
      2 ^ 16 := by
    rw [hcast]
    calc (2 : ℚ) ^ 16 * _ ≤ 2 ^ 16 * 1 := by
          exact mul_le_mul_of_nonneg_left hkraft (by positivity)
      _ = 2 ^ 16 := by ring
  exact_mod_cast hq

/-- Round trip for prefixes of at most 16 bits: for entries of the Standard kind with zero
range length whose non-zero prefix bit lengths are at most 16 and satisfy the Kraft
inequality, buildPrefixes succeeds and returns the entries of non-zero length in the stable
order of their lengths, each prefix fits its length, the codewords are pairwise
non-prefixing, and readSignedInteger reading the bits of the codeword of an output entry
returns the value of that entry, with all the bits consumed. -/
theorem buildPrefixes_round_trip_16 (entries : List PDFJBIG2HuffmanTableEntry)
    (hstd : ∀ e ∈ entries, e.type = HuffmanEntryType.Standard ∧ e.rangeBitLength = 0)
    (hlen : ∀ e ∈ entries, e.prefixBitLength ≤ 16) (hkraft : kraftSum entries ≤ 1) :
    ∃ out, PDFJBIG2HuffmanCodeTable.buildPrefixes entries = .ok out ∧
      out.map PDFJBIG2HuffmanTableEntry.withoutPrefix =
        ((entries.filter (fun entry => !(entry.prefixBitLength == 0))).insertionSort
          (fun l r => l.prefixBitLength ≤ r.prefixBitLength)).map
            PDFJBIG2HuffmanTableEntry.withoutPrefix ∧
      (∀ e ∈ out, e.prefixCode < 2 ^ e.prefixBitLength) ∧
      out.Pairwise (fun a b => ¬ a.codeword <+: b.codeword ∧ ¬ b.codeword <+: a.codeword) ∧
      ∀ e ∈ out,
        PDFJBIG2HuffmanDecoder.readSignedInteger
          { m_reader := { data := e.codeword, position := 0 }, m_entries := out } =
        .ok (some e.value, { data := e.codeword, position := e.prefixBitLength }) := by
  have hk := scaledKraft_of_kraftSum entries hlen hkraft
  haveI : IsTotal PDFJBIG2HuffmanTableEntry
      (fun l r => l.prefixBitLength ≤ r.prefixBitLength) := ⟨fun a b => Nat.le_total _ _⟩
  haveI : IsTrans PDFJBIG2HuffmanTableEntry
      (fun l r => l.prefixBitLength ≤ r.prefixBitLength) := ⟨fun _ _ _ => Nat.le_trans⟩
  have hsorted := List.sorted_insertionSort (fun (l r : PDFJBIG2HuffmanTableEntry) =>
    l.prefixBitLength ≤ r.prefixBitLength)
    (entries.filter (fun entry => !(entry.prefixBitLength == 0)))
  have hmem : ∀ e ∈ (entries.filter (fun entry => !(entry.prefixBitLength == 0))).insertionSort
      (fun l r => l.prefixBitLength ≤ r.prefixBitLength), e ∈ entries := by
    intro e he
    have := (List.perm_insertionSort _ _).subset he
    exact List.mem_of_mem_filter this
  unfold PDFJBIG2HuffmanCodeTable.buildPrefixes
  dsimp only
  generalize (entries.filter (fun entry => !(entry.prefixBitLength == 0))).insertionSort
    (fun l r => l.prefixBitLength ≤ r.prefixBitLength) = sorted at hk hsorted hmem ⊢
  have finish : ∀ out : List PDFJBIG2HuffmanTableEntry,
      out.map PDFJBIG2HuffmanTableEntry.withoutPrefix =
        sorted.map PDFJBIG2HuffmanTableEntry.withoutPrefix → CanonicalFrom 0 out →
      (∀ e ∈ out, e.prefixCode < 2 ^ e.prefixBitLength) ∧
      out.Pairwise (fun a b => ¬ a.codeword <+: b.codeword ∧ ¬ b.codeword <+: a.codeword) ∧
      ∀ e ∈ out,
        PDFJBIG2HuffmanDecoder.readSignedInteger
          { m_reader := { data := e.codeword, position := 0 }, m_entries := out } =
        .ok (some e.value, { data := e.codeword, position := e.prefixBitLength }) := by
    intro out hmap hcanon
    apply canonical_table_correct out hcanon (sorted_of_map_withoutPrefix out sorted hmap hsorted)
    · intro e he
      obtain ⟨e', he', -, hl, -, -⟩ := mem_of_map_withoutPrefix out sorted hmap e he
      rw [← hl]
      exact hlen e' (hmem e' he')
    · rw [scaledKraft_eq_of_map out sorted hmap]
      exact hk
    · intro e he
      obtain ⟨e', he', -, -, hr, ht⟩ := mem_of_map_withoutPrefix out sorted hmap e he
      rw [← hr, ← ht]
      exact hstd e' (hmem e' he')
  cases sorted with
  | nil => exact ⟨[], rfl, rfl, finish [] rfl trivial⟩
  | cons first rest =>
    obtain ⟨hle, hsorted'⟩ := List.sorted_cons.mp hsorted
    rw [scaledKraft_cons] at hk
    obtain ⟨tail, htail, hmap, hcanon⟩ := assignPrefixes_spec rest first.prefixBitLength 1 1
      (2 ^ (16 - first.prefixBitLength)) hsorted'
      (fun e he => ⟨hle e he, hlen e (hmem e (List.mem_cons_of_mem _ he))⟩)
      (fun _ => Nat.one_mul _) (fun _ => by rw [Nat.one_mul]) hk
    have hmap' : ({ first with prefixCode := 0 } :: tail).map
        PDFJBIG2HuffmanTableEntry.withoutPrefix =
        (first :: rest).map PDFJBIG2HuffmanTableEntry.withoutPrefix := by
      simp only [List.map_cons, hmap]
      rfl
    have hcanon' : CanonicalFrom 0 ({ first with prefixCode := 0 } :: tail) := by
      refine ⟨by simp, ?_⟩
      simpa using hcanon
    refine ⟨{ first with prefixCode := 0 } :: tail, ?_, hmap', finish _ hmap' hcanon'⟩
    simp only [htail, bind, Except.bind, pure, Except.pure]

theorem buildPrefixes_round_trip_16_witness :
    ∃ out, PDFJBIG2HuffmanCodeTable.buildPrefixes [standardEntry 10 2, standardEntry 20 0,
        standardEntry 30 1, standardEntry 40 3, standardEntry 50 3] = .ok out ∧
      out.Pairwise (fun a b => ¬ a.codeword <+: b.codeword ∧ ¬ b.codeword <+: a.codeword) ∧
      ∀ e ∈ out,
        PDFJBIG2HuffmanDecoder.readSignedInteger
          { m_reader := { data := e.codeword, position := 0 }, m_entries := out } =
        .ok (some e.value, { data := e.codeword, position := e.prefixBitLength }) := by
  obtain ⟨out, h1, -, -, h4, h5⟩ := buildPrefixes_round_trip_16
    [standardEntry 10 2, standardEntry 20 0, standardEntry 30 1, standardEntry 40 3,
      standardEntry 50 3]
    (by decide) (by decide) (by norm_num [kraftSum, standardEntry])
  exact ⟨out, h1, h4, h5⟩
/-! ## Vertical expansion in `paint` -/

theorem paintRow_invalid (bitmap : PDFJBIG2Bitmap) (sx sy y : Int) (count : Nat) (x : Int)
    (t : PDFJBIG2Bitmap) :
    paintRow bitmap sx sy PDFJBIG2BitOperation.Invalid y (count + 1) x t =
      .error PDFException.invalidPaintOperation := by
  rw [paintRow]
  rfl

theorem paintRows_invalid (bitmap : PDFJBIG2Bitmap) (sx x1 sy : Int) (count : Nat) (y : Int)
    (t : PDFJBIG2Bitmap) (hcols : sx < x1) :
    paintRows bitmap sx x1 sy PDFJBIG2BitOperation.Invalid (count + 1) y t =
      .error PDFException.invalidPaintOperation := by
  obtain ⟨n, hn⟩ : ∃ n, (x1 - sx).toNat = n + 1 := ⟨(x1 - sx).toNat - 1, by omega⟩
  rw [paintRows, hn, paintRow_invalid]
  rfl

/-- C12: with the operator Invalid, paint on a well-formed target throws exactly when the
pixel loop is entered: for a valid source, offsetX below the target width and offsetY below
the target height (which always holds after a vertical expansion) the call fails with the
invalid-operation error, whatever the bitmaps' contents and the sign of the offsets; for a
source that is not valid it returns with the target untouched, and for a valid source
placed at or beyond the right or bottom edge (without expansion) it returns the target as
well. -/
theorem paint_invalid_operation (target bitmap : PDFJBIG2Bitmap) (offsetX offsetY : Int)
    (expandY : Bool) (expandPixel : Nat) (_hw : target.WellFormed) :
    (bitmap.isValid = true → offsetX < target.m_width →
      (offsetY < target.m_height ∨ expandY = true) →
      target.paint bitmap offsetX offsetY PDFJBIG2BitOperation.Invalid expandY expandPixel =
        .error PDFException.invalidPaintOperation) ∧
    (bitmap.isValid = false →
      target.paint bitmap offsetX offsetY PDFJBIG2BitOperation.Invalid expandY expandPixel =
        .ok target) ∧
    (bitmap.isValid = true →
      (offsetX ≥ target.m_width ∨ (offsetY ≥ target.m_height ∧ expandY = false)) →
      ∃ result,
        target.paint bitmap offsetX offsetY PDFJBIG2BitOperation.Invalid expandY expandPixel =
          .ok result ∧ result.m_width = target.m_width ∧
        (expandY = false → result = target)) := by
  refine ⟨?_, ?_, ?_⟩
  · intro hvalid hx hy
    have hv : 0 < bitmap.m_width ∧ 0 < bitmap.m_height := by
      simpa [PDFJBIG2Bitmap.isValid] using hvalid
    unfold PDFJBIG2Bitmap.paint
    simp only [hvalid, Bool.not_true, Bool.false_eq_true, if_false,
      PDFJBIG2Bitmap.getWidth, PDFJBIG2Bitmap.getHeight]
    by_cases hexp : expandY = true ∧ offsetY + bitmap.m_height > target.m_height
    · rw [if_pos hexp]
      dsimp only
      rw [if_neg (by omega)]
      obtain ⟨n, hn⟩ : ∃ n, (min (offsetY + bitmap.m_height) (offsetY + bitmap.m_height)
          - offsetY).toNat = n + 1 :=
        ⟨(min (offsetY + bitmap.m_height) (offsetY + bitmap.m_height) - offsetY).toNat - 1,
          by omega⟩
      rw [hn]
      exact paintRows_invalid bitmap _ _ _ n _ _ (by omega)
    · rw [if_neg hexp]
      have hyH : offsetY < target.m_height := by
        rcases hy with h | h
        · exact h
        · by_contra hc
          exact hexp ⟨h, by omega⟩
      rw [if_neg (by omega)]
      obtain ⟨n, hn⟩ : ∃ n, (min (offsetY + bitmap.m_height) target.m_height
          - offsetY).toNat = n + 1 :=
        ⟨(min (offsetY + bitmap.m_height) target.m_height - offsetY).toNat - 1, by omega⟩
      rw [hn]
      exact paintRows_invalid bitmap _ _ _ n _ _ (by omega)
  · intro hinv
    unfold PDFJBIG2Bitmap.paint
    simp only [hinv, Bool.not_false, if_true]
    rfl
  · intro hvalid hout
    have hv : 0 < bitmap.m_width ∧ 0 < bitmap.m_height := by
      simpa [PDFJBIG2Bitmap.isValid] using hvalid
    unfold PDFJBIG2Bitmap.paint
    simp only [hvalid, Bool.not_true, Bool.false_eq_true, if_false,
      PDFJBIG2Bitmap.getWidth, PDFJBIG2Bitmap.getHeight]
    by_cases hexp : expandY = true ∧ offsetY + bitmap.m_height > target.m_height
    · rw [if_pos hexp]
      dsimp only
      have hxW : offsetX ≥ target.m_width := by
        rcases hout with h | h
        · exact h
        · rw [h.2] at hexp
          exact absurd hexp.1 Bool.false_ne_true
      rw [if_pos (Or.inl hxW)]
      refine ⟨_, rfl, rfl, ?_⟩
      intro hf
      rw [hf] at hexp
      exact absurd hexp.1 Bool.false_ne_true
    · rw [if_neg hexp, if_pos (by omega)]
      exact ⟨target, rfl, rfl, fun _ => rfl⟩

theorem paint_invalid_operation_witness :
    PDFJBIG2Bitmap.paint ⟨3, 2, [0, 255, 0, 255, 0, 255]⟩ ⟨2, 2, [255, 255, 0, 0]⟩ 2 1
      PDFJBIG2BitOperation.Invalid false 0 = .error PDFException.invalidPaintOperation :=
  (paint_invalid_operation ⟨3, 2, [0, 255, 0, 255, 0, 255]⟩ ⟨2, 2, [255, 255, 0, 0]⟩ 2 1
    false 0 (by decide)).1 (by decide) (by decide) (Or.inl (by decide))

/-- C12 (counterexample): with the operator Invalid, paint returns normally (target
unchanged) when the source lies beyond the right edge of the target, and when the source is
an empty bitmap. -/
theorem paint_invalid_operation_returns :
    PDFJBIG2Bitmap.paint ⟨3, 2, [0, 255, 0, 255, 0, 255]⟩ ⟨2, 2, [255, 255, 0, 0]⟩ 5 1
        PDFJBIG2BitOperation.Invalid false 0 = .ok ⟨3, 2, [0, 255, 0, 255, 0, 255]⟩ ∧
    PDFJBIG2Bitmap.paint ⟨3, 2, [0, 255, 0, 255, 0, 255]⟩ ⟨0, 0, []⟩ 0 0
        PDFJBIG2BitOperation.Invalid false 0 = .ok ⟨3, 2, [0, 255, 0, 255, 0, 255]⟩ := by
  constructor <;> rfl

/-! ## Region segment information field -/

theorem toUInt32_toInt32 (v : Nat) (hv : v < 2 ^ 32) : toUInt32 (toInt32 v) = v := by
  unfold toUInt32 toInt32
  rw [Nat.mod_eq_of_lt hv]
  split_ifs with h <;> omega

theorem toUInt32_of_nonneg (z : Int) (h0 : 0 ≤ z) (h1 : z < 2 ^ 32) : toUInt32 z = z.toNat := by
  unfold toUInt32
  rw [Int.emod_eq_of_lt h0 h1]

theorem toUInt32_neg (z : Int) (h0 : -2 ^ 31 ≤ z) (h1 : z < 0) : 2 ^ 31 ≤ toUInt32 z := by
  unfold toUInt32
  omega

theorem readSignedInt_inv (r r' : PDFBitReader) (z : Int) (h : r.readSignedInt = .ok (z, r')) :
    -2 ^ 31 ≤ z ∧ z < 2 ^ 31 ∧ r'.data = r.data ∧ r'.position = r.position + 32 ∧
      ∃ v, v < 2 ^ 32 ∧ r.read 32 = .ok (v, r') ∧ z = toInt32 v := by
  unfold PDFBitReader.readSignedInt at h
  cases hr : r.read 32 with
  | error e => simp only [hr, bind, Except.bind, reduceCtorEq] at h
  | ok p =>
    obtain ⟨v, r1⟩ := p
    simp only [hr, bind, Except.bind, pure, Except.pure, Except.ok.injEq, Prod.mk.injEq] at h
    obtain ⟨hz, hr1⟩ := h
    subst hz hr1
    obtain ⟨-, -, hd, hp, hlt⟩ := read_inv 32 r r1 v hr
    exact ⟨(toInt32_range v).1, (toInt32_range v).2, hd, hp, v, hlt, rfl, rfl⟩

set_option maxRecDepth 100000 in
theorem regionFlagsReserved_eq : ∀ flags : Fin 256,
    regionFlagsReserved flags.val = decide (8 ≤ flags.val) := by
  decide

theorem checkBitmapSize_ok_iff (MAX_BITMAP_SIZE size : Nat) :
    checkBitmapSize MAX_BITMAP_SIZE size = .ok () ↔ size ≤ MAX_BITMAP_SIZE := by
  unfold checkBitmapSize
  split_ifs with h
  · simp only [throw, throwThe, MonadExceptOf.throw, reduceCtorEq, false_iff]
    omega
  · simp only [pure, Except.pure, true_iff]
    omega

theorem checkRegionSegmentInformationField_ok_iff (MAX_BITMAP_SIZE : Nat)
    (field : PDFJBIG2RegionSegmentInformationField) :
    checkRegionSegmentInformationField MAX_BITMAP_SIZE field = .ok () ↔
      (field.width ≤ MAX_BITMAP_SIZE ∧ field.height ≤ MAX_BITMAP_SIZE ∧
        toUInt32 field.offsetX ≤ MAX_BITMAP_SIZE ∧ toUInt32 field.offsetY ≤ MAX_BITMAP_SIZE ∧
        field.width ≠ 0 ∧ field.height ≠ 0 ∧
        field.operation ≠ PDFJBIG2BitOperation.Invalid) := by
  unfold checkRegionSegmentInformationField
  by_cases hw : field.width ≤ MAX_BITMAP_SIZE
  swap
  · have : checkBitmapSize MAX_BITMAP_SIZE field.width =
        .error (PDFException.maximumBitmapSizeExceeded field.width) := by
      unfold checkBitmapSize; rw [if_pos (by omega)]; rfl
    simp only [this, bind, Except.bind, reduceCtorEq, false_iff]
    tauto
  rw [(checkBitmapSize_ok_iff _ _).2 hw]
  by_cases hh : field.height ≤ MAX_BITMAP_SIZE
  swap
  · have : checkBitmapSize MAX_BITMAP_SIZE field.height =
        .error (PDFException.maximumBitmapSizeExceeded field.height) := by
      unfold checkBitmapSize; rw [if_pos (by omega)]; rfl
    simp only [this, bind, Except.bind, reduceCtorEq, false_iff]
    tauto
  rw [(checkBitmapSize_ok_iff _ _).2 hh]
  by_cases hx : toUInt32 field.offsetX ≤ MAX_BITMAP_SIZE
  swap
  · have : checkBitmapSize MAX_BITMAP_SIZE (toUInt32 field.offsetX) =
        .error (PDFException.maximumBitmapSizeExceeded (toUInt32 field.offsetX)) := by
      unfold checkBitmapSize; rw [if_pos (by omega)]; rfl
    simp only [this, bind, Except.bind, reduceCtorEq, false_iff]
    tauto
  rw [(checkBitmapSize_ok_iff _ _).2 hx]
  by_cases hy : toUInt32 field.offsetY ≤ MAX_BITMAP_SIZE
  swap
  · have : checkBitmapSize MAX_BITMAP_SIZE (toUInt32 field.offsetY) =
        .error (PDFException.maximumBitmapSizeExceeded (toUInt32 field.offsetY)) := by
      unfold checkBitmapSize; rw [if_pos (by omega)]; rfl
    simp only [this, bind, Except.bind, reduceCtorEq, false_iff]
    tauto
  rw [(checkBitmapSize_ok_iff _ _).2 hy]
  simp only [bind, Except.bind]
  by_cases hz : field.width = 0 ∨ field.height = 0
  · rw [if_pos hz]
    simp only [throw, throwThe, MonadExceptOf.throw, reduceCtorEq, false_iff]
    tauto
  · rw [if_neg hz]
    by_cases ho : field.operation = PDFJBIG2BitOperation.Invalid
    · rw [if_pos ho]
      simp only [throw, throwThe, MonadExceptOf.throw, reduceCtorEq, false_iff]
      tauto
    · rw [if_neg ho]
      simp only [pure, Except.pure, true_iff]
      tauto

theorem regionOperationOfFlags_spec (flags : Nat) :
    (flags ≤ 4 → regionOperationOfFlags flags =
      .ok ([PDFJBIG2BitOperation.Or, PDFJBIG2BitOperation.And, PDFJBIG2BitOperation.Xor,
        PDFJBIG2BitOperation.NotXor, PDFJBIG2BitOperation.Replace].getD flags
          PDFJBIG2BitOperation.Invalid) ∧
      [PDFJBIG2BitOperation.Or, PDFJBIG2BitOperation.And, PDFJBIG2BitOperation.Xor,
        PDFJBIG2BitOperation.NotXor, PDFJBIG2BitOperation.Replace].getD flags
          PDFJBIG2BitOperation.Invalid ≠ PDFJBIG2BitOperation.Invalid) ∧
    (4 < flags → regionOperationOfFlags flags =
      .error PDFException.regionInvalidBitOperationMode) := by
  constructor
  · intro h
    interval_cases flags <;> exact ⟨rfl, by decide⟩
  · intro h
    obtain ⟨n, rfl⟩ : ∃ n, flags = n + 5 := ⟨flags - 5, by omega⟩
    rfl

/-- The result of `readRegionSegmentInformationField` once its five reads have succeeded. -/
theorem readRegionSegmentInformationField_eq (MAX_BITMAP_SIZE : Nat)
    (r r1 r2 r3 r4 r5 : PDFBitReader) (width height flags : Nat) (offsetX offsetY : Int)
    (h1 : r.readUnsignedInt = .ok (width, r1)) (h2 : r1.readUnsignedInt = .ok (height, r2))
    (h3 : r2.readSignedInt = .ok (offsetX, r3)) (h4 : r3.readSignedInt = .ok (offsetY, r4))
    (h5 : r4.readUnsignedByte = .ok (flags, r5)) :
    (flags ≤ 4 ∧ 1 ≤ width ∧ width ≤ MAX_BITMAP_SIZE ∧ 1 ≤ height ∧
        height ≤ MAX_BITMAP_SIZE ∧ toUInt32 offsetX ≤ MAX_BITMAP_SIZE ∧
        toUInt32 offsetY ≤ MAX_BITMAP_SIZE ∧
      readRegionSegmentInformationField MAX_BITMAP_SIZE r =
        .ok ({ width := width, height := height, offsetX := offsetX, offsetY := offsetY,
               operation := [PDFJBIG2BitOperation.Or, PDFJBIG2BitOperation.And,
                 PDFJBIG2BitOperation.Xor, PDFJBIG2BitOperation.NotXor,
                 PDFJBIG2BitOperation.Replace].getD flags PDFJBIG2BitOperation.Invalid },
             r5)) ∨
    (¬ (flags ≤ 4 ∧ 1 ≤ width ∧ width ≤ MAX_BITMAP_SIZE ∧ 1 ≤ height ∧
        height ≤ MAX_BITMAP_SIZE ∧ toUInt32 offsetX ≤ MAX_BITMAP_SIZE ∧
        toUInt32 offsetY ≤ MAX_BITMAP_SIZE) ∧
      ∃ e, readRegionSegmentInformationField MAX_BITMAP_SIZE r = .error e) := by
  have hf := (readUnsignedByte_lt r4 r5 flags h5).1
  have hres := regionFlagsReserved_eq ⟨flags, hf⟩
  simp only at hres
  unfold readRegionSegmentInformationField
  simp only [h1, h2, h3, h4, h5, bind, Except.bind]
  by_cases h8 : 8 ≤ flags
  · right
    rw [hres, decide_eq_true h8]
    exact ⟨by omega, _, rfl⟩
  · rw [hres, decide_eq_false h8]
    simp only [Bool.false_eq_true, if_false]
    by_cases h4f : flags ≤ 4
    swap
    · right
      rw [(regionOperationOfFlags_spec flags).2 (by omega)]
      exact ⟨by omega, _, rfl⟩
    obtain ⟨hop, hne⟩ := (regionOperationOfFlags_spec flags).1 h4f
    rw [hop]
    dsimp only
    by_cases hc : checkRegionSegmentInformationField MAX_BITMAP_SIZE
        { width := width, height := height, offsetX := offsetX, offsetY := offsetY,
          operation := [PDFJBIG2BitOperation.Or, PDFJBIG2BitOperation.And,
            PDFJBIG2BitOperation.Xor, PDFJBIG2BitOperation.NotXor,
            PDFJBIG2BitOperation.Replace].getD flags PDFJBIG2BitOperation.Invalid } = .ok ()
    · left
      have hc2 := (checkRegionSegmentInformationField_ok_iff _ _).1 hc
      dsimp only at hc2
      refine ⟨h4f, by omega, hc2.1, by omega, hc2.2.1, hc2.2.2.1, hc2.2.2.2.1, ?_⟩
      rw [hc]
      rfl
    · right
      constructor
      · intro hall
        apply hc
        rw [checkRegionSegmentInformationField_ok_iff]
        dsimp only
        exact ⟨hall.2.2.1, hall.2.2.2.2.1, hall.2.2.2.2.2.1, hall.2.2.2.2.2.2,
          by omega, by omega, hne⟩
      · cases hcc : checkRegionSegmentInformationField MAX_BITMAP_SIZE
            { width := width, height := height, offsetX := offsetX, offsetY := offsetY,
              operation := [PDFJBIG2BitOperation.Or, PDFJBIG2BitOperation.And,
                PDFJBIG2BitOperation.Xor, PDFJBIG2BitOperation.NotXor,
                PDFJBIG2BitOperation.Replace].getD flags PDFJBIG2BitOperation.Invalid } with
        | error e => exact ⟨e, rfl⟩
        | ok u => exact absurd hcc hc

/-- C13: once the four 32-bit fields and the flags byte have been read,
readRegionSegmentInformationField succeeds if and only if the flags byte is at most 4,
1 <= width <= MAX_BITMAP_SIZE, 1 <= height <= MAX_BITMAP_SIZE and the offsets, converted to
unsigned 32-bit values, are at most MAX_BITMAP_SIZE; on success the field holds the values
read and the operator Or, And, Xor, NotXor, Replace for flags 0, 1, 2, 3, 4; in every other
case the call throws; and for MAX_BITMAP_SIZE below 2^31 an accepted offset is never
negative. -/
theorem readRegionSegmentInformationField_succeeds_iff (MAX_BITMAP_SIZE : Nat)
    (r r1 r2 r3 r4 r5 : PDFBitReader) (width height flags : Nat) (offsetX offsetY : Int)
    (h1 : r.readUnsignedInt = .ok (width, r1)) (h2 : r1.readUnsignedInt = .ok (height, r2))
    (h3 : r2.readSignedInt = .ok (offsetX, r3)) (h4 : r3.readSignedInt = .ok (offsetY, r4))
    (h5 : r4.readUnsignedByte = .ok (flags, r5)) :
    ((∃ result, readRegionSegmentInformationField MAX_BITMAP_SIZE r = .ok result) ↔
      (flags ≤ 4 ∧ 1 ≤ width ∧ width ≤ MAX_BITMAP_SIZE ∧ 1 ≤ height ∧
        height ≤ MAX_BITMAP_SIZE ∧ toUInt32 offsetX ≤ MAX_BITMAP_SIZE ∧
        toUInt32 offsetY ≤ MAX_BITMAP_SIZE)) ∧
    (∀ result, readRegionSegmentInformationField MAX_BITMAP_SIZE r = .ok result →
      result = ({ width := width, height := height, offsetX := offsetX, offsetY := offsetY,
                  operation := [PDFJBIG2BitOperation.Or, PDFJBIG2BitOperation.And,
                    PDFJBIG2BitOperation.Xor, PDFJBIG2BitOperation.NotXor,
                    PDFJBIG2BitOperation.Replace].getD flags PDFJBIG2BitOperation.Invalid },
                r5)) ∧
    ((¬ ∃ result, readRegionSegmentInformationField MAX_BITMAP_SIZE r = .ok result) →
      ∃ e, readRegionSegmentInformationField MAX_BITMAP_SIZE r = .error e) ∧
    (MAX_BITMAP_SIZE < 2 ^ 31 →
      ∀ result, readRegionSegmentInformationField MAX_BITMAP_SIZE r = .ok result →
        0 ≤ result.1.offsetX ∧ 0 ≤ result.1.offsetY) := by
  have hx := readSignedInt_inv r2 r3 offsetX h3
  have hy := readSignedInt_inv r3 r4 offsetY h4
  rcases readRegionSegmentInformationField_eq MAX_BITMAP_SIZE r r1 r2 r3 r4 r5 width height
    flags offsetX offsetY h1 h2 h3 h4 h5 with ⟨h41, hw0, hw1, hh0, hh1, hox, hoy, heq⟩ |
    ⟨hnot, e, heq⟩
  · refine ⟨⟨fun _ => ⟨h41, hw0, hw1, hh0, hh1, hox, hoy⟩, fun _ => ⟨_, heq⟩⟩, ?_, ?_, ?_⟩
    · intro result hres
      rw [heq] at hres
      exact (Except.ok.inj hres).symm
    · intro hno
      exact absurd ⟨_, heq⟩ hno
    · intro hmax result hres
      rw [heq] at hres
      rw [← Except.ok.inj hres]
      dsimp only
      constructor
      · by_contra hneg
        have := toUInt32_neg offsetX hx.1 (by omega)
        omega
      · by_contra hneg
        have := toUInt32_neg offsetY hy.1 (by omega)
        omega
  · refine ⟨⟨?_, fun hall => absurd hall hnot⟩, ?_, fun _ => ⟨e, heq⟩, ?_⟩
    · rintro ⟨result, hres⟩
      rw [heq] at hres
      exact absurd hres (by simp)
    · intro result hres
      rw [heq] at hres
      exact absurd hres (by simp)
    · intro _ result hres
      rw [heq] at hres
      exact absurd hres (by simp)

set_option maxRecDepth 100000 in
theorem readRegionSegmentInformationField_succeeds_iff_witness :
    readRegionSegmentInformationField 65536
        (PDFBitReader.ofBytes [0, 0, 0, 8, 0, 0, 0, 1, 0, 0, 0, 3, 0, 0, 0, 2, 2]) =
      .ok ({ width := 8, height := 1, offsetX := 3, offsetY := 2,
             operation := PDFJBIG2BitOperation.Xor },
        ⟨bytesToBits [0, 0, 0, 8, 0, 0, 0, 1, 0, 0, 0, 3, 0, 0, 0, 2, 2], 136⟩) := by
  have h := readRegionSegmentInformationField_succeeds_iff 65536
    (PDFBitReader.ofBytes [0, 0, 0, 8, 0, 0, 0, 1, 0, 0, 0, 3, 0, 0, 0, 2, 2])
    ⟨bytesToBits [0, 0, 0, 8, 0, 0, 0, 1, 0, 0, 0, 3, 0, 0, 0, 2, 2], 32⟩
    ⟨bytesToBits [0, 0, 0, 8, 0, 0, 0, 1, 0, 0, 0, 3, 0, 0, 0, 2, 2], 64⟩
    ⟨bytesToBits [0, 0, 0, 8, 0, 0, 0, 1, 0, 0, 0, 3, 0, 0, 0, 2, 2], 96⟩
    ⟨bytesToBits [0, 0, 0, 8, 0, 0, 0, 1, 0, 0, 0, 3, 0, 0, 0, 2, 2], 128⟩
    ⟨bytesToBits [0, 0, 0, 8, 0, 0, 0, 1, 0, 0, 0, 3, 0, 0, 0, 2, 2], 136⟩
    8 1 2 3 2 (by rfl) (by rfl) (by rfl) (by rfl) (by rfl)
  obtain ⟨result, hres⟩ := h.1.2 (by decide)
  rw [hres, h.2.1 result hres]
  rfl

/-! ## Size bounds of accepted regions and pages -/

theorem processPageInformation_inv (MAX_BITMAP_SIZE : Nat) (header : PDFJBIG2SegmentHeader)
    (d d' : PDFJBIG2Decoder PDFJBIG2DecoderMembers)
    (h : processPageInformation MAX_BITMAP_SIZE header d = .ok d') :
    ∃ width height : Nat, width < 2 ^ 32 ∧ height < 2 ^ 32 ∧
      width ≤ MAX_BITMAP_SIZE ∧
      (if height != 0xFFFFFFFF then height else 0) ≤ MAX_BITMAP_SIZE ∧
      d'.m_rest.m_pageBitmap.m_width = toInt32 width ∧
      d'.m_rest.m_pageBitmap.m_height = toInt32 (if height != 0xFFFFFFFF then height else 0) ∧
      d'.m_rest.m_pageSizeUndefined = (height == 0xFFFFFFFF) := by
  unfold processPageInformation at h
  cases h1 : d.m_reader.readUnsignedInt with
  | error e => simp only [h1, bind, Except.bind, reduceCtorEq] at h
  | ok p1 =>
    obtain ⟨width, r1⟩ := p1
    cases h2 : r1.readUnsignedInt with
    | error e => simp only [h1, h2, bind, Except.bind, reduceCtorEq] at h
    | ok p2 =>
      obtain ⟨height, r2⟩ := p2
      cases h3 : r2.skipBytes 8 with
      | error e => simp only [h1, h2, h3, bind, Except.bind, reduceCtorEq] at h
      | ok r3 =>
        cases h4 : r3.readUnsignedByte with
        | error e => simp only [h1, h2, h3, h4, bind, Except.bind, reduceCtorEq] at h
        | ok p4 =>
          obtain ⟨flags, r4⟩ := p4
          cases h5 : r4.readUnsignedWord with
          | error e => simp only [h1, h2, h3, h4, h5, bind, Except.bind, reduceCtorEq] at h
          | ok p5 =>
            obtain ⟨striping, r5⟩ := p5
            simp only [h1, h2, h3, h4, h5, bind, Except.bind] at h
            cases hc1 : checkBitmapSize MAX_BITMAP_SIZE width with
            | error e => simp only [hc1, reduceCtorEq] at h
            | ok u1 =>
              cases hc2 : checkBitmapSize MAX_BITMAP_SIZE
                  (if height != 0xFFFFFFFF then height else 0) with
              | error e => simp only [hc1, hc2, reduceCtorEq] at h
              | ok u2 =>
                simp only [hc1, hc2, pure, Except.pure, Except.ok.injEq] at h
                subst h
                have hw := (read_inv 32 _ _ _ h1).2.2.2.2
                have hh := (read_inv 32 _ _ _ h2).2.2.2.2
                exact ⟨width, height, hw, hh, (checkBitmapSize_ok_iff _ _).1 hc1,
                  (checkBitmapSize_ok_iff _ _).1 hc2, rfl, rfl, rfl⟩

theorem checkRegionSegmentInformationField_square (M : Nat) (h : 1 ≤ M) :
    checkRegionSegmentInformationField M
      { width := M, height := M, offsetX := 0, offsetY := 0,
        operation := PDFJBIG2BitOperation.Or } = .ok () := by
  rw [checkRegionSegmentInformationField_ok_iff]
  refine ⟨le_refl _, le_refl _, by simp [toUInt32], by simp [toUInt32], ?_, ?_, ?_⟩
  · show M ≠ 0
    omega
  · show M ≠ 0
    omega
  · show PDFJBIG2BitOperation.Or ≠ PDFJBIG2BitOperation.Invalid
    decide

/-- C14: checkRegionSegmentInformationField bounds the width and the height separately:
an accepted region has 1 <= width <= MAX_BITMAP_SIZE and 1 <= height <= MAX_BITMAP_SIZE, so
width x height is at most MAX_BITMAP_SIZE squared, and that bound is reached by the
accepted region of size MAX_BITMAP_SIZE x MAX_BITMAP_SIZE (a 32-bit MAX_BITMAP_SIZE).  A page accepted by
processPageInformation (MAX_BITMAP_SIZE below 2^31) has 0 <= width <= MAX_BITMAP_SIZE and
0 <= height <= MAX_BITMAP_SIZE, the height being 0 when the header gives 0xFFFFFFFF. -/
theorem accepted_sizes_bounded_per_dimension (MAX_BITMAP_SIZE : Nat) :
    (∀ field : PDFJBIG2RegionSegmentInformationField,
      checkRegionSegmentInformationField MAX_BITMAP_SIZE field = .ok () →
        1 ≤ field.width ∧ field.width ≤ MAX_BITMAP_SIZE ∧
        1 ≤ field.height ∧ field.height ≤ MAX_BITMAP_SIZE ∧
        field.width * field.height ≤ MAX_BITMAP_SIZE * MAX_BITMAP_SIZE) ∧
    (1 ≤ MAX_BITMAP_SIZE → MAX_BITMAP_SIZE < 2 ^ 32 →
      checkRegionSegmentInformationField MAX_BITMAP_SIZE
        { width := MAX_BITMAP_SIZE, height := MAX_BITMAP_SIZE, offsetX := 0, offsetY := 0,
          operation := PDFJBIG2BitOperation.Or } = .ok ()) ∧
    (MAX_BITMAP_SIZE < 2 ^ 31 →
      ∀ (header : PDFJBIG2SegmentHeader) (d d' : PDFJBIG2Decoder PDFJBIG2DecoderMembers),
        processPageInformation MAX_BITMAP_SIZE header d = .ok d' →
          0 ≤ d'.m_rest.m_pageBitmap.m_width ∧
          d'.m_rest.m_pageBitmap.m_width ≤ MAX_BITMAP_SIZE ∧
          0 ≤ d'.m_rest.m_pageBitmap.m_height ∧
          d'.m_rest.m_pageBitmap.m_height ≤ MAX_BITMAP_SIZE ∧
          d'.m_rest.m_pageBitmap.m_width * d'.m_rest.m_pageBitmap.m_height ≤
            (MAX_BITMAP_SIZE : Int) * MAX_BITMAP_SIZE ∧
          (d'.m_rest.m_pageSizeUndefined = true → d'.m_rest.m_pageBitmap.m_height = 0)) := by
  refine ⟨?_, ?_, ?_⟩
  · intro field h
    obtain ⟨hw, hh, -, -, hw0, hh0, -⟩ := (checkRegionSegmentInformationField_ok_iff _ _).1 h
    exact ⟨by omega, hw, by omega, hh, Nat.mul_le_mul hw hh⟩
  · intro h1 _
    exact checkRegionSegmentInformationField_square MAX_BITMAP_SIZE h1
  · intro hmax header d d' h
    obtain ⟨width, height, -, -, hw, hh, ew, eh, eu⟩ :=
      processPageInformation_inv MAX_BITMAP_SIZE header d d' h
    have hw2 : toInt32 width = (width : Int) := toInt32_of_lt width (by omega)
    have hh2 : toInt32 (if height != 0xFFFFFFFF then height else 0) =
        ((if height != 0xFFFFFFFF then height else 0 : Nat) : Int) :=
      toInt32_of_lt _ (by omega)
    rw [ew, eh, hw2, hh2, eu]
    refine ⟨by omega, by exact_mod_cast hw, by omega, by exact_mod_cast hh, ?_, ?_⟩
    · exact_mod_cast Nat.mul_le_mul hw hh
    · intro hu
      rw [if_neg (by simpa using hu)]
      rfl

theorem accepted_sizes_bounded_per_dimension_witness :
    checkRegionSegmentInformationField 65536
        { width := 65536, height := 65536, offsetX := 0, offsetY := 0,
          operation := PDFJBIG2BitOperation.Or } = .ok () ∧
      (65536 : Nat) * 65536 ≤ 65536 * 65536 :=
  ⟨(accepted_sizes_bounded_per_dimension 65536).2.1 (by decide) (by decide),
   ((accepted_sizes_bounded_per_dimension 65536).1 _
      ((accepted_sizes_bounded_per_dimension 65536).2.1 (by decide) (by decide))).2.2.2.2⟩

set_option maxRecDepth 100000 in
/-- C14 (counterexample): for no 32-bit MAX_BITMAP_SIZE of at least 2 does every
accepted region have width x height <= MAX_BITMAP_SIZE: the region of size
MAX_BITMAP_SIZE x MAX_BITMAP_SIZE is accepted; and with MAX_BITMAP_SIZE = 2 the page
information of a 2 x 2 page is accepted and creates a page bitmap of 4 pixels. -/
theorem accepted_size_product_exceeds_maximum :
    (¬ ∃ MAX_BITMAP_SIZE : Nat, 2 ≤ MAX_BITMAP_SIZE ∧ MAX_BITMAP_SIZE < 2 ^ 32 ∧
      ∀ field : PDFJBIG2RegionSegmentInformationField,
        field.width < 2 ^ 32 → field.height < 2 ^ 32 →
        checkRegionSegmentInformationField MAX_BITMAP_SIZE field = .ok () →
          field.width * field.height ≤ MAX_BITMAP_SIZE) ∧
    (processPageInformation 2
        ⟨0, 1, 19, [], false, false, JBIG2SegmentType.PageInformation⟩
        ⟨PDFBitReader.ofBytes [0, 0, 0, 2, 0, 0, 0, 2, 0, 0, 0, 0, 0, 0, 0, 0, 0, 0, 0],
          [], ⟨[], ⟨0, 0, []⟩, 0, PDFJBIG2BitOperation.Invalid, false, false⟩⟩ =
      .ok ⟨⟨bytesToBits [0, 0, 0, 2, 0, 0, 0, 2, 0, 0, 0, 0, 0, 0, 0, 0, 0, 0, 0], 152⟩,
          [], ⟨[], ⟨2, 2, [0, 0, 0, 0]⟩, 0, PDFJBIG2BitOperation.Or, false, false⟩⟩) := by
  constructor
  · rintro ⟨M, h2, h32, hall⟩
    have := hall _ h32 h32 (checkRegionSegmentInformationField_square M (by omega))
    dsimp only at this
    nlinarith
  · rfl

/-! ## Generic region of unknown length -/

theorem segmentDataBytes_unknown (header : PDFJBIG2SegmentHeader) (stream : List Nat)
    (segmentStartPosition segmentDataStartPosition : Int) (MMR : Bool)
    (hlen : header.isSegmentDataLengthDefined = false) :
    segmentDataBytes header stream segmentStartPosition segmentDataStartPosition MMR =
      if indexOf stream (if MMR then [0x00, 0x00] else [0xFF, 0xAC]) = -1 then
        .error PDFException.endSequenceNotFound
      else
        .ok (indexOf stream (if MMR then [0x00, 0x00] else [0xFF, 0xAC]) + 2
          - segmentDataStartPosition) := by
  unfold segmentDataBytes
  cases MMR <;> simp only [hlen, Bool.false_eq_true, if_false, Bool.not_false, Bool.not_true,
    if_true] <;> rfl

set_option maxRecDepth 100000 in
/-- C15: on the stream `unknownLengthStream` (one immediate MMR generic region of unknown
length whose coded data starts at byte 29 and whose end marker 0x00 0x00 starts at byte 31)
processGenericRegion computes the data start 29 and the byte count -27: the marker is
searched from byte 0 of the stream and found in the segment number, not at byte 31, which
would give a span of 4 bytes. -/
theorem genericRegion_marker_searched_from_stream_start (MAX_BITMAP_SIZE : Nat)
    (hmax : 1 ≤ MAX_BITMAP_SIZE) :
    PDFJBIG2SegmentHeader.read (PDFBitReader.ofBytes unknownLengthStream) =
      .ok (⟨0, 1, 0xFFFFFFFF, [], false, true, JBIG2SegmentType.GenericRegion⟩,
        ⟨bytesToBits unknownLengthStream, 88⟩) ∧
    genericRegionDataSpan MAX_BITMAP_SIZE
        ⟨0, 1, 0xFFFFFFFF, [], false, true, JBIG2SegmentType.GenericRegion⟩
        ⟨bytesToBits unknownLengthStream, 88⟩ =
      .ok (⟨1, 1, 0, 0, PDFJBIG2BitOperation.Or⟩, 29, -27) ∧
    indexOf unknownLengthStream [0x00, 0x00] = 0 ∧
    indexOfFrom unknownLengthStream [0x00, 0x00] 29 = 31 := by
  refine ⟨by rfl, ?_, by rfl, by rfl⟩
  have hfield : readRegionSegmentInformationField MAX_BITMAP_SIZE
      ⟨bytesToBits unknownLengthStream, 88⟩ =
      .ok (⟨1, 1, 0, 0, PDFJBIG2BitOperation.Or⟩, ⟨bytesToBits unknownLengthStream, 224⟩) := by
    rcases readRegionSegmentInformationField_eq MAX_BITMAP_SIZE
      ⟨bytesToBits unknownLengthStream, 88⟩ ⟨bytesToBits unknownLengthStream, 120⟩
      ⟨bytesToBits unknownLengthStream, 152⟩ ⟨bytesToBits unknownLengthStream, 184⟩
      ⟨bytesToBits unknownLengthStream, 216⟩ ⟨bytesToBits unknownLengthStream, 224⟩
      1 1 0 0 0 (by rfl) (by rfl) (by rfl) (by rfl) (by rfl) with h | h
    · exact h.2.2.2.2.2.2.2
    · have h0 : toUInt32 0 = 0 := by decide
      exact absurd ⟨by decide, by decide, hmax, by decide, hmax, by rw [h0]; omega,
        by rw [h0]; omega⟩ h.1
  unfold genericRegionDataSpan
  simp only [hfield, bind, Except.bind]
  rfl

theorem genericRegion_marker_searched_from_stream_start_witness :
    genericRegionDataSpan 65536
        ⟨0, 1, 0xFFFFFFFF, [], false, true, JBIG2SegmentType.GenericRegion⟩
        ⟨bytesToBits unknownLengthStream, 88⟩ =
      .ok (⟨1, 1, 0, 0, PDFJBIG2BitOperation.Or⟩, 29, -27) :=
  (genericRegion_marker_searched_from_stream_start 65536 (by decide)).2.1

/-! ## Generic refinement region and the segment store -/

theorem refinementReference_none (header : PDFJBIG2SegmentHeader)
    (field : PDFJBIG2RegionSegmentInformationField) (members : PDFJBIG2DecoderMembers)
    (h0 : header.m_referredSegments = []) (hop : field.operation ≠ PDFJBIG2BitOperation.Replace) :
    refinementReference header field members =
      .error PDFException.refinementOperationMustBeReplace := by
  unfold refinementReference
  rw [h0]
  simp only [hop, ne_eq, not_false_eq_true, if_true]
  rfl

theorem refinementReference_many (header : PDFJBIG2SegmentHeader)
    (field : PDFJBIG2RegionSegmentInformationField) (members : PDFJBIG2DecoderMembers)
    (h2 : 2 ≤ header.m_referredSegments.length) :
    refinementReference header field members =
      .error (PDFException.refinementInvalidReferredSegments
        header.m_referredSegments.length) := by
  unfold refinementReference
  rcases hl : header.m_referredSegments with _ | ⟨a, _ | ⟨b, rest⟩⟩
  · rw [hl] at h2; simp at h2
  · rw [hl] at h2; simp at h2
  · rfl

theorem getBitmap_found (n : Nat) (remove : Bool) (m_segments : List (Nat × PDFJBIG2Segment))
    (b : PDFJBIG2Bitmap) (h : segmentsFind m_segments n = some (PDFJBIG2Segment.bitmap b)) :
    getBitmap n remove m_segments =
      (.ok b, if remove then segmentsErase m_segments n else m_segments) := by
  unfold getBitmap
  rw [h]
  cases remove <;> rfl

theorem refinementReference_one (header : PDFJBIG2SegmentHeader)
    (field : PDFJBIG2RegionSegmentInformationField) (members : PDFJBIG2DecoderMembers)
    (n : Nat) (b : PDFJBIG2Bitmap) (h1 : header.m_referredSegments = [n])
    (hb : segmentsFind members.m_segments n = some (PDFJBIG2Segment.bitmap b)) :
    refinementReference header field members =
      .ok (b, segmentsErase members.m_segments n) := by
  unfold refinementReference
  rw [h1]
  simp only [getBitmap_found n true members.m_segments b hb, if_true]
  rfl

/-- The handler fails when the reference lookup fails or the reference has the wrong
size, whatever the other steps do. -/
theorem processGenericRefinementRegion_fails (MAX_BITMAP_SIZE : Nat)
    (readRefinementBitmap : PDFJBIG2BitmapRefinementDecodingParameters → PDFBitReader →
      Except PDFException (PDFJBIG2Bitmap × PDFBitReader))
    (header : PDFJBIG2SegmentHeader) (d : PDFJBIG2Decoder PDFJBIG2DecoderMembers)
    (h : ∀ field r1, readRegionSegmentInformationField MAX_BITMAP_SIZE d.m_reader
        = .ok (field, r1) →
      (∃ e, refinementReference header field d.m_rest = .error e) ∨
      (∃ b segments, refinementReference header field d.m_rest = .ok (b, segments) ∧
        refinementSizeMismatch b field = true)) :
    ∃ e, processGenericRefinementRegion MAX_BITMAP_SIZE readRefinementBitmap header d
      = .error e := by
  unfold processGenericRefinementRegion
  cases hf : readRegionSegmentInformationField MAX_BITMAP_SIZE d.m_reader with
  | error e => exact ⟨e, rfl⟩
  | ok p =>
    obtain ⟨field, r1⟩ := p
    simp only [bind, Except.bind]
    cases hb : r1.readUnsignedByte with
    | error e => exact ⟨e, rfl⟩
    | ok q =>
      obtain ⟨flags, r2⟩ := q
      simp only
      rcases Bool.eq_false_or_eq_true (refinementFlagsReserved flags) with hr | hr
      · rw [hr]
        exact ⟨_, rfl⟩
      · rw [hr]
        simp only [Bool.false_eq_true, if_false]
        cases hat : refinementATPositions (flags &&& 1) r2 with
        | error e => exact ⟨e, rfl⟩
        | ok a =>
          obtain ⟨GRAT, r3⟩ := a
          simp only
          rcases h field r1 hf with ⟨e, he⟩ | ⟨b, segments, hbs, hm⟩
          · rw [he]
            exact ⟨e, rfl⟩
          · rw [hbs]
            simp only [hm, if_true]
            exact ⟨_, rfl⟩

/-- C16: a generic refinement region segment with no referred segment whose region
information field carries a combination operator other than Replace makes
processGenericRefinementRegion throw, whatever the rest of the segment and the state of the
decoder; when the field, the flags byte and the adaptive-pixel bytes are read without error
the exception is "operation must be REPLACE". -/
theorem processGenericRefinementRegion_zero_referred (MAX_BITMAP_SIZE : Nat)
    (readRefinementBitmap : PDFJBIG2BitmapRefinementDecodingParameters → PDFBitReader →
      Except PDFException (PDFJBIG2Bitmap × PDFBitReader))
    (header : PDFJBIG2SegmentHeader) (d : PDFJBIG2Decoder PDFJBIG2DecoderMembers)
    (h0 : header.m_referredSegments = [])
    (hop : ∀ field r1, readRegionSegmentInformationField MAX_BITMAP_SIZE d.m_reader
        = .ok (field, r1) → field.operation ≠ PDFJBIG2BitOperation.Replace) :
    (∃ e, processGenericRefinementRegion MAX_BITMAP_SIZE readRefinementBitmap header d
      = .error e) ∧
    (∀ field r1 flags r2 GRAT r3,
      readRegionSegmentInformationField MAX_BITMAP_SIZE d.m_reader = .ok (field, r1) →
      r1.readUnsignedByte = .ok (flags, r2) → refinementFlagsReserved flags = false →
      refinementATPositions (flags &&& 0x01) r2 = .ok (GRAT, r3) →
      processGenericRefinementRegion MAX_BITMAP_SIZE readRefinementBitmap header d
        = .error PDFException.refinementOperationMustBeReplace) := by
  constructor
  · apply processGenericRefinementRegion_fails
    intro field r1 hf
    exact Or.inl ⟨_, refinementReference_none header field d.m_rest h0 (hop field r1 hf)⟩
  · intro field r1 flags r2 GRAT r3 hf hb hr hat
    unfold processGenericRefinementRegion
    simp only [hf, hb, hr, hat, bind, Except.bind, Bool.false_eq_true, if_false,
      refinementReference_none header field d.m_rest h0 (hop field r1 hf)]

set_option maxRecDepth 100000 in
theorem processGenericRefinementRegion_zero_referred_witness :
    processGenericRefinementRegion 65536 (fun _ _ => .error (PDFException.other 0))
        ⟨5, 1, 18, [], false, true, JBIG2SegmentType.GenericRefinementRegion⟩
        ⟨PDFBitReader.ofBytes [0, 0, 0, 1, 0, 0, 0, 1, 0, 0, 0, 0, 0, 0, 0, 0, 0, 1], [],
          ⟨[], ⟨1, 1, [0]⟩, 0, PDFJBIG2BitOperation.Or, false, false⟩⟩ =
      .error PDFException.refinementOperationMustBeReplace := by
  have hf : readRegionSegmentInformationField 65536
      (PDFBitReader.ofBytes [0, 0, 0, 1, 0, 0, 0, 1, 0, 0, 0, 0, 0, 0, 0, 0, 0, 1]) =
      .ok (⟨1, 1, 0, 0, PDFJBIG2BitOperation.Or⟩,
        ⟨bytesToBits [0, 0, 0, 1, 0, 0, 0, 1, 0, 0, 0, 0, 0, 0, 0, 0, 0, 1], 136⟩) := by rfl
  refine (processGenericRefinementRegion_zero_referred 65536
    (fun _ _ => .error (PDFException.other 0))
    ⟨5, 1, 18, [], false, true, JBIG2SegmentType.GenericRefinementRegion⟩
    ⟨PDFBitReader.ofBytes [0, 0, 0, 1, 0, 0, 0, 1, 0, 0, 0, 0, 0, 0, 0, 0, 0, 1], [],
      ⟨[], ⟨1, 1, [0]⟩, 0, PDFJBIG2BitOperation.Or, false, false⟩⟩ rfl ?_).2
    ⟨1, 1, 0, 0, PDFJBIG2BitOperation.Or⟩
    ⟨bytesToBits [0, 0, 0, 1, 0, 0, 0, 1, 0, 0, 0, 0, 0, 0, 0, 0, 0, 1], 136⟩ 1
    ⟨bytesToBits [0, 0, 0, 1, 0, 0, 0, 1, 0, 0, 0, 0, 0, 0, 0, 0, 0, 1], 144⟩
    (List.replicate 4 (0, 0))
    ⟨bytesToBits [0, 0, 0, 1, 0, 0, 0, 1, 0, 0, 0, 0, 0, 0, 0, 0, 0, 1], 144⟩
    hf (by rfl) (by rfl) (by rfl)
  intro field r1 h
  have h2 : readRegionSegmentInformationField 65536
      (PDFBitReader.ofBytes [0, 0, 0, 1, 0, 0, 0, 1, 0, 0, 0, 0, 0, 0, 0, 0, 0, 1]) =
      .ok (field, r1) := h
  rw [hf] at h2
  have h3 := (Prod.mk.inj (Except.ok.inj h2)).1
  rw [← h3]
  decide

theorem refinementSizeMismatch_of_ne (b : PDFJBIG2Bitmap)
    (field : PDFJBIG2RegionSegmentInformationField)
    (hw0 : 0 ≤ b.m_width) (hw1 : b.m_width < 2 ^ 31) (hh0 : 0 ≤ b.m_height)
    (hh1 : b.m_height < 2 ^ 31)
    (hne : b.m_width ≠ (field.width : Int) ∨ b.m_height ≠ (field.height : Int)) :
    refinementSizeMismatch b field = true := by
  unfold refinementSizeMismatch PDFJBIG2Bitmap.getWidth PDFJBIG2Bitmap.getHeight
  rw [toUInt32_of_nonneg _ hw0 (by omega), toUInt32_of_nonneg _ hh0 (by omega)]
  simp only [Bool.or_eq_true, bne_iff_ne, ne_eq]
  rcases hne with h | h
  · left
    intro heq
    apply h
    omega
  · right
    intro heq
    apply h
    omega

/-- C17: processGenericRefinementRegion throws whenever the header lists two or more
referred segments, and whenever it lists exactly one, the segment stored under that number
is a bitmap (of non-negative 32-bit sizes), and the bitmap's width or height differs from
the width or height of the region information field read from the segment. -/
theorem processGenericRefinementRegion_bad_reference (MAX_BITMAP_SIZE : Nat)
    (readRefinementBitmap : PDFJBIG2BitmapRefinementDecodingParameters → PDFBitReader →
      Except PDFException (PDFJBIG2Bitmap × PDFBitReader))
    (header : PDFJBIG2SegmentHeader) (d : PDFJBIG2Decoder PDFJBIG2DecoderMembers) :
    (2 ≤ header.m_referredSegments.length →
      ∃ e, processGenericRefinementRegion MAX_BITMAP_SIZE readRefinementBitmap header d
        = .error e) ∧
    (∀ (n : Nat) (b : PDFJBIG2Bitmap), header.m_referredSegments = [n] →
      segmentsFind d.m_rest.m_segments n = some (PDFJBIG2Segment.bitmap b) →
      0 ≤ b.m_width → b.m_width < 2 ^ 31 → 0 ≤ b.m_height → b.m_height < 2 ^ 31 →
      (∀ field r1, readRegionSegmentInformationField MAX_BITMAP_SIZE d.m_reader
          = .ok (field, r1) →
        b.m_width ≠ (field.width : Int) ∨ b.m_height ≠ (field.height : Int)) →
      ∃ e, processGenericRefinementRegion MAX_BITMAP_SIZE readRefinementBitmap header d
        = .error e) := by
  constructor
  · intro h2
    apply processGenericRefinementRegion_fails
    intro field r1 _
    exact Or.inl ⟨_, refinementReference_many header field d.m_rest h2⟩
  · intro n b h1 hb hw0 hw1 hh0 hh1 hne
    apply processGenericRefinementRegion_fails
    intro field r1 hf
    exact Or.inr ⟨b, _, refinementReference_one header field d.m_rest n b h1 hb,
      refinementSizeMismatch_of_ne b field hw0 hw1 hh0 hh1 (hne field r1 hf)⟩

set_option maxRecDepth 100000 in
theorem processGenericRefinementRegion_bad_reference_witness :
    (∃ e, processGenericRefinementRegion 65536 (fun _ _ => .error (PDFException.other 0))
        ⟨5, 1, 18, [3, 4], false, true, JBIG2SegmentType.GenericRefinementRegion⟩
        ⟨PDFBitReader.ofBytes [0, 0, 0, 1, 0, 0, 0, 1, 0, 0, 0, 0, 0, 0, 0, 0, 4, 1], [],
          ⟨[(3, PDFJBIG2Segment.bitmap ⟨2, 1, [0, 255]⟩)], ⟨1, 1, [0]⟩, 0,
            PDFJBIG2BitOperation.Or, false, false⟩⟩ = .error e) ∧
    (∃ e, processGenericRefinementRegion 65536 (fun _ _ => .error (PDFException.other 0))
        ⟨5, 1, 18, [3], false, true, JBIG2SegmentType.GenericRefinementRegion⟩
        ⟨PDFBitReader.ofBytes [0, 0, 0, 1, 0, 0, 0, 1, 0, 0, 0, 0, 0, 0, 0, 0, 4, 1], [],
          ⟨[(3, PDFJBIG2Segment.bitmap ⟨2, 1, [0, 255]⟩)], ⟨1, 1, [0]⟩, 0,
            PDFJBIG2BitOperation.Or, false, false⟩⟩ = .error e) := by
  have hf : readRegionSegmentInformationField 65536
      (PDFBitReader.ofBytes [0, 0, 0, 1, 0, 0, 0, 1, 0, 0, 0, 0, 0, 0, 0, 0, 4, 1]) =
      .ok (⟨1, 1, 0, 0, PDFJBIG2BitOperation.Replace⟩,
        ⟨bytesToBits [0, 0, 0, 1, 0, 0, 0, 1, 0, 0, 0, 0, 0, 0, 0, 0, 4, 1], 136⟩) := by rfl
  constructor
  · exact (processGenericRefinementRegion_bad_reference 65536 _ _ _).1 (by decide)
  · refine (processGenericRefinementRegion_bad_reference 65536 _
      ⟨5, 1, 18, [3], false, true, JBIG2SegmentType.GenericRefinementRegion⟩
      ⟨PDFBitReader.ofBytes [0, 0, 0, 1, 0, 0, 0, 1, 0, 0, 0, 0, 0, 0, 0, 0, 4, 1], [],
        ⟨[(3, PDFJBIG2Segment.bitmap ⟨2, 1, [0, 255]⟩)], ⟨1, 1, [0]⟩, 0,
          PDFJBIG2BitOperation.Or, false, false⟩⟩).2 3 ⟨2, 1, [0, 255]⟩ rfl (by rfl)
      (by decide) (by decide) (by decide) (by decide) ?_
    intro field r1 h
    have h2 : readRegionSegmentInformationField 65536
        (PDFBitReader.ofBytes [0, 0, 0, 1, 0, 0, 0, 1, 0, 0, 0, 0, 0, 0, 0, 0, 4, 1]) =
        .ok (field, r1) := h
    rw [hf] at h2
    have h3 := (Prod.mk.inj (Except.ok.inj h2)).1
    rw [← h3]
    left
    decide

/-- C18: getBitmap(n, remove) on the segment store.  If no segment is stored under n, or
the segment stored under n is not a bitmap, it throws and the store is unchanged; if a
bitmap is stored under n, then with remove = false it returns that bitmap and the store is
unchanged, and with remove = true it returns that bitmap and the store afterwards has no
segment under n and, under every other number, the segment it had before. -/
theorem getBitmap_store (n : Nat) (m_segments : List (Nat × PDFJBIG2Segment)) :
    (∀ remove, segmentsFind m_segments n = none →
      getBitmap n remove m_segments =
        (.error (PDFException.bitmapSegmentNotFound n), m_segments)) ∧
    (∀ remove segment, segmentsFind m_segments n = some segment → segment.asBitmap = none →
      getBitmap n remove m_segments =
        (.error (PDFException.segmentNotBitmap n), m_segments)) ∧
    (∀ b, segmentsFind m_segments n = some (PDFJBIG2Segment.bitmap b) →
      getBitmap n false m_segments = (.ok b, m_segments) ∧
      (getBitmap n true m_segments).1 = .ok b ∧
      segmentsFind (getBitmap n true m_segments).2 n = none ∧
      ∀ k, k ≠ n →
        segmentsFind (getBitmap n true m_segments).2 k = segmentsFind m_segments k) := by
  have herase : ∀ k, segmentsFind (segmentsErase m_segments n) k =
      if k = n then none else segmentsFind m_segments k := by
    intro k
    unfold segmentsFind segmentsErase
    induction m_segments with
    | nil => simp
    | cons entry rest ih =>
      by_cases hk : k = n
      · subst hk
        simp only [if_true] at ih ⊢
        by_cases he : entry.1 = k
        · rw [List.filter_cons_of_neg (by simp [he])]
          exact ih
        · rw [List.filter_cons_of_pos (by simp [he]), List.find?_cons_of_neg _ (by simp [he])]
          exact ih
      · simp only [hk, if_false] at ih ⊢
        by_cases he : entry.1 = n
        · rw [List.filter_cons_of_neg (by simp [he]),
            List.find?_cons_of_neg _ (by simp [he]; omega)]
          exact ih
        · rw [List.filter_cons_of_pos (by simp [he])]
          by_cases hek : entry.1 = k
          · rw [List.find?_cons_of_pos _ (by simp [hek]),
              List.find?_cons_of_pos _ (by simp [hek])]
          · rw [List.find?_cons_of_neg _ (by simp [hek]),
              List.find?_cons_of_neg _ (by simp [hek])]
            exact ih
  refine ⟨?_, ?_, ?_⟩
  · intro remove h
    unfold getBitmap
    rw [h]
    rfl
  · intro remove segment h hn
    unfold getBitmap
    rw [h]
    simp only [hn]
    rfl
  · intro b h
    rw [getBitmap_found n false m_segments b h, getBitmap_found n true m_segments b h]
    refine ⟨rfl, rfl, ?_, ?_⟩
    · simp only [if_true]
      rw [herase n, if_pos rfl]
    · intro k hk
      simp only [if_true]
      rw [herase k, if_neg hk]

theorem getBitmap_store_witness :
    getBitmap 3 true [(2, PDFJBIG2Segment.symbolDictionary []),
        (3, PDFJBIG2Segment.bitmap ⟨1, 1, [255]⟩)] =
      (.ok ⟨1, 1, [255]⟩, [(2, PDFJBIG2Segment.symbolDictionary [])]) ∧
    getBitmap 3 false [(2, PDFJBIG2Segment.symbolDictionary []),
        (3, PDFJBIG2Segment.bitmap ⟨1, 1, [255]⟩)] =
      (.ok ⟨1, 1, [255]⟩, [(2, PDFJBIG2Segment.symbolDictionary []),
        (3, PDFJBIG2Segment.bitmap ⟨1, 1, [255]⟩)]) ∧
    getBitmap 2 true [(2, PDFJBIG2Segment.symbolDictionary []),
        (3, PDFJBIG2Segment.bitmap ⟨1, 1, [255]⟩)] =
      (.error (PDFException.segmentNotBitmap 2), [(2, PDFJBIG2Segment.symbolDictionary []),
        (3, PDFJBIG2Segment.bitmap ⟨1, 1, [255]⟩)]) := by
  refine ⟨by rfl, ?_, ?_⟩
  · exact ((getBitmap_store 3 _).2.2 ⟨1, 1, [255]⟩ (by rfl)).1
  · exact (getBitmap_store 2 _).2.1 true (PDFJBIG2Segment.symbolDictionary []) (by rfl) rfl

/-! ## Symbol dictionary: export flags -/

theorem selectPositions_append {α : Type} (p : Nat → Bool) :
    ∀ (l1 l2 : List α) (offset : Nat),
      selectPositions p offset (l1 ++ l2) =
        selectPositions p offset l1 ++ selectPositions p (offset + l1.length) l2 := by
  intro l1
  induction l1 with
  | nil => intro l2 offset; simp [selectPositions]
  | cons a l1 ih =>
    intro l2 offset
    show selectPositions p offset (a :: (l1 ++ l2)) = _
    rw [selectPositions, selectPositions, ih l2 (offset + 1)]
    have : offset + 1 + l1.length = offset + (a :: l1).length := by
      simp only [List.length_cons]; omega
    rw [this]
    split_ifs <;> simp

theorem insertExported_eq (EXFLAGS : List Bool) (symbols : List PDFJBIG2Bitmap) (offset : Nat) :
    ∀ (count : Nat) (bitmaps : List PDFJBIG2Bitmap), count ≤ symbols.length →
      insertExported EXFLAGS symbols offset count bitmaps =
        bitmaps ++ selectPositions (fun i => EXFLAGS.getD (i + offset) false) 0
          (symbols.take count) := by
  intro count
  induction count with
  | zero =>
    intro bitmaps _
    simp [insertExported, selectPositions]
  | succ n ih =>
    intro bitmaps hle
    have hn : n < symbols.length := by omega
    have ih2 := ih bitmaps (by omega)
    unfold insertExported at ih2 ⊢
    rw [List.range_succ, List.foldl_append, ih2]
    have htake : symbols.take (n + 1) = symbols.take n ++ [symbols[n]] := by
      rw [List.take_succ, List.getElem?_eq_getElem hn]
      rfl
    rw [htake, selectPositions_append]
    simp only [List.foldl_cons, List.foldl_nil, List.length_take, Nat.zero_add,
      Nat.min_eq_left (Nat.le_of_lt hn), selectPositions]
    have hget : symbols.getD n ⟨0, 0, []⟩ = symbols[n] := by
      rw [List.getD_eq_getElem?_getD, List.getElem?_eq_getElem hn]
      rfl
    rw [hget]
    split_ifs <;> simp

theorem selectPositions_shift {α : Type} (p : Nat → Bool) (offset : Nat) :
    ∀ (l : List α) (k : Nat),
      selectPositions (fun i => p (i + offset)) k l = selectPositions p (k + offset) l := by
  intro l
  induction l with
  | nil => intro k; rfl
  | cons a l ih =>
    intro k
    simp only [selectPositions]
    rw [ih (k + 1)]
    have : k + 1 + offset = k + offset + 1 := by omega
    rw [this]

theorem flagsOfRuns_length (runs : List Nat) : ∀ first, (flagsOfRuns runs first).length = runs.sum := by
  induction runs with
  | nil => intro first; rfl
  | cons r runs ih =>
    intro first
    simp [flagsOfRuns, ih]

/-- The flag at position `i`, for runs starting with the value `first`: it is set exactly
when `i` lies in a run of odd number (`first = false`) or of even number (`first = true`). -/
theorem flagsOfRuns_getD (runs : List Nat) : ∀ (first : Bool) (i : Nat),
    (flagsOfRuns runs first).getD i false = true ↔
      ∃ j, j < runs.length ∧ ((j % 2 = 1 ↔ first = false) ∧
        (runs.take j).sum ≤ i ∧ i < (runs.take (j + 1)).sum) := by
  induction runs with
  | nil =>
    intro first i
    simp [flagsOfRuns]
  | cons r runs ih =>
    intro first i
    simp only [flagsOfRuns]
    by_cases hi : i < r
    · rw [List.getD_append _ _ _ _ (by simpa using hi), List.getD_eq_getElem?_getD,
        List.getElem?_replicate, if_pos hi]
      simp only [Option.getD_some]
      constructor
      · intro hf
        refine ⟨0, by simp, ⟨by simp [hf], by simp, by simpa using hi⟩⟩
      · rintro ⟨j, hj, hpar, hlo, hhi⟩
        rcases j with _ | j
        · cases first
          · simp at hpar
          · rfl
        · simp only [List.take_succ_cons, List.sum_cons] at hlo
          omega
    · have hge : r ≤ i := by omega
      rw [List.getD_append_right _ _ _ _ (by simpa using hge), List.length_replicate, ih]
      constructor
      · rintro ⟨j, hj, hpar, hlo, hhi⟩
        refine ⟨j + 1, by simpa using hj, ⟨?_, ?_, ?_⟩⟩
        · cases first <;> simp at hpar ⊢ <;> omega
        · simp only [List.take_succ_cons, List.sum_cons]
          omega
        · simp only [List.take_succ_cons, List.sum_cons]
          omega
      · rintro ⟨j, hj, hpar, hlo, hhi⟩
        rcases j with _ | j
        · simp only [List.take_succ_cons, List.take_zero, List.sum_cons, List.sum_nil,
            Nat.zero_add, add_zero] at hhi
          omega
        · refine ⟨j, by simpa using hj, ⟨?_, ?_, ?_⟩⟩
          · cases first <;> simp at hpar ⊢ <;> omega
          · simp only [List.take_succ_cons, List.sum_cons] at hlo
            omega
          · simp only [List.take_succ_cons, List.sum_cons] at hhi
            omega

theorem flagsOfRuns_eq_inIncludeRun (runs : List Nat) :
    (fun i => (flagsOfRuns runs false).getD i false) = inIncludeRun runs := by
  funext i
  have h := flagsOfRuns_getD runs false i
  simp only [iff_true] at h
  unfold inIncludeRun
  by_cases hb : (flagsOfRuns runs false).getD i false = true
  · rw [hb, eq_comm, decide_eq_true_iff]
    exact h.1 hb
  · rw [Bool.not_eq_true] at hb
    rw [hb, eq_comm, decide_eq_false_iff_not]
    intro hex
    have := h.2 hex
    rw [hb] at this
    exact Bool.false_ne_true this

/-- The export flag loop on a source that produces the run lengths `runs`, the last of
which is the first to reach `symbolsSize`. -/
theorem exportFlagsLoop_of_runs {σ : Type}
    (readInteger : σ → Except PDFException (Option Int × σ)) (symbolsSize : Nat) :
    ∀ (runs : List Nat) (fuel : Nat) (s s' : σ) (EXFLAGS : List Bool) (CUREXFLAG : Bool),
      runsDecoded readInteger runs s = some s' →
      (∀ k, k < runs.length → EXFLAGS.length + (runs.take k).sum < symbolsSize) →
      symbolsSize ≤ EXFLAGS.length + runs.sum → runs.length ≤ fuel →
      exportFlagsLoop readInteger symbolsSize fuel s EXFLAGS CUREXFLAG =
        some (.ok (EXFLAGS ++ flagsOfRuns runs CUREXFLAG, s')) := by
  intro runs
  induction runs with
  | nil =>
    intro fuel s s' EXFLAGS CUREXFLAG hdec _ hsum _
    simp only [runsDecoded, Option.some.injEq] at hdec
    subst hdec
    simp only [List.sum_nil, add_zero] at hsum
    unfold exportFlagsLoop
    rw [if_neg (by omega)]
    simp [flagsOfRuns]
  | cons r runs ih =>
    intro fuel s s' EXFLAGS CUREXFLAG hdec hmin hsum hfuel
    obtain ⟨fuel, rfl⟩ : ∃ f, fuel = f + 1 := ⟨fuel - 1, by simp at hfuel; omega⟩
    have h0 := hmin 0 (by simp)
    simp only [List.take_zero, List.sum_nil, add_zero] at h0
    unfold exportFlagsLoop
    rw [if_pos h0]
    simp only [runsDecoded] at hdec
    cases hread : readInteger s with
    | error e => simp only [hread, reduceCtorEq] at hdec
    | ok p =>
      obtain ⟨value, s1⟩ := p
      cases value with
      | none => simp only [hread, reduceCtorEq] at hdec
      | some v =>
        simp only [hread] at hdec
        by_cases hv : toUInt32 v = r
        · rw [if_pos hv] at hdec
          simp only [checkInteger, pure, Except.pure, hv]
          rw [ih fuel s1 s' (EXFLAGS ++ List.replicate r CUREXFLAG) (!CUREXFLAG) hdec ?_ ?_
            (by simp at hfuel; omega)]
          · simp [flagsOfRuns]
          · intro k hk
            have := hmin (k + 1) (by simpa using hk)
            simp only [List.take_succ_cons, List.sum_cons] at this
            simp only [List.length_append, List.length_replicate]
            omega
          · simp only [List.length_append, List.length_replicate]
            simp only [List.sum_cons] at hsum
            omega
        · rw [if_neg hv] at hdec
          exact absurd hdec (by simp)

/-- Whenever the export flag loop finishes, the run lengths it has decoded reach
`symbolsSize`, and those before the last one do not. -/
theorem exportFlagsLoop_finished {σ : Type}
    (readInteger : σ → Except PDFException (Option Int × σ)) (symbolsSize : Nat) :
    ∀ (fuel : Nat) (s s' : σ) (EXFLAGS flags : List Bool) (CUREXFLAG : Bool),
      exportFlagsLoop readInteger symbolsSize fuel s EXFLAGS CUREXFLAG =
        some (.ok (flags, s')) →
      ∃ runs, runsDecoded readInteger runs s = some s' ∧
        flags = EXFLAGS ++ flagsOfRuns runs CUREXFLAG ∧
        symbolsSize ≤ EXFLAGS.length + runs.sum ∧
        (∀ k, k < runs.length → EXFLAGS.length + (runs.take k).sum < symbolsSize) ∧
        runs.length ≤ fuel := by
  intro fuel
  induction fuel with
  | zero =>
    intro s s' EXFLAGS flags CUREXFLAG h
    unfold exportFlagsLoop at h
    split_ifs at h with hlt
    simp only [Option.some.injEq, Except.ok.injEq, Prod.mk.injEq] at h
    obtain ⟨hf, hs⟩ := h
    subst hf hs
    exact ⟨[], rfl, by simp [flagsOfRuns], by simp; omega, by simp, by simp⟩
  | succ fuel ih =>
    intro s s' EXFLAGS flags CUREXFLAG h
    unfold exportFlagsLoop at h
    split_ifs at h with hlt
    · cases hread : readInteger s with
      | error e => simp only [hread, Option.some.injEq, reduceCtorEq] at h
      | ok p =>
        obtain ⟨value, s1⟩ := p
        cases value with
        | none =>
          simp only [hread, checkInteger, throw, throwThe, MonadExceptOf.throw,
            Option.some.injEq, reduceCtorEq] at h
        | some v =>
          simp only [hread, checkInteger, pure, Except.pure] at h
          obtain ⟨runs, hdec, hflags, hsum, hmin, hlen⟩ := ih s1 s' _ flags _ h
          refine ⟨toUInt32 v :: runs, ?_, ?_, ?_, ?_, ?_⟩
          · simp only [runsDecoded, hread, if_true]
            exact hdec
          · rw [hflags]
            simp [flagsOfRuns]
          · simp only [List.length_append, List.length_replicate] at hsum
            simp only [List.sum_cons]
            omega
          · intro k hk
            rcases k with _ | k
            · simpa using hlt
            · have := hmin k (by simpa using hk)
              simp only [List.length_append, List.length_replicate] at this
              simp only [List.take_succ_cons, List.sum_cons]
              omega
          · simp only [List.length_cons]
            omega
    · simp only [Option.some.injEq, Except.ok.injEq, Prod.mk.injEq] at h
      obtain ⟨hf, hs⟩ := h
      subst hf hs
      exact ⟨[], rfl, by simp [flagsOfRuns], by simp; omega, by simp, by simp⟩

theorem exportSymbols_of_flags {σ : Type}
    (readInteger : σ → Except PDFException (Option Int × σ))
    (SDINSYMS SDNEWSYMS : List PDFJBIG2Bitmap) (fuel : Nat) (s s' : σ) (runs : List Nat)
    (h : exportFlagsLoop readInteger (SDINSYMS.length + SDNEWSYMS.length) fuel s [] false =
      some (.ok (flagsOfRuns runs false, s'))) :
    exportSymbols readInteger SDINSYMS SDNEWSYMS fuel s =
      some (.ok (selectPositions (inIncludeRun runs) 0 (SDINSYMS ++ SDNEWSYMS), s')) := by
  unfold exportSymbols
  simp only [h]
  have e1 : selectPositions (fun i => (flagsOfRuns runs false).getD (i + 0) false) 0 SDINSYMS
      = selectPositions (fun i => (flagsOfRuns runs false).getD i false) (0 + 0) SDINSYMS :=
    selectPositions_shift (fun i => (flagsOfRuns runs false).getD i false) 0 SDINSYMS 0
  have e2 : selectPositions (fun i => (flagsOfRuns runs false).getD (i + SDINSYMS.length)
      false) 0 SDNEWSYMS
      = selectPositions (fun i => (flagsOfRuns runs false).getD i false)
        (0 + SDINSYMS.length) SDNEWSYMS :=
    selectPositions_shift (fun i => (flagsOfRuns runs false).getD i false) SDINSYMS.length
      SDNEWSYMS 0
  rw [insertExported_eq _ _ _ _ _ (le_refl _), insertExported_eq _ _ _ _ _ (le_refl _),
    List.take_length, List.take_length, List.nil_append, e1, e2, selectPositions_append,
    flagsOfRuns_eq_inIncludeRun]

theorem take_sum_le (runs : List Nat) : ∀ k, (runs.take k).sum ≤ runs.sum := by
  induction runs with
  | nil => intro k; simp
  | cons r runs ih =>
    intro k
    rcases k with _ | k
    · simp
    · simp only [List.take_succ_cons, List.sum_cons]
      have := ih k
      omega

/-- The export flag loop on a source that fails after run lengths which do not reach
`symbolsSize`. -/
theorem exportFlagsLoop_fails {σ : Type}
    (readInteger : σ → Except PDFException (Option Int × σ)) (symbolsSize : Nat) :
    ∀ (runs : List Nat) (fuel : Nat) (s s1 : σ) (EXFLAGS : List Bool) (CUREXFLAG : Bool),
      runsDecoded readInteger runs s = some s1 →
      EXFLAGS.length + runs.sum < symbolsSize → runs.length < fuel →
      ((∀ e, readInteger s1 = .error e →
        exportFlagsLoop readInteger symbolsSize fuel s EXFLAGS CUREXFLAG = some (.error e)) ∧
      (∀ s2, readInteger s1 = .ok (none, s2) →
        exportFlagsLoop readInteger symbolsSize fuel s EXFLAGS CUREXFLAG =
          some (.error PDFException.cantReadInteger))) := by
  intro runs
  induction runs with
  | nil =>
    intro fuel s s1 EXFLAGS CUREXFLAG hdec hsum hfuel
    simp only [runsDecoded, Option.some.injEq] at hdec
    subst hdec
    simp only [List.sum_nil, add_zero] at hsum
    obtain ⟨fuel, rfl⟩ : ∃ f, fuel = f + 1 := ⟨fuel - 1, by simp at hfuel; omega⟩
    constructor
    · intro e he
      unfold exportFlagsLoop
      rw [if_pos hsum]
      simp only [he]
    · intro s2 he
      unfold exportFlagsLoop
      rw [if_pos hsum]
      simp only [he, checkInteger]
  | cons r runs ih =>
    intro fuel s s1 EXFLAGS CUREXFLAG hdec hsum hfuel
    obtain ⟨fuel, rfl⟩ : ∃ f, fuel = f + 1 := ⟨fuel - 1, by omega⟩
    simp only [List.sum_cons] at hsum
    simp only [runsDecoded] at hdec
    cases hread : readInteger s with
    | error e => simp only [hread, reduceCtorEq] at hdec
    | ok p =>
      obtain ⟨value, s'⟩ := p
      cases value with
      | none => simp only [hread, reduceCtorEq] at hdec
      | some v =>
        simp only [hread] at hdec
        by_cases hv : toUInt32 v = r
        · rw [if_pos hv] at hdec
          have hrec := ih fuel s' s1 (EXFLAGS ++ List.replicate r CUREXFLAG) (!CUREXFLAG) hdec
            (by simp only [List.length_append, List.length_replicate]; omega)
            (by simp only [List.length_cons] at hfuel; omega)
          constructor
          · intro e he
            unfold exportFlagsLoop
            rw [if_pos (by omega)]
            simp only [hread, checkInteger, pure, Except.pure, hv]
            exact hrec.1 e he
          · intro s2 he
            unfold exportFlagsLoop
            rw [if_pos (by omega)]
            simp only [hread, checkInteger, pure, Except.pure, hv]
            exact hrec.2 s2 he
        · rw [if_neg hv] at hdec
          exact absurd hdec (by simp)

/-- C19: the exported symbol list.  If the integer source produces the run lengths r_0,
..., r_(m-1), of which the last is the first to bring the total to the number of symbols
|U| (U the imported symbols followed by the new symbols), then with fuel for m iterations
the export step returns exactly the sub-list of U, in order, of the positions that fall
inside an odd-numbered run; and whenever the export step returns a list, it is that
sub-list for the run lengths the source has produced. -/
theorem exportSymbols_selects_include_runs {σ : Type}
    (readInteger : σ → Except PDFException (Option Int × σ))
    (SDINSYMS SDNEWSYMS : List PDFJBIG2Bitmap) (s : σ) :
    (∀ (runs : List Nat) (s' : σ) (fuel : Nat),
      runsDecoded readInteger runs s = some s' →
      (∀ k, k < runs.length → (runs.take k).sum < SDINSYMS.length + SDNEWSYMS.length) →
      SDINSYMS.length + SDNEWSYMS.length ≤ runs.sum → runs.length ≤ fuel →
      exportSymbols readInteger SDINSYMS SDNEWSYMS fuel s =
        some (.ok (selectPositions (inIncludeRun runs) 0 (SDINSYMS ++ SDNEWSYMS), s'))) ∧
    (∀ (fuel : Nat) (bitmaps : List PDFJBIG2Bitmap) (s' : σ),
      exportSymbols readInteger SDINSYMS SDNEWSYMS fuel s = some (.ok (bitmaps, s')) →
      ∃ runs, runsDecoded readInteger runs s = some s' ∧
        bitmaps = selectPositions (inIncludeRun runs) 0 (SDINSYMS ++ SDNEWSYMS)) := by
  constructor
  · intro runs s' fuel hdec hmin hsum hfuel
    apply exportSymbols_of_flags
    have := exportFlagsLoop_of_runs readInteger (SDINSYMS.length + SDNEWSYMS.length) runs fuel
      s s' [] false hdec (by simpa using hmin) (by simpa using hsum) hfuel
    simpa using this
  · intro fuel bitmaps s' h
    cases hloop : exportFlagsLoop readInteger (SDINSYMS.length + SDNEWSYMS.length) fuel s []
        false with
    | none =>
      unfold exportSymbols at h
      simp only [hloop, reduceCtorEq] at h
    | some res =>
      cases res with
      | error e =>
        unfold exportSymbols at h
        simp only [hloop, Option.some.injEq, reduceCtorEq] at h
      | ok p =>
        obtain ⟨flags, s1⟩ := p
        obtain ⟨runs, hdec, hflags, -, -, -⟩ := exportFlagsLoop_finished readInteger _ fuel s
          s1 [] flags false hloop
        simp only [List.nil_append] at hflags
        subst hflags
        have h2 := exportSymbols_of_flags readInteger SDINSYMS SDNEWSYMS fuel s s1 runs hloop
        rw [h2] at h
        simp only [Option.some.injEq, Except.ok.injEq, Prod.mk.injEq] at h
        obtain ⟨hb, hs⟩ := h
        subst hs
        exact ⟨runs, hdec, hb.symm⟩

set_option maxRecDepth 100000 in
theorem exportSymbols_selects_include_runs_witness :
    exportSymbols huffmanExportRun [⟨1, 1, [0]⟩] [⟨1, 1, [255]⟩, ⟨2, 1, [0, 255]⟩] 2
        (PDFBitReader.ofBytes [0x08, 0x80]) =
      some (.ok ([⟨1, 1, [255]⟩, ⟨2, 1, [0, 255]⟩], ⟨bytesToBits [0x08, 0x80], 10⟩)) := by
  have h := (exportSymbols_selects_include_runs huffmanExportRun [⟨1, 1, [0]⟩]
    [⟨1, 1, [255]⟩, ⟨2, 1, [0, 255]⟩] (PDFBitReader.ofBytes [0x08, 0x80])).1 [1, 2]
    ⟨bytesToBits [0x08, 0x80], 10⟩ 2 (by rfl) (by decide) (by decide) (by decide)
  rw [h]
  decide

/-- C20: the export flag loop finishes only when the decoded run lengths cover every
symbol: if it returns, the accepted run lengths total at least the number of symbols (and
every symbol has a decoded flag), the total without the last run being below that number;
and if the integer source throws, or returns "no value", after run lengths whose total is
below the number of symbols, the loop throws (the source's exception, or "can't read
integer"). -/
theorem exportFlagsLoop_covers_all_symbols {σ : Type}
    (readInteger : σ → Except PDFException (Option Int × σ)) (symbolsSize : Nat) (s : σ) :
    (∀ (fuel : Nat) (flags : List Bool) (s' : σ),
      exportFlagsLoop readInteger symbolsSize fuel s [] false = some (.ok (flags, s')) →
      ∃ runs, runsDecoded readInteger runs s = some s' ∧ flags = flagsOfRuns runs false ∧
        flags.length = runs.sum ∧ symbolsSize ≤ runs.sum ∧
        ∀ k, k < runs.length → (runs.take k).sum < symbolsSize) ∧
    (∀ (runs : List Nat) (s1 : σ) (fuel : Nat),
      runsDecoded readInteger runs s = some s1 → runs.sum < symbolsSize →
      runs.length < fuel →
      (∀ e, readInteger s1 = .error e →
        exportFlagsLoop readInteger symbolsSize fuel s [] false = some (.error e)) ∧
      (∀ s2, readInteger s1 = .ok (none, s2) →
        exportFlagsLoop readInteger symbolsSize fuel s [] false =
          some (.error PDFException.cantReadInteger))) := by
  constructor
  · intro fuel flags s' h
    obtain ⟨runs, hdec, hflags, hsum, hmin, -⟩ := exportFlagsLoop_finished readInteger
      symbolsSize fuel s s' [] flags false h
    simp only [List.nil_append] at hflags
    refine ⟨runs, hdec, hflags, ?_, by simpa using hsum, by simpa using hmin⟩
    rw [hflags, flagsOfRuns_length]
  · intro runs s1 fuel hdec hsum hfuel
    exact exportFlagsLoop_fails readInteger symbolsSize runs fuel s s1 [] false hdec
      (by simpa using hsum) hfuel

set_option maxRecDepth 100000 in
theorem exportFlagsLoop_covers_all_symbols_witness :
    exportFlagsLoop huffmanExportRun 3 4 (PDFBitReader.ofBytes [0x08, 0x40]) [] false =
      some (.error PDFException.endOfStream) :=
  ((exportFlagsLoop_covers_all_symbols huffmanExportRun 3
    (PDFBitReader.ofBytes [0x08, 0x40])).2 [1, 1, 0] ⟨bytesToBits [0x08, 0x40], 15⟩ 4
    (by rfl) (by decide) (by decide)).1 PDFException.endOfStream (by rfl)

set_option maxRecDepth 100000 in
/-- C20 (counterexample): a symbol dictionary with one imported and two new symbols whose
export run lengths, Huffman-coded in the bytes 0x08 0x40, are 1, 1, 0 (total 2, less than
3) and then run out of data: the export step is not completed, it throws the end-of-data
exception. -/
theorem exportSymbols_short_runs_fail :
    runsDecoded huffmanExportRun [1, 1, 0] (PDFBitReader.ofBytes [0x08, 0x40]) =
      some ⟨bytesToBits [0x08, 0x40], 15⟩ ∧
    huffmanExportRun ⟨bytesToBits [0x08, 0x40], 15⟩ = .error PDFException.endOfStream ∧
    exportSymbols huffmanExportRun [⟨1, 1, [0]⟩] [⟨1, 1, [255]⟩, ⟨2, 1, [0, 255]⟩] 4
        (PDFBitReader.ofBytes [0x08, 0x40]) = some (.error PDFException.endOfStream) := by
  refine ⟨by rfl, by rfl, by rfl⟩
/-! ## Contexts of `getSignedInteger` -/

/-- The update of `PREV` in `readIntBit` keeps it in 1..511 and above 255 once there. -/
theorem readIntBit_PREV (s : IntDecodeState) (h1 : 1 ≤ s.PREV) (h2 : s.PREV < 512) :
    1 ≤ (readIntBit s).2.PREV ∧ (readIntBit s).2.PREV < 512 ∧
      (256 ≤ s.PREV → 256 ≤ (readIntBit s).2.PREV) := by
  have hb : (s.decoder.decisions s.decoder.calls).toNat ≤ 1 := Bool.toNat_le _
  have hshift : (s.PREV <<< 1) % 2 ^ 32 = 2 * s.PREV := by
    rw [Nat.shiftLeft_eq, Nat.mod_eq_of_lt (by omega)]
    omega
  have hP : (readIntBit s).2.PREV = if s.PREV < 256 then
        ((s.PREV <<< 1) % 2 ^ 32) ||| (s.decoder.decisions s.decoder.calls).toNat
      else ((((s.PREV <<< 1) % 2 ^ 32) ||| (s.decoder.decisions s.decoder.calls).toNat)
        &&& 0x01FF) ||| 0x0100 := rfl
  rw [hP]
  have hlor : ((s.PREV <<< 1) % 2 ^ 32) ||| (s.decoder.decisions s.decoder.calls).toNat =
      2 * s.PREV + (s.decoder.decisions s.decoder.calls).toNat := by
    rw [Nat.mod_eq_of_lt (by rw [Nat.shiftLeft_eq]; omega)]
    exact shl_lor_bit _ _
  rw [hlor]
  by_cases hlt : s.PREV < 256
  · rw [if_pos hlt]
    refine ⟨by omega, by omega, fun h => by omega⟩
  · rw [if_neg hlt]
    have hand : (2 * s.PREV + (s.decoder.decisions s.decoder.calls).toNat) &&& 0x01FF
        < 2 ^ 9 := Nat.and_lt_two_pow _ (by norm_num)
    have hlt512 : ((2 * s.PREV + (s.decoder.decisions s.decoder.calls).toNat) &&& 0x01FF)
        ||| 0x0100 < 2 ^ 9 := Nat.or_lt_two_pow hand (by norm_num)
    have hge : 2 ^ 8 ≤ ((2 * s.PREV + (s.decoder.decisions s.decoder.calls).toNat)
        &&& 0x01FF) ||| 0x0100 := by
      apply Nat.testBit_implies_ge
      rw [Nat.testBit_or]
      have : (0x0100 : Nat).testBit 8 = true := by decide
      rw [this, Bool.or_true]
    refine ⟨by omega, by omega, fun _ => by omega⟩

theorem integerContexts_snoc (l : List Nat) (P P' : Nat) (h : IntegerContexts (l ++ [P]))
    (h1 : 1 ≤ P') (h2 : P' < 512) (h3 : 256 ≤ P → 256 ≤ P') :
    IntegerContexts ((l ++ [P]) ++ [P']) := by
  obtain ⟨hh, hr, hp⟩ := h
  refine ⟨?_, ?_, ?_⟩
  · rw [List.head?_append_of_ne_nil _ (by simp)]
    exact hh
  · intro c hc
    rcases List.mem_append.1 hc with hc | hc
    · exact hr c hc
    · rw [List.mem_singleton] at hc
      rw [hc]
      exact ⟨h1, h2⟩
  · rw [List.pairwise_append]
    refine ⟨hp, List.pairwise_singleton _ _, ?_⟩
    intro a ha b hb
    rw [List.mem_singleton] at hb
    rw [hb]
    intro ha256
    apply h3
    rcases List.mem_append.1 ha with ha | ha
    · exact (List.pairwise_append.1 hp).2.2 a ha P (List.mem_singleton_self _) ha256
    · rw [List.mem_singleton] at ha
      rw [← ha]
      exact ha256

theorem readIntBit_first (d : PDFJBIG2ArithmeticDecoder) :
    IntTrace d.contexts (readIntBit { PREV := 1, decoder := d }).2 := by
  obtain ⟨h1, h2, h3⟩ := readIntBit_PREV { PREV := 1, decoder := d } (le_refl 1)
    (show (1 : Nat) < 512 by norm_num)
  refine ⟨[1], by simp, rfl, ?_⟩
  have hbase : IntegerContexts (([] : List Nat) ++ [1]) :=
    ⟨rfl, by simp, by simp⟩
  exact integerContexts_snoc [] 1 _ hbase h1 h2 h3

theorem readIntBit_trace (c0 : List Nat) (s : IntDecodeState) (h : IntTrace c0 s) :
    IntTrace c0 (readIntBit s).2 := by
  obtain ⟨l, hne, hc, hg⟩ := h
  have hP := hg.2.1 s.PREV (by simp)
  obtain ⟨h1, h2, h3⟩ := readIntBit_PREV s hP.1 hP.2
  refine ⟨l ++ [s.PREV], by simp, ?_, integerContexts_snoc l s.PREV _ hg h1 h2 h3⟩
  show s.decoder.contexts ++ [s.PREV] = c0 ++ (l ++ [s.PREV])
  rw [hc, List.append_assoc]

theorem readIntBitsLoop_trace (c0 : List Nat) : ∀ (n result : Nat) (s : IntDecodeState),
    IntTrace c0 s → IntTrace c0 (readIntBitsLoop n result s).2 := by
  intro n
  induction n with
  | zero => intro result s h; exact h
  | succ n ih =>
    intro result s h
    rw [readIntBitsLoop]
    exact ih _ _ (readIntBit_trace c0 s h)

set_option maxRecDepth 100000 in
theorem readMagnitude_trace (c0 : List Nat) (s : IntDecodeState) (h : IntTrace c0 s) :
    IntTrace c0 (readMagnitude s).2 := by
  have t1 := readIntBit_trace c0 s h
  have t2 := readIntBit_trace c0 _ t1
  have t3 := readIntBit_trace c0 _ t2
  have t4 := readIntBit_trace c0 _ t3
  have t5 := readIntBit_trace c0 _ t4
  unfold readMagnitude
  dsimp only
  split_ifs
  · exact readIntBitsLoop_trace c0 _ _ _ t1
  · exact readIntBitsLoop_trace c0 _ _ _ t2
  · exact readIntBitsLoop_trace c0 _ _ _ t3
  · exact readIntBitsLoop_trace c0 _ _ _ t4
  · exact readIntBitsLoop_trace c0 _ _ _ t5
  · exact readIntBitsLoop_trace c0 _ _ _ t5

/-- C31: for every decision sequence, the contexts that getSignedInteger passes to readBit
(the values recorded after those of earlier calls) are the contexts of one integer: there
is at least one, the first is 1, every one is in 1..511, and a context of at least 256 is
followed only by contexts of at least 256; the update of PREV keeps it below 512 (the
assertion never fails). -/
theorem getSignedInteger_contexts (d : PDFJBIG2ArithmeticDecoder) :
    (∃ l, l ≠ [] ∧ d.getSignedInteger.2.contexts = d.contexts ++ l ∧ IntegerContexts l) ∧
    (∀ s : IntDecodeState, 1 ≤ s.PREV → s.PREV < 512 →
      1 ≤ (readIntBit s).2.PREV ∧ (readIntBit s).2.PREV < 512 ∧
        (256 ≤ s.PREV → 256 ≤ (readIntBit s).2.PREV)) := by
  refine ⟨?_, readIntBit_PREV⟩
  have hm := readMagnitude_trace d.contexts _ (readIntBit_first d)
  obtain ⟨l, hne, hc, hh, hr, hp⟩ := hm
  have hdec : d.getSignedInteger.2 =
      (readMagnitude (readIntBit { PREV := 1, decoder := d }).2).2.decoder := by
    unfold PDFJBIG2ArithmeticDecoder.getSignedInteger
    dsimp only
    split_ifs <;> rfl
  rw [hdec]
  refine ⟨l, hne, hc, ?_, ?_, ?_⟩
  · rw [List.head?_append_of_ne_nil _ hne] at hh
    exact hh
  · intro c hcm
    exact hr c (List.mem_append_left _ hcm)
  · exact (List.pairwise_append.1 hp).1

/-! ## Extension segment -/

theorem extensionNecessary_eq (n : Nat) : extensionNecessary n = n.testBit 27 := by
  unfold extensionNecessary
  rcases Bool.eq_false_or_eq_true (n.testBit 27) with h | h
  · rw [h, bne_iff_ne]
    intro h0
    have h27 : (n &&& 0x8000000).testBit 27 = true := by
      rw [Nat.testBit_and, h]
      rfl
    rw [h0] at h27
    simp at h27
  · rw [h]
    have hz : n &&& 0x8000000 = 0 := by
      have h27 : (0x8000000 : Nat) = 2 ^ 27 := by norm_num
      rw [h27]
      apply Nat.eq_of_testBit_eq
      intro i
      rw [Nat.testBit_and, Nat.testBit_two_pow, Nat.zero_testBit]
      by_cases hi : 27 = i
      · rw [← hi, h]
        rfl
      · rw [decide_eq_false hi, Bool.and_false]
    rw [hz]
    rfl

/-- The result of `processExtension` once the extension header has been read. -/
theorem processExtension_eq {σ : Type} (header : PDFJBIG2SegmentHeader) (d : PDFJBIG2Decoder σ)
    (extensionHeader : Nat) (r1 : PDFBitReader)
    (hread : d.m_reader.readUnsignedInt = .ok (extensionHeader, r1)) :
    (extensionHeader.testBit 27 = true →
      processExtension header d =
        .error (PDFException.unknownNecessaryExtension (extensionCode extensionHeader))) ∧
    (extensionHeader.testBit 27 = false → header.isSegmentDataLengthDefined = true →
      ∀ r2, r1.skipBytes (extensionSkipCount header) = .ok r2 →
      processExtension header d = .ok { d with m_reader := r2 }) ∧
    (extensionHeader.testBit 27 = false → header.isSegmentDataLengthDefined = false →
      processExtension header d = .error PDFException.extensionLengthUndefined) := by
  refine ⟨?_, ?_, ?_⟩
  · intro hbit
    rw [← extensionNecessary_eq] at hbit
    unfold processExtension
    rw [hread]
    show (if extensionNecessary extensionHeader = true then _ else _) = _
    rw [if_pos hbit]
    rfl
  · intro hbit hlen r2 hskip
    rw [← extensionNecessary_eq] at hbit
    unfold processExtension
    rw [hread]
    show (if extensionNecessary extensionHeader = true then _ else
      if header.isSegmentDataLengthDefined = true then
        (r1.skipBytes (extensionSkipCount header) >>= _) else _) = _
    rw [hbit, hskip, if_neg Bool.false_ne_true, if_pos hlen]
    rfl
  · intro hbit hlen
    rw [← extensionNecessary_eq] at hbit
    unfold processExtension
    rw [hread]
    show (if extensionNecessary extensionHeader = true then _ else
      if header.isSegmentDataLengthDefined = true then _ else _) = _
    rw [hbit, hlen, if_neg Bool.false_ne_true, if_neg Bool.false_ne_true]
    rfl

set_option maxRecDepth 100000 in
/-- C23: processExtension tests the mask 0x8000000 (bit 27) of the extension header, not
bit 31: every header with bit 27 set makes it throw, and every header with bit 27 clear is
accepted (the remaining length - 4 bytes are skipped when the length is defined and the
data is there).  So the header 0x80000000, marked necessary by bit 31, is accepted: with a
data length of 6 the call returns with the reader 2 bytes further; and the header
0x08000000, whose bit 31 is clear, is rejected. -/
theorem processExtension_tests_bit_27 :
    (∀ (σ : Type) (header : PDFJBIG2SegmentHeader) (d : PDFJBIG2Decoder σ)
        (extensionHeader : Nat) (r1 : PDFBitReader),
      d.m_reader.readUnsignedInt = .ok (extensionHeader, r1) →
      (extensionHeader.testBit 27 = true →
        processExtension header d =
          .error (PDFException.unknownNecessaryExtension (extensionCode extensionHeader))) ∧
      (extensionHeader.testBit 27 = false → header.isSegmentDataLengthDefined = true →
        ∀ r2, r1.skipBytes (extensionSkipCount header) = .ok r2 →
        processExtension header d = .ok { d with m_reader := r2 })) ∧
    processExtension ⟨7, 1, 6, [], false, false, JBIG2SegmentType.Extension⟩
        (⟨PDFBitReader.ofBytes [0x80, 0, 0, 0, 1, 2], [], ()⟩ : PDFJBIG2Decoder Unit) =
      .ok ⟨⟨bytesToBits [0x80, 0, 0, 0, 1, 2], 48⟩, [], ()⟩ ∧
    processExtension ⟨7, 1, 6, [], false, false, JBIG2SegmentType.Extension⟩
        (⟨PDFBitReader.ofBytes [0x08, 0, 0, 0, 1, 2], [], ()⟩ : PDFJBIG2Decoder Unit) =
      .error (PDFException.unknownNecessaryExtension 0x08000000) := by
  refine ⟨?_, ?_, ?_⟩
  · intro σ header d extensionHeader r1 hread
    have h := processExtension_eq header d extensionHeader r1 hread
    exact ⟨h.1, h.2.1⟩
  · have hread : (⟨PDFBitReader.ofBytes [0x80, 0, 0, 0, 1, 2], [], ()⟩ :
        PDFJBIG2Decoder Unit).m_reader.readUnsignedInt =
        .ok (0x80000000, ⟨bytesToBits [0x80, 0, 0, 0, 1, 2], 32⟩) := by rfl
    have hbit : (0x80000000 : Nat).testBit 27 = false := by decide
    have hlen : PDFJBIG2SegmentHeader.isSegmentDataLengthDefined
        ⟨7, 1, 6, [], false, false, JBIG2SegmentType.Extension⟩ = true := by decide
    have hskip : PDFBitReader.skipBytes
        (extensionSkipCount ⟨7, 1, 6, [], false, false, JBIG2SegmentType.Extension⟩)
        ⟨bytesToBits [0x80, 0, 0, 0, 1, 2], 32⟩ =
        .ok ⟨bytesToBits [0x80, 0, 0, 0, 1, 2], 48⟩ := by rfl
    exact (processExtension_eq _ _ _ _ hread).2.1 hbit hlen _ hskip
  · have hread : (⟨PDFBitReader.ofBytes [0x08, 0, 0, 0, 1, 2], [], ()⟩ :
        PDFJBIG2Decoder Unit).m_reader.readUnsignedInt =
        .ok (0x08000000, ⟨bytesToBits [0x08, 0, 0, 0, 1, 2], 32⟩) := by rfl
    have hbit : (0x08000000 : Nat).testBit 27 = true := by decide
    have hcode : extensionCode 0x08000000 = 0x08000000 := by decide
    have h := (processExtension_eq ⟨7, 1, 6, [], false, false, JBIG2SegmentType.Extension⟩
      _ _ _ hread).1 hbit
    rw [hcode] at h
    exact h

/-! ## Typical prediction contexts -/

/-- C33: the typical prediction context of readBitmap for template 0 is the literal
0b1010010011011001 = 0xA4D9, not the value 0x9B25 documented beside it (0xA4D9 is 0x9B25
with its 16 bits in reverse order); for the templates 1, 2, 3 the literal equals the
documented value 0x0795, 0x00E5, 0x0195. -/
theorem genericLTPContext_template0_differs :
    genericLTPContext true 0 = 0xA4D9 ∧
    genericLTPContext true 0 ≠ documentedLTPContext 0 ∧
    (List.range 16).map (fun i => (genericLTPContext true 0).testBit i) =
      (List.range 16).map (fun i => (documentedLTPContext 0).testBit (15 - i)) ∧
    genericLTPContext true 1 = documentedLTPContext 1 ∧
    genericLTPContext true 2 = documentedLTPContext 2 ∧
    genericLTPContext true 3 = documentedLTPContext 3 := by
  refine ⟨by decide, by decide, by decide, by decide, by decide, by decide⟩

/-! ## Width of the pixel contexts -/

theorem createContextBit_fold (pixels : List Nat) : ∀ (c k : Nat), c < 2 ^ k →
    k + pixels.length ≤ 16 →
    (pixels.foldl (fun ctx pixel => createContextBit pixel ctx) (c, k)).2
        = k + pixels.length ∧
      (pixels.foldl (fun ctx pixel => createContextBit pixel ctx) (c, k)).1
        < 2 ^ (k + pixels.length) := by
  induction pixels with
  | nil => intro c k hc _; exact ⟨rfl, hc⟩
  | cons p ps ih =>
    intro c k hc hlen
    simp only [List.length_cons] at hlen
    simp only [List.foldl_cons, List.length_cons]
    have hk : k < 16 := by omega
    have hpow : 2 ^ (k + 1) ≤ 2 ^ 16 := Nat.pow_le_pow_right (by norm_num) (by omega)
    have hbit : (((if p ≠ 0 then 1 else 0) <<< k) % 2 ^ 16) < 2 ^ (k + 1) := by
      have h1 : ((if p ≠ 0 then 1 else 0 : Nat) <<< k) ≤ 2 ^ k := by
        rw [Nat.shiftLeft_eq]
        split_ifs <;> simp
      have h2 : 2 ^ k < 2 ^ (k + 1) := Nat.pow_lt_pow_right (by norm_num) (by omega)
      exact lt_of_le_of_lt (Nat.mod_le _ _) (by omega)
    have hc' : c < 2 ^ (k + 1) :=
      lt_trans hc (Nat.pow_lt_pow_right (by norm_num) (by omega))
    have hstep : createContextBit p (c, k) =
        (c ||| (((if p ≠ 0 then 1 else 0) <<< k) % 2 ^ 16), k + 1) := by
      unfold createContextBit
      simp only [Prod.mk.injEq, true_and]
      exact Nat.mod_eq_of_lt (by omega)
    rw [hstep]
    obtain ⟨h1, h2⟩ := ih (c ||| (((if p ≠ 0 then 1 else 0) <<< k) % 2 ^ 16)) (k + 1)
      (Nat.or_lt_two_pow hc' hbit) (by omega)
    have hadd : k + 1 + ps.length = k + (ps.length + 1) := by omega
    rw [hadd] at h1 h2
    exact ⟨h1, h2⟩

theorem pixelContextOf_lt (pixels : List Nat) (h : pixels.length ≤ 16) :
    (pixelContextOf pixels).2 = pixels.length ∧ (pixelContextOf pixels).1 < 2 ^ pixels.length := by
  have := createContextBit_fold pixels 0 0 (by norm_num) (by omega)
  simpa [pixelContextOf] using this

/-- C34: the context of readBitmap is built from exactly 16, 13, 10, 10 pixels for the
templates 0, 1, 2, 3 and that of readRefinementBitmap from exactly 13, 10 pixels for the
refinement templates 0, 1, whatever the pixel position, the adaptive pixel offsets and the
bitmaps; these numbers are the widths to which resetArithmeticStatesGeneric and
resetArithmeticStatesGenericRefinement reset the statistics, so every pixel context and
every typical prediction context is an index below the number of contexts of the reset
state. -/
theorem pixel_contexts_within_state (ATXY : List (Int × Int))
    (bitmap reference : PDFJBIG2Bitmap) (rx ry x y : Int) :
    (∀ t, t ≤ 3 →
      (genericContextPixels t ATXY bitmap x y).length = genericStateBits t ∧
      (pixelContextOf (genericContextPixels t ATXY bitmap x y)).2 = genericStateBits t ∧
      genericPixelContext t ATXY bitmap x y < 2 ^ genericStateBits t ∧
      genericPixelContext t ATXY bitmap x y <
        (PDFJBIG2ArithmeticDecoderState.reset (genericStateBits t)).m_state.length ∧
      (∀ tp, genericLTPContext tp t <
        (PDFJBIG2ArithmeticDecoderState.reset (genericStateBits t)).m_state.length)) ∧
    [genericStateBits 0, genericStateBits 1, genericStateBits 2, genericStateBits 3]
      = [16, 13, 10, 10] ∧
    (∀ t, t ≤ 1 →
      (refinementContextPixels t ATXY bitmap reference rx ry x y).length
        = refinementStateBits t ∧
      refinementPixelContext t ATXY bitmap reference rx ry x y < 2 ^ refinementStateBits t ∧
      refinementPixelContext t ATXY bitmap reference rx ry x y <
        (PDFJBIG2ArithmeticDecoderState.reset (refinementStateBits t)).m_state.length ∧
      refinementLTPContext t <
        (PDFJBIG2ArithmeticDecoderState.reset (refinementStateBits t)).m_state.length) ∧
    [refinementStateBits 0, refinementStateBits 1] = [13, 10] := by
  have hreset : ∀ bits, (PDFJBIG2ArithmeticDecoderState.reset bits).m_state.length = 2 ^ bits := by
    intro bits
    simp [PDFJBIG2ArithmeticDecoderState.reset]
  refine ⟨?_, rfl, ?_, rfl⟩
  · intro t ht
    have hlen : (genericContextPixels t ATXY bitmap x y).length = genericStateBits t := by
      interval_cases t <;> rfl
    have hle : (genericContextPixels t ATXY bitmap x y).length ≤ 16 := by
      rw [hlen]
      interval_cases t <;> decide
    obtain ⟨h1, h2⟩ := pixelContextOf_lt _ hle
    rw [hlen] at h1 h2
    refine ⟨hlen, h1, h2, by rw [hreset]; exact h2, ?_⟩
    intro tp
    rw [hreset]
    cases tp <;> interval_cases t <;> decide
  · intro t ht
    have hlen : (refinementContextPixels t ATXY bitmap reference rx ry x y).length
        = refinementStateBits t := by
      interval_cases t <;> rfl
    have hle : (refinementContextPixels t ATXY bitmap reference rx ry x y).length ≤ 16 := by
      rw [hlen]
      interval_cases t <;> decide
    obtain ⟨h1, h2⟩ := pixelContextOf_lt _ hle
    rw [hlen] at h2
    refine ⟨hlen, h2, by rw [hreset]; exact h2, ?_⟩
    rw [hreset]
    interval_cases t <;> decide

/-! ## buildPrefixes: when it throws -/

theorem assignPrefixes_overflow : ∀ (rest : List PDFJBIG2HuffmanTableEntry)
    (previous codeValue count : Nat),
    List.Sorted (fun l r => l.prefixBitLength ≤ r.prefixBitLength) rest →
    (∀ e ∈ rest, previous ≤ e.prefixBitLength ∧ e.prefixBitLength ≤ 30) →
    count < 2 ^ 16 → (previous ≤ 15 → count ≤ 2 ^ previous) →
    (assignPrefixes rest previous codeValue count = .error PDFException.prefixOverflow ∧
      ∃ L, L ≤ 15 ∧ 2 ^ L < (if L = previous then count else 0) +
        rest.countP (fun e => e.prefixBitLength == L)) ∨
    ((∃ out, assignPrefixes rest previous codeValue count = .ok out) ∧
      ¬ ∃ L, L ≤ 15 ∧ 2 ^ L < (if L = previous then count else 0) +
        rest.countP (fun e => e.prefixBitLength == L)) := by
  intro rest
  induction rest with
  | nil =>
    intro previous codeValue count _ _ _ hcount
    right
    refine ⟨⟨[], rfl⟩, ?_⟩
    rintro ⟨L, hL, h⟩
    simp only [List.countP_nil, Nat.add_zero] at h
    split_ifs at h with hp
    · subst hp
      have := hcount hL
      omega
    · exact absurd h (Nat.not_lt_zero _)
  | cons entry rest ih =>
    intro previous codeValue count hsorted hlen hlt hcount
    obtain ⟨hprev, hl30⟩ := hlen entry (List.mem_cons_self _ _)
    have hsorted' := List.sorted_cons.mp hsorted
    have hshift : (entry.prefixBitLength - previous) % 2 ^ 16 =
        entry.prefixBitLength - previous := Nat.mod_eq_of_lt (by omega)
    -- the count after the entry, before it is cut to 16 bits
    obtain ⟨n, hn, hn16, hnle, hnval⟩ : ∃ n, (if (entry.prefixBitLength - previous) % 2 ^ 16 > 0
        then 0 else count) = n ∧ n < 2 ^ 16 ∧ (entry.prefixBitLength ≤ 15 →
          n ≤ 2 ^ entry.prefixBitLength) ∧
        n = if entry.prefixBitLength = previous then count else 0 := by
      refine ⟨_, rfl, ?_, ?_, ?_⟩
      · split_ifs
        · norm_num
        · exact hlt
      · intro h15
        rw [hshift]
        split_ifs with h0
        · exact Nat.zero_le _
        · have : entry.prefixBitLength = previous := by omega
          rw [this]
          exact hcount (by omega)
      · rw [hshift]
        by_cases h0 : entry.prefixBitLength - previous > 0
        · rw [if_pos h0, if_neg (by omega)]
        · rw [if_neg h0, if_pos (by omega)]
    have hpow15 : entry.prefixBitLength ≤ 15 → 2 ^ entry.prefixBitLength ≤ 2 ^ 15 :=
      fun h => Nat.pow_le_pow_right (by norm_num) h
    have hpow16 : 15 < entry.prefixBitLength → 2 ^ 16 ≤ 2 ^ entry.prefixBitLength :=
      fun h => Nat.pow_le_pow_right (by norm_num) h
    have hmodlt : (n + 1) % 2 ^ 16 < 2 ^ 16 := Nat.mod_lt _ (by norm_num)
    have hn1 : entry.prefixBitLength ≤ 15 → (n + 1) % 2 ^ 16 = n + 1 := by
      intro h15
      have := hnle h15
      have := hpow15 h15
      exact Nat.mod_eq_of_lt (by omega)
    have hcountP : ∀ L, (entry :: rest).countP (fun e => e.prefixBitLength == L) =
        rest.countP (fun e => e.prefixBitLength == L) +
          if entry.prefixBitLength = L then 1 else 0 := by
      intro L
      rw [List.countP_cons]
      simp only [beq_iff_eq]
    have hzero : ∀ L, L < entry.prefixBitLength →
        rest.countP (fun e => e.prefixBitLength == L) = 0 := by
      intro L hL
      rw [List.countP_eq_zero]
      intro e he
      have := hsorted'.1 e he
      simp only [beq_iff_eq]
      omega
    -- both sides count the same entries
    have hequiv : ∀ L, L ≤ 15 →
        (2 ^ L < (if L = previous then count else 0) +
          (entry :: rest).countP (fun e => e.prefixBitLength == L) ↔
        2 ^ L < (if L = entry.prefixBitLength then (n + 1) % 2 ^ 16 else 0) +
          rest.countP (fun e => e.prefixBitLength == L)) := by
      intro L hL
      rw [hcountP L]
      by_cases hLl : L = entry.prefixBitLength
      · subst hLl
        rw [if_pos rfl, if_pos rfl, hn1 hL, hnval]
        split_ifs <;> omega
      · have e1 : (if L = entry.prefixBitLength then (n + 1) % 2 ^ 16 else 0) = 0 :=
          if_neg hLl
        have e2 : (if entry.prefixBitLength = L then 1 else 0) = 0 :=
          if_neg (fun h => hLl h.symm)
        rw [e1, e2]
        by_cases hp : L = previous
        · have e3 : (if L = previous then count else 0) = count := if_pos hp
          rw [e3, hzero L (by omega)]
          have hc := hcount (by omega)
          rw [← hp] at hc
          omega
        · have e3 : (if L = previous then count else 0) = 0 := if_neg hp
          rw [e3]
          rfl
    rw [assignPrefixes]
    simp only [hn]
    rw [prefixCountOverflow_eq _ _ hl30]
    by_cases hover : (n + 1) % 2 ^ 16 > 2 ^ entry.prefixBitLength
    · left
      have h15 : entry.prefixBitLength ≤ 15 := by
        by_contra hcon
        have := hpow16 (by omega)
        omega
      refine ⟨?_, entry.prefixBitLength, h15, ?_⟩
      · simp only [decide_eq_true hover, if_true]
        rfl
      · rw [(hequiv _ h15), if_pos rfl]
        omega
    · simp only [decide_eq_false hover, Bool.false_eq_true, if_false]
      have hcount' : entry.prefixBitLength ≤ 15 →
          (n + 1) % 2 ^ 16 ≤ 2 ^ entry.prefixBitLength := fun _ => by omega
      generalize (if (entry.prefixBitLength - previous) % 2 ^ 16 > 0 then
        codeValue <<< ((entry.prefixBitLength - previous) % 2 ^ 16) % 2 ^ 16
        else codeValue) = c
      rcases ih entry.prefixBitLength ((c + 1) % 2 ^ 16) ((n + 1) % 2 ^ 16) hsorted'.2
        (fun e he => ⟨hsorted'.1 e he, (hlen e (List.mem_cons_of_mem _ he)).2⟩)
        hmodlt hcount' with ⟨herr, L, hL, hgt⟩ | ⟨⟨out, hout⟩, hno⟩
      · left
        refine ⟨?_, L, hL, (hequiv L hL).mpr hgt⟩
        simp only [herr, bind, Except.bind]
      · right
        refine ⟨⟨{ entry with prefixCode := c } :: out, ?_⟩, ?_⟩
        · simp only [hout, bind, Except.bind, pure, Except.pure]
        · rintro ⟨L, hL, hgt⟩
          exact hno ⟨L, hL, (hequiv L hL).mp hgt⟩

theorem countP_insertionSort_length (l : List PDFJBIG2HuffmanTableEntry) (L : Nat) :
    (l.insertionSort (fun l r => l.prefixBitLength ≤ r.prefixBitLength)).countP
      (fun e => e.prefixBitLength == L) = l.countP (fun e => e.prefixBitLength == L) :=
  (List.perm_insertionSort _ l).countP_eq _

/-- The outcome of `buildPrefixes` on entries of lengths up to 30: it throws exactly when
some length of at most 15 bits is that of too many entries. -/
theorem buildPrefixes_overflow (entries : List PDFJBIG2HuffmanTableEntry)
    (hlen : ∀ e ∈ entries, e.prefixBitLength ≤ 30) :
    (PDFJBIG2HuffmanCodeTable.buildPrefixes entries = .error PDFException.prefixOverflow ∧
      ∃ L, L ≤ 15 ∧ 2 ^ L < lengthCount entries L) ∨
    ((∃ out, PDFJBIG2HuffmanCodeTable.buildPrefixes entries = .ok out) ∧
      ¬ ∃ L, L ≤ 15 ∧ 2 ^ L < lengthCount entries L) := by
  haveI : IsTotal PDFJBIG2HuffmanTableEntry
      (fun l r => l.prefixBitLength ≤ r.prefixBitLength) := ⟨fun a b => Nat.le_total _ _⟩
  haveI : IsTrans PDFJBIG2HuffmanTableEntry
      (fun l r => l.prefixBitLength ≤ r.prefixBitLength) := ⟨fun _ _ _ => Nat.le_trans⟩
  have hsorted := List.sorted_insertionSort (fun (l r : PDFJBIG2HuffmanTableEntry) =>
    l.prefixBitLength ≤ r.prefixBitLength)
    (entries.filter (fun entry => !(entry.prefixBitLength == 0)))
  have hmem : ∀ e ∈ (entries.filter (fun entry => !(entry.prefixBitLength == 0))).insertionSort
      (fun l r => l.prefixBitLength ≤ r.prefixBitLength),
      e ∈ entries ∧ e.prefixBitLength ≠ 0 := by
    intro e he
    have := (List.perm_insertionSort _ _).subset he
    rw [List.mem_filter] at this
    refine ⟨this.1, ?_⟩
    simpa using this.2
  have hcnt : ∀ L, lengthCount entries L =
      ((entries.filter (fun entry => !(entry.prefixBitLength == 0))).insertionSort
        (fun l r => l.prefixBitLength ≤ r.prefixBitLength)).countP
          (fun e => e.prefixBitLength == L) := fun L =>
    (countP_insertionSort_length _ L).symm
  unfold PDFJBIG2HuffmanCodeTable.buildPrefixes
  dsimp only
  simp only [hcnt]
  generalize (entries.filter (fun entry => !(entry.prefixBitLength == 0))).insertionSort
    (fun l r => l.prefixBitLength ≤ r.prefixBitLength) = sorted at hsorted hmem ⊢
  cases sorted with
  | nil =>
    right
    refine ⟨⟨[], rfl⟩, ?_⟩
    rintro ⟨L, _, h⟩
    simp at h
  | cons first rest =>
    obtain ⟨hle, hsorted'⟩ := List.sorted_cons.mp hsorted
    have hfirst := hmem first (List.mem_cons_self _ _)
    have hone : first.prefixBitLength ≤ 15 → 1 ≤ 2 ^ first.prefixBitLength :=
      fun _ => Nat.one_le_two_pow
    have hequiv : ∀ L, (first :: rest).countP (fun e => e.prefixBitLength == L) =
        (if L = first.prefixBitLength then 1 else 0) +
          rest.countP (fun e => e.prefixBitLength == L) := by
      intro L
      rw [List.countP_cons]
      simp only [beq_iff_eq]
      by_cases h : first.prefixBitLength = L
      · rw [if_pos h, if_pos h.symm]
        omega
      · rw [if_neg h, if_neg (fun h' => h h'.symm)]
        omega
    simp only [hequiv]
    rcases assignPrefixes_overflow rest first.prefixBitLength 1 1 hsorted'
      (fun e he => ⟨hle e he, hlen e (hmem e (List.mem_cons_of_mem _ he)).1⟩)
      (by norm_num) hone with ⟨herr, hex⟩ | ⟨⟨out, hout⟩, hno⟩
    · left
      refine ⟨?_, hex⟩
      simp only [herr, bind, Except.bind]
    · right
      refine ⟨⟨{ first with prefixCode := 0 } :: out, ?_⟩, hno⟩
      simp only [hout, bind, Except.bind, pure, Except.pure]

/-- For entries with prefix bit lengths of at most 30, buildPrefixes throws the prefix
overflow error if and only if, once the entries of length zero are dropped, some length L
of at most 15 bits occurs on more than 2^L entries, and it returns a table otherwise. -/
theorem buildPrefixes_fails_iff (entries : List PDFJBIG2HuffmanTableEntry)
    (hlen : ∀ e ∈ entries, e.prefixBitLength ≤ 30) :
    (PDFJBIG2HuffmanCodeTable.buildPrefixes entries = .error PDFException.prefixOverflow ↔
      ∃ L, L ≤ 15 ∧ 2 ^ L < lengthCount entries L) ∧
    ((¬ ∃ L, L ≤ 15 ∧ 2 ^ L < lengthCount entries L) →
      ∃ out, PDFJBIG2HuffmanCodeTable.buildPrefixes entries = .ok out) ∧
    ((∃ e, PDFJBIG2HuffmanCodeTable.buildPrefixes entries = .error e) →
      PDFJBIG2HuffmanCodeTable.buildPrefixes entries = .error PDFException.prefixOverflow) := by
  rcases buildPrefixes_overflow entries hlen with ⟨herr, hex⟩ | ⟨⟨out, hout⟩, hno⟩
  · exact ⟨⟨fun _ => hex, fun _ => herr⟩, fun h => absurd hex h, fun _ => herr⟩
  · refine ⟨⟨fun h => ?_, fun h => absurd h hno⟩, fun _ => ⟨out, hout⟩, fun ⟨e, he⟩ => ?_⟩
    · rw [hout] at h
      cases h
    · rw [hout] at he
      cases he

theorem buildPrefixes_fails_iff_witness :
    (PDFJBIG2HuffmanCodeTable.buildPrefixes
        [standardEntry 0 1, standardEntry 1 1, standardEntry 2 1] =
        .error PDFException.prefixOverflow ↔
      ∃ L, L ≤ 15 ∧ 2 ^ L <
        lengthCount [standardEntry 0 1, standardEntry 1 1, standardEntry 2 1] L) ∧
    PDFJBIG2HuffmanCodeTable.buildPrefixes
        [standardEntry 0 1, standardEntry 1 1, standardEntry 2 1] =
      .error PDFException.prefixOverflow :=
  ⟨(buildPrefixes_fails_iff [standardEntry 0 1, standardEntry 1 1, standardEntry 2 1]
    (by decide)).1, by decide⟩

/-- C26: for the entries of lengths 1 and 31 no length occurs on more than 2^L entries, yet
buildPrefixes throws the prefix overflow error: `1 << 31` is negative as an `int`, so the
count 1 of the second entry exceeds it. -/
theorem buildPrefixes_length_31_throws :
    PDFJBIG2HuffmanCodeTable.buildPrefixes [standardEntry 0 1, standardEntry 1 31] =
      .error PDFException.prefixOverflow ∧
    shiftLeftOne 31 = -2 ^ 31 ∧
    ¬ ∃ L, L ≤ 15 ∧ 2 ^ L < lengthCount [standardEntry 0 1, standardEntry 1 31] L := by
  refine ⟨by decide, by decide, ?_⟩
  rintro ⟨L, hL, h⟩
  have hle : lengthCount [standardEntry 0 1, standardEntry 1 31] L ≤ 1 := by
    unfold lengthCount
    by_cases h1 : L = 1
    · subst h1
      decide
    · have hz : List.countP (fun entry => entry.prefixBitLength == L)
          (List.filter (fun entry => !(entry.prefixBitLength == 0))
            [standardEntry 0 1, standardEntry 1 31]) = 0 := by
        rw [List.countP_eq_zero]
        intro e he
        simp only [beq_iff_eq]
        have h2 : e.prefixBitLength = 1 ∨ e.prefixBitLength = 31 := by
          have he' := List.mem_of_mem_filter he
          simp only [List.mem_cons, List.mem_singleton, List.not_mem_nil, or_false] at he'
          rcases he' with rfl | rfl
          · left; rfl
          · right; rfl
        omega
      omega
  have : 1 ≤ 2 ^ L := Nat.one_le_two_pow
  omega
/-! ## buildPrefixes: the table it returns -/

theorem assignPrefixes_recurrence : ∀ (rest : List PDFJBIG2HuffmanTableEntry)
    (previous codeValue count s : Nat) (out : List PDFJBIG2HuffmanTableEntry),
    (∀ e ∈ rest, e.prefixBitLength < 2 ^ 16) →
    codeValue = (s + 1) % 2 ^ 16 →
    assignPrefixes rest previous codeValue count = .ok out →
    out.map PDFJBIG2HuffmanTableEntry.withoutPrefix =
        rest.map PDFJBIG2HuffmanTableEntry.withoutPrefix ∧
      out.map (fun e => e.prefixCode) =
        (canonicalPrefixes rest previous s).map (fun p => p % 2 ^ 16) := by
  intro rest
  induction rest with
  | nil =>
    intro previous codeValue count s out _ _ h
    cases h
    exact ⟨rfl, rfl⟩
  | cons entry rest ih =>
    intro previous codeValue count s out hlen hcode h
    have hl := hlen entry (List.mem_cons_self _ _)
    have hshift : (entry.prefixBitLength - previous) % 2 ^ 16 =
        entry.prefixBitLength - previous := Nat.mod_eq_of_lt (by omega)
    have hc : (if (entry.prefixBitLength - previous) % 2 ^ 16 > 0 then
        (codeValue <<< ((entry.prefixBitLength - previous) % 2 ^ 16)) % 2 ^ 16 else codeValue)
        = ((s + 1) <<< (entry.prefixBitLength - previous)) % 2 ^ 16 := by
      rw [hshift, hcode]
      split_ifs with h0
      · rw [Nat.shiftLeft_eq, Nat.shiftLeft_eq, Nat.mod_mul_mod]
      · have : entry.prefixBitLength - previous = 0 := by omega
        rw [this, Nat.shiftLeft_zero]
    rw [assignPrefixes] at h
    simp only [hc] at h
    cases hover : prefixCountOverflow
        (((if (entry.prefixBitLength - previous) % 2 ^ 16 > 0 then 0 else count) + 1) % 2 ^ 16)
        entry.prefixBitLength
    · simp only [hover, Bool.false_eq_true, if_false] at h
      cases htail : assignPrefixes rest entry.prefixBitLength
          ((((s + 1) <<< (entry.prefixBitLength - previous)) % 2 ^ 16 + 1) % 2 ^ 16)
          (((if (entry.prefixBitLength - previous) % 2 ^ 16 > 0 then 0 else count) + 1) % 2 ^ 16)
        with
      | error e =>
        simp only [htail, bind, Except.bind, reduceCtorEq] at h
      | ok tail =>
        simp only [htail, bind, Except.bind, pure, Except.pure, Except.ok.injEq] at h
        obtain ⟨hmap, hpre⟩ := ih entry.prefixBitLength _ _
          ((s + 1) <<< (entry.prefixBitLength - previous)) tail
          (fun e he => hlen e (List.mem_cons_of_mem _ he)) (Nat.mod_add_mod _ _ _) htail
        subst h
        refine ⟨?_, ?_⟩
        · simp only [List.map_cons, hmap]
          rfl
        · simp only [List.map_cons, hpre, canonicalPrefixes]
    · simp only [hover, if_true] at h
      cases h

/-- Filtering the entries of one length out of a list into which an entry was inserted by
length: an inserted entry of that length comes first among them. -/
theorem filter_orderedInsert_length (a : PDFJBIG2HuffmanTableEntry) (L : Nat) :
    ∀ l : List PDFJBIG2HuffmanTableEntry,
      (l.orderedInsert (fun l r => l.prefixBitLength ≤ r.prefixBitLength) a).filter
        (fun e => e.prefixBitLength == L) =
      (a :: l).filter (fun e => e.prefixBitLength == L) := by
  intro l
  induction l with
  | nil => rfl
  | cons b l ih =>
    rw [List.orderedInsert]
    split_ifs with hab
    · rfl
    · rw [List.filter_cons, ih]
      by_cases hb : b.prefixBitLength = L
      · have ha : ¬ a.prefixBitLength = L := by omega
        simp [List.filter_cons, hb, ha]
      · simp [List.filter_cons, hb]

/-- The insertion sort by length is stable: the entries of one length keep their order. -/
theorem filter_insertionSort_length (L : Nat) : ∀ l : List PDFJBIG2HuffmanTableEntry,
    (l.insertionSort (fun l r => l.prefixBitLength ≤ r.prefixBitLength)).filter
      (fun e => e.prefixBitLength == L) = l.filter (fun e => e.prefixBitLength == L) := by
  intro l
  induction l with
  | nil => rfl
  | cons a l ih =>
    rw [List.insertionSort, filter_orderedInsert_length, List.filter_cons, List.filter_cons, ih]

theorem canonicalPrefixes_congr : ∀ (out rest : List PDFJBIG2HuffmanTableEntry) (p s : Nat),
    out.map PDFJBIG2HuffmanTableEntry.withoutPrefix =
      rest.map PDFJBIG2HuffmanTableEntry.withoutPrefix →
    canonicalPrefixes out p s = canonicalPrefixes rest p s := by
  intro out
  induction out with
  | nil =>
    intro rest p s h
    cases rest with
    | nil => rfl
    | cons b rest => simp at h
  | cons a out ih =>
    intro rest p s h
    cases rest with
    | nil => simp at h
    | cons b rest =>
      simp only [List.map_cons, List.cons.injEq] at h
      have hl : a.prefixBitLength = b.prefixBitLength := by
        have := congrArg PDFJBIG2HuffmanTableEntry.prefixBitLength h.1
        exact this
      simp only [canonicalPrefixes, hl, ih rest _ _ h.2]

/-- What `buildPrefixes` returns when it succeeds, for lengths that fit in 16 bits. -/
theorem buildPrefixes_ok (entries out : List PDFJBIG2HuffmanTableEntry)
    (hlen : ∀ e ∈ entries, e.prefixBitLength < 2 ^ 16)
    (h : PDFJBIG2HuffmanCodeTable.buildPrefixes entries = .ok out) :
    List.Sorted (fun l r => l.prefixBitLength ≤ r.prefixBitLength) out ∧
    (∀ e ∈ out, e.prefixBitLength ≠ 0) ∧
    (∀ L, L ≠ 0 →
      (out.filter (fun e => e.prefixBitLength == L)).map
          PDFJBIG2HuffmanTableEntry.withoutPrefix =
        (entries.filter (fun e => e.prefixBitLength == L)).map
          PDFJBIG2HuffmanTableEntry.withoutPrefix) ∧
    out.map (fun e => e.prefixCode) = (specPrefixes out).map (fun p => p % 2 ^ 16) := by
  haveI : IsTotal PDFJBIG2HuffmanTableEntry
      (fun l r => l.prefixBitLength ≤ r.prefixBitLength) := ⟨fun a b => Nat.le_total _ _⟩
  haveI : IsTrans PDFJBIG2HuffmanTableEntry
      (fun l r => l.prefixBitLength ≤ r.prefixBitLength) := ⟨fun _ _ _ => Nat.le_trans⟩
  have hsorted := List.sorted_insertionSort (fun (l r : PDFJBIG2HuffmanTableEntry) =>
    l.prefixBitLength ≤ r.prefixBitLength)
    (entries.filter (fun entry => !(entry.prefixBitLength == 0)))
  have hmem : ∀ e ∈ (entries.filter (fun entry => !(entry.prefixBitLength == 0))).insertionSort
      (fun l r => l.prefixBitLength ≤ r.prefixBitLength),
      e ∈ entries ∧ e.prefixBitLength ≠ 0 := by
    intro e he
    have := (List.perm_insertionSort _ _).subset he
    rw [List.mem_filter] at this
    refine ⟨this.1, ?_⟩
    simpa using this.2
  have hstable : ∀ L, L ≠ 0 →
      ((entries.filter (fun entry => !(entry.prefixBitLength == 0))).insertionSort
        (fun l r => l.prefixBitLength ≤ r.prefixBitLength)).filter
          (fun e => e.prefixBitLength == L) =
      entries.filter (fun e => e.prefixBitLength == L) := by
    intro L hL
    rw [filter_insertionSort_length, List.filter_filter]
    congr 1
    funext e
    by_cases he : e.prefixBitLength = L
    · have h0 : ¬ e.prefixBitLength = 0 := by omega
      simp [he, hL]
    · simp [he]
  unfold PDFJBIG2HuffmanCodeTable.buildPrefixes at h
  dsimp only at h
  generalize (entries.filter (fun entry => !(entry.prefixBitLength == 0))).insertionSort
    (fun l r => l.prefixBitLength ≤ r.prefixBitLength) = sorted at hsorted hmem hstable h
  have key : out.map PDFJBIG2HuffmanTableEntry.withoutPrefix =
        sorted.map PDFJBIG2HuffmanTableEntry.withoutPrefix ∧
      out.map (fun e => e.prefixCode) = (specPrefixes sorted).map (fun p => p % 2 ^ 16) := by
    cases sorted with
    | nil =>
      cases h
      exact ⟨rfl, rfl⟩
    | cons first rest =>
      cases htail : assignPrefixes rest first.prefixBitLength 1 1 with
      | error e => simp only [htail, bind, Except.bind, reduceCtorEq] at h
      | ok tail =>
        simp only [htail, bind, Except.bind, pure, Except.pure, Except.ok.injEq] at h
        obtain ⟨hmap, hpre⟩ := assignPrefixes_recurrence rest first.prefixBitLength 1 1 0 tail
          (fun e he => hlen e (hmem e (List.mem_cons_of_mem _ he)).1) rfl htail
        subst h
        refine ⟨?_, ?_⟩
        · simp only [List.map_cons, hmap]
          rfl
        · simp only [List.map_cons, hpre, specPrefixes]
          rfl
  obtain ⟨hmap, hpre⟩ := key
  have hspec : specPrefixes out = specPrefixes sorted := by
    cases out with
    | nil =>
      cases sorted with
      | nil => rfl
      | cons b rest => simp at hmap
    | cons a out =>
      cases sorted with
      | nil => simp at hmap
      | cons b rest =>
        simp only [List.map_cons, List.cons.injEq] at hmap
        have hl : a.prefixBitLength = b.prefixBitLength := by
          have := congrArg PDFJBIG2HuffmanTableEntry.prefixBitLength hmap.1
          exact this
        simp only [specPrefixes, hl, canonicalPrefixes_congr out rest _ _ hmap.2]
  refine ⟨sorted_of_map_withoutPrefix out sorted hmap hsorted, ?_, ?_, ?_⟩
  · intro e he
    obtain ⟨e', he', -, hl, -, -⟩ := mem_of_map_withoutPrefix out sorted hmap e he
    rw [← hl]
    exact (hmem e' he').2
  · intro L hL
    rw [← hstable L hL]
    have hf : ∀ l : List PDFJBIG2HuffmanTableEntry,
        (l.filter (fun e => e.prefixBitLength == L)).map
          PDFJBIG2HuffmanTableEntry.withoutPrefix =
        (l.map PDFJBIG2HuffmanTableEntry.withoutPrefix).filter
          (fun e => e.prefixBitLength == L) := by
      intro l
      rw [List.filter_map]
      rfl
    rw [hf, hf, hmap]
  · rw [hpre, hspec]

/-- C32: when buildPrefixes succeeds (on entries whose lengths fit in their 16-bit
field), the table it returns is sorted by prefix length, holds no entry of length zero,
holds for every non-zero length the input entries of that length in their input order with
value, range length and kind unchanged, and its prefixes are those of the canonical
recurrence cut to 16 bits; they are the prefixes of the recurrence itself when these all
fit in 16 bits.  For the entries of lengths 1 and 17 they are not: the recurrence gives
the second entry (0 + 1) << 16 = 65536 and buildPrefixes gives it 0. -/
theorem buildPrefixes_recurrence_modulo_16_bits :
    (∀ entries out : List PDFJBIG2HuffmanTableEntry,
      (∀ e ∈ entries, e.prefixBitLength < 2 ^ 16) →
      PDFJBIG2HuffmanCodeTable.buildPrefixes entries = .ok out →
      List.Sorted (fun l r => l.prefixBitLength ≤ r.prefixBitLength) out ∧
      (∀ e ∈ out, e.prefixBitLength ≠ 0) ∧
      (∀ L, L ≠ 0 →
        (out.filter (fun e => e.prefixBitLength == L)).map
            PDFJBIG2HuffmanTableEntry.withoutPrefix =
          (entries.filter (fun e => e.prefixBitLength == L)).map
            PDFJBIG2HuffmanTableEntry.withoutPrefix) ∧
      out.map (fun e => e.prefixCode) = (specPrefixes out).map (fun p => p % 2 ^ 16) ∧
      ((∀ p ∈ specPrefixes out, p < 2 ^ 16) →
        out.map (fun e => e.prefixCode) = specPrefixes out)) ∧
    PDFJBIG2HuffmanCodeTable.buildPrefixes [standardEntry 0 1, standardEntry 1 17] =
      .ok [{ standardEntry 0 1 with prefixCode := 0 },
           { standardEntry 1 17 with prefixCode := 0 }] ∧
    specPrefixes [{ standardEntry 0 1 with prefixCode := 0 },
                  { standardEntry 1 17 with prefixCode := 0 }] = [0, 65536] := by
  refine ⟨?_, by decide, by decide⟩
  intro entries out hlen h
  obtain ⟨h1, h2, h3, h4⟩ := buildPrefixes_ok entries out hlen h
  refine ⟨h1, h2, h3, h4, ?_⟩
  intro hfit
  rw [h4]
  conv_rhs => rw [← List.map_id (specPrefixes out)]
  apply List.map_congr_left
  intro p hp
  exact Nat.mod_eq_of_lt (hfit p hp)

/-- C25 (counterexample): buildPrefixes succeeds on the entries of lengths 1, 1 and 2,
whose Kraft sum is 5/4: it only counts the entries of each length.  The third entry gets the prefix 4, which
does not fit in its 2 bits; written in 2 bits its codeword is 00, and the codeword 0 of the
first entry is a prefix of it. -/
theorem buildPrefixes_accepts_oversubscribed_lengths :
    PDFJBIG2HuffmanCodeTable.buildPrefixes
        [standardEntry 0 1, standardEntry 1 1, standardEntry 2 2] =
      .ok [{ standardEntry 0 1 with prefixCode := 0 },
           { standardEntry 1 1 with prefixCode := 1 },
           { standardEntry 2 2 with prefixCode := 4 }] ∧
    ¬ ({ standardEntry 2 2 with prefixCode := 4 } : PDFJBIG2HuffmanTableEntry).prefixCode <
      2 ^ ({ standardEntry 2 2 with prefixCode := 4 } :
        PDFJBIG2HuffmanTableEntry).prefixBitLength ∧
    PDFJBIG2HuffmanTableEntry.codeword { standardEntry 0 1 with prefixCode := 0 } <+:
      PDFJBIG2HuffmanTableEntry.codeword { standardEntry 2 2 with prefixCode := 4 } ∧
    kraftSum [standardEntry 0 1, standardEntry 1 1, standardEntry 2 2] = 5 / 4 := by
  refine ⟨by decide, by decide, by decide, ?_⟩
  norm_num [kraftSum, standardEntry]
/-! ## readSignedInteger: the walk through the table -/

theorem bitsToNat_append (a b : List Bool) :
    bitsToNat (a ++ b) = bitsToNat a * 2 ^ b.length + bitsToNat b := by
  induction a with
  | nil => simp [bitsToNat]
  | cons x a ih =>
    rw [List.cons_append, bitsToNat_cons, bitsToNat_cons, ih, List.length_append, pow_add]
    ring

theorem bitsToNat_take_div (l : List Bool) (n m : Nat) (hnm : n ≤ m) (hm : m ≤ l.length) :
    bitsToNat (l.take n) = bitsToNat (l.take m) / 2 ^ (m - n) := by
  have hsplit : l.take m = l.take n ++ (l.drop n).take (m - n) := by
    have h1 : m = n + (m - n) := by omega
    conv_lhs => rw [h1]
    rw [List.take_add]
  have hlen : ((l.drop n).take (m - n)).length = m - n := by
    rw [List.length_take, List.length_drop]
    omega
  have hlt := bitsToNat_lt ((l.drop n).take (m - n))
  rw [hlen] at hlt
  rw [hsplit, bitsToNat_append, hlen, Nat.mul_comm, Nat.mul_add_div (by positivity),
    Nat.div_eq_of_lt hlt, Nat.add_zero]

theorem alignPrefix_take (data : List Bool) (p0 : Nat) : ∀ (count cnt : Nat),
    cnt + count ≤ 32 → p0 + cnt + count ≤ data.length →
      alignPrefix count (bitsToNat ((data.drop p0).take cnt))
          { data := data, position := p0 + cnt } =
        .ok (bitsToNat ((data.drop p0).take (cnt + count)),
          { data := data, position := p0 + cnt + count }) := by
  intro count
  induction count with
  | zero =>
    intro cnt _ _
    rfl
  | succ k ih =>
    intro cnt h32 hle
    have hread : PDFBitReader.read 1 { data := data, position := p0 + cnt } =
        .ok (bitsToNat (((data.drop p0).drop cnt).take 1),
          { data := data, position := p0 + cnt + 1 }) := by
      unfold PDFBitReader.read
      rw [if_pos (by simp only; omega), List.drop_drop]
    have hlt : bitsToNat ((data.drop p0).take cnt) < 2 ^ 31 := by
      have h1 := bitsToNat_lt ((data.drop p0).take cnt)
      have h2 : ((data.drop p0).take cnt).length ≤ 31 := by
        rw [List.length_take]; omega
      exact lt_of_lt_of_le h1 (Nat.pow_le_pow_right (by norm_num) h2)
    have hbit : bitsToNat (((data.drop p0).drop cnt).take 1) < 2 := by
      have h1 := bitsToNat_lt (((data.drop p0).drop cnt).take 1)
      have h2 : (((data.drop p0).drop cnt).take 1).length ≤ 1 := by
        rw [List.length_take]; omega
      exact lt_of_lt_of_le h1 (by
        calc 2 ^ (((data.drop p0).drop cnt).take 1).length ≤ 2 ^ 1 :=
              Nat.pow_le_pow_right (by norm_num) h2
          _ = 2 := by norm_num)
    have hstep : ((bitsToNat ((data.drop p0).take cnt) <<< 1) % 2 ^ 32) |||
        bitsToNat (((data.drop p0).drop cnt).take 1)
        = bitsToNat ((data.drop p0).take (cnt + 1)) := by
      rw [Nat.shiftLeft_eq, Nat.mod_eq_of_lt (by omega), pow_one, Nat.mul_comm,
        bitsToNat_take_succ (data.drop p0) cnt (by rw [List.length_drop]; omega)]
      have := Nat.mul_add_lt_is_or (i := 1) (b := bitsToNat (((data.drop p0).drop cnt).take 1))
        (by simpa using hbit) (bitsToNat ((data.drop p0).take cnt))
      rw [pow_one] at this
      exact this.symm
    rw [alignPrefix]
    simp only [hread, bind, Except.bind, hstep]
    have := ih (cnt + 1) (by omega) (by omega)
    have e1 : cnt + 1 + k = cnt + (k + 1) := by omega
    have e2 : p0 + (cnt + 1) + k = p0 + cnt + (k + 1) := by omega
    rw [e1, e2] at this
    exact this

/-- The result of `readSignedInteger` on an entry it has matched. -/
theorem matched_entry_result (it : PDFJBIG2HuffmanTableEntry) (data : List Bool) (p : Nat)
    (hvalue : -2 ^ 31 ≤ it.value ∧ it.value < 2 ^ 31)
    (hfit : p + specExtraBits it ≤ data.length) :
    (if it.isOutOfBand then (pure (none, { data := data, position := p }) :
        Except PDFException (Option Int × PDFBitReader))
      else if it.isLowValue then do
        let (extra, r2) ← PDFBitReader.read 32 { data := data, position := p }
        pure (some (wrapInt32 (it.value - extra)), r2)
      else if it.rangeBitLength = 0 then pure (some it.value, { data := data, position := p })
      else do
        let (extra, r2) ← PDFBitReader.read it.rangeBitLength { data := data, position := p }
        pure (some (wrapInt32 (it.value + extra)), r2)) =
    .ok ((specEntryValue it (bitsToNat ((data.drop p).take (specExtraBits it)))).map wrapInt32,
      { data := data, position := p + specExtraBits it }) := by
  unfold specEntryValue specExtraBits at *
  by_cases hoob : it.isOutOfBand = true
  · simp only [hoob, if_true]
    rfl
  · simp only [hoob, Bool.false_eq_true, if_false] at hfit ⊢
    by_cases hlow : it.isLowValue = true
    · simp only [hlow, if_true] at hfit ⊢
      have hread : PDFBitReader.read 32 { data := data, position := p } =
          .ok (bitsToNat ((data.drop p).take 32), { data := data, position := p + 32 }) := by
        unfold PDFBitReader.read
        rw [if_pos (by simp only; omega)]
      simp only [hread, bind, Except.bind, pure, Except.pure, Option.map_some']
    · simp only [hlow, Bool.false_eq_true, if_false] at hfit ⊢
      by_cases hr : it.rangeBitLength = 0
      · simp only [hr, if_true, Nat.add_zero, Option.map_some', pure, Except.pure,
          wrapInt32_of_int32 _ hvalue.1 hvalue.2]
      · simp only [hr, if_false]
        have hread : PDFBitReader.read it.rangeBitLength { data := data, position := p } =
            .ok (bitsToNat ((data.drop p).take it.rangeBitLength),
              { data := data, position := p + it.rangeBitLength }) := by
          unfold PDFBitReader.read
          rw [if_pos (by simp only; omega)]
        simp only [hread, bind, Except.bind, pure, Except.pure, Option.map_some']

/-- The walk of `readSignedInteger` from a count of `cnt` bits, on a table sorted by
length, when some entry matches the input. -/
theorem readSignedIntegerLoop_match (data : List Bool) (p0 : Nat)
    (e : PDFJBIG2HuffmanTableEntry) :
    ∀ (entries : List PDFJBIG2HuffmanTableEntry) (cnt : Nat),
      List.Sorted (fun l r => l.prefixBitLength ≤ r.prefixBitLength) entries →
      (∀ a ∈ entries, cnt ≤ a.prefixBitLength ∧ a.prefixBitLength ≤ 32 ∧
        -2 ^ 31 ≤ a.value ∧ a.value < 2 ^ 31) →
      specMatchingEntry entries (data.drop p0) = some e →
      p0 + e.prefixBitLength + specExtraBits e ≤ data.length →
      readSignedIntegerLoop entries cnt (bitsToNat ((data.drop p0).take cnt))
          { data := data, position := p0 + cnt } =
        .ok ((specEntryValue e (bitsToNat ((data.drop (p0 + e.prefixBitLength)).take
            (specExtraBits e)))).map wrapInt32,
          { data := data, position := p0 + e.prefixBitLength + specExtraBits e }) := by
  intro entries
  induction entries with
  | nil =>
    intro cnt _ _ hm _
    simp [specMatchingEntry] at hm
  | cons it rest ih =>
    intro cnt hsorted hall hm hfit
    obtain ⟨hle, hsorted'⟩ := List.sorted_cons.mp hsorted
    obtain ⟨hcnt, h32, hvalue⟩ := hall it (List.mem_cons_self _ _)
    have hmem : e ∈ it :: rest := List.mem_of_find?_eq_some hm
    have hlen : it.prefixBitLength ≤ e.prefixBitLength := by
      rcases List.mem_cons.mp hmem with rfl | h
      · exact le_refl _
      · exact hle e h
    have halign := alignPrefix_take data p0 (it.prefixBitLength - cnt) cnt (by omega) (by omega)
    have hsum : cnt + (it.prefixBitLength - cnt) = it.prefixBitLength := by omega
    have hsum' : p0 + cnt + (it.prefixBitLength - cnt) = p0 + it.prefixBitLength := by omega
    rw [hsum, hsum'] at halign
    have hmax : max cnt it.prefixBitLength = it.prefixBitLength := by omega
    rw [readSignedIntegerLoop]
    simp only [halign, bind, Except.bind, hmax]
    unfold specMatchingEntry at hm
    rw [List.find?_cons] at hm
    by_cases hmatch : bitsToNat ((data.drop p0).take it.prefixBitLength) = it.prefixCode
    · have hb : (bitsToNat ((data.drop p0).take it.prefixBitLength) == it.prefixCode) = true := by
        rw [beq_iff_eq]; exact hmatch
      rw [hb] at hm
      simp only [Option.some.injEq] at hm
      subst hm
      rw [if_pos hmatch]
      exact matched_entry_result it data (p0 + it.prefixBitLength) hvalue (by omega)
    · have hb : (bitsToNat ((data.drop p0).take it.prefixBitLength) == it.prefixCode) = false := by
        rw [beq_eq_false_iff_ne]; exact hmatch
      rw [hb] at hm
      rw [if_neg hmatch]
      exact ih it.prefixBitLength hsorted'
        (fun a ha => ⟨hle a ha, (hall a (List.mem_cons_of_mem _ ha)).2⟩) hm hfit

/-- The walk of `readSignedInteger` from a count of `cnt` bits, on a table sorted by
length, when no entry matches the input. -/
theorem readSignedIntegerLoop_no_match (data : List Bool) (p0 : Nat) :
    ∀ (entries : List PDFJBIG2HuffmanTableEntry) (cnt : Nat),
      List.Sorted (fun l r => l.prefixBitLength ≤ r.prefixBitLength) entries →
      (∀ a ∈ entries, cnt ≤ a.prefixBitLength ∧ a.prefixBitLength ≤ 32 ∧
        p0 + a.prefixBitLength ≤ data.length) →
      specMatchingEntry entries (data.drop p0) = none →
      readSignedIntegerLoop entries cnt (bitsToNat ((data.drop p0).take cnt))
          { data := data, position := p0 + cnt } =
        .ok (none, { data := data, position := p0 + finalBitCount entries cnt }) := by
  intro entries
  induction entries with
  | nil =>
    intro cnt _ _ _
    rfl
  | cons it rest ih =>
    intro cnt hsorted hall hm
    obtain ⟨hle, hsorted'⟩ := List.sorted_cons.mp hsorted
    obtain ⟨hcnt, h32, hfit⟩ := hall it (List.mem_cons_self _ _)
    have halign := alignPrefix_take data p0 (it.prefixBitLength - cnt) cnt (by omega) (by omega)
    have hsum : cnt + (it.prefixBitLength - cnt) = it.prefixBitLength := by omega
    have hsum' : p0 + cnt + (it.prefixBitLength - cnt) = p0 + it.prefixBitLength := by omega
    rw [hsum, hsum'] at halign
    have hmax : max cnt it.prefixBitLength = it.prefixBitLength := by omega
    rw [readSignedIntegerLoop]
    simp only [halign, bind, Except.bind, hmax]
    unfold specMatchingEntry at hm
    rw [List.find?_cons] at hm
    by_cases hmatch : bitsToNat ((data.drop p0).take it.prefixBitLength) = it.prefixCode
    · have hb : (bitsToNat ((data.drop p0).take it.prefixBitLength) == it.prefixCode) = true := by
        rw [beq_iff_eq]; exact hmatch
      rw [hb] at hm
      cases hm
    · have hb : (bitsToNat ((data.drop p0).take it.prefixBitLength) == it.prefixCode) = false := by
        rw [beq_eq_false_iff_ne]; exact hmatch
      rw [hb] at hm
      rw [if_neg hmatch]
      have := ih it.prefixBitLength hsorted'
        (fun a ha => ⟨hle a ha, (hall a (List.mem_cons_of_mem _ ha)).2⟩) hm
      rw [this]
      unfold finalBitCount
      rw [List.foldl_cons, hmax]

/-- C27: on a table sorted by prefix length (lengths of at most 32 bits, base values in
the `int32_t` range), readSignedInteger selects the first entry in table order whose prefix
is the value of the first prefixBitLength bits of the input; it reads no further bit for an
OutOfBand entry or a zero range length, 32 bits for a Negative entry and rangeBitLength bits
otherwise, and returns no value, the base minus the extra bits, the bare base or the base
plus the extra bits, reduced to a 32-bit signed integer (so it is the value of the
specification whenever that value is in the `int32_t` range); when no entry matches it
returns no value after the bits of the longest prefix. -/
theorem readSignedInteger_walk (entries : List PDFJBIG2HuffmanTableEntry) (data : List Bool)
    (position : Nat)
    (hsorted : List.Sorted (fun l r => l.prefixBitLength ≤ r.prefixBitLength) entries)
    (hall : ∀ a ∈ entries, a.prefixBitLength ≤ 32 ∧ a.rangeBitLength ≤ 32 ∧
      -2 ^ 31 ≤ a.value ∧ a.value < 2 ^ 31) :
    (∀ e, specMatchingEntry entries (data.drop position) = some e →
      position + e.prefixBitLength + specExtraBits e ≤ data.length →
      PDFJBIG2HuffmanDecoder.readSignedInteger
          { m_reader := { data := data, position := position }, m_entries := entries } =
        .ok ((specEntryValue e (bitsToNat ((data.drop (position + e.prefixBitLength)).take
            (specExtraBits e)))).map wrapInt32,
          { data := data, position := position + e.prefixBitLength + specExtraBits e }) ∧
      ∀ v, specEntryValue e (bitsToNat ((data.drop (position + e.prefixBitLength)).take
            (specExtraBits e))) = some v → -2 ^ 31 ≤ v → v < 2 ^ 31 →
        PDFJBIG2HuffmanDecoder.readSignedInteger
            { m_reader := { data := data, position := position }, m_entries := entries } =
          .ok (some v,
            { data := data, position := position + e.prefixBitLength + specExtraBits e })) ∧
    (specMatchingEntry entries (data.drop position) = none →
      (∀ a ∈ entries, position + a.prefixBitLength ≤ data.length) →
      PDFJBIG2HuffmanDecoder.readSignedInteger
          { m_reader := { data := data, position := position }, m_entries := entries } =
        .ok (none, { data := data, position := position + finalBitCount entries 0 })) := by
  refine ⟨?_, ?_⟩
  · intro e hm hfit
    have h := readSignedIntegerLoop_match data position e entries 0 hsorted
      (fun a ha => ⟨Nat.zero_le _, (hall a ha).1, (hall a ha).2.2⟩) hm hfit
    have h' : PDFJBIG2HuffmanDecoder.readSignedInteger
          { m_reader := { data := data, position := position }, m_entries := entries } =
        .ok ((specEntryValue e (bitsToNat ((data.drop (position + e.prefixBitLength)).take
            (specExtraBits e)))).map wrapInt32,
          { data := data, position := position + e.prefixBitLength + specExtraBits e }) := h
    refine ⟨h', ?_⟩
    intro v hv h0 h1
    rw [h', hv, Option.map_some', wrapInt32_of_int32 v h0 h1]
  · intro hm hfit
    exact readSignedIntegerLoop_no_match data position entries 0 hsorted
      (fun a ha => ⟨Nat.zero_le _, (hall a ha).1, hfit a ha⟩) hm

set_option maxRecDepth 100000 in
theorem readSignedInteger_walk_witness :
    PDFJBIG2HuffmanDecoder.readSignedInteger
        { m_reader := { data := [true, true, true, false, true, false, true], position := 0 },
          m_entries := PDFJBIG2StandardHuffmanTable_B } =
      .ok (some 8, { data := [true, true, true, false, true, false, true], position := 7 }) :=
  ((readSignedInteger_walk PDFJBIG2StandardHuffmanTable_B
    [true, true, true, false, true, false, true] 0 (by decide) (by decide)).1
      ⟨3, 4, 3, 0b1110, HuffmanEntryType.Standard⟩ (by decide) (by decide)).2 8 (by decide)
      (by decide) (by decide)

set_option maxRecDepth 100000 in
/-- C27 (counterexample): on standard table C, the 8 prefix bits 11111111 select the
Negative entry of base -257; with the next 32 bits all set, the base minus the extra bits is
-257 - 4294967295 = -4294967552, and readSignedInteger returns -256. -/
theorem readSignedInteger_negative_entry_wraps :
    PDFJBIG2HuffmanDecoder.readSignedInteger
        { m_reader := { data := List.replicate 40 true, position := 0 },
          m_entries := PDFJBIG2StandardHuffmanTable_C } =
      .ok (some (-256), { data := List.replicate 40 true, position := 40 }) ∧
    specMatchingEntry PDFJBIG2StandardHuffmanTable_C (List.replicate 40 true) =
      some ⟨-257, 8, 32, 0b11111111, HuffmanEntryType.Negative⟩ ∧
    bitsToNat (((List.replicate 40 true).drop 8).take 32) = 4294967295 ∧
    specEntryValue ⟨-257, 8, 32, 0b11111111, HuffmanEntryType.Negative⟩ 4294967295 =
      some (-4294967552) := by
  refine ⟨by decide, by decide, by decide, by decide⟩
/-! ## The standard tables -/

theorem kraftSum_of_scaledKraft (T : List PDFJBIG2HuffmanTableEntry)
    (hlen : ∀ e ∈ T, 0 < e.prefixBitLength ∧ e.prefixBitLength ≤ 16)
    (h : scaledKraft T = 2 ^ 16) : kraftSum T = 1 := by
  have hfilter : T.filter (fun entry => !(entry.prefixBitLength == 0)) = T := by
    rw [List.filter_eq_self]
    intro e he
    have := (hlen e he).1
    simp only [Bool.not_eq_true', beq_eq_false_iff_ne, ne_eq]
    omega
  have hcast := scaledKraft_cast T (fun e he => (hlen e he).2)
  rw [h] at hcast
  unfold kraftSum
  rw [hfilter]
  have h2 : ((2 ^ 16 : Nat) : ℚ) = 2 ^ 16 := by norm_num
  rw [h2] at hcast
  have h3 : (2 ^ 16 : ℚ) ≠ 0 := by positivity
  have h4 : (2 ^ 16 : ℚ) * 1 = 2 ^ 16 * (T.map (fun entry => (2⁻¹ : ℚ) ^ entry.prefixBitLength)).sum := by
    rw [mul_one]
    exact hcast
  exact (mul_left_cancel₀ h3 h4).symm

theorem specMatchingEntry_of_covers (T : List PDFJBIG2HuffmanTableEntry) (width : Nat)
    (hcover : coversAllInputs T width = true) (hlen : ∀ e ∈ T, e.prefixBitLength ≤ width)
    (bits : List Bool) (hbits : width ≤ bits.length) :
    ∃ e, e ∈ T ∧ specMatchingEntry T bits = some e := by
  unfold coversAllInputs at hcover
  rw [List.all_eq_true] at hcover
  have hv : bitsToNat (bits.take width) < 2 ^ width := by
    have h1 := bitsToNat_lt (bits.take width)
    rw [List.length_take, Nat.min_eq_left hbits] at h1
    exact h1
  have hany := hcover _ (List.mem_range.mpr hv)
  rw [List.any_eq_true] at hany
  obtain ⟨e, he, hmatch⟩ := hany
  rw [beq_iff_eq] at hmatch
  have hpred : (bitsToNat (bits.take e.prefixBitLength) == e.prefixCode) = true := by
    rw [beq_iff_eq, bitsToNat_take_div bits e.prefixBitLength width (hlen e he) hbits]
    exact hmatch
  cases hfind : specMatchingEntry T bits with
  | none =>
    unfold specMatchingEntry at hfind
    rw [List.find?_eq_none] at hfind
    exact absurd hpred (hfind e he)
  | some e' =>
    unfold specMatchingEntry at hfind
    exact ⟨e', List.mem_of_find?_eq_some hfind, rfl⟩

set_option maxRecDepth 1000000 in
theorem standard_tables_checks : ∀ T ∈ standardHuffmanTables,
    List.Sorted (fun l r => l.prefixBitLength ≤ r.prefixBitLength) T ∧
    (∀ e ∈ T, e.prefixCode < 2 ^ e.prefixBitLength) ∧
    T.Pairwise (fun a b => ¬ a.codeword <+: b.codeword ∧ ¬ b.codeword <+: a.codeword) ∧
    (∀ e ∈ T, 0 < e.prefixBitLength ∧ e.prefixBitLength ≤ 16) ∧
    scaledKraft T = 2 ^ 16 ∧
    coversAllInputs T (finalBitCount T 0) = true ∧
    (∀ e ∈ T, e.prefixBitLength ≤ finalBitCount T 0) ∧
    (∀ a ∈ T, a.prefixBitLength ≤ 32 ∧ -2 ^ 31 ≤ a.value ∧ a.value < 2 ^ 31) := by
  decide

/-- C36: each of the fifteen standard tables A to O is listed by non-decreasing prefix bit
length, each literal prefix fits in its prefix bit length, the codewords of a table are
pairwise non-prefixing, the sum of 2^-prefixBitLength over a table is exactly 1, and
readSignedInteger on a standard table matches an entry for every input: whenever the
reader holds as many bits as the longest prefix of the table, some entry of the table is
selected, and readSignedInteger returns the result of that entry as soon as its extra bits
are there too. -/
theorem standard_tables_are_complete_prefix_codes :
    standardHuffmanTables.length = 15 ∧
    ∀ T ∈ standardHuffmanTables,
      List.Sorted (fun l r => l.prefixBitLength ≤ r.prefixBitLength) T ∧
      (∀ e ∈ T, e.prefixCode < 2 ^ e.prefixBitLength) ∧
      T.Pairwise (fun a b => ¬ a.codeword <+: b.codeword ∧ ¬ b.codeword <+: a.codeword) ∧
      kraftSum T = 1 ∧
      ∀ (data : List Bool) (position : Nat),
        position + finalBitCount T 0 ≤ data.length →
        ∃ e, e ∈ T ∧ specMatchingEntry T (data.drop position) = some e ∧
          (position + e.prefixBitLength + specExtraBits e ≤ data.length →
            PDFJBIG2HuffmanDecoder.readSignedInteger
                { m_reader := { data := data, position := position }, m_entries := T } =
              .ok ((specEntryValue e (bitsToNat ((data.drop (position + e.prefixBitLength)).take
                  (specExtraBits e)))).map wrapInt32,
                { data := data,
                  position := position + e.prefixBitLength + specExtraBits e })) := by
  refine ⟨rfl, ?_⟩
  intro T hT
  obtain ⟨hsorted, hfit, hpair, hlen, hkraft, hcover, hmax, hall⟩ := standard_tables_checks T hT
  refine ⟨hsorted, hfit, hpair, kraftSum_of_scaledKraft T hlen hkraft, ?_⟩
  intro data position hdata
  obtain ⟨e, he, hm⟩ := specMatchingEntry_of_covers T _ hcover hmax (data.drop position)
    (by rw [List.length_drop]; omega)
  refine ⟨e, he, hm, ?_⟩
  intro hextra
  exact readSignedIntegerLoop_match data position e T 0 hsorted
    (fun a ha => ⟨Nat.zero_le _, hall a ha⟩) hm hextra
/-! ## Code table segment -/

theorem wrapped_eq_spec : ∀ (pairs : List (Nat × Nat)) (running : Int),
    -2 ^ 31 ≤ running → (∀ r ∈ pairs.map Prod.snd, r ≤ 30) →
    specRunningValue running (pairs.map Prod.snd) < 2 ^ 31 →
    wrappedStandardEntries running pairs = specStandardEntries running pairs ∧
    wrappedRunningValue running (pairs.map Prod.snd) =
      specRunningValue running (pairs.map Prod.snd) := by
  intro pairs
  induction pairs with
  | nil =>
    intro running _ _ _
    refine ⟨rfl, ?_⟩
    simp [wrappedRunningValue, specRunningValue]
  | cons pr rest ih =>
    intro running hlow hr hsum
    obtain ⟨p, r⟩ := pr
    have hr30 : r ≤ 30 := hr r (by simp)
    have hpos : (0 : Int) < 2 ^ r := by positivity
    have hnonneg : (0 : Int) ≤ ((rest.map Prod.snd).map (fun r => (2 : Int) ^ r)).sum := by
      apply List.sum_nonneg
      intro x hx
      rw [List.mem_map] at hx
      obtain ⟨r', _, rfl⟩ := hx
      positivity
    have hsum' : running + 2 ^ r +
        ((rest.map Prod.snd).map (fun r => (2 : Int) ^ r)).sum < 2 ^ 31 := by
      have := hsum
      simp only [specRunningValue, List.map_cons, List.sum_cons] at this
      linarith
    have hstep : wrapInt32 (running + shiftLeftOne r) = running + 2 ^ r := by
      rw [shiftLeftOne_of_le r hr30]
      exact wrapInt32_of_int32 _ (by linarith) (by linarith)
    obtain ⟨h1, h2⟩ := ih (running + 2 ^ r) (by linarith)
      (fun x hx => hr x (by simp only [List.map_cons, List.mem_cons]; right; exact hx)) hsum'
    refine ⟨?_, ?_⟩
    · simp only [wrappedStandardEntries, specStandardEntries, hstep, h1]
    · simp only [wrappedRunningValue, List.map_cons, List.foldl_cons, hstep]
      have h2' := h2
      simp only [wrappedRunningValue, specRunningValue] at h2'
      rw [h2']
      simp only [specRunningValue, List.map_cons, List.sum_cons]
      ring

theorem codeTablePairs_succ (data : List Bool) (htps htrs position n : Nat) :
    codeTablePairs data htps htrs position (n + 1) =
      (bitsToNat ((data.drop position).take htps),
        bitsToNat ((data.drop (position + htps)).take htrs)) ::
      codeTablePairs data htps htrs (position + (htps + htrs)) n := by
  unfold codeTablePairs
  rw [List.range_succ_eq_map, List.map_cons, List.map_map]
  simp only [Nat.zero_mul, Nat.add_zero]
  congr 1
  apply List.map_congr_left
  intro k _
  simp only [Function.comp]
  have e : position + (k + 1) * (htps + htrs) = position + (htps + htrs) + k * (htps + htrs) := by
    ring
  rw [e]

theorem readStandardEntry_inv (htps htrs : Nat) (current : Int) (reader r : PDFBitReader)
    (entry : PDFJBIG2HuffmanTableEntry) (next : Int)
    (h : readStandardEntry htps htrs current reader = .ok (entry, next, r)) :
    entry = { value := current,
              prefixBitLength := bitsToNat ((reader.data.drop reader.position).take htps),
              rangeBitLength :=
                bitsToNat ((reader.data.drop (reader.position + htps)).take htrs),
              prefixCode := 0, type := HuffmanEntryType.Standard } ∧
    next = wrapInt32 (current + shiftLeftOne entry.rangeBitLength) ∧
    r.data = reader.data ∧ r.position = reader.position + (htps + htrs) ∧
    r.position ≤ reader.data.length := by
  unfold readStandardEntry at h
  cases h1 : reader.read htps with
  | error e => simp only [h1, bind, Except.bind, reduceCtorEq] at h
  | ok v1 =>
    obtain ⟨p, r1⟩ := v1
    obtain ⟨-, hp, hd1, hp1, -⟩ := read_inv _ _ _ _ h1
    cases h2 : r1.read htrs with
    | error e => simp only [h1, h2, bind, Except.bind, reduceCtorEq] at h
    | ok v2 =>
      obtain ⟨rl, r2⟩ := v2
      obtain ⟨hle2, hrl, hd2, hp2, -⟩ := read_inv _ _ _ _ h2
      simp only [h1, h2, bind, Except.bind, pure, Except.pure, Except.ok.injEq,
        Prod.mk.injEq] at h
      obtain ⟨he, hn, hr⟩ := h
      subst hr
      rw [hd1, hp1] at hrl hle2
      refine ⟨?_, ?_, ?_, ?_, ?_⟩
      · rw [← he, hp, hrl]
      · rw [← hn, ← he]
      · rw [hd2, hd1]
      · rw [hp2, hp1]; omega
      · rw [hp2, hp1]; omega

theorem readStandardEntries_spec : ∀ (fuel htps htrs : Nat) (htHigh current : Int)
    (reader : PDFBitReader) (table std : List PDFJBIG2HuffmanTableEntry) (r4 : PDFBitReader),
    readStandardEntries fuel htps htrs htHigh current reader table = some (.ok (std, r4)) →
    ∃ n : Nat,
      std = table ++ wrappedStandardEntries current
        (codeTablePairs reader.data htps htrs reader.position n) ∧
      r4.data = reader.data ∧ r4.position = reader.position + n * (htps + htrs) ∧
      (n = 0 ∨ r4.position ≤ reader.data.length) ∧
      (∀ e ∈ wrappedStandardEntries current
        (codeTablePairs reader.data htps htrs reader.position n), e.value < htHigh) ∧
      htHigh ≤ wrappedRunningValue current
        ((codeTablePairs reader.data htps htrs reader.position n).map Prod.snd) := by
  intro fuel
  induction fuel with
  | zero =>
    intro htps htrs htHigh current reader table std r4 h
    simp [readStandardEntries] at h
  | succ fuel ih =>
    intro htps htrs htHigh current reader table std r4 h
    rw [readStandardEntries] at h
    by_cases hlt : current < htHigh
    · rw [if_pos hlt] at h
      cases hstep : readStandardEntry htps htrs current reader with
      | error e => simp only [hstep, Option.some.injEq, reduceCtorEq] at h
      | ok v =>
        obtain ⟨entry, next, r⟩ := v
        simp only [hstep] at h
        obtain ⟨he, hn, hd, hp, hle⟩ := readStandardEntry_inv _ _ _ _ _ _ _ hstep
        obtain ⟨n, hstd, hd4, hp4, hn4, hval, hhigh⟩ := ih htps htrs htHigh next r _ std r4 h
        rw [hd, hp] at hstd hval hhigh
        have hrange : entry.rangeBitLength =
            bitsToNat ((reader.data.drop (reader.position + htps)).take htrs) := by
          rw [he]
        refine ⟨n + 1, ?_, ?_, ?_, ?_, ?_, ?_⟩
        · rw [hstd, codeTablePairs_succ, wrappedStandardEntries, List.append_assoc,
            List.singleton_append, ← hrange, ← hn]
          rw [he]
        · rw [hd4, hd]
        · rw [hp4, hp]
          ring
        · right
          rcases hn4 with h0 | h4
          · rw [hp4, h0, hp, Nat.zero_mul, Nat.add_zero]
            rw [hp] at hle
            exact hle
          · rw [hd] at h4
            exact h4
        · intro e hmem
          rw [codeTablePairs_succ, wrappedStandardEntries, List.mem_cons] at hmem
          rcases hmem with rfl | hmem
          · exact hlt
          · rw [← hrange, ← hn] at hmem
            exact hval e hmem
        · rw [codeTablePairs_succ, List.map_cons, wrappedRunningValue, List.foldl_cons]
          simp only []
          rw [← hrange, ← hn]
          exact hhigh
    · rw [if_neg hlt] at h
      simp only [Option.some.injEq, Except.ok.injEq, Prod.mk.injEq] at h
      obtain ⟨h1, h2⟩ := h
      subst h1 h2
      refine ⟨0, ?_, rfl, ?_, Or.inl rfl, ?_, ?_⟩
      · simp [codeTablePairs, wrappedStandardEntries]
      · simp
      · intro e hmem
        simp [codeTablePairs, wrappedStandardEntries] at hmem
      · simp only [codeTablePairs, List.range_zero, List.map_nil, wrappedRunningValue,
          List.foldl_nil]
        omega

theorem readCodeTableTail_inv ( hasOOB : Bool) (htps : Nat) (htLow htHigh : Int)
    (std table : List PDFJBIG2HuffmanTableEntry) (reader r : PDFBitReader)
    (h : readCodeTableTail hasOOB htps htLow htHigh std reader = .ok (table, r)) :
    table = std ++
      [ { value := htLow - 1,
          prefixBitLength := bitsToNat ((reader.data.drop reader.position).take htps),
          rangeBitLength := 32, prefixCode := 0, type := HuffmanEntryType.Negative },
        { value := htHigh,
          prefixBitLength := bitsToNat ((reader.data.drop (reader.position + htps)).take htps),
          rangeBitLength := 32, prefixCode := 0, type := HuffmanEntryType.Standard } ] ++
      (if hasOOB then
        [ { value := 0,
            prefixBitLength :=
              bitsToNat ((reader.data.drop (reader.position + htps + htps)).take htps),
            rangeBitLength := 0, prefixCode := 0, type := HuffmanEntryType.OutOfBand } ]
       else []) := by
  unfold readCodeTableTail at h
  cases h1 : reader.read htps with
  | error e => simp only [h1, bind, Except.bind, reduceCtorEq] at h
  | ok v1 =>
    obtain ⟨lowLength, r1⟩ := v1
    obtain ⟨-, hv1, hd1, hp1, -⟩ := read_inv _ _ _ _ h1
    cases h2 : r1.read htps with
    | error e => simp only [h1, h2, bind, Except.bind, reduceCtorEq] at h
    | ok v2 =>
      obtain ⟨highLength, r2⟩ := v2
      obtain ⟨-, hv2, hd2, hp2, -⟩ := read_inv _ _ _ _ h2
      rw [hd1, hp1] at hv2
      cases hasOOB with
      | false =>
        simp only [h1, h2, bind, Except.bind, pure, Except.pure, Bool.false_eq_true, if_false,
          Except.ok.injEq, Prod.mk.injEq] at h
        rw [← h.1, hv1, hv2]
        simp
      | true =>
        cases h3 : r2.read htps with
        | error e => simp only [h1, h2, h3, bind, Except.bind, if_true, reduceCtorEq] at h
        | ok v3 =>
          obtain ⟨oobLength, r3⟩ := v3
          obtain ⟨-, hv3, -, -, -⟩ := read_inv _ _ _ _ h3
          rw [hd2, hp2, hd1, hp1] at hv3
          simp only [h1, h2, h3, bind, Except.bind, pure, Except.pure, if_true,
            Except.ok.injEq, Prod.mk.injEq] at h
          rw [← h.1, hv1, hv2, hv3]
          simp

theorem readCodeTableHeader_inv (reader r3 : PDFBitReader) (flags : Nat) (htLow htHigh : Int)
    (h : readCodeTableHeader reader = .ok (flags, htLow, htHigh, r3)) :
    htLow ≠ -2 ^ 31 ∧ -2 ^ 31 ≤ htLow ∧ htLow < 2 ^ 31 := by
  unfold readCodeTableHeader at h
  cases h1 : reader.readUnsignedByte with
  | error e => simp only [h1, bind, Except.bind, reduceCtorEq] at h
  | ok v1 =>
    obtain ⟨f, r1⟩ := v1
    cases h2 : r1.readSignedInt with
    | error e => simp only [h1, h2, bind, Except.bind, reduceCtorEq] at h
    | ok v2 =>
      obtain ⟨lo, r2⟩ := v2
      cases h3 : r2.readSignedInt with
      | error e => simp only [h1, h2, h3, bind, Except.bind, reduceCtorEq] at h
      | ok v3 =>
        obtain ⟨hi, r3'⟩ := v3
        simp only [h1, h2, h3, bind, Except.bind] at h
        by_cases hmin : lo = -2 ^ 31
        · rw [if_pos hmin] at h
          cases h
        · rw [if_neg hmin] at h
          simp only [pure, Except.pure, Except.ok.injEq, Prod.mk.injEq] at h
          obtain ⟨-, hlo, -, -⟩ := h
          subst hlo
          have hr := readSignedInt_inv _ _ _ h2
          exact ⟨hmin, hr.1, hr.2.1⟩

set_option maxRecDepth 100000 in
/-- When processCodeTables has read its flags byte and its bounds and reaches the
construction of the prefixes, htLow is not the minimum 32-bit signed integer and the table
it has built is: standard entries whose prefix lengths are read in ((f >> 1) AND 7) + 1
bits and whose range lengths are read in ((f >> 4) AND 7) + 1 bits, each with the running
value as its base, the running value staying below htHigh before each of them and being at
least htHigh after the last; then the Negative entry of base htLow - 1 and range length 32,
the entry of base htHigh and range length 32, and an OutOfBand entry exactly when bit 0 of
f is set.  The running value is htLow plus the sum of 2^(range length) whenever no range
length exceeds 30 and that sum stays below 2^31.  A value of htLow equal to the minimum
32-bit signed integer is fatal.  The segment of `smallCodeTableStream` is read in this
way. -/
theorem processCodeTables_table :
    (∀ (fuel : Nat) (reader r3 r : PDFBitReader) (flags : Nat) (htLow htHigh : Int)
        (table : List PDFJBIG2HuffmanTableEntry),
      readCodeTableHeader reader = .ok (flags, htLow, htHigh, r3) →
      readCodeTable fuel reader = some (.ok (table, r)) →
      htLow ≠ -2 ^ 31 ∧
      CodeTableLayout r3.data r3.position (codeTablePrefixSize flags) (codeTableRangeSize flags)
        (codeTableHasOOB flags) htLow htHigh table) ∧
    (∀ (fuel : Nat) (reader r1 r2 r3 : PDFBitReader) (flags : Nat) (htHigh : Int),
      reader.readUnsignedByte = .ok (flags, r1) → r1.readSignedInt = .ok (-2 ^ 31, r2) →
      r2.readSignedInt = .ok (htHigh, r3) →
      readCodeTable fuel reader = some (.error PDFException.lowValueUnderflow)) ∧
    (∀ flags : Nat, codeTableHasOOB flags = flags.testBit 0) ∧
    readCodeTable 3 (PDFBitReader.ofBytes smallCodeTableStream) =
      some (.ok ([⟨0, 1, 1, 0, HuffmanEntryType.Standard⟩,
                  ⟨2, 1, 0, 0, HuffmanEntryType.Standard⟩,
                  ⟨-1, 1, 32, 0, HuffmanEntryType.Negative⟩,
                  ⟨3, 1, 32, 0, HuffmanEntryType.Standard⟩,
                  ⟨0, 1, 0, 0, HuffmanEntryType.OutOfBand⟩],
        ⟨bytesToBits smallCodeTableStream, 79⟩)) := by
  refine ⟨?_, ?_, ?_, by decide⟩
  · intro fuel reader r3 r flags htLow htHigh table hheader hok
    obtain ⟨hmin, hlow, -⟩ := readCodeTableHeader_inv _ _ _ _ _ hheader
    refine ⟨hmin, ?_⟩
    unfold readCodeTable at hok
    rw [hheader] at hok
    simp only at hok
    cases hloop : readStandardEntries fuel (codeTablePrefixSize flags) (codeTableRangeSize flags)
        htHigh htLow r3 [] with
    | none => simp only [hloop, reduceCtorEq] at hok
    | some res =>
      cases res with
      | error e => simp only [hloop, Option.some.injEq, reduceCtorEq] at hok
      | ok v =>
        obtain ⟨std, r4⟩ := v
        simp only [hloop, Option.some.injEq] at hok
        obtain ⟨n, hstd, hd4, hp4, -, hval, hhigh⟩ := readStandardEntries_spec _ _ _ _ _ _ _ _ _ hloop
        have htable := readCodeTableTail_inv _ _ _ _ _ _ _ _ hok
        rw [hd4, hp4, hstd, List.nil_append] at htable
        exact ⟨n, htable, hval, hhigh, fun hr hsum => wrapped_eq_spec _ _ hlow hr hsum⟩
  · intro fuel reader r1 r2 r3 flags htHigh h1 h2 h3
    unfold readCodeTable readCodeTableHeader
    simp only [h1, h2, h3, bind, Except.bind, if_true]
  · intro flags
    unfold codeTableHasOOB
    rw [Nat.testBit_zero, Nat.and_one_is_mod]
    rcases Nat.mod_two_eq_zero_or_one flags with h | h <;> simp [h]

set_option maxRecDepth 100000 in
/-- C28: the code table segment of `wrappingCodeTableStream` has htLow = 0, htHigh = 1 and
a first range length of 31.  By the formula of the claim the running
value after the first entry is 0 + 2^31, which is at least htHigh, so there would be one
standard entry; processCodeTables builds four, with the bases 0, -2^31, -2^30 and 0, and
buildPrefixes accepts the table. -/
theorem processCodeTables_range_31_wraps :
    readCodeTableHeader (PDFBitReader.ofBytes wrappingCodeTableStream) =
      .ok (0x44, 0, 1, ⟨bytesToBits wrappingCodeTableStream, 72⟩) ∧
    readCodeTable 10 (PDFBitReader.ofBytes wrappingCodeTableStream) =
      some (.ok ([⟨0, 1, 31, 0, HuffmanEntryType.Standard⟩,
                  ⟨-2147483648, 2, 30, 0, HuffmanEntryType.Standard⟩,
                  ⟨-1073741824, 3, 30, 0, HuffmanEntryType.Standard⟩,
                  ⟨0, 4, 0, 0, HuffmanEntryType.Standard⟩,
                  ⟨-1, 5, 32, 0, HuffmanEntryType.Negative⟩,
                  ⟨1, 5, 32, 0, HuffmanEntryType.Standard⟩],
        ⟨bytesToBits wrappingCodeTableStream, 110⟩)) ∧
    specStandardEntries 0 [(1, 31)] = [⟨0, 1, 31, 0, HuffmanEntryType.Standard⟩] ∧
    specRunningValue 0 [31] = 2147483648 ∧
    PDFJBIG2HuffmanCodeTable.buildPrefixes
        [⟨0, 1, 31, 0, HuffmanEntryType.Standard⟩,
         ⟨-2147483648, 2, 30, 0, HuffmanEntryType.Standard⟩,
         ⟨-1073741824, 3, 30, 0, HuffmanEntryType.Standard⟩,
         ⟨0, 4, 0, 0, HuffmanEntryType.Standard⟩,
         ⟨-1, 5, 32, 0, HuffmanEntryType.Negative⟩,
         ⟨1, 5, 32, 0, HuffmanEntryType.Standard⟩] =
      .ok [⟨0, 1, 31, 0b0, HuffmanEntryType.Standard⟩,
           ⟨-2147483648, 2, 30, 0b10, HuffmanEntryType.Standard⟩,
           ⟨-1073741824, 3, 30, 0b110, HuffmanEntryType.Standard⟩,
           ⟨0, 4, 0, 0b1110, HuffmanEntryType.Standard⟩,
           ⟨-1, 5, 32, 0b11110, HuffmanEntryType.Negative⟩,
           ⟨1, 5, 32, 0b11111, HuffmanEntryType.Standard⟩] := by
  refine ⟨by decide, by decide, by decide, by decide, by decide⟩

set_option maxRecDepth 100000 in
theorem qe_table_rows : ∀ row, row < 47 →
    (JBIG2_ARITHMETIC_DECODER_QE_VALUES.getD row ⟨0, 0, 0, 0⟩).newMPS ≤ 46 ∧
    (JBIG2_ARITHMETIC_DECODER_QE_VALUES.getD row ⟨0, 0, 0, 0⟩).newLPS ≤ 46 ∧
    0x00010000 ≤ (JBIG2_ARITHMETIC_DECODER_QE_VALUES.getD row ⟨0, 0, 0, 0⟩).Qe ∧
    (JBIG2_ARITHMETIC_DECODER_QE_VALUES.getD row ⟨0, 0, 0, 0⟩).Qe ≤ 0x56010000 := by
  decide

theorem topBitClear_eq (a : Nat) (h : a < 2 ^ 32) : topBitClear a = decide (a < 2 ^ 31) := by
  unfold topBitClear
  have h31 : (0x80000000 : Nat) = 2 ^ 31 := by norm_num
  rw [h31, Nat.and_two_pow, Nat.testBit_to_div_mod]
  by_cases hlt : a < 2147483648
  · have h0 : a / 2147483648 = 0 := Nat.div_eq_of_lt hlt
    simp [h0, hlt]
  · have h1 : a / 2147483648 = 1 := by omega
    simp [h1, hlt]

theorem flipMPS_le (MPS : Nat) (h : MPS ≤ 1) : flipMPS MPS ≤ 1 := by
  unfold flipMPS
  interval_cases MPS <;> decide

theorem setQeRowIndexAndMPS_getD (state : PDFJBIG2ArithmeticDecoderState)
    (context row mps c : Nat) :
    (state.setQeRowIndexAndMPS context row mps).m_state.getD c (0, 0) =
      if c = context ∧ context < state.m_state.length then (row, mps)
      else state.m_state.getD c (0, 0) := by
  unfold PDFJBIG2ArithmeticDecoderState.setQeRowIndexAndMPS
  simp only [List.getD_eq_getElem?_getD, List.getElem?_set]
  by_cases hc : context = c
  · subst hc
    by_cases hlt : context < state.m_state.length
    · simp [hlt]
    · rw [List.getElem?_eq_none (by simpa using hlt)]
      simp [hlt]
  · have hc' : ¬ c = context := fun h => hc h.symm
    simp [hc, hc']

theorem setQeRowIndexAndMPS_valid (state : PDFJBIG2ArithmeticDecoderState)
    (context row mps : Nat) (hv : state.Valid) (hrow : row ≤ 46) (hmps : mps ≤ 1) :
    (state.setQeRowIndexAndMPS context row mps).Valid := by
  intro c
  have h := setQeRowIndexAndMPS_getD state context row mps c
  unfold PDFJBIG2ArithmeticDecoderState.getQeRowIndex PDFJBIG2ArithmeticDecoderState.getMPS
  rw [h]
  split_ifs
  · exact ⟨hrow, hmps⟩
  · exact hv c

/-- What the exchange step of `perform_DECODE` does to the state and the decision. -/
theorem decodeExchange_state (context : Nat) (state : PDFJBIG2ArithmeticDecoderState)
    (d : PDFJBIG2ArithmeticDecoderRegisters) (hv : state.Valid) :
    (decodeExchange context state d).2.1.Valid ∧ (decodeExchange context state d).1 ≤ 1 ∧
    (∀ c, c ≠ context → (decodeExchange context state d).2.1.m_state.getD c (0, 0) =
      state.m_state.getD c (0, 0)) ∧
    (decodeExchange context state d).2.1.m_state.length = state.m_state.length := by
  obtain ⟨hrow, hmps⟩ := hv context
  obtain ⟨hnm, hnl, -, -⟩ := qe_table_rows (state.getQeRowIndex context) (by omega)
  have hflip := flipMPS_le _ hmps
  have hnew : (if (JBIG2_ARITHMETIC_DECODER_QE_VALUES.getD (state.getQeRowIndex context)
      ⟨0, 0, 0, 0⟩).switchFlag ≠ 0 then flipMPS (state.getMPS context)
      else state.getMPS context) ≤ 1 := by
    split_ifs
    · exact hflip
    · exact hmps
  have hframe : ∀ row mps c, c ≠ context →
      (state.setQeRowIndexAndMPS context row mps).m_state.getD c (0, 0) =
        state.m_state.getD c (0, 0) := by
    intro row mps c hc
    rw [setQeRowIndexAndMPS_getD, if_neg (fun h => hc h.1)]
  have hlen : ∀ row mps,
      (state.setQeRowIndexAndMPS context row mps).m_state.length = state.m_state.length := by
    intro row mps
    simp [PDFJBIG2ArithmeticDecoderState.setQeRowIndexAndMPS]
  unfold decodeExchange
  simp only
  generalize (if (JBIG2_ARITHMETIC_DECODER_QE_VALUES.getD (state.getQeRowIndex context)
      ⟨0, 0, 0, 0⟩).switchFlag ≠ 0 then flipMPS (state.getMPS context)
      else state.getMPS context) = newMPS at hnew ⊢
  split_ifs
  · exact ⟨setQeRowIndexAndMPS_valid _ _ _ _ hv hnl hnew, hflip, hframe _ _, hlen _ _⟩
  · exact ⟨setQeRowIndexAndMPS_valid _ _ _ _ hv hnm hmps, hmps, hframe _ _, hlen _ _⟩
  · exact ⟨hv, hmps, fun _ _ => rfl, rfl⟩
  · exact ⟨setQeRowIndexAndMPS_valid _ _ _ _ hv hnm hmps, hmps, hframe _ _, hlen _ _⟩
  · exact ⟨setQeRowIndexAndMPS_valid _ _ _ _ hv hnl hnew, hflip, hframe _ _, hlen _ _⟩

theorem perform_DECODE_inv (fuel context : Nat) (state state1 : PDFJBIG2ArithmeticDecoderState)
    (d d1 : PDFJBIG2ArithmeticDecoderRegisters) (D : Nat)
    (h : perform_DECODE fuel context state d = some (.ok (D, state1, d1))) :
    D = (decodeExchange context state d).1 ∧ state1 = (decodeExchange context state d).2.1 ∧
    (((decodeExchange context state d).2.2.2 = true ∧
        d1 = (decodeExchange context state d).2.2.1) ∨
      ((decodeExchange context state d).2.2.2 = false ∧
        renormD fuel (decodeExchange context state d).2.2.1 = some (.ok d1))) := by
  unfold perform_DECODE at h
  rcases hx : decodeExchange context state d with ⟨D0, s0, d0, b⟩
  rw [hx] at h
  cases b with
  | true =>
    simp only [Option.some.injEq, Except.ok.injEq, Prod.mk.injEq] at h
    obtain ⟨h1, h2, h3⟩ := h
    exact ⟨h1.symm, h2.symm, Or.inl ⟨rfl, h3.symm⟩⟩
  | false =>
    simp only at h
    cases hr : renormD fuel d0 with
    | none => simp only [hr, reduceCtorEq] at h
    | some res =>
      cases res with
      | error e => simp only [hr, Option.some.injEq, reduceCtorEq] at h
      | ok d2 =>
        simp only [hr, Option.some.injEq, Except.ok.injEq, Prod.mk.injEq] at h
        obtain ⟨h1, h2, h3⟩ := h
        subst h3
        exact ⟨h1.symm, h2.symm, Or.inr ⟨rfl, rfl⟩⟩

set_option maxRecDepth 100000 in
/-- C29: the table JBIG2_ARITHMETIC_DECODER_QE_VALUES has 47 rows, and each of its
next-row-if-MPS and next-row-if-LPS entries is at most 46; so when every context of the
state has a row index in 0..46 and an MPS bit in {0,1} before perform_DECODE, the same
holds after it, the returned decision is 0 or 1, and only the entry of the decoded context
may have changed.  (The call on the registers left by perform_INITDEC on the bytes AD 00
00 00 returns the decision 1 and moves context 0 to row 1 with MPS 1.) -/
theorem perform_DECODE_keeps_state_valid :
    JBIG2_ARITHMETIC_DECODER_QE_VALUES.length = 47 ∧
    (∀ q ∈ JBIG2_ARITHMETIC_DECODER_QE_VALUES, q.newMPS ≤ 46 ∧ q.newLPS ≤ 46) ∧
    (∀ (fuel context D : Nat) (state state1 : PDFJBIG2ArithmeticDecoderState)
        (d d1 : PDFJBIG2ArithmeticDecoderRegisters),
      state.Valid → perform_DECODE fuel context state d = some (.ok (D, state1, d1)) →
      state1.Valid ∧ D ≤ 1 ∧
      (∀ c, c ≠ context → state1.m_state.getD c (0, 0) = state.m_state.getD c (0, 0)) ∧
      state1.m_state.length = state.m_state.length) ∧
    perform_DECODE 15 0 (PDFJBIG2ArithmeticDecoderState.reset 1)
        ⟨0x56800000, 0x80000000, 1, 0, ⟨bytesToBits [0xAD, 0, 0, 0], 16⟩⟩ =
      some (.ok (1, ⟨[(1, 1), (0, 0)]⟩,
        ⟨0x1FC0000, 0xA7FC0000, 7, 0, ⟨bytesToBits [0xAD, 0, 0, 0], 24⟩⟩)) := by
  refine ⟨rfl, by decide, ?_, by decide⟩
  intro fuel context D state state1 d d1 hv h
  obtain ⟨hD, hs, -⟩ := perform_DECODE_inv _ _ _ _ _ _ _ h
  rw [hD, hs]
  exact decodeExchange_state context state d hv

theorem perform_BYTEIN_m_a (d d1 : PDFJBIG2ArithmeticDecoderRegisters)
    (h : perform_BYTEIN d = .ok d1) : d1.m_a = d.m_a := by
  unfold perform_BYTEIN at h
  by_cases hff : d.m_lastByte = 0xFF
  · rw [if_pos hff] at h
    cases hl : d.m_reader.look 8 with
    | error e => simp only [hl, bind, Except.bind, reduceCtorEq] at h
    | ok B1 =>
      simp only [hl, bind, Except.bind] at h
      by_cases hB : B1 > 0x8F
      · rw [if_pos hB] at h
        simp only [pure, Except.pure, Except.ok.injEq] at h
        rw [← h]
      · rw [if_neg hB] at h
        cases hr : d.m_reader.readUnsignedByte with
        | error e => simp only [hr, reduceCtorEq] at h
        | ok v =>
          simp only [hr, pure, Except.pure, Except.ok.injEq] at h
          rw [← h]
  · rw [if_neg hff] at h
    cases hr : d.m_reader.readUnsignedByte with
    | error e => simp only [hr, bind, Except.bind, reduceCtorEq] at h
    | ok v =>
      simp only [hr, bind, Except.bind, pure, Except.pure, Except.ok.injEq] at h
      rw [← h]

/-- The renormalisation loop ends within `fuel` shifts when the interval register, below
`2 ^ 31`, reaches `2 ^ 31` once shifted `fuel` times; it leaves the top bit set. -/
theorem renormD_terminates : ∀ (fuel : Nat) (d : PDFJBIG2ArithmeticDecoderRegisters),
    d.m_a < 2 ^ 31 → 2 ^ 31 ≤ d.m_a * 2 ^ fuel →
    ∃ res, renormD fuel d = some res ∧
      ∀ d1, res = .ok d1 → 2 ^ 31 ≤ d1.m_a ∧ d1.m_a < 2 ^ 32 := by
  intro fuel
  induction fuel with
  | zero =>
    intro d hlt hge
    omega
  | succ fuel ih =>
    intro d hlt hge
    rw [renormD]
    cases hb : (if d.m_ct = 0 then perform_BYTEIN d else pure d) with
    | error e =>
      refine ⟨_, rfl, ?_⟩
      intro d1 h
      cases h
    | ok d1 =>
      have ha : d1.m_a = d.m_a := by
        by_cases hct : d.m_ct = 0
        · rw [if_pos hct] at hb
          exact perform_BYTEIN_m_a _ _ hb
        · rw [if_neg hct] at hb
          simp only [pure, Except.pure, Except.ok.injEq] at hb
          rw [← hb]
      have hshift : (d1.m_a <<< 1) % 2 ^ 32 = 2 * d.m_a := by
        rw [ha, Nat.shiftLeft_eq, Nat.mod_eq_of_lt (by omega)]
        omega
      simp only [hshift]
      rw [topBitClear_eq _ (by omega)]
      by_cases htop : 2 * d.m_a < 2 ^ 31
      · rw [decide_eq_true htop, if_pos rfl]
        apply ih
        · exact htop
        · show 2 ^ 31 ≤ 2 * d.m_a * 2 ^ fuel
          rw [pow_succ] at hge
          calc 2 ^ 31 ≤ d.m_a * (2 ^ fuel * 2) := hge
            _ = 2 * d.m_a * 2 ^ fuel := by ring
      · rw [decide_eq_false htop, if_neg Bool.false_ne_true]
        refine ⟨_, rfl, ?_⟩
        intro d2 h
        simp only [Except.ok.injEq] at h
        rw [← h]
        constructor
        · show 2 ^ 31 ≤ 2 * d.m_a
          omega
        · show 2 * d.m_a < 2 ^ 32
          omega

theorem renormD_mono : ∀ (fuel extra : Nat) (d : PDFJBIG2ArithmeticDecoderRegisters)
    (res : Except PDFException PDFJBIG2ArithmeticDecoderRegisters),
    renormD fuel d = some res → renormD (fuel + extra) d = some res := by
  intro fuel
  induction fuel with
  | zero =>
    intro extra d res h
    simp [renormD] at h
  | succ fuel ih =>
    intro extra d res h
    have e : fuel + 1 + extra = (fuel + extra) + 1 := by omega
    rw [e, renormD]
    rw [renormD] at h
    cases hb : (if d.m_ct = 0 then perform_BYTEIN d else pure d) with
    | error e =>
      simp only [hb] at h ⊢
      exact h
    | ok d1 =>
      simp only [hb] at h ⊢
      split_ifs at h ⊢ with htop
      · exact ih extra _ res h
      · exact h

/-- The interval register across the exchange step of `perform_DECODE`. -/
theorem decodeExchange_interval (context : Nat) (state : PDFJBIG2ArithmeticDecoderState)
    (d : PDFJBIG2ArithmeticDecoderRegisters) (hlow : 2 ^ 31 ≤ d.m_a) (hhigh : d.m_a < 2 ^ 32)
    (hrow : state.getQeRowIndex context ≤ 46) :
    ((decodeExchange context state d).2.2.2 = true →
      2 ^ 31 ≤ (decodeExchange context state d).2.2.1.m_a ∧
      (decodeExchange context state d).2.2.1.m_a < 2 ^ 32) ∧
    ((decodeExchange context state d).2.2.2 = false →
      (decodeExchange context state d).2.2.1.m_a < 2 ^ 31 ∧
      2 ^ 31 ≤ (decodeExchange context state d).2.2.1.m_a * 2 ^ 15) := by
  obtain ⟨-, -, hqlow, hqhigh⟩ := qe_table_rows (state.getQeRowIndex context) (by omega)
  have hsub : (d.m_a + 2 ^ 32 - (JBIG2_ARITHMETIC_DECODER_QE_VALUES.getD
      (state.getQeRowIndex context) ⟨0, 0, 0, 0⟩).Qe) % 2 ^ 32 =
      d.m_a - (JBIG2_ARITHMETIC_DECODER_QE_VALUES.getD
        (state.getQeRowIndex context) ⟨0, 0, 0, 0⟩).Qe := by
    have e : d.m_a + 2 ^ 32 - (JBIG2_ARITHMETIC_DECODER_QE_VALUES.getD
        (state.getQeRowIndex context) ⟨0, 0, 0, 0⟩).Qe =
        (d.m_a - (JBIG2_ARITHMETIC_DECODER_QE_VALUES.getD
          (state.getQeRowIndex context) ⟨0, 0, 0, 0⟩).Qe) + 2 ^ 32 := by omega
    rw [e, Nat.add_mod_right, Nat.mod_eq_of_lt (by omega)]
  unfold decodeExchange
  simp only [hsub]
  generalize (JBIG2_ARITHMETIC_DECODER_QE_VALUES.getD
    (state.getQeRowIndex context) ⟨0, 0, 0, 0⟩) = q at hqlow hqhigh ⊢
  rw [topBitClear_eq _ (by omega)]
  by_cases hc : d.m_c ≥ q.Qe
  · rw [if_pos hc]
    by_cases htop : d.m_a - q.Qe < 2 ^ 31
    · rw [decide_eq_true htop, if_pos rfl]
      by_cases hlt : d.m_a - q.Qe < q.Qe
      · rw [if_pos hlt]
        refine ⟨fun h => (by cases h), fun _ => ⟨htop, ?_⟩⟩
        show 2 ^ 31 ≤ (d.m_a - q.Qe) * 2 ^ 15
        omega
      · rw [if_neg hlt]
        refine ⟨fun h => (by cases h), fun _ => ⟨htop, ?_⟩⟩
        show 2 ^ 31 ≤ (d.m_a - q.Qe) * 2 ^ 15
        omega
    · rw [decide_eq_false htop, if_neg Bool.false_ne_true]
      refine ⟨fun _ => ⟨?_, ?_⟩, fun h => (by cases h)⟩
      · show 2 ^ 31 ≤ d.m_a - q.Qe
        omega
      · show d.m_a - q.Qe < 2 ^ 32
        omega
  · rw [if_neg hc]
    by_cases hlt : d.m_a - q.Qe < q.Qe
    · rw [if_pos hlt]
      refine ⟨fun h => (by cases h), fun _ => ⟨?_, ?_⟩⟩
      · show q.Qe < 2 ^ 31
        omega
      · show 2 ^ 31 ≤ q.Qe * 2 ^ 15
        omega
    · rw [if_neg hlt]
      refine ⟨fun h => (by cases h), fun _ => ⟨?_, ?_⟩⟩
      · show q.Qe < 2 ^ 31
        omega
      · show 2 ^ 31 ≤ q.Qe * 2 ^ 15
        omega

theorem perform_INITDEC_m_a (reader : PDFBitReader) (d : PDFJBIG2ArithmeticDecoderRegisters)
    (h : perform_INITDEC reader = .ok d) : d.m_a = 0x80000000 := by
  unfold perform_INITDEC at h
  cases hr : reader.readUnsignedByte with
  | error e => simp only [hr, bind, Except.bind, reduceCtorEq] at h
  | ok v =>
    obtain ⟨B, r⟩ := v
    simp only [hr, bind, Except.bind] at h
    cases hb : perform_BYTEIN
        { m_c := (B <<< 16) % 2 ^ 32, m_a := 0, m_ct := 0, m_lastByte := B, m_reader := r } with
    | error e => simp only [hb, reduceCtorEq] at h
    | ok d1 =>
      simp only [hb, pure, Except.pure, Except.ok.injEq] at h
      rw [← h]

set_option maxRecDepth 100000 in
/-- C30: when the interval register m_a has its top bit set before perform_DECODE (as
after perform_INITDEC, which sets it to 0x80000000) and the row index of the context is in
0..46, then Qe is at most m_a, so m_a - Qe does not underflow; the renormalisation loop ends
within 15 shifts, so perform_DECODE returns (a decision, or the exception of a read past the
end of the data in perform_BYTEIN); and when it returns a decision m_a has its top bit set
again.  Row 45, with Qe = 0x00010000, takes the 15 shifts. -/
theorem perform_DECODE_interval_register :
    (∀ (context : Nat) (state : PDFJBIG2ArithmeticDecoderState)
        (d : PDFJBIG2ArithmeticDecoderRegisters),
      2 ^ 31 ≤ d.m_a → d.m_a < 2 ^ 32 → state.getQeRowIndex context ≤ 46 →
      (JBIG2_ARITHMETIC_DECODER_QE_VALUES.getD (state.getQeRowIndex context)
        ⟨0, 0, 0, 0⟩).Qe ≤ d.m_a ∧
      ∀ fuel, 15 ≤ fuel →
        ∃ res, perform_DECODE fuel context state d = some res ∧
          ∀ D state1 d1, res = .ok (D, state1, d1) → 2 ^ 31 ≤ d1.m_a ∧ d1.m_a < 2 ^ 32) ∧
    (∀ (reader : PDFBitReader) (d : PDFJBIG2ArithmeticDecoderRegisters),
      perform_INITDEC reader = .ok d → d.m_a = 0x80000000) ∧
    renormD 14 ⟨0, 0x00010000, 20, 0, ⟨[], 0⟩⟩ = none ∧
    renormD 15 ⟨0, 0x00010000, 20, 0, ⟨[], 0⟩⟩ = some (.ok ⟨0, 0x80000000, 5, 0, ⟨[], 0⟩⟩) := by
  refine ⟨?_, perform_INITDEC_m_a, by decide, by decide⟩
  intro context state d hlow hhigh hrow
  obtain ⟨-, -, -, hqhigh⟩ := qe_table_rows (state.getQeRowIndex context) (by omega)
  refine ⟨by omega, ?_⟩
  intro fuel hfuel
  obtain ⟨h1, h2⟩ := decodeExchange_interval context state d hlow hhigh hrow
  unfold perform_DECODE
  rcases hx : decodeExchange context state d with ⟨D0, s0, d0, b⟩
  rw [hx] at h1 h2
  cases b with
  | true =>
    refine ⟨_, rfl, ?_⟩
    intro D state1 d1 h
    simp only [Except.ok.injEq, Prod.mk.injEq] at h
    obtain ⟨-, -, h3⟩ := h
    rw [← h3]
    exact h1 rfl
  | false =>
    obtain ⟨hlt, hge⟩ := h2 rfl
    obtain ⟨res, hres, hprop⟩ := renormD_terminates 15 d0 hlt hge
    have hmono := renormD_mono 15 (fuel - 15) d0 res hres
    have e : 15 + (fuel - 15) = fuel := by omega
    rw [e] at hmono
    simp only [hmono]
    cases res with
    | error e =>
      refine ⟨_, rfl, ?_⟩
      intro D state1 d1 h
      cases h
    | ok d2 =>
      refine ⟨_, rfl, ?_⟩
      intro D state1 d1 h
      simp only [Except.ok.injEq, Prod.mk.injEq] at h
      obtain ⟨-, -, h3⟩ := h
      rw [← h3]
      exact hprop d2 rfl
/-! ## Generic refinement region decoding -/

set_option maxRecDepth 1000000 in
/-- C40 (failing input): readRefinementBitmap builds its arithmetic decoder on the whole
stream of the decoder's reader, from its first byte, so its result does not depend on where
that reader stands.  The streams `refinementStreamA` and `refinementStreamB` hold the same
refinement segment and differ only in their first byte, in the segment number, 29 bytes
before the coded data; with the same parameters and reference bitmap and the reader at the
start of the coded data, the pixel decoded is 0x00 for the first and 0xFF for the second. -/
theorem readRefinementBitmap_decodes_from_stream_start :
    (∀ (fuel : Nat) (parameters : PDFJBIG2BitmapRefinementDecodingParameters)
        (state : PDFJBIG2ArithmeticDecoderState) (data : List Bool) (p1 p2 : Nat),
      readRefinementBitmap fuel parameters state ⟨data, p1⟩ =
        readRefinementBitmap fuel parameters state ⟨data, p2⟩) ∧
    refinementStreamA.drop 1 = refinementStreamB.drop 1 ∧
    (PDFJBIG2SegmentHeader.read (PDFBitReader.ofBytes refinementStreamA)).map
        (fun r => (r.1.m_segmentType, r.1.m_immediate, r.1.m_segmentDataLength,
          r.2.position)) =
      .ok (JBIG2SegmentType.GenericRefinementRegion, true, 21, 88) ∧
    (readRefinementBitmap 15 onePixelRefinement
        (PDFJBIG2ArithmeticDecoderState.reset (refinementStateBits 1))
        ⟨bytesToBits refinementStreamA, 8 * 29⟩).run =
      some (.ok (⟨1, 1, [0x00]⟩,
        (PDFJBIG2ArithmeticDecoderState.reset 10).setQeRowIndexAndMPS 0 1 0)) ∧
    (readRefinementBitmap 15 onePixelRefinement
        (PDFJBIG2ArithmeticDecoderState.reset (refinementStateBits 1))
        ⟨bytesToBits refinementStreamB, 8 * 29⟩).run =
      some (.ok (⟨1, 1, [0xFF]⟩,
        (PDFJBIG2ArithmeticDecoderState.reset 10).setQeRowIndexAndMPS 0 1 1)) := by
  refine ⟨?_, by decide, by decide, by decide, by decide⟩
  intro fuel parameters state data p1 p2
  rfl
/-! ## Generic region decoding: the bitmap -/

theorem canonical_table_prefix_free (out : List PDFJBIG2HuffmanTableEntry)
    (hcanon : CanonicalFrom 0 out)
    (hsorted : List.Sorted (fun l r => l.prefixBitLength ≤ r.prefixBitLength) out)
    (hlen : ∀ e ∈ out, e.prefixBitLength ≤ 16) (hkraft : scaledKraft out ≤ 2 ^ 16) :
    (∀ e ∈ out, e.prefixCode < 2 ^ e.prefixBitLength) ∧
    out.Pairwise (fun a b => ¬ a.codeword <+: b.codeword ∧ ¬ b.codeword <+: a.codeword) := by
  have hcode : ∀ e ∈ out, e.prefixCode < 2 ^ e.prefixBitLength := by
    intro e he
    have hb := (canonicalFrom_bounds out 0 hcanon e he).2
    have hl := hlen e he
    have hsplit := two_pow_split e.prefixBitLength hl
    have hpos : 0 < 2 ^ (16 - e.prefixBitLength) := by positivity
    have h1 : (e.prefixCode + 1) * 2 ^ (16 - e.prefixBitLength) ≤
        2 ^ e.prefixBitLength * 2 ^ (16 - e.prefixBitLength) := by
      rw [Nat.mul_comm (2 ^ e.prefixBitLength), hsplit, Nat.add_mul, Nat.one_mul]
      omega
    have := Nat.le_of_mul_le_mul_right h1 hpos
    omega
  have hpair := canonicalFrom_pairwise out 0 hcanon hsorted
  refine ⟨hcode, ?_⟩
  rw [List.pairwise_iff_forall_sublist] at hpair ⊢
  intro a b hab
  have ha : a ∈ out := hab.subset (List.mem_cons_self _ _)
  have hb : b ∈ out := hab.subset (List.mem_cons_of_mem _ (List.mem_cons_self _ _))
  exact codedBefore_prefix_free a b (hpair hab) (hcode a ha) (hcode b hb) (hlen b hb)

/-- C25: for every entry list whose prefix bit lengths are at most 16 and whose Kraft sum
(the sum of 2^(-length) over the entries of non-zero length) is at most 1, buildPrefixes
succeeds, and the table it returns is sorted by non-decreasing prefix bit length, every
assigned prefix fits in its prefix bit length, and no codeword is a prefix of, or equal to,
the codeword of another entry. -/
theorem buildPrefixes_prefix_free_of_kraft (entries : List PDFJBIG2HuffmanTableEntry)
    (hlen : ∀ e ∈ entries, e.prefixBitLength ≤ 16) (hkraft : kraftSum entries ≤ 1) :
    ∃ out, PDFJBIG2HuffmanCodeTable.buildPrefixes entries = .ok out ∧
      List.Sorted (fun l r => l.prefixBitLength ≤ r.prefixBitLength) out ∧
      (∀ e ∈ out, e.prefixCode < 2 ^ e.prefixBitLength) ∧
      out.Pairwise (fun a b => ¬ a.codeword <+: b.codeword ∧ ¬ b.codeword <+: a.codeword) := by
  have hk := scaledKraft_of_kraftSum entries hlen hkraft
  haveI : IsTotal PDFJBIG2HuffmanTableEntry
      (fun l r => l.prefixBitLength ≤ r.prefixBitLength) := ⟨fun a b => Nat.le_total _ _⟩
  haveI : IsTrans PDFJBIG2HuffmanTableEntry
      (fun l r => l.prefixBitLength ≤ r.prefixBitLength) := ⟨fun _ _ _ => Nat.le_trans⟩
  have hsorted := List.sorted_insertionSort (fun (l r : PDFJBIG2HuffmanTableEntry) =>
    l.prefixBitLength ≤ r.prefixBitLength)
    (entries.filter (fun entry => !(entry.prefixBitLength == 0)))
  have hmem : ∀ e ∈ (entries.filter (fun entry => !(entry.prefixBitLength == 0))).insertionSort
      (fun l r => l.prefixBitLength ≤ r.prefixBitLength), e ∈ entries := by
    intro e he
    have := (List.perm_insertionSort _ _).subset he
    exact List.mem_of_mem_filter this
  unfold PDFJBIG2HuffmanCodeTable.buildPrefixes
  dsimp only
  generalize (entries.filter (fun entry => !(entry.prefixBitLength == 0))).insertionSort
    (fun l r => l.prefixBitLength ≤ r.prefixBitLength) = sorted at hk hsorted hmem ⊢
  have finish : ∀ out : List PDFJBIG2HuffmanTableEntry,
      out.map PDFJBIG2HuffmanTableEntry.withoutPrefix =
        sorted.map PDFJBIG2HuffmanTableEntry.withoutPrefix → CanonicalFrom 0 out →
      List.Sorted (fun l r => l.prefixBitLength ≤ r.prefixBitLength) out ∧
      (∀ e ∈ out, e.prefixCode < 2 ^ e.prefixBitLength) ∧
      out.Pairwise (fun a b => ¬ a.codeword <+: b.codeword ∧ ¬ b.codeword <+: a.codeword) := by
    intro out hmap hcanon
    have hs := sorted_of_map_withoutPrefix out sorted hmap hsorted
    refine ⟨hs, canonical_table_prefix_free out hcanon hs ?_ ?_⟩
    · intro e he
      obtain ⟨e', he', -, hl, -, -⟩ := mem_of_map_withoutPrefix out sorted hmap e he
      rw [← hl]
      exact hlen e' (hmem e' he')
    · rw [scaledKraft_eq_of_map out sorted hmap]
      exact hk
  cases sorted with
  | nil => exact ⟨[], rfl, finish [] rfl trivial⟩
  | cons first rest =>
    obtain ⟨hle, hsorted'⟩ := List.sorted_cons.mp hsorted
    rw [scaledKraft_cons] at hk
    obtain ⟨tail, htail, hmap, hcanon⟩ := assignPrefixes_spec rest first.prefixBitLength 1 1
      (2 ^ (16 - first.prefixBitLength)) hsorted'
      (fun e he => ⟨hle e he, hlen e (hmem e (List.mem_cons_of_mem _ he))⟩)
      (fun _ => Nat.one_mul _) (fun _ => by rw [Nat.one_mul]) hk
    have hmap' : ({ first with prefixCode := 0 } :: tail).map
        PDFJBIG2HuffmanTableEntry.withoutPrefix =
        (first :: rest).map PDFJBIG2HuffmanTableEntry.withoutPrefix := by
      simp only [List.map_cons, hmap]
      rfl
    have hcanon' : CanonicalFrom 0 ({ first with prefixCode := 0 } :: tail) := by
      refine ⟨by simp, ?_⟩
      simpa using hcanon
    refine ⟨{ first with prefixCode := 0 } :: tail, ?_, finish _ hmap' hcanon'⟩
    simp only [htail, bind, Except.bind, pure, Except.pure]

theorem buildPrefixes_prefix_free_of_kraft_witness :
    ∃ out, PDFJBIG2HuffmanCodeTable.buildPrefixes
        [standardEntry 0 2, standardEntry 1 1, standardEntry 2 0, standardEntry 3 2] =
          .ok out ∧
      List.Sorted (fun l r => l.prefixBitLength ≤ r.prefixBitLength) out ∧
      (∀ e ∈ out, e.prefixCode < 2 ^ e.prefixBitLength) ∧
      out.Pairwise (fun a b => ¬ a.codeword <+: b.codeword ∧ ¬ b.codeword <+: a.codeword) :=
  buildPrefixes_prefix_free_of_kraft
    [standardEntry 0 2, standardEntry 1 1, standardEntry 2 0, standardEntry 3 2]
    (by decide) (by norm_num [kraftSum, standardEntry])
/-! ## Symbol dictionary: flags, table selection and decoding loops -/

theorem symbolDictionaryFlagsParameters_fields
    (initial : PDFJBIG2SymbolDictionaryDecodingParameters) (flags : Nat) :
    symbolDictionaryFlagsParameters initial flags =
      { SDHUFF := flags &&& 0x0001 != 0
        SDREFAGG := flags &&& 0x0002 != 0
        SDHUFFDH := (flags >>> 4) &&& 0x0003
        SDHUFFDW := initial.SDHUFFDW
        SDHUFFBMSIZE := (flags >>> 6) &&& 0x0001
        SDHUFFAGGINST := (flags >>> 7) &&& 0x0001
        isArithmeticCodingStateUsed := (flags >>> 8) &&& 0x0001 != 0
        isArithmeticCodingStateRetained := (flags >>> 9) &&& 0x0001 != 0
        SDTEMPLATE := (flags >>> 10) &&& 0x0003
        SDRTEMPLATE := (flags >>> 12) &&& 0x0001 } := rfl

theorem checkSymbolDictionaryFlags_arithmetic
    (initial : PDFJBIG2SymbolDictionaryDecodingParameters) (flags : Nat)
    (hhuff : flags &&& 0x0001 = 0) :
    checkSymbolDictionaryFlags flags (symbolDictionaryFlagsParameters initial flags) = .ok () ↔
      flags >>> 13 = 0 ∧ (flags >>> 4) &&& 0x0003 = 0 ∧ (flags >>> 6) &&& 0x0001 = 0 ∧
        (flags >>> 7) &&& 0x0001 = 0 := by
  rw [symbolDictionaryFlagsParameters_fields]
  unfold checkSymbolDictionaryFlags
  have hS : (flags &&& 0x0001 != 0) = false := by rw [hhuff]; rfl
  simp only [hS]
  generalize flags >>> 13 = a
  generalize (flags >>> 4) &&& 0x0003 = b
  generalize (flags >>> 6) &&& 0x0001 = c
  generalize (flags >>> 7) &&& 0x0001 = d
  generalize (flags &&& 0x0002 != 0) = g
  by_cases h13 : a = 0
  · by_cases h7 : d = 0
    · by_cases h4 : b = 0
      · by_cases h6 : c = 0
        · simp [h13, h7, h4, h6, pure, Except.pure]
        · simp [h13, h7, h4, h6, throw, throwThe, MonadExceptOf.throw]
      · simp [h13, h7, h4, throw, throwThe, MonadExceptOf.throw]
    · simp [h13, h7, throw, throwThe, MonadExceptOf.throw]
  · simp [h13, throw, throwThe, MonadExceptOf.throw]

/-- C37: in `processSymbolDictionary` the member SDHUFFDH ends as bits 4-5 of the flags word
(the assignment of bits 2-3 is overwritten) and SDHUFFDW keeps the value it had before; in
arithmetic mode (bit 0 clear) the sanity checks pass exactly when bits 13 and above and bits
4 to 7 are clear, whatever bits 2-3 are.  So the flags word 0x0004 passes the checks, the
words 0x0005 (bits 2-3 = 1) and 0x0009 (bits 2-3 = 2) select table D for the height and
table B for the width, the word 0x0011 (bits 4-5 = 1) selects table E for the height and
table B for the width, and the word 0x0021 (bits 4-5 = 2) is refused. -/
theorem symbolDictionary_selectors_from_flags :
    (∀ (initial : PDFJBIG2SymbolDictionaryDecodingParameters) (flags : Nat),
      (symbolDictionaryFlagsParameters initial flags).SDHUFFDH = (flags >>> 4) &&& 0x0003 ∧
      (symbolDictionaryFlagsParameters initial flags).SDHUFFDW = initial.SDHUFFDW) ∧
    (∀ (initial : PDFJBIG2SymbolDictionaryDecodingParameters) (flags : Nat),
      flags &&& 0x0001 = 0 →
      (checkSymbolDictionaryFlags flags (symbolDictionaryFlagsParameters initial flags) =
          .ok () ↔
        flags >>> 13 = 0 ∧ (flags >>> 4) &&& 0x0003 = 0 ∧ (flags >>> 6) &&& 0x0001 = 0 ∧
          (flags >>> 7) &&& 0x0001 = 0)) ∧
    checkSymbolDictionaryFlags 0x0004
      (symbolDictionaryFlagsParameters defaultSymbolDictionaryParameters 0x0004) = .ok () ∧
    (∀ flags ∈ [0x0005, 0x0009],
      checkSymbolDictionaryFlags flags
        (symbolDictionaryFlagsParameters defaultSymbolDictionaryParameters flags) = .ok () ∧
      selectSymbolDictionaryTables
        (symbolDictionaryFlagsParameters defaultSymbolDictionaryParameters flags)
        { bitmaps := [], codeTables := [], symbolDictionaries := [],
          currentUserCodeTableIndex := 0 } =
      .ok { SDHUFFDH_Decoder := PDFJBIG2StandardHuffmanTable_D,
            SDHUFFDW_Decoder := PDFJBIG2StandardHuffmanTable_B,
            SDHUFFBMSIZE_Decoder := PDFJBIG2StandardHuffmanTable_A,
            SDHUFFAGGINST_Decoder := PDFJBIG2StandardHuffmanTable_A,
            EXRUNLENGTH_Decoder := PDFJBIG2StandardHuffmanTable_A }) ∧
    selectSymbolDictionaryTables
        (symbolDictionaryFlagsParameters defaultSymbolDictionaryParameters 0x0011)
        { bitmaps := [], codeTables := [], symbolDictionaries := [],
          currentUserCodeTableIndex := 0 } =
      .ok { SDHUFFDH_Decoder := PDFJBIG2StandardHuffmanTable_E,
            SDHUFFDW_Decoder := PDFJBIG2StandardHuffmanTable_B,
            SDHUFFBMSIZE_Decoder := PDFJBIG2StandardHuffmanTable_A,
            SDHUFFAGGINST_Decoder := PDFJBIG2StandardHuffmanTable_A,
            EXRUNLENGTH_Decoder := PDFJBIG2StandardHuffmanTable_A } ∧
    selectSymbolDictionaryTables
        (symbolDictionaryFlagsParameters defaultSymbolDictionaryParameters 0x0021)
        { bitmaps := [], codeTables := [], symbolDictionaries := [],
          currentUserCodeTableIndex := 0 } =
      .error PDFException.invalidUserHuffmanCodeTable := by
  refine ⟨fun initial flags => ⟨rfl, rfl⟩, checkSymbolDictionaryFlags_arithmetic, by decide,
    by decide, by decide, by decide⟩
theorem read_error (n : Nat) (r : PDFBitReader) (e : PDFException)
    (h : r.read n = .error e) : e = PDFException.endOfStream := by
  unfold PDFBitReader.read at h
  split_ifs at h
  injection h with h
  exact h.symm

theorem alignPrefix_error : ∀ (count codeValue : Nat) (reader : PDFBitReader) (e : PDFException),
    alignPrefix count codeValue reader = .error e → e = PDFException.endOfStream := by
  intro count
  induction count with
  | zero =>
    intro codeValue reader e h
    simp only [alignPrefix, pure, Except.pure, reduceCtorEq] at h
  | succ n ih =>
    intro codeValue reader e h
    unfold alignPrefix at h
    cases h1 : reader.read 1 with
    | error e1 =>
      have he1 := read_error 1 reader e1 h1
      simp only [h1, bind, Except.bind, Except.error.injEq] at h
      rw [← h]
      exact he1
    | ok v =>
      obtain ⟨bit, r1⟩ := v
      simp only [h1, bind, Except.bind] at h
      exact ih _ _ e h

theorem readSignedIntegerLoop_error : ∀ (entries : List PDFJBIG2HuffmanTableEntry)
    (prefixBitCount codeValue : Nat) (reader : PDFBitReader) (e : PDFException),
    readSignedIntegerLoop entries prefixBitCount codeValue reader = .error e →
    e = PDFException.endOfStream := by
  intro entries
  induction entries with
  | nil =>
    intro prefixBitCount codeValue reader e h
    simp only [readSignedIntegerLoop, pure, Except.pure, reduceCtorEq] at h
  | cons it rest ih =>
    intro prefixBitCount codeValue reader e h
    unfold readSignedIntegerLoop at h
    cases h1 : alignPrefix (it.prefixBitLength - prefixBitCount) codeValue reader with
    | error e1 =>
      simp only [h1, bind, Except.bind, Except.error.injEq] at h
      rw [← h]
      exact alignPrefix_error _ _ _ _ h1
    | ok v =>
      obtain ⟨cv, r1⟩ := v
      simp only [h1, bind, Except.bind] at h
      split_ifs at h with hm hoob hlow hzero
      · simp only [pure, Except.pure, reduceCtorEq] at h
      · cases h2 : r1.read 32 with
        | error e2 =>
          simp only [h2, Except.error.injEq] at h
          rw [← h]
          exact read_error _ _ _ h2
        | ok w =>
          simp only [h2, pure, Except.pure, reduceCtorEq] at h
      · simp only [pure, Except.pure, reduceCtorEq] at h
      · cases h2 : r1.read it.rangeBitLength with
        | error e2 =>
          simp only [h2, Except.error.injEq] at h
          rw [← h]
          exact read_error _ _ _ h2
        | ok w =>
          simp only [h2, pure, Except.pure, reduceCtorEq] at h
      · exact ih _ _ _ e h

theorem readSymbolInteger_error ( SDHUFF : Bool) (table : List PDFJBIG2HuffmanTableEntry)
    (source : SymbolDecodingSource) (e : PDFException)
    (h : readSymbolInteger SDHUFF table source = .error e) :
    SDHUFF = true ∧ e = PDFException.endOfStream := by
  unfold readSymbolInteger at h
  cases SDHUFF with
  | false => simp only [Bool.false_eq_true, if_false, reduceCtorEq] at h
  | true =>
    simp only [if_true] at h
    cases h1 : PDFJBIG2HuffmanDecoder.readSignedInteger
        { m_reader := source.m_reader, m_entries := table } with
    | error e1 =>
      simp only [h1, Except.error.injEq] at h
      rw [← h]
      exact ⟨rfl, readSignedIntegerLoop_error _ _ _ _ _ h1⟩
    | ok v =>
      simp only [h1, reduceCtorEq] at h

theorem heightClassLoop_done (parameters : PDFJBIG2SymbolDictionaryDecodingParameters)
    (decoders : SymbolDictionaryDecoders) ( SDAT : List (Int × Int)) (SDNUMNEWSYMS : Nat)
    (fuel SYMWIDTH TOTWIDTH : Nat) (st : SymbolLoopState)
    (h : SDNUMNEWSYMS ≤ st.NSYMSDECODED) :
    heightClassLoop parameters decoders SDAT SDNUMNEWSYMS fuel SYMWIDTH TOTWIDTH st =
      some (.ok st) := by
  unfold heightClassLoop
  rw [if_neg (by omega)]

theorem symbolDecodingLoop_done (parameters : PDFJBIG2SymbolDictionaryDecodingParameters)
    (decoders : SymbolDictionaryDecoders) ( SDAT : List (Int × Int)) (SDNUMNEWSYMS : Nat)
    (fuel : Nat) (st : SymbolLoopState) (h : SDNUMNEWSYMS ≤ st.NSYMSDECODED) :
    symbolDecodingLoop parameters decoders SDAT SDNUMNEWSYMS fuel st = some (.ok st) := by
  unfold symbolDecodingLoop
  rw [if_neg (by omega)]

/-- An exception of the inner loop is one of the width decoder or of `readBitmap`. -/
theorem heightClassLoop_error (parameters : PDFJBIG2SymbolDictionaryDecodingParameters)
    (decoders : SymbolDictionaryDecoders) ( SDAT : List (Int × Int)) (SDNUMNEWSYMS : Nat)
    (e : PDFException) :
    ∀ (fuel SYMWIDTH TOTWIDTH : Nat) (st : SymbolLoopState),
    heightClassLoop parameters decoders SDAT SDNUMNEWSYMS fuel SYMWIDTH TOTWIDTH st =
      some (.error e) →
    (∃ source, readSymbolInteger parameters.SDHUFF decoders.SDHUFFDW_Decoder source =
      .error e) ∨
    (parameters.SDHUFF = false ∧ parameters.SDREFAGG = false ∧
      ∃ bitmapParameters decoder, readBitmap bitmapParameters decoder = .error e) := by
  intro fuel
  induction fuel with
  | zero =>
    intro SYMWIDTH TOTWIDTH st h
    unfold heightClassLoop at h
    split_ifs at h
    cases h
  | succ fuel ih =>
    intro SYMWIDTH TOTWIDTH st h
    unfold heightClassLoop at h
    by_cases hlt : st.NSYMSDECODED < SDNUMNEWSYMS
    · rw [if_pos hlt] at h
      dsimp only at h
      cases h1 : readSymbolInteger parameters.SDHUFF decoders.SDHUFFDW_Decoder st.source with
      | error e1 =>
        rw [h1] at h
        simp only [Option.some.injEq, Except.error.injEq] at h
        rw [← h]
        exact Or.inl ⟨_, h1⟩
      | ok v =>
        obtain ⟨DW, source⟩ := v
        rw [h1] at h
        cases DW with
        | none => simp only [Option.some.injEq, reduceCtorEq] at h
        | some dw =>
          dsimp only at h
          rw [if_neg (by omega)] at h
          cases hH : parameters.SDHUFF <;> cases hR : parameters.SDREFAGG <;>
            simp only [hH, hR, Bool.not_true, Bool.not_false, Bool.or_true, Bool.or_false,
              Bool.true_or, Bool.false_or, if_true, Bool.false_eq_true, if_false] at h
          · cases h2 : readBitmap
                { MMR := false, TPGDON := false,
                  GBW := toInt32 (toUInt32 ((SYMWIDTH : Int) + dw)),
                  GBH := toInt32 st.HCHEIGHT, GBTEMPLATE := parameters.SDTEMPLATE,
                  ATXY := SDAT, SKIP := none } source.decoder with
            | error e2 =>
              rw [h2] at h
              simp only [Option.some.injEq, Except.error.injEq] at h
              rw [← h]
              exact Or.inr ⟨rfl, rfl, _, _, h2⟩
            | ok w =>
              obtain ⟨bitmap, decoder⟩ := w
              rw [h2] at h
              rcases ih _ _ _ h with h3 | h3
              · rw [hH] at h3
                exact Or.inl h3
              · rw [hH, hR] at h3
                exact Or.inr h3
          · rcases ih _ _ _ h with h3 | h3
            · rw [hH] at h3
              exact Or.inl h3
            · rw [hH, hR] at h3
              exact Or.inr h3
          · rcases ih _ _ _ h with h3 | h3
            · rw [hH] at h3
              exact Or.inl h3
            · rw [hH, hR] at h3
              exact Or.inr h3
          · rcases ih _ _ _ h with h3 | h3
            · rw [hH] at h3
              exact Or.inl h3
            · rw [hH, hR] at h3
              exact Or.inr h3
    · rw [if_neg hlt] at h
      simp only [Option.some.injEq, reduceCtorEq] at h

theorem heightClassLoop_huffman_error (parameters : PDFJBIG2SymbolDictionaryDecodingParameters)
    (decoders : SymbolDictionaryDecoders) ( SDAT : List (Int × Int)) (SDNUMNEWSYMS : Nat)
    (e : PDFException) (fuel SYMWIDTH TOTWIDTH : Nat) (st : SymbolLoopState)
    (hhuff : parameters.SDHUFF = true)
    (h : heightClassLoop parameters decoders SDAT SDNUMNEWSYMS fuel SYMWIDTH TOTWIDTH st =
      some (.error e)) : e = PDFException.endOfStream := by
  rcases heightClassLoop_error parameters decoders SDAT SDNUMNEWSYMS e fuel SYMWIDTH TOTWIDTH
    st h with ⟨source, hs⟩ | ⟨hf, -, -⟩
  · exact (readSymbolInteger_error _ _ _ _ hs).2
  · rw [hhuff] at hf
    exact absurd hf (by decide)

set_option maxRecDepth 100000 in
/-- C21: in the decoding loops of `processSymbolDictionary`, once NSYMSDECODED has reached
SDNUMNEWSYMS both loops end without decoding a further width delta, whatever the next decode
would give; an exception of the inner loop is one of the width decoder or of `readBitmap`,
and in Huffman mode it is the end of the data, never "height class has more symbols".  On
`oneSymbolDictionaryData`, which declares one new symbol, the loops end at bit 83 with the
symbol of width 1 decoded, the next width delta decoded there is the value 0 and not the
terminator, and `processSymbolDictionary` stores the dictionary. -/
theorem heightClassLoop_excess_symbols_not_reported :
    (∀ (parameters : PDFJBIG2SymbolDictionaryDecodingParameters)
      (decoders : SymbolDictionaryDecoders) ( SDAT : List (Int × Int))
      (SDNUMNEWSYMS fuel SYMWIDTH TOTWIDTH : Nat) (st : SymbolLoopState),
      SDNUMNEWSYMS ≤ st.NSYMSDECODED →
      heightClassLoop parameters decoders SDAT SDNUMNEWSYMS fuel SYMWIDTH TOTWIDTH st =
        some (.ok st) ∧
      symbolDecodingLoop parameters decoders SDAT SDNUMNEWSYMS fuel st = some (.ok st)) ∧
    (∀ (parameters : PDFJBIG2SymbolDictionaryDecodingParameters)
      (decoders : SymbolDictionaryDecoders) ( SDAT : List (Int × Int))
      (SDNUMNEWSYMS fuel SYMWIDTH TOTWIDTH : Nat) (st : SymbolLoopState) (e : PDFException),
      heightClassLoop parameters decoders SDAT SDNUMNEWSYMS fuel SYMWIDTH TOTWIDTH st =
        some (.error e) →
      ((∃ source, readSymbolInteger parameters.SDHUFF decoders.SDHUFFDW_Decoder source =
          .error e) ∨
        (parameters.SDHUFF = false ∧ parameters.SDREFAGG = false ∧
          ∃ bitmapParameters decoder, readBitmap bitmapParameters decoder = .error e)) ∧
      (parameters.SDHUFF = true → e = PDFException.endOfStream)) ∧
    (symbolDecodingLoop (symbolDictionaryFlagsParameters defaultSymbolDictionaryParameters 1)
        { SDHUFFDH_Decoder := PDFJBIG2StandardHuffmanTable_D,
          SDHUFFDW_Decoder := PDFJBIG2StandardHuffmanTable_B,
          SDHUFFBMSIZE_Decoder := PDFJBIG2StandardHuffmanTable_A,
          SDHUFFAGGINST_Decoder := PDFJBIG2StandardHuffmanTable_A,
          EXRUNLENGTH_Decoder := PDFJBIG2StandardHuffmanTable_A } [] 1 10
        { HCHEIGHT := 0, NSYMSDECODED := 0, SDNEWSYMS := [⟨0, 0, []⟩], SDNEWSYMWIDTHS := [0],
          source := { m_reader := ⟨bytesToBits oneSymbolDictionaryData, 80⟩,
                      decoder := freshDecoder (fun _ => false) } }).map
      (fun result => result.map (fun st =>
        (st.HCHEIGHT, st.NSYMSDECODED, st.SDNEWSYMWIDTHS, st.source.m_reader.position))) =
      some (.ok (1, 1, [1], 83)) ∧
    PDFJBIG2HuffmanDecoder.readSignedInteger
        { m_reader := ⟨bytesToBits oneSymbolDictionaryData, 83⟩,
          m_entries := PDFJBIG2StandardHuffmanTable_B } =
      .ok (some 0, ⟨bytesToBits oneSymbolDictionaryData, 84⟩) ∧
    processSymbolDictionary 10 defaultSymbolDictionaryParameters (symbolDictionaryHeader 12)
        (freshDecoder (fun _ => false)) (PDFBitReader.ofBytes oneSymbolDictionaryData) [] =
      some (.ok (⟨bytesToBits oneSymbolDictionaryData, 96⟩,
        [(5, PDFJBIG2Segment.symbolDictionary [⟨0, 0, []⟩])])) := by
  refine ⟨fun parameters decoders SDAT SDNUMNEWSYMS fuel SYMWIDTH TOTWIDTH st h =>
      ⟨heightClassLoop_done parameters decoders SDAT SDNUMNEWSYMS fuel SYMWIDTH TOTWIDTH st h,
        symbolDecodingLoop_done parameters decoders SDAT SDNUMNEWSYMS fuel st h⟩,
    fun parameters decoders SDAT SDNUMNEWSYMS fuel SYMWIDTH TOTWIDTH st e h =>
      ⟨heightClassLoop_error parameters decoders SDAT SDNUMNEWSYMS e fuel SYMWIDTH TOTWIDTH st h,
        fun hhuff => heightClassLoop_huffman_error parameters decoders SDAT SDNUMNEWSYMS e fuel
          SYMWIDTH TOTWIDTH st hhuff h⟩,
    by decide, by decide, by decide⟩
/-- With SDREFAGG set, the inner loop leaves the new symbols and their widths as they are. -/
theorem heightClassLoop_refinement (parameters : PDFJBIG2SymbolDictionaryDecodingParameters)
    (decoders : SymbolDictionaryDecoders) ( SDAT : List (Int × Int)) (SDNUMNEWSYMS : Nat)
    (href : parameters.SDREFAGG = true) :
    ∀ (fuel SYMWIDTH TOTWIDTH : Nat) (st st1 : SymbolLoopState),
    heightClassLoop parameters decoders SDAT SDNUMNEWSYMS fuel SYMWIDTH TOTWIDTH st =
      some (.ok st1) →
    st1.SDNEWSYMS = st.SDNEWSYMS ∧ st1.SDNEWSYMWIDTHS = st.SDNEWSYMWIDTHS ∧
      st1.HCHEIGHT = st.HCHEIGHT := by
  intro fuel
  induction fuel with
  | zero =>
    intro SYMWIDTH TOTWIDTH st st1 h
    unfold heightClassLoop at h
    split_ifs at h
    simp only [Option.some.injEq, Except.ok.injEq] at h
    rw [← h]
    exact ⟨rfl, rfl, rfl⟩
  | succ fuel ih =>
    intro SYMWIDTH TOTWIDTH st st1 h
    unfold heightClassLoop at h
    by_cases hlt : st.NSYMSDECODED < SDNUMNEWSYMS
    · rw [if_pos hlt] at h
      dsimp only at h
      cases h1 : readSymbolInteger parameters.SDHUFF decoders.SDHUFFDW_Decoder st.source with
      | error e1 =>
        rw [h1] at h
        simp only [Option.some.injEq, reduceCtorEq] at h
      | ok v =>
        obtain ⟨DW, source⟩ := v
        rw [h1] at h
        cases DW with
        | none =>
          simp only [Option.some.injEq, Except.ok.injEq] at h
          rw [← h]
          exact ⟨rfl, rfl, rfl⟩
        | some dw =>
          dsimp only at h
          rw [if_neg (by omega)] at h
          simp only [href, Bool.or_true, Bool.not_true, if_true, Bool.false_eq_true,
            if_false] at h
          have hrec := ih _ _ _ _ h
          exact hrec
    · rw [if_neg hlt] at h
      simp only [Option.some.injEq, Except.ok.injEq] at h
      rw [← h]
      exact ⟨rfl, rfl, rfl⟩

theorem symbolDecodingLoop_refinement (parameters : PDFJBIG2SymbolDictionaryDecodingParameters)
    (decoders : SymbolDictionaryDecoders) ( SDAT : List (Int × Int)) (SDNUMNEWSYMS : Nat)
    (href : parameters.SDREFAGG = true) :
    ∀ (fuel : Nat) (st st1 : SymbolLoopState),
    symbolDecodingLoop parameters decoders SDAT SDNUMNEWSYMS fuel st = some (.ok st1) →
    st1.SDNEWSYMS = st.SDNEWSYMS ∧ st1.SDNEWSYMWIDTHS = st.SDNEWSYMWIDTHS := by
  intro fuel
  induction fuel with
  | zero =>
    intro st st1 h
    unfold symbolDecodingLoop at h
    split_ifs at h
    simp only [Option.some.injEq, Except.ok.injEq] at h
    rw [← h]
    exact ⟨rfl, rfl⟩
  | succ fuel ih =>
    intro st st1 h
    unfold symbolDecodingLoop at h
    by_cases hlt : st.NSYMSDECODED < SDNUMNEWSYMS
    · rw [if_pos hlt] at h
      dsimp only at h
      cases h1 : readSymbolInteger parameters.SDHUFF decoders.SDHUFFDH_Decoder st.source with
      | error e1 =>
        rw [h1] at h
        simp only [Option.some.injEq, reduceCtorEq] at h
      | ok v =>
        obtain ⟨value, source⟩ := v
        rw [h1] at h
        dsimp only at h
        cases h2 : checkInteger value with
        | error e2 =>
          rw [h2] at h
          simp only [Option.some.injEq, reduceCtorEq] at h
        | ok HCDH =>
          rw [h2] at h
          dsimp only at h
          cases h3 : heightClassLoop parameters decoders SDAT SDNUMNEWSYMS (fuel + 1) 0 0
              { st with HCHEIGHT := toUInt32 ((st.HCHEIGHT : Int) + HCDH),
                        source := source } with
          | none =>
            rw [h3] at h
            simp only [reduceCtorEq] at h
          | some x =>
            cases x with
            | error e3 =>
              rw [h3] at h
              simp only [Option.some.injEq, reduceCtorEq] at h
            | ok st2 =>
              rw [h3] at h
              dsimp only at h
              obtain ⟨ha, hb, -⟩ := heightClassLoop_refinement parameters decoders SDAT
                SDNUMNEWSYMS href _ _ _ _ _ h3
              obtain ⟨hc, hd⟩ := ih _ _ h
              exact ⟨hc.trans ha, hd.trans hb⟩
    · rw [if_neg hlt] at h
      simp only [Option.some.injEq, Except.ok.injEq] at h
      rw [← h]
      exact ⟨rfl, rfl⟩

theorem symbolDecodingLoop_refinement_error
    (parameters : PDFJBIG2SymbolDictionaryDecodingParameters)
    (decoders : SymbolDictionaryDecoders) ( SDAT : List (Int × Int)) (SDNUMNEWSYMS : Nat)
    (href : parameters.SDREFAGG = true) (e : PDFException) :
    ∀ (fuel : Nat) (st : SymbolLoopState),
    symbolDecodingLoop parameters decoders SDAT SDNUMNEWSYMS fuel st = some (.error e) →
    e = PDFException.endOfStream ∨ e = PDFException.cantReadInteger := by
  intro fuel
  induction fuel with
  | zero =>
    intro st h
    unfold symbolDecodingLoop at h
    split_ifs at h
    cases h
  | succ fuel ih =>
    intro st h
    unfold symbolDecodingLoop at h
    by_cases hlt : st.NSYMSDECODED < SDNUMNEWSYMS
    · rw [if_pos hlt] at h
      dsimp only at h
      cases h1 : readSymbolInteger parameters.SDHUFF decoders.SDHUFFDH_Decoder st.source with
      | error e1 =>
        rw [h1] at h
        simp only [Option.some.injEq, Except.error.injEq] at h
        rw [← h]
        exact Or.inl (readSymbolInteger_error _ _ _ _ h1).2
      | ok v =>
        obtain ⟨value, source⟩ := v
        rw [h1] at h
        dsimp only at h
        cases h2 : checkInteger value with
        | error e2 =>
          rw [h2] at h
          simp only [Option.some.injEq, Except.error.injEq] at h
          rw [← h]
          cases value with
          | none =>
            simp only [checkInteger, throw, throwThe, MonadExceptOf.throw,
              Except.error.injEq] at h2
            exact Or.inr h2.symm
          | some v1 => simp only [checkInteger, pure, Except.pure, reduceCtorEq] at h2
        | ok HCDH =>
          rw [h2] at h
          dsimp only at h
          cases h3 : heightClassLoop parameters decoders SDAT SDNUMNEWSYMS (fuel + 1) 0 0
              { st with HCHEIGHT := toUInt32 ((st.HCHEIGHT : Int) + HCDH),
                        source := source } with
          | none =>
            rw [h3] at h
            simp only [reduceCtorEq] at h
          | some x =>
            cases x with
            | error e3 =>
              rw [h3] at h
              simp only [Option.some.injEq, Except.error.injEq] at h
              rw [← h]
              rcases heightClassLoop_error parameters decoders SDAT SDNUMNEWSYMS e3 _ _ _ _ h3
                with ⟨s, hs⟩ | ⟨-, hf, -⟩
              · exact Or.inl (readSymbolInteger_error _ _ _ _ hs).2
              · rw [href] at hf
                exact absurd hf (by decide)
            | ok st2 =>
              rw [h3] at h
              dsimp only at h
              exact ih _ h
    · rw [if_neg hlt] at h
      simp only [Option.some.injEq, reduceCtorEq] at h

set_option maxRecDepth 100000 in
theorem refinementSymbolDictionaryData_setup :
    readSymbolDictionarySetup defaultSymbolDictionaryParameters (symbolDictionaryHeader 16) []
        (PDFBitReader.ofBytes refinementSymbolDictionaryData) =
      .ok
        { parameters := symbolDictionaryFlagsParameters defaultSymbolDictionaryParameters 0x0003
          SDAT := [(0, 0), (0, 0), (0, 0), (0, 0)]
          SDRAT := [(-1, -1), (-1, -1), (0, 0), (0, 0)]
          SDNUMEXSYMS := 1
          SDNUMNEWSYMS := 1
          SDINSYMS := []
          decoders :=
            { SDHUFFDH_Decoder := PDFJBIG2StandardHuffmanTable_D
              SDHUFFDW_Decoder := PDFJBIG2StandardHuffmanTable_B
              SDHUFFBMSIZE_Decoder := PDFJBIG2StandardHuffmanTable_A
              SDHUFFAGGINST_Decoder := PDFJBIG2StandardHuffmanTable_A
              EXRUNLENGTH_Decoder := PDFJBIG2StandardHuffmanTable_A }
          m_reader := ⟨bytesToBits refinementSymbolDictionaryData, 112⟩ } := by
  decide

set_option maxRecDepth 100000 in
theorem refinementSymbolDictionaryData_stored :
    processSymbolDictionary 10 defaultSymbolDictionaryParameters (symbolDictionaryHeader 16)
        (freshDecoder (fun _ => false))
        (PDFBitReader.ofBytes refinementSymbolDictionaryData) [] =
      some (.ok (⟨bytesToBits refinementSymbolDictionaryData, 128⟩,
        [(5, PDFJBIG2Segment.symbolDictionary [⟨0, 0, []⟩])])) := by
  unfold processSymbolDictionary
  rw [refinementSymbolDictionaryData_setup]
  decide

/-- C22: with refinement/aggregate coding selected (SDREFAGG set) the decoding loops of
`processSymbolDictionary` decode the height and width deltas only: when they end, the new
symbols are still the bitmaps they were before the loops, and the only exceptions are the
end of the data and "can't read integer", none for the coding itself.  On
`refinementSymbolDictionaryData`, which sets SDREFAGG and declares one new symbol,
`processSymbolDictionary` returns and stores under the segment number 5 a symbol dictionary
whose one symbol is the default-constructed bitmap. -/
theorem processSymbolDictionary_accepts_refinement_coding :
    (∀ (parameters : PDFJBIG2SymbolDictionaryDecodingParameters)
      (decoders : SymbolDictionaryDecoders) ( SDAT : List (Int × Int))
      (SDNUMNEWSYMS fuel : Nat) (st st1 : SymbolLoopState),
      parameters.SDREFAGG = true →
      symbolDecodingLoop parameters decoders SDAT SDNUMNEWSYMS fuel st = some (.ok st1) →
      st1.SDNEWSYMS = st.SDNEWSYMS ∧ st1.SDNEWSYMWIDTHS = st.SDNEWSYMWIDTHS) ∧
    (∀ (parameters : PDFJBIG2SymbolDictionaryDecodingParameters)
      (decoders : SymbolDictionaryDecoders) ( SDAT : List (Int × Int))
      (SDNUMNEWSYMS fuel : Nat) (st : SymbolLoopState) (e : PDFException),
      parameters.SDREFAGG = true →
      symbolDecodingLoop parameters decoders SDAT SDNUMNEWSYMS fuel st = some (.error e) →
      e = PDFException.endOfStream ∨ e = PDFException.cantReadInteger) ∧
    (symbolDictionaryFlagsParameters defaultSymbolDictionaryParameters 0x0003).SDREFAGG = true ∧
    processSymbolDictionary 10 defaultSymbolDictionaryParameters (symbolDictionaryHeader 16)
        (freshDecoder (fun _ => false))
        (PDFBitReader.ofBytes refinementSymbolDictionaryData) [] =
      some (.ok (⟨bytesToBits refinementSymbolDictionaryData, 128⟩,
        [(5, PDFJBIG2Segment.symbolDictionary [⟨0, 0, []⟩])])) := by
  refine ⟨fun parameters decoders SDAT SDNUMNEWSYMS fuel st st1 href h =>
      symbolDecodingLoop_refinement parameters decoders SDAT SDNUMNEWSYMS href fuel st st1 h,
    fun parameters decoders SDAT SDNUMNEWSYMS fuel st e href h =>
      symbolDecodingLoop_refinement_error parameters decoders SDAT SDNUMNEWSYMS href e fuel st h,
    by decide, refinementSymbolDictionaryData_stored⟩
/-! ## Text region: symbol ID code lengths -/

theorem repeatCodeLength_keeps_writes (length : Nat) : ∀ (range : Nat) (t : SymCodeTable)
    (i x : Nat), x ∈ t.writes → x ∈ (repeatCodeLength length range t i).1.writes := by
  intro range
  induction range with
  | zero =>
    intro t i x hx
    exact hx
  | succ range ih =>
    intro t i x hx
    unfold repeatCodeLength
    apply ih
    simp only [SymCodeTable.setPrefixBitLength, SymCodeTable.setValue, List.mem_append,
      List.mem_singleton]
    exact Or.inl (Or.inl hx)

theorem repeatCodeLength_writes (length : Nat) : ∀ (range : Nat) (t : SymCodeTable)
    (i j : Nat), i + range ≤ 2 ^ 32 → j < range →
    i + j ∈ (repeatCodeLength length range t i).1.writes := by
  intro range
  induction range with
  | zero =>
    intro t i j _ hj
    omega
  | succ range ih =>
    intro t i j hle hj
    unfold repeatCodeLength
    cases j with
    | zero =>
      apply repeatCodeLength_keeps_writes
      simp only [SymCodeTable.setPrefixBitLength, SymCodeTable.setValue, List.mem_append,
        List.mem_singleton]
      exact Or.inr rfl
    | succ j =>
      by_cases hr : range = 0
      · omega
      · have hmod : (i + 1) % 2 ^ 32 = i + 1 := Nat.mod_eq_of_lt (by omega)
        rw [hmod]
        have := ih ((t.setValue i).setPrefixBitLength i length) (i + 1) j (by omega) (by omega)
        have e : i + 1 + j = i + (j + 1) := by omega
        rw [e] at this
        exact this

set_option maxRecDepth 100000 in
theorem runCodeStream_rangeLengthTable :
    readRangeLengthTable 35 0 (List.replicate 35 defaultHuffmanTableEntry)
        (PDFBitReader.ofBytes runCodeStream) =
      .ok ((List.range 35).map (fun i =>
        { value := (i : Int), prefixBitLength := if i = 33 then 1 else 0, rangeBitLength := 0,
          prefixCode := 0, type := HuffmanEntryType.Standard }),
        ⟨bytesToBits runCodeStream, 140⟩) := by
  decide

set_option maxRecDepth 100000 in
theorem runCodeStream_buildPrefixes :
    PDFJBIG2HuffmanCodeTable.buildPrefixes ((List.range 35).map (fun i =>
        { value := (i : Int), prefixBitLength := if i = 33 then 1 else 0, rangeBitLength := 0,
          prefixCode := 0, type := HuffmanEntryType.Standard })) =
      .ok [{ value := 33, prefixBitLength := 1, rangeBitLength := 0, prefixCode := 0,
             type := HuffmanEntryType.Standard }] := by
  decide

set_option maxRecDepth 100000 in
theorem runCodeStream_loop :
    symbolCodeLengthsLoop
      [{ value := 33, prefixBitLength := 1, rangeBitLength := 0, prefixCode := 0,
         type := HuffmanEntryType.Standard }] 1 5 0
      { entries := List.replicate 1 defaultHuffmanTableEntry, writes := [] }
      ⟨bytesToBits runCodeStream, 140⟩ =
    some (.ok ({ entries := [defaultHuffmanTableEntry], writes := [0, 0, 0, 1, 1, 2, 2] },
      ⟨bytesToBits runCodeStream, 144⟩)) := by
  decide

theorem runCodeStream_code_lengths :
    readSymbolCodeLengths 5 1 (PDFBitReader.ofBytes runCodeStream) =
      some (.ok ({ entries := [defaultHuffmanTableEntry], writes := [0, 0, 0, 1, 1, 2, 2] },
        ⟨bytesToBits runCodeStream, 144⟩)) := by
  unfold readSymbolCodeLengths
  rw [runCodeStream_rangeLengthTable]
  dsimp only
  rw [runCodeStream_buildPrefixes]
  exact runCodeStream_loop

/-- C38: the repeat loop of the symbol ID code lengths in `processTextRegion` writes
`symCodeTable` at every index from `i` to `i + range - 1`, whatever SBNUMSYMS is.  On
`runCodeStream` with SBNUMSYMS = 1 the run code 33 with the range 3 is decoded at `i = 0`,
and the table of one element is written at the indices 0, 1 and 2. -/
theorem symCodeTable_repeat_run_writes_past_end :
    (∀ (length range : Nat) (t : SymCodeTable) (i j : Nat), i + range ≤ 2 ^ 32 → j < range →
      i + j ∈ (repeatCodeLength length range t i).1.writes) ∧
    readSymbolCodeLengths 5 1 (PDFBitReader.ofBytes runCodeStream) =
      some (.ok ({ entries := [defaultHuffmanTableEntry], writes := [0, 0, 0, 1, 1, 2, 2] },
        ⟨bytesToBits runCodeStream, 144⟩)) ∧
    (∃ index ∈ [0, 0, 0, 1, 1, 2, 2], ¬ index < 1) := by
  refine ⟨fun length range t i j hle hj => repeatCodeLength_writes length range t i j hle hj,
    runCodeStream_code_lengths, 2, by decide, by decide⟩
end Jbig2
